import Mathlib

/-!
# Capture sharpening (`src/iop/demosaicing/capture.c`)

A shallow embedding of the capture-sharpening core of the demosaic module.

Modelling conventions.
* A C `float` is an exact rational (`ℚ`): rounding, infinities and NaN are not
  modelled, and a division by zero yields `0` as everywhere in Lean.
* A C buffer is a total map from the element index to its value; reads outside
  the allocated range are not flagged.
* `expf`, `logf`, `sqrtf`, the colour lookups `FC` / `FCxtrans`, the mask blur
  `dt_gaussian_fast_blur` and the other helpers that live outside `capture.c`
  are fields of `Env`: every theorem holds for all of them unless it says
  otherwise.
* OpenMP pragmas are ignored: a loop runs its iterations in source order.
-/

namespace Capture

/-! ## Buffers, loops and the C macros used by the file -/

/-- A `float *` buffer: element index to value. -/
abbrev Buf := Nat → ℚ

/-- The assignment `b[i] = v`. -/
def store {α : Type} (b : Nat → α) (i : Nat) (v : α) : Nat → α :=
  fun j => if j = i then v else b j

/-- The loop `for(i = 0; i < n; i++) s = body i s`. -/
def forLoop {σ : Type} : Nat → (Nat → σ → σ) → σ → σ
  | 0, _, s => s
  | n + 1, body, s => body n (forLoop n body s)

/-- The macro `MAX(a, b)`, that is `((a) > (b) ? (a) : (b))`. -/
def MAX {α : Type} [LinearOrder α] (a b : α) : α := if a > b then a else b

/-- The macro `MIN(a, b)`, that is `((a) < (b) ? (a) : (b))`. -/
def MIN {α : Type} [LinearOrder α] (a b : α) : α := if a < b then a else b

/-- The glib macro `CLAMP(x, low, high)`:
`(((x) > (high)) ? (high) : (((x) < (low)) ? (low) : (x)))`. -/
def CLAMP {α : Type} [LinearOrder α] (x low high : α) : α :=
  if x > high then high else if x < low then low else x

/-- Modelled from the spec: the macro `CLIP` is declared outside `capture.c`;
the spec writes it `clamp(·, 0, 1)`. -/
def CLIP (x : ℚ) : ℚ := CLAMP x 0 1

/-- The helper `sqrf(x)`, the square of a float. -/
def sqrf (x : ℚ) : ℚ := x * x

/-- Modelled from the spec: `interpolatef(t, a, b)` is declared outside
`capture.c`; the glossary gives it as `t·a + (1-t)·b`. -/
def interpolatef (t a b : ℚ) : ℚ := t * a + (1 - t) * b

/-- Modelled from the spec: `feqf(a, b, eps)` is declared outside `capture.c`;
the spec reads its negation as "differs by more than `eps`". -/
def feqf (a b eps : ℚ) : Bool := decide (|a - b| ≤ eps)

/-- The C conversion `(int)x` of a float: truncation toward zero. -/
def c_int (x : ℚ) : ℤ := if 0 ≤ x then ⌊x⌋ else ⌈x⌉

/-- Modelled from the spec: `dt_iop_image_fill(buf, v, width, height, ch)` is
declared outside `capture.c`; it sets the `width·height·ch` floats of `buf`
to `v` ("all ones initially"). -/
def dt_iop_image_fill (buf : Buf) (v : ℚ) (width height ch : Nat) : Buf :=
  fun k => if k < width * height * ch then v else buf k

def CAPTURE_KERNEL_ALIGN : Nat := 32
def CAPTURE_GAUSS_FRACTION : ℚ := 1 / 100
def CAPTURE_YMIN : ℚ := 1 / 1000
def CAPTURE_CFACLIP : ℚ := 9 / 10
def UCHAR_MAX : ℤ := 255
def RAWEPS : ℚ := 5 / 1000

/-- The number of channels `for_each_channel` runs over
(`DT_PIXEL_SIMD_CHANNELS`, declared outside `capture.c`): the three colour
channels, or all four floats of a pixel. -/
inductive SimdChannels where
  | three
  | four
  deriving DecidableEq

def SimdChannels.count : SimdChannels → Nat
  | .three => 3
  | .four => 4

/-! ## The data the functions receive -/

/-- The fields of `dt_iop_roi_t` that are read. -/
structure Roi where
  width : Nat
  height : Nat
  x : ℤ
  y : ℤ

/-- The fields of `dt_image_t` that are read. -/
structure Image where
  p_width : ℤ
  p_height : ℤ

/-- What `capture.c` uses and does not define. -/
structure Env where
  expf : ℚ → ℚ
  logf : ℚ → ℚ
  sqrtf : ℚ → ℚ
  /-- The macro `FC(row, col, filters)`. -/
  FC : Nat → Nat → Nat → Nat
  /-- The helper `FCxtrans(row, col, roi, xtrans)`. -/
  FCxtrans : ℤ → ℤ → Roi → (Nat → Nat → Nat) → Nat
  NORM_MIN : ℚ
  _get_thumb_quality : ℤ → ℤ → Bool
  /-- The call `dt_gaussian_fast_blur(in, out, width, height, sigma, min, max, ch)`:
  the new contents of `out`. -/
  dt_gaussian_fast_blur : Buf → Buf → Nat → Nat → ℚ → ℚ → ℚ → Nat → Buf
  /-- The value of `dt_pipe_shutdown(pipe)` at its `n`-th poll of a call. -/
  dt_pipe_shutdown : Nat → Bool
  simd_channels : SimdChannels

/-! ## `_sigma_to_index` and `_cs_precalc_gauss_idx` -/

def _sigma_to_index (sigma : ℚ) : Nat :=
  (CLAMP (c_int (sigma / CAPTURE_GAUSS_FRACTION)) 0 UCHAR_MAX).toNat

/-- Lines 105 of `_cs_precalc_gauss_idx`: the radial correction `corr` of
pixel `(row, col)`, with the loop-invariant values of lines 86-96. -/
def gaussCorr (E : Env) (img : Image) (roi : Roi) (boost centre : ℚ) (row col : Nat) : ℚ :=
  let rwidth : ℤ := Int.tdiv img.p_width 2
  let rheight : ℤ := Int.tdiv img.p_height 2
  let mdim : ℚ := ((MIN rwidth rheight : ℤ) : ℚ)
  let dy := roi.y
  let dx := roi.x
  let cboost : ℚ := 1 + 8 * sqrf centre
  let frow : ℚ := (((row : ℤ) + dy - rheight : ℤ) : ℚ)
  let fcol : ℚ := (((col : ℤ) + dx - rwidth : ℤ) : ℚ)
  let sc : ℚ := E.sqrtf (frow * frow + fcol * fcol) / mdim
  cboost * boost * sqrf (MAX 0 (sc - 1 / 2 - centre))

/-- Line 108 of `_cs_precalc_gauss_idx`: the `sigma` of pixel `(row, col)`. -/
def gaussSigma (E : Env) (img : Image) (roi : Roi) (isigma boost centre : ℚ)
    (row col : Nat) : ℚ :=
  let width := roi.width
  let height := roi.height
  let corr := gaussCorr E img roi boost centre row col
  (isigma + corr) * (1 / 8) *
    ((MIN (8 : ℤ) (MIN ((height : ℤ) - row - 1)
      (MIN ((width : ℤ) - col - 1) (MIN (col : ℤ) (row : ℤ)))) : ℤ) : ℚ)

/-- The index map of `_cs_precalc_gauss_idx`; `alloc` is what
`dt_alloc_aligned` returns (`none` for `NULL`, else the fresh block). -/
def _cs_precalc_gauss_idx (E : Env) (img : Image) (roi : Roi)
    (isigma boost centre : ℚ) (alloc : Option (Nat → Nat)) : Option (Nat → Nat) :=
  let width := roi.width
  let height := roi.height
  match alloc with
  | none => none
  | some table0 =>
    some (forLoop height (fun row table =>
      forLoop width (fun col table =>
        let sigma := gaussSigma E img roi isigma boost centre row col
        store table (row * width + col) (_sigma_to_index sigma)) table) table0)

/-! ## The radius estimators -/

/-- The body of the column loop of `_calcRadiusBayer` at the site
`(row, col)`: the new value of `maxRatio`. -/
def calcRadiusBayerSite (inp : Buf) (width : Nat) (lowerLimit upperLimit : ℚ)
    (row col : Nat) (maxRatio : ℚ) : ℚ :=
  let cfa : ℤ → ℚ := fun off => inp (((row * width + col : Nat) : ℤ) + off).toNat
  let w : ℤ := (width : ℤ)
  let val00 := cfa 0
  if val00 > RAWEPS then
    let val1m1 := cfa (w - 1)
    let val1p1 := cfa (w + 1)
    let maxVal0 := MAX val00 val1m1
    let maxRatio1 : ℚ :=
      if val1m1 > RAWEPS ∧ maxVal0 > lowerLimit then
        let minVal := MIN val00 val1m1
        if maxVal0 > maxRatio * minVal then
          let clipped : Bool :=
            if maxVal0 = val00 then
              decide (MAX (MAX (cfa (-w - 1)) (cfa (-w + 1))) val1p1 ≥ upperLimit)
            else
              decide (MAX (MAX (MAX (cfa (-2)) val00) (cfa (2 * w - 2))) (cfa (2 * w))
                ≥ upperLimit)
          if !clipped then maxVal0 / minVal else maxRatio
        else maxRatio
      else maxRatio
    let maxVal1 := MAX val00 val1p1
    if val1p1 > RAWEPS ∧ maxVal1 > lowerLimit then
      let minVal := MIN val00 val1p1
      if maxVal1 > maxRatio1 * minVal then
        if maxVal1 = val00 then
          if MAX (MAX (cfa (-w - 1)) (cfa (-w + 1))) val1p1 ≥ upperLimit then maxRatio1
          else maxVal1 / minVal
        else
          if MAX (MAX (MAX val00 (cfa 2)) (cfa (2 * w))) (cfa (2 * w + 2)) ≥ upperLimit
          then maxRatio1
          else maxVal1 / minVal
      else maxRatio1
    else maxRatio1
  else maxRatio

/-- The value of `maxRatio` when the loops of `_calcRadiusBayer` end: rows
`4 .. height-5`, columns `5 + (fc[row & 1] & 1)` in steps of two below
`width - 4`. -/
def calcRadiusBayerMaxRatio (E : Env) (inp : Buf) (width height : Nat)
    (lowerLimit upperLimit : ℚ) (filters : Nat) : ℚ :=
  let fc : Nat → Nat := fun i => if i = 0 then E.FC 0 0 filters else E.FC 1 0 filters
  forLoop (height - 8) (fun i maxRatio =>
    let row := i + 4
    let col0 := 5 + (fc (row % 2)) % 2
    forLoop ((width - 4 - col0 + 1) / 2) (fun j maxRatio =>
      calcRadiusBayerSite inp width lowerLimit upperLimit row (col0 + 2 * j) maxRatio)
      maxRatio) 1

def _calcRadiusBayer (E : Env) (inp : Buf) (width height : Nat)
    (lowerLimit upperLimit : ℚ) (filters : Nat) : ℚ :=
  E.sqrtf (1 / E.logf (calcRadiusBayerMaxRatio E inp width height lowerLimit upperLimit filters))

/-- The anchor test inside the search loops of `_calcRadiusXtrans`. -/
def xtransAnchorTest (E : Env) (roi : Roi) (xtrans : Nat → Nat → Nat)
    (starty startx : ℤ) : Bool :=
  decide (E.FCxtrans starty startx roi xtrans = 1) &&
  decide (E.FCxtrans starty (startx - 1) roi xtrans ≠ E.FCxtrans starty (startx + 1) roi xtrans) &&
  decide (E.FCxtrans (starty - 1) startx roi xtrans ≠ 1) &&
  decide (E.FCxtrans starty (startx - 1) roi xtrans ≠ 1)

/-- The inner search loop `for(startx = 6; startx < 12 && !found; startx++)`
with its `break`: the final `(startx, found)`. Six rounds are enough since
`startx` runs from 6 to at most 12. -/
def xtransSearchRow (E : Env) (roi : Roi) (xtrans : Nat → Nat → Nat)
    (starty : ℤ) (found : Bool) : ℤ × Bool :=
  let r := forLoop 6 (fun _ (st : ℤ × Bool × Bool) =>
    let startx := st.1
    let found := st.2.1
    let stopped := st.2.2
    if stopped then st
    else if startx < 12 ∧ found = false then
      if xtransAnchorTest E roi xtrans starty startx then (startx, true, true)
      else (startx + 1, found, false)
    else (startx, found, true)) ((6 : ℤ), found, false)
  (r.1, r.2.1)

/-- The outer search loop `for(starty = 6; starty < 12 && !found; starty++)`:
the final `(starty, startx, found)`. -/
def xtransSearch (E : Env) (roi : Roi) (xtrans : Nat → Nat → Nat) : ℤ × ℤ × Bool :=
  forLoop 6 (fun _ (st : ℤ × ℤ × Bool) =>
    let starty := st.1
    let found := st.2.2
    if starty < 12 ∧ found = false then
      let r := xtransSearchRow E roi xtrans starty found
      (starty + 1, r.1, r.2)
    else st) ((6 : ℤ), (6 : ℤ), false)

/-- One update `if(maxVal > maxRatio * minVal) maxRatio = maxVal / minVal`
guarded by `maxVal > lowerLimit`, as it recurs in `_calcRadiusXtrans`. -/
def xtransPair (lowerLimit a b maxRatio : ℚ) : ℚ :=
  let maxVal := MAX a b
  if maxVal > lowerLimit then
    let minVal := MIN a b
    if maxVal > maxRatio * minVal then maxVal / minVal else maxRatio
  else maxRatio

/-- The body of the column loop of `_calcRadiusXtrans` at `(row, col)`. -/
def calcRadiusXtransSite (inp : Buf) (width : Nat) (lowerLimit upperLimit : ℚ)
    (row col : ℤ) (maxRatio : ℚ) : ℚ :=
  let w : ℤ := (width : ℤ)
  let cfa : ℤ → ℚ := fun off => inp (row * w + col + off).toNat
  let valp1p1 := cfa (w + 1)
  let squareClipped : Bool :=
    decide (MAX (MAX (MAX valp1p1 (cfa (w + 2))) (cfa (2 * w + 1))) (cfa (2 * w + 2))
      ≥ upperLimit)
  let greenSolitary := cfa 0
  let m1 : ℚ :=
    if greenSolitary > RAWEPS ∧ MAX (cfa (-w - 1)) (cfa (-w + 1)) < upperLimit then
      if greenSolitary < upperLimit then
        let valp1m1 := cfa (w - 1)
        let m := if valp1m1 > RAWEPS ∧
            MAX (MAX (MAX (cfa (w - 2)) valp1m1) (cfa (2 * w - 2))) (cfa (w - 1)) < upperLimit
          then xtransPair lowerLimit greenSolitary valp1m1 maxRatio
          else maxRatio
        if valp1p1 > RAWEPS ∧ squareClipped = false
        then xtransPair lowerLimit greenSolitary valp1p1 m
        else m
      else maxRatio
    else maxRatio
  if squareClipped = false then
    let valp2p2 := cfa (2 * w + 2)
    let m2 : ℚ :=
      if valp2p2 > RAWEPS then
        let m := if valp1p1 > RAWEPS then xtransPair lowerLimit valp1p1 valp2p2 m1 else m1
        let greenSolitaryRight := cfa (3 * w + 3)
        if MAX (MAX greenSolitaryRight (cfa (4 * w + 2))) (cfa (4 * w + 4)) < upperLimit then
          if greenSolitaryRight > RAWEPS
          then xtransPair lowerLimit greenSolitaryRight valp2p2 m
          else m
        else m
      else m1
    let valp1p2 := cfa (w + 2)
    let valp2p1 := cfa (2 * w + 1)
    if valp2p1 > RAWEPS then
      let m := if valp1p2 > RAWEPS then xtransPair lowerLimit valp1p2 valp2p1 m2 else m2
      let greenSolitaryLeft := cfa (3 * w)
      if MAX (MAX greenSolitaryLeft (cfa (4 * w - 1))) (cfa (4 * w + 1)) < upperLimit then
        if greenSolitaryLeft > RAWEPS
        then xtransPair lowerLimit greenSolitaryLeft valp2p1 m
        else m
      else m
    else m2
  else m1

/-- The value of `maxRatio` when the loops of `_calcRadiusXtrans` end: rows
`starty + 2`, columns `startx + 2`, both in steps of three below
`height - 4` and `width - 4`. -/
def calcRadiusXtransMaxRatio (E : Env) (inp : Buf) (lowerLimit upperLimit : ℚ)
    (roi : Roi) (xtrans : Nat → Nat → Nat) : ℚ :=
  let width := roi.width
  let height := roi.height
  let s := xtransSearch E roi xtrans
  let starty := s.1
  let startx := s.2.1
  forLoop (((height : ℤ) - 4 - (starty + 2) + 2) / 3).toNat (fun i maxRatio =>
    forLoop (((width : ℤ) - 4 - (startx + 2) + 2) / 3).toNat (fun j maxRatio =>
      calcRadiusXtransSite inp width lowerLimit upperLimit
        (starty + 2 + 3 * (i : ℤ)) (startx + 2 + 3 * (j : ℤ)) maxRatio) maxRatio) 1

def _calcRadiusXtrans (E : Env) (inp : Buf) (lowerLimit upperLimit : ℚ)
    (roi : Roi) (xtrans : Nat → Nat → Nat) : ℚ :=
  E.sqrtf (1 / E.logf (calcRadiusXtransMaxRatio E inp lowerLimit upperLimit roi xtrans))

/-! ## The two convolutions of the Richardson-Lucy step -/

/-- The unrolled 13-term sum both blur functions use away from the edges;
`d` is the pointer `in + i`, `w1` the row stride. -/
def convFast (kern : Nat → ℚ) (d : ℤ → ℚ) (w1 : ℤ) : ℚ :=
  let w2 := 2 * w1
  let w3 := 3 * w1
  let w4 := 4 * w1
  kern (10+4) * (d (-w4-2) + d (-w4+2) + d (-w2-4) + d (-w2+4) + d (w2-4) + d (w2+4) + d (w4-2) + d (w4+2)) +
  kern (5+4) * (d (-w4-1) + d (-w4+1) + d (-w1-4) + d (-w1+4) + d (w1-4) + d (w1+4) + d (w4-1) + d (w4+1)) +
  kern 4 * (d (-w4) + d (-4) + d 4 + d w4) +
  kern (15+3) * (d (-w3-3) + d (-w3+3) + d (w3-3) + d (w3+3)) +
  kern (10+3) * (d (-w3-2) + d (-w3+2) + d (-w2-3) + d (-w2+3) + d (w2-3) + d (w2+3) + d (w3-2) + d (w3+2)) +
  kern (5+3) * (d (-w3-1) + d (-w3+1) + d (-w1-3) + d (-w1+3) + d (w1-3) + d (w1+3) + d (w3-1) + d (w3+1)) +
  kern 3 * (d (-w3) + d (-3) + d 3 + d w3) +
  kern (10+2) * (d (-w2-2) + d (-w2+2) + d (w2-2) + d (w2+2)) +
  kern (5+2) * (d (-w2-1) + d (-w2+1) + d (-w1-2) + d (-w1+2) + d (w1-2) + d (w1+2) + d (w2-1) + d (w2+1)) +
  kern 2 * (d (-w2) + d (-2) + d 2 + d w2) +
  kern (5+1) * (d (-w1-1) + d (-w1+1) + d (w1-1) + d (w1+1)) +
  kern 1 * (d (-w1) + d (-1) + d 1 + d w1) +
  kern 0 * (d 0)

/-- The bounded double loop both blur functions use near the edges. -/
def convBounded (kern : Nat → ℚ) (inp : Buf) (w1 height : Nat) (row col : Nat) : ℚ :=
  forLoop 9 (fun a val =>
    let ir : ℤ := (a : ℤ) - 4
    let irow : ℤ := (row : ℤ) + ir
    if 0 ≤ irow ∧ irow < (height : ℤ) then
      forLoop 9 (fun b val =>
        let ic : ℤ := (b : ℤ) - 4
        let icol : ℤ := (col : ℤ) + ic
        if 0 ≤ icol ∧ icol < (w1 : ℤ) then
          val + kern (5 * ir.natAbs + ic.natAbs) * inp (irow * (w1 : ℤ) + icol).toNat
        else val) val
    else val) 0

/-- The value `val` both blur functions compute at pixel `(row, col)`:
the kernel is `kernels + CAPTURE_KERNEL_ALIGN * table[i]`. -/
def blurVal (inp : Buf) (kernels : Nat → ℚ) (table : Nat → Nat) (w1 height : Nat)
    (row col : Nat) : ℚ :=
  let i := row * w1 + col
  let kern : Nat → ℚ := fun j => kernels (CAPTURE_KERNEL_ALIGN * table i + j)
  if col ≥ 4 ∧ row ≥ 4 ∧ (col : ℤ) < (w1 : ℤ) - 4 ∧ (row : ℤ) < (height : ℤ) - 4 then
    convFast kern (fun off => inp ((i : ℤ) + off).toNat) (w1 : ℤ)
  else
    convBounded kern inp w1 height row col

def _blur_mul (inp : Buf) (out : Buf) (blend : Buf) (kernels : Nat → ℚ)
    (table : Nat → Nat) (w1 height : Nat) : Buf :=
  forLoop height (fun row out =>
    forLoop w1 (fun col out =>
      let i := row * w1 + col
      if blend i > 0 then
        store out i (out i * blurVal inp kernels table w1 height row col)
      else out) out) out

def _blur_div (inp : Buf) (out : Buf) (luminance : Buf) (blend : Buf)
    (kernels : Nat → ℚ) (table : Nat → Nat) (w1 height : Nat) : Buf :=
  forLoop height (fun row out =>
    forLoop w1 (fun col out =>
      let i := row * w1 + col
      if blend i > 0 then
        store out i (luminance i / MAX (blurVal inp kernels table w1 height row col) CAPTURE_YMIN)
      else out) out) out

/-! ## The blend mask -/

/-- The 21 stores `mask[..] = 0.0f` of `_prepare_blend` around index `k`. -/
def zeroRhombus (mask : Buf) (k w1 : Nat) : Buf :=
  let w2 := 2 * w1
  let z := fun (m : Buf) (i : Nat) => store m i 0
  [k-w2-1, k-w2, k-w2+1,
   k-w1-2, k-w1-1, k-w1, k-w1+1, k-w1+2,
   k-2, k-1, k, k+1, k+2,
   k+w1-2, k+w1-1, k+w1, k+w1+1, k+w1+2,
   k+w2-1, k+w2, k+w2+1].foldl z mask

/-- Lines 462 and 469-471 of `_prepare_blend`: the value stored in `Yold[k]`,
the BT.709 luminance of pixel `k` of `rgb`, floored at 0. -/
def prepareY (rgb : Buf) (k : Nat) : ℚ :=
  let flum : Nat → ℚ := fun c =>
    if c = 0 then 212671 / 1000000 else if c = 1 then 715160 / 1000000
    else if c = 2 then 72169 / 1000000 else 0
  let yw : Nat → ℚ := fun c => flum c * rgb (k * 4 + c)
  MAX 0 (yw 0 + yw 1 + yw 2)

/-- The function `_prepare_blend`: the final `(mask, Yold)`. -/
def _prepare_blend (E : Env) (cfa rgb : Buf) (filters : Nat) (xtrans : Nat → Nat → Nat)
    (roi : Roi) (mask Yold : Buf) (whites : Nat → ℚ) (w1 height : Nat) : Buf × Buf :=
  let mask := dt_iop_image_fill mask 1 w1 height 1
  forLoop height (fun row st =>
    forLoop w1 (fun col st =>
      let k := row * w1 + col
      let y : ℚ := prepareY rgb k
      let Yold := store st.2 k y
      if row > 1 ∧ col > 1 ∧ (row : ℤ) < (height : ℤ) - 2 ∧ (col : ℤ) < (w1 : ℤ) - 2 then
        let color : Nat :=
          if filters = 9 then E.FCxtrans row col roi xtrans else E.FC row col filters
        if cfa k > whites color ∨ y < CAPTURE_YMIN then (zeroRhombus st.1 k w1, Yold)
        else (st.1, Yold)
      else (store st.1 k 0, Yold)) st) (mask, Yold)

/-- Lines 497-531 of `_modify_blend`: the `weight` of pixel `(irow, icol)`. -/
def modifyWeight (E : Env) (Yold : Buf) (dthresh : ℚ) (width height : Nat)
    (irow icol : Nat) : ℚ :=
  let threshold : ℚ := (6 / 10) * sqrf dthresh
  let tscale : ℚ := 200
  let offset : ℚ := -(5 / 2) + tscale * threshold / 2
  let row : ℤ := CLAMP (irow : ℤ) 2 ((height : ℤ) - 3)
  let col : ℤ := CLAMP (icol : ℤ) 2 ((width : ℤ) - 3)
  let Y : ℤ → ℤ → ℚ := fun y x => Yold (y * (width : ℤ) + x).toNat
  let s1 : ℚ × ℚ := forLoop 3 (fun a acc =>
    let y : ℤ := row - 1 + (a : ℤ)
    forLoop 5 (fun b acc =>
      let x : ℤ := col - 2 + (b : ℤ)
      (acc.1 + Y y x, acc.2 + sqrf (Y y x))) acc) (0, 0)
  let s2 : ℚ × ℚ := forLoop 3 (fun b acc =>
    let x : ℤ := col - 1 + (b : ℤ)
    (acc.1 + Y (row - 2) x + Y (row + 2) x,
     acc.2 + sqrf (Y (row - 2) x) + sqrf (Y (row + 2) x))) s1
  let sum := s2.1
  let sum_sq := s2.2
  let sum_of_squares : ℚ := MAX 0 (sum_sq - sqrf sum / 21)
  let std_deviation : ℚ := E.sqrtf (sum_of_squares / 21)
  let mean : ℚ := MAX E.NORM_MIN (sum / 21)
  let modified_coef_variation : ℚ := std_deviation / E.sqrtf mean
  let t : ℚ := E.logf (1 + modified_coef_variation)
  1 / (1 + E.expf (offset - tscale * t))

/-- The function `_modify_blend`: the final `(blend, luminance)`; `Yold` is
only read. -/
def _modify_blend (E : Env) (blend Yold luminance : Buf) (dthresh : ℚ)
    (width height : Nat) : Buf × Buf :=
  forLoop height (fun irow st =>
    forLoop width (fun icol st =>
      let k := irow * width + icol
      let weight := modifyWeight E Yold dthresh width height irow icol
      (store st.1 k (CLIP (st.1 k * (101011 / 100000) * (weight - 1 / 100))),
       store st.2 k (Yold k))) st) (blend, luminance)

/-! ## `_capture_sharpen` -/

/-- The fields of `dt_dev_pixelpipe_t` that are read. -/
structure Pipe where
  /-- The test `pipe->type & DT_DEV_PIXELPIPE_THUMBNAIL`. -/
  thumbnail : Bool
  /-- The test `pipe->type & DT_DEV_PIXELPIPE_FULL`. -/
  full : Bool
  final_width : ℤ
  final_height : ℤ
  filters : Nat
  xtrans : Nat → Nat → Nat
  /-- The flag `dsc.temperature.enabled`. -/
  wb_enabled : Bool
  /-- The array `dsc.temperature.coeffs`. -/
  wb_coeffs : Nat → ℚ

/-- The fields of `dt_iop_demosaic_data_t` (`piece->data`) that are read. -/
structure Data where
  cs_iter : ℤ
  cs_radius : ℚ
  cs_thrs : ℚ
  cs_boost : ℚ
  cs_center : ℚ

/-- What `_capture_sharpen` reaches through `self`: the image, the global
kernel table, and the two places it may write, the GUI flag
`g->autoradius` (`none` when `self->gui_data` is `NULL`) and the parameter
`p->cs_radius`. -/
structure Module where
  image : Image
  gauss_coeffs : Nat → ℚ
  autoradius : Option Bool
  cs_radius : ℚ

/-- What the allocator hands out during one call: `none` is `NULL`, `some b`
a fresh block with contents `b`. -/
structure Allocs where
  luminance : Option Buf
  tmp2 : Option Buf
  tmp1 : Option Buf
  blendmask : Option Buf
  table : Option (Nat → Nat)

/-- What a call of `_capture_sharpen` leaves behind: the output image and
the two fields of `self` it may write. -/
structure Outcome where
  out : Buf
  autoradius : Option Bool
  cs_radius : ℚ

/-- Lines 580-598 of `_capture_sharpen`: what happens to `g->autoradius` and
`p->cs_radius` once the estimate `radius` is known. -/
def autoRadiusUpdate (radius old_radius : ℚ) (fullpipe : Bool)
    (g : Option Bool) (p_cs_radius : ℚ) : Option Bool × ℚ :=
  let valid : Bool := decide (radius > 1 / 10 ∧ radius < 1)
  if (!feqf radius old_radius (5 / 1000)) && valid then
    if fullpipe then
      (match g with
        | some _ => some true
        | none => none, radius)
    else (g, p_cs_radius)
  else
    (match g with
      | some _ => some false
      | none => none, p_cs_radius)

/-- The local `radius` of `_capture_sharpen` after line 599. -/
def csRadius (E : Env) (self : Module) (pipe : Pipe) (d : Data) (inp : Buf) (roi : Roi) : ℚ :=
  let width := roi.width
  let height := roi.height
  let filters := pipe.filters
  let fullpipe := pipe.full
  let autoradius : Bool := fullpipe && (self.autoradius == some true)
  let old_radius := d.cs_radius
  if autoradius = true ∨ old_radius < 1 / 100 then
    if filters ≠ 9 then _calcRadiusBayer E inp width height (1 / 100) 1 filters
    else _calcRadiusXtrans E inp (1 / 100) 1 roi pipe.xtrans
  else old_radius

/-- The loop `for(iter = 0; iter < d->cs_iter && !dt_pipe_shutdown(pipe); iter++)`
around `_blur_div` and `_blur_mul`: `n` rounds are left, `iter` is the
current counter, the state is `(tmp1, tmp2)`. -/
def rlLoop (E : Env) (luminance blendmask : Buf) (kernels : Nat → ℚ) (table : Nat → Nat)
    (width height : Nat) : Nat → Nat → Buf × Buf → Buf × Buf
  | 0, _, st => st
  | n + 1, iter, st =>
    if E.dt_pipe_shutdown iter then st
    else
      let tmp2 := _blur_div st.1 st.2 luminance blendmask kernels table width height
      let tmp1 := _blur_mul tmp2 st.1 blendmask kernels table width height
      rlLoop E luminance blendmask kernels table width height n (iter + 1) (tmp1, tmp2)

/-- The reinforcement loop of lines 621-629. -/
def reinforce (E : Env) (tmp2 blendmask : Buf) (pixels : Nat) : Buf :=
  forLoop pixels (fun k blendmask =>
    let diff := tmp2 k - blendmask k
    let w_tmp2 : ℚ := 1 / (1 + E.expf (5 - 10 * diff))
    store blendmask k (CLIP (w_tmp2 * tmp2 k + (1 - w_tmp2) * blendmask k))) blendmask

/-- The loop of lines 634-635: `out[k+3] = blendmask[k/4]` for `k = 0, 4, ..`. -/
def showVarianceMask (out blendmask : Buf) (pixels : Nat) : Buf :=
  forLoop pixels (fun j out => store out (4 * j + 3) (blendmask (4 * j / 4))) out

/-- The loop of lines 647-648: `out[k+3] = (float)gauss_idx[k/4] / 255.0f`. -/
def showSigmaMask (out : Buf) (gauss_idx : Nat → Nat) (pixels : Nat) : Buf :=
  forLoop pixels (fun j out =>
    store out (4 * j + 3) (((gauss_idx (4 * j / 4) : Nat) : ℚ) / 255)) out

/-- Lines 664-665: the `factor` of pixel `k` in the recomposition loop. -/
def csFactor (blendmask tmp1 luminance : Buf) (k : Nat) : ℚ :=
  let luminance_new := interpolatef (CLIP (blendmask k)) (tmp1 k) (luminance k)
  luminance_new / MAX (luminance k) CAPTURE_YMIN

/-- The recomposition loop of lines 660-668. -/
def recompose (E : Env) (out blendmask tmp1 luminance : Buf) (pixels : Nat) : Buf :=
  forLoop pixels (fun k out =>
    if blendmask k > 0 then
      let factor := csFactor blendmask tmp1 luminance k
      forLoop E.simd_channels.count (fun c out =>
        store out (k * 4 + c) (out (k * 4 + c) * factor)) out
    else out) out

/-- The final blend mask of `_capture_sharpen` (lines 612-629) together with
the buffers the later stages read: `(blendmask, tmp1, luminance, tmp2)`. -/
def csBlend (E : Env) (pipe : Pipe) (d : Data) (inp out : Buf) (roi : Roi)
    (luminance tmp2 tmp1 blendmask : Buf) : Buf × Buf × Buf × Buf :=
  let width := roi.width
  let height := roi.height
  let pixels := width * height
  let icoeffs : Nat → ℚ := fun c =>
    if c < 3 then (if pipe.wb_enabled then CAPTURE_CFACLIP * pipe.wb_coeffs c else CAPTURE_CFACLIP)
    else 0
  let pb := _prepare_blend E inp out pipe.filters pipe.xtrans roi tmp2 tmp1 icoeffs width height
  let tmp2 := pb.1
  let tmp1 := pb.2
  let mb := _modify_blend E tmp2 tmp1 luminance d.cs_thrs width height
  let tmp2 := mb.1
  let luminance := mb.2
  let blendmask := E.dt_gaussian_fast_blur tmp2 blendmask width height 2 0 1 1
  let blendmask := reinforce E tmp2 blendmask pixels
  (blendmask, tmp1, luminance, tmp2)

/-- The function `_capture_sharpen`. -/
def _capture_sharpen (E : Env) (self : Module) (pipe : Pipe) (d : Data) (al : Allocs)
    (inp out : Buf) (roi : Roi) (show_variance_mask show_sigma_mask : Bool) : Outcome :=
  let width := roi.width
  let height := roi.height
  let pixels := width * height
  if pipe.thumbnail && !(E._get_thumb_quality pipe.final_width pipe.final_height) then
    ⟨out, self.autoradius, self.cs_radius⟩
  else if decide (d.cs_iter < 1) && !show_variance_mask && !show_sigma_mask then
    ⟨out, self.autoradius, self.cs_radius⟩
  else
    let fullpipe := pipe.full
    let autoradius : Bool := fullpipe && (self.autoradius == some true)
    let old_radius := d.cs_radius
    let radius := csRadius E self pipe d inp roi
    let gp : Option Bool × ℚ :=
      if autoradius = true ∨ old_radius < 1 / 100 then
        autoRadiusUpdate radius old_radius fullpipe self.autoradius self.cs_radius
      else (self.autoradius, self.cs_radius)
    match al.luminance, al.tmp2, al.tmp1, al.blendmask with
    | some luminance, some tmp2, some tmp1, some blendmask =>
      let b := csBlend E pipe d inp out roi luminance tmp2 tmp1 blendmask
      let blendmask := b.1
      let tmp1 := b.2.1
      let luminance := b.2.2.1
      let tmp2 := b.2.2.2
      if show_variance_mask then
        ⟨showVarianceMask out blendmask pixels, gp.1, gp.2⟩
      else
        match _cs_precalc_gauss_idx E self.image roi radius d.cs_boost d.cs_center al.table with
        | none => ⟨out, gp.1, gp.2⟩
        | some gauss_idx =>
          if show_sigma_mask then
            ⟨showSigmaMask out gauss_idx pixels, gp.1, gp.2⟩
          else
            let r := rlLoop E luminance blendmask self.gauss_coeffs gauss_idx width height
              d.cs_iter.toNat 0 (tmp1, tmp2)
            ⟨recompose E out blendmask r.1 luminance pixels, gp.1, gp.2⟩
    | _, _, _, _ => ⟨out, gp.1, gp.2⟩

/-! ## The sigma index as the specification words it -/

/-- The border taper of the specification:
`min(8, min(h-row-1, min(w-col-1, min(col, row))))`. -/
def specTaper (roi : Roi) (row col : Nat) : ℤ :=
  min 8 (min ((roi.height : ℤ) - row - 1) (min ((roi.width : ℤ) - col - 1) (min (col : ℤ) (row : ℤ))))

/-- The normalised distance `d` of the specification, with
`(rw, rh) = (p_width/2, p_height/2)` the integer halves. -/
def specDist (E : Env) (img : Image) (roi : Roi) (row col : Nat) : ℚ :=
  let rw : ℤ := Int.tdiv img.p_width 2
  let rh : ℤ := Int.tdiv img.p_height 2
  E.sqrtf ((((row : ℤ) + roi.y - rh : ℤ) : ℚ) ^ 2 + (((col : ℤ) + roi.x - rw : ℤ) : ℚ) ^ 2)
    / ((min rw rh : ℤ) : ℚ)

/-- The correction of the specification:
`corr = (1 + 8·center²)·boost·max(0, d - 0.5 - center)²`. -/
def specCorr (E : Env) (img : Image) (roi : Roi) (boost center : ℚ) (row col : Nat) : ℚ :=
  (1 + 8 * center ^ 2) * boost * (max 0 (specDist E img roi row col - 1 / 2 - center)) ^ 2

/-- The sigma of the specification: `σ = (radius + corr)·0.125·taper`. -/
def specSigma (E : Env) (img : Image) (roi : Roi) (radius boost center : ℚ)
    (row col : Nat) : ℚ :=
  (radius + specCorr E img roi boost center row col) * (1 / 8) * (specTaper roi row col : ℚ)

/-- The Taylor polynomial of degree 4 of the exponential. -/
def expTaylor4 (y : ℚ) : ℚ := 1 + y + y ^ 2 / 2 + y ^ 3 / 6 + y ^ 4 / 24

/-- A rational stand-in for `expf`: `exp x = (exp (x/16))^16` with the Taylor
polynomial of degree 4 for the inner value, and the reciprocal for `x < 0`. -/
def expQ (x : ℚ) : ℚ :=
  if 0 ≤ x then expTaylor4 (x / 16) ^ 16 else 1 / expTaylor4 (-x / 16) ^ 16

/-- A rational stand-in for `logf`: six terms of the area-tangent series
`ln x = 2·(z + z³/3 + z⁵/5 + ..)` with `z = (x-1)/(x+1)`. -/
def logQ (x : ℚ) : ℚ :=
  if 0 < x then
    let z := (x - 1) / (x + 1)
    2 * (z + z ^ 3 / 3 + z ^ 5 / 5 + z ^ 7 / 7 + z ^ 9 / 9 + z ^ 11 / 11)
  else 0

/-- A rational stand-in for `sqrtf`: three Heron steps from `(1 + x)/2`, and 0
at 0. -/
def sqrtQ (x : ℚ) : ℚ :=
  if x ≤ 0 then 0
  else
    let y0 := (1 + x) / 2
    let y1 := (y0 + x / y0) / 2
    let y2 := (y1 + x / y1) / 2
    (y2 + x / y2) / 2

/-- The weights `exp(-d²/8)` of a Gaussian of sigma 2 at the offsets
`d = -2, -1, 0, 1, 2`, to four digits. -/
def gaussWeight5 (i : Nat) : ℚ :=
  if i = 2 then 1 else if i = 1 ∨ i = 3 then 8825 / 10000 else 6065 / 10000

/-- A stand-in for `dt_gaussian_fast_blur`, which is declared outside
`capture.c` (the specification: "a Gaussian blur of σ=2 .. clamp to [0,1]"): the
Gaussian of sigma 2 cut to the 5×5 window around each pixel, cells outside the
image counting as 0, the result clamped to `[lo, hi]`. -/
def gaussBlur5 (inp : Buf) (out : Buf) (width height : Nat) (_sigma lo hi : ℚ) (_ch : Nat) : Buf :=
  fun k =>
    if k < width * height then
      let row : ℤ := ((k / width : Nat) : ℤ)
      let col : ℤ := ((k % width : Nat) : ℤ)
      let sum : ℚ := forLoop 5 (fun a acc =>
        forLoop 5 (fun b acc =>
          let y : ℤ := row + (a : ℤ) - 2
          let x : ℤ := col + (b : ℤ) - 2
          if 0 ≤ y ∧ y < (height : ℤ) ∧ 0 ≤ x ∧ x < (width : ℤ)
          then acc + gaussWeight5 a * gaussWeight5 b * inp (y * (width : ℤ) + x).toNat
          else acc) acc) 0
      CLAMP (sum / ((3978 / 1000) ^ 2)) lo hi
    else out k

/-- The environment used where a closed statement needs one. -/
def envQ : Env where
  expf := expQ
  logf := logQ
  sqrtf := sqrtQ
  FC := fun row col filters =>
    (filters >>> ((((row <<< 1) &&& 14) ||| (col &&& 1)) <<< 1)) &&& 3
  FCxtrans := fun row col roi xtrans =>
    xtrans ((row + roi.y) % 6).toNat ((col + roi.x) % 6).toNat
  NORM_MIN := 1 / 65536
  _get_thumb_quality := fun _ _ => true
  dt_gaussian_fast_blur := gaussBlur5
  dt_pipe_shutdown := fun _ => false
  simd_channels := SimdChannels.four

/-! ## Concrete inputs for closed evaluations -/

/-- A 10×9 mosaic that is 0 except for the green site `(4, 5)`, which holds
`a`, and its lower-left green neighbour `(5, 4)`, which holds `b`. -/
def cfaPair (a b : ℚ) : Buf := fun i => if i = 45 then a else if i = 54 then b else 0

/-- A Bayer pipe (RGGB, `filters = 0x94949494`), no white balance, not a
thumbnail; `full` says whether it is the full pipe. -/
def pipeBayer (full : Bool) : Pipe :=
  { thumbnail := false, full := full, final_width := 0, final_height := 0,
    filters := 0x94949494, xtrans := fun _ _ => 0, wb_enabled := false,
    wb_coeffs := fun _ => 1 }

/-- Scratch buffers that all get allocated, zero-filled. -/
def allocsOk : Allocs :=
  { luminance := some (fun _ => 0), tmp2 := some (fun _ => 0), tmp1 := some (fun _ => 0),
    blendmask := some (fun _ => 0), table := some (fun _ => 0) }

/-- Parameters of a call with one iteration and the stored radius 0, which
asks for the estimate. -/
def dataAuto : Data :=
  { cs_iter := 1, cs_radius := 0, cs_thrs := 0, cs_boost := 0, cs_center := 0 }

/-- The module state of a call without a GUI on a 10×9 image; every slot of
the kernel table holds the identity kernel. -/
def moduleNoGui : Module :=
  { image := Image.mk 10 9, gauss_coeffs := fun j => if j % 32 = 0 then 1 else 0,
    autoradius := none, cs_radius := 0 }

/-- Parameters of a call with one iteration and the stored radius 0.5; no
threshold, boost or centre bias. -/
def dataHalf : Data :=
  { cs_iter := 1, cs_radius := 1 / 2, cs_thrs := 0, cs_boost := 0, cs_center := 0 }

/-- The module state of a call with a GUI whose auto flag is set, on a 10×9
image, `p->cs_radius = 0.5`. -/
def moduleAuto : Module :=
  { image := Image.mk 10 9, gauss_coeffs := fun j => if j % 32 = 0 then 1 else 0,
    autoradius := some true, cs_radius := 1 / 2 }

/-- An environment whose thumbnails are never of high quality. -/
def envThumb : Env := { envQ with _get_thumb_quality := fun _ _ => false }

/-- A thumbnail pipe (Bayer RGGB, no white balance). -/
def pipeThumb : Pipe :=
  { thumbnail := true, full := false, final_width := 0, final_height := 0,
    filters := 0x94949494, xtrans := fun _ _ => 0, wb_enabled := false,
    wb_coeffs := fun _ => 1 }

/-- A 5×5 image that is mid-grey `(1/2, 1/2, 1/2, 1/2)` except for its corner
pixel 0, which is the dark grey `(1/2000, 1/2000, 1/2000, 1/2000)`. -/
def out5 : Buf := fun i => if i < 4 then 1 / 2000 else 1 / 2

/-- The module state for the 5×5 image: no GUI, every slot of the kernel table
holds the identity kernel. -/
def module5 : Module :=
  { image := Image.mk 5 5, gauss_coeffs := fun j => if j % 32 = 0 then 1 else 0,
    autoradius := none, cs_radius := 1 / 2 }

/-! ## The blend mask as the specification words it -/

/-- The colour of the CFA site `(row, col)`: the `color` of line 474. -/
def cfaColor (E : Env) (filters : Nat) (xtrans : Nat → Nat → Nat) (roi : Roi)
    (row col : Nat) : Nat :=
  if filters = 9 then E.FCxtrans row col roi xtrans else E.FC row col filters

/-- The 2-pixel border: `row < 2`, `row >= H-2`, `col < 2` or `col >= W-2`. -/
def specBorder (W H row col : Nat) : Prop :=
  row < 2 ∨ (row : ℤ) ≥ (H : ℤ) - 2 ∨ col < 2 ∨ (col : ℤ) ≥ (W : ℤ) - 2

instance (W H row col : Nat) : Decidable (specBorder W H row col) := by
  unfold specBorder
  infer_instance

/-- An interior pixel: `2 <= row < H-2` and `2 <= col < W-2`. -/
def specInterior (W H row col : Nat) : Prop :=
  2 ≤ row ∧ (row : ℤ) < (H : ℤ) - 2 ∧ 2 ≤ col ∧ (col : ℤ) < (W : ℤ) - 2

instance (W H row col : Nat) : Decidable (specInterior W H row col) := by
  unfold specInterior
  infer_instance

/-- A bad pixel: `cfa[q] > whites[color(q)]` or `Yold[q] < 0.001`. -/
def specBadPixel (E : Env) (cfa Yold : Buf) (filters : Nat) (xtrans : Nat → Nat → Nat)
    (roi : Roi) (whites : Nat → ℚ) (W row col : Nat) : Prop :=
  cfa (row * W + col) > whites (cfaColor E filters xtrans roi row col) ∨
    Yold (row * W + col) < 1 / 1000

instance (E : Env) (cfa Yold : Buf) (filters : Nat) (xtrans : Nat → Nat → Nat)
    (roi : Roi) (whites : Nat → ℚ) (W row col : Nat) :
    Decidable (specBadPixel E cfa Yold filters xtrans roi whites W row col) := by
  unfold specBadPixel
  infer_instance

/-- The offsets of the rhombus: the 21 cells with `max(|dr|, |dc|) <= 2` other
than the four corners `|dr| = |dc| = 2`. -/
def specRhombus (dr dc : ℤ) : Prop := max |dr| |dc| ≤ 2 ∧ ¬ (|dr| = 2 ∧ |dc| = 2)

instance (dr dc : ℤ) : Decidable (specRhombus dr dc) := by
  unfold specRhombus
  infer_instance

/-- The distance of the coordinate `x` to the interval `[lo, hi]` of a region. -/
def specAxisDist (lo hi x : ℤ) : ℤ := max 0 (max (lo - x) (x - hi))

/-- A 64×64 mosaic at 0.3 with the 10×10 block of rows and columns 27..36 at 1.0. -/
def cfa64 : Buf := fun k =>
  if 27 ≤ k / 64 ∧ k / 64 ≤ 36 ∧ 27 ≤ k % 64 ∧ k % 64 ≤ 36 then 1 else 3 / 10

/-- A 64×64 image whose floats are all 0.3. -/
def rgb64 : Buf := fun _ => 3 / 10

/-- The offsets of the 5×5 window without its four corners: 21 cells. -/
def windowOffsets : List (ℤ × ℤ) :=
  [(-2, -1), (-2, 0), (-2, 1),
   (-1, -2), (-1, -1), (-1, 0), (-1, 1), (-1, 2),
   (0, -2), (0, -1), (0, 0), (0, 1), (0, 2),
   (1, -2), (1, -1), (1, 0), (1, 1), (1, 2),
   (2, -1), (2, 0), (2, 1)]

/-- The values of `Yold` over the window centred at
`(clamp(irow, 2, H-3), clamp(icol, 2, W-3))`. -/
def specWindow (Yold : Buf) (W H irow icol : Nat) : List ℚ :=
  let r : ℤ := max 2 (min ((H : ℤ) - 3) irow)
  let c : ℤ := max 2 (min ((W : ℤ) - 3) icol)
  windowOffsets.map (fun o => Yold ((r + o.1) * (W : ℤ) + (c + o.2)).toNat)

/-- The mean of `Yold` over the window. -/
def specMean (Yold : Buf) (W H irow icol : Nat) : ℚ :=
  (specWindow Yold W H irow icol).sum / 21

/-- The standard deviation of `Yold` over the window. -/
def specSd (E : Env) (Yold : Buf) (W H irow icol : Nat) : ℚ :=
  E.sqrtf (((specWindow Yold W H irow icol).map
    (fun y => (y - specMean Yold W H irow icol) ^ 2)).sum / 21)

/-- The weight `w = 1/(1 + exp(offset - 200·t))` with `t = log(1 + cv)`,
`cv = sd/sqrt(mean)` and `offset = -2.5 + 200·0.6·threshold²/2`. -/
def specWeightOf (E : Env) (threshold sd mean : ℚ) : ℚ :=
  let offset : ℚ := -(5 / 2) + 200 * (6 / 10) * threshold ^ 2 / 2
  let cv : ℚ := sd / E.sqrtf mean
  let t : ℚ := E.logf (1 + cv)
  1 / (1 + E.expf (offset - 200 * t))

/-- A rational stand-in for `sqrtf` that is exact on the squares of rationals. -/
def sqrtExact (x : ℚ) : ℚ := if Rat.sqrt x * Rat.sqrt x = x then Rat.sqrt x else sqrtQ x

/-- The environment `envQ` with the square root exact on squares. -/
def envRoot : Env := { envQ with sqrtf := sqrtExact }

/-- A 5×5 luminance plane of mean `2⁻¹⁸` and standard deviation `2⁻²⁰` over the
window of the centre pixel. -/
def yold5 : Buf := fun k =>
  (if k = 1 then 14 else if k = 2 then 2 else if k = 3 then 10 else if k = 5 then 6
   else if k = 6 then 9 else if k = 7 then 7 else if k = 8 then 9 else if k = 9 then 7
   else 8) / 2 ^ 21

/-! ## The GraphicsMagick loader (`src/imageio/imageio_gm.c`)
A C string is the list of its characters before the terminating NUL. -/

/-- The glib function `g_ascii_tolower`: the lower-case letter for `A`..`Z`,
every other character unchanged. -/
def g_ascii_tolower (c : Char) : Char :=
  if 'A' ≤ c ∧ c ≤ 'Z' then Char.ofNat (c.toNat + 32) else c

/-- The glib function `g_strrstr(haystack, needle)`: the last occurrence of
`needle` in `haystack`, as the rest of `haystack` from there on; `none` is
`NULL`. -/
def g_strrstr : List Char → List Char → Option (List Char)
  | [], needle => if needle.isEmpty then some [] else none
  | c :: rest, needle =>
    match g_strrstr rest needle with
    | some r => some r
    | none => if needle.isPrefixOf (c :: rest) then some (c :: rest) else none

/-- The glib function `g_ascii_strncasecmp(s1, s2, n)`: compares at most `n`
characters, ignoring the case of ASCII letters, and stops at the end of either
string; 0 when no difference is found. -/
def g_ascii_strncasecmp : List Char → List Char → Nat → ℤ
  | _, _, 0 => 0
  | [], [], _ + 1 => 0
  | [], c2 :: _, _ + 1 => 0 - (c2.toNat : ℤ)
  | c1 :: _, [], _ + 1 => (c1.toNat : ℤ)
  | c1 :: s1, c2 :: s2, n + 1 =>
    if g_ascii_tolower c1 ≠ g_ascii_tolower c2 then
      ((g_ascii_tolower c1).toNat : ℤ) - ((g_ascii_tolower c2).toNat : ℤ)
    else g_ascii_strncasecmp s1 s2 n

/-- The array `extensions_whitelist` of `_supported_image`. -/
def extensions_whitelist : List (List Char) :=
  ["tiff", "tif",
   "pam", "pbm", "pgm", "ppm", "pnm",
   "jpc", "jp2", "jpf", "jpx",
   "bmp", "miff", "dcm", "jng", "mng", "gif",
   "fits", "fit", "fts",
   "cin", "dpx",
   "jxl",
   "webp"].map String.toList

/-- The loop of `_supported_image` over the whitelist entries that are left:
`true` as soon as `g_ascii_strncasecmp(ext, *i, strlen(*i))` is 0. -/
def supportedLoop (ext : List Char) : List (List Char) → Bool
  | [] => false
  | i :: rest => if g_ascii_strncasecmp ext i i.length = 0 then true else supportedLoop ext rest

/-- The function `_supported_image`. -/
def _supported_image (filename : List Char) : Bool :=
  match g_strrstr filename ['.'] with
  | none => false
  | some ext => supportedLoop (ext.drop 1) extensions_whitelist

/-- The values of `dt_imageio_retval_t` that `dt_imageio_open_gm` returns. -/
inductive dt_imageio_retval_t where
  | DT_IMAGEIO_OK
  | DT_IMAGEIO_FILE_NOT_FOUND
  | DT_IMAGEIO_LOAD_FAILED
  | DT_IMAGEIO_CACHE_FULL
  deriving DecidableEq

/-- The return value of `dt_imageio_open_gm`. The three flags are the outcomes
of the GraphicsMagick and cache calls: `ReadImage` returned an image,
`dt_mipmap_cache_alloc` returned a buffer, `DispatchImage` returned
`MagickPass`. -/
def dt_imageio_open_gm (filename : List Char) (image mipbuf pass : Bool) :
    dt_imageio_retval_t :=
  if !_supported_image filename then .DT_IMAGEIO_LOAD_FAILED
  else if !image then .DT_IMAGEIO_FILE_NOT_FOUND
  else if !mipbuf then .DT_IMAGEIO_CACHE_FULL
  else if !pass then .DT_IMAGEIO_LOAD_FAILED
  else .DT_IMAGEIO_OK

/-- The text after the last `.` of a file name, if it has one. -/
def specAfterLastDot : List Char → Option (List Char)
  | [] => none
  | c :: rest =>
    match specAfterLastDot rest with
    | some e => some e
    | none => if c = '.' then some rest else none

/-- The claim of the specification: the file name has a `.` and the text after
its last `.` equals, ignoring ASCII case, one of the whitelisted extensions. -/
def specSupported (filename : List Char) : Bool :=
  match specAfterLastDot filename with
  | none => false
  | some e =>
    extensions_whitelist.any (fun w => w.map g_ascii_tolower == e.map g_ascii_tolower)

/-! ## `_calc_9x9_gauss_coeffs` -/

/-- The float operations `_calc_9x9_gauss_coeffs` uses, over a type `F` of
float values. -/
structure FloatOps (F : Type) where
  /-- The conversion `(float)n` of an `int`. -/
  ofInt : ℤ → F
  /-- A float literal. -/
  lit : ℚ → F
  add : F → F → F
  mul : F → F → F
  div : F → F → F
  /-- The comparison `a <= b`. -/
  le : F → F → Bool
  expf : F → F

/-- The float operations on exact rationals (the convention of this file):
a division by zero yields 0. -/
def ratOps (E : Env) : FloatOps ℚ where
  ofInt := fun n => (n : ℚ)
  lit := fun q => q
  add := fun a b => a + b
  mul := fun a b => a * b
  div := fun a b => a / b
  le := fun a b => decide (a ≤ b)
  expf := E.expf

/-- Lines 57-64 of `_calc_9x9_gauss_coeffs`: the body of the inner loop at
`k = a - 4`, `j = b - 4`, on the state `(kernel, sum)`; `kernel[a][b]` is at
index `a·9 + b`. -/
def gaussKernelRound {F : Type} (O : FloatOps F) (sigma : F) (a b : Nat)
    (st : (Nat → F) × F) : (Nat → F) × F :=
  let range : F := O.mul (O.lit (9 / 2)) (O.lit (9 / 2))
  let temp : F := O.mul (O.mul (O.lit (-2)) sigma) sigma
  let k : ℤ := (a : ℤ) - 4
  let j : ℤ := (b : ℤ) - 4
  let rad : F := O.ofInt (k * k + j * j)
  if O.le rad range then
    let kernel := store st.1 (a * 9 + b) (O.expf (O.div rad temp))
    (kernel, O.add st.2 (kernel (a * 9 + b)))
  else (store st.1 (a * 9 + b) (O.lit 0), st.2)

/-- Lines 49-67 of `_calc_9x9_gauss_coeffs`: the local array `kernel[9][9]`
and `sum` after the first pair of loops. `kernel` is the array as the
function finds it. -/
def gaussKernelLoop {F : Type} (O : FloatOps F) (kernel : Nat → F) (sigma : F) :
    (Nat → F) × F :=
  forLoop 9 (fun a st =>
    forLoop 9 (fun b st => gaussKernelRound O sigma a b st) st) (kernel, O.lit 0)

/-- The function `_calc_9x9_gauss_coeffs`: the new contents of `coeffs`. -/
def _calc_9x9_gauss_coeffs {F : Type} (O : FloatOps F) (kernel : Nat → F)
    (coeffs : Nat → F) (sigma : F) : Nat → F :=
  let st := gaussKernelLoop O kernel sigma
  forLoop 5 (fun k coeffs =>
    forLoop 5 (fun j coeffs =>
      store coeffs (5 * k + j) (O.div (st.1 ((k + 4) * 9 + (j + 4))) st.2)) coeffs) coeffs

/-- The value `exp(-(a²+b²)/(2·sigma²))` of the lattice point `(a, b)`, zeroed
when `a² + b² > 20.25`. -/
def specGauss (E : Env) (sigma : ℚ) (a b : ℤ) : ℚ :=
  if ((a * a + b * b : ℤ) : ℚ) ≤ 81 / 4 then
    E.expf (-((a * a + b * b : ℤ) : ℚ) / (2 * sigma ^ 2))
  else 0

/-- The sum `S` over all lattice points of `[-4..4]²`. -/
def specGaussSum (E : Env) (sigma : ℚ) : ℚ :=
  ∑ a in Finset.Icc (-4 : ℤ) 4, ∑ b in Finset.Icc (-4 : ℤ) 4, specGauss E sigma a b

/-- A float value with the IEEE 754 special values: a finite number with its
sign kept apart (so that `+0` and `-0` differ), an infinity, or a NaN.
Rounding and overflow of finite values are not modelled. -/
inductive Ieee where
  | fin (neg : Bool) (mag : ℚ)
  | inf (neg : Bool)
  | nan
  deriving DecidableEq

/-- The finite float of a rational. -/
def Ieee.ofRat (q : ℚ) : Ieee := .fin (decide (q < 0)) |q|

/-- The rational a finite float stands for. -/
def Ieee.val (neg : Bool) (mag : ℚ) : ℚ := if neg then -mag else mag

/-- IEEE addition. -/
def Ieee.add : Ieee → Ieee → Ieee
  | .nan, _ => .nan
  | _, .nan => .nan
  | .inf s, .inf t => if s = t then .inf s else .nan
  | .inf s, .fin _ _ => .inf s
  | .fin _ _, .inf t => .inf t
  | .fin s m, .fin t n =>
    if Ieee.val s m + Ieee.val t n = 0 then .fin (s && t) 0
    else Ieee.ofRat (Ieee.val s m + Ieee.val t n)

/-- IEEE multiplication. -/
def Ieee.mul : Ieee → Ieee → Ieee
  | .nan, _ => .nan
  | _, .nan => .nan
  | .inf s, .inf t => .inf (xor s t)
  | .inf s, .fin t n => if n = 0 then .nan else .inf (xor s t)
  | .fin s m, .inf t => if m = 0 then .nan else .inf (xor s t)
  | .fin s m, .fin t n => .fin (xor s t) (m * n)

/-- IEEE division: `0/0` and `inf/inf` are NaN, a non-zero number over zero
is an infinity. -/
def Ieee.div : Ieee → Ieee → Ieee
  | .nan, _ => .nan
  | _, .nan => .nan
  | .inf _, .inf _ => .nan
  | .inf s, .fin t _ => .inf (xor s t)
  | .fin s _, .inf t => .fin (xor s t) 0
  | .fin s m, .fin t n =>
    if n = 0 then (if m = 0 then .nan else .inf (xor s t))
    else .fin (xor s t) (m / n)

/-- IEEE comparison `a <= b`: false when either side is a NaN. -/
def Ieee.le : Ieee → Ieee → Bool
  | .nan, _ => false
  | _, .nan => false
  | .inf s, .inf t => s || !t
  | .inf s, .fin _ _ => s
  | .fin _ _, .inf t => !t
  | .fin s m, .fin t n => decide (Ieee.val s m ≤ Ieee.val t n)

/-- The float operations with the IEEE special values; `expf` of a finite
number is taken from `E`. -/
def ieeeOps (E : Env) : FloatOps Ieee where
  ofInt := fun n => Ieee.ofRat n
  lit := Ieee.ofRat
  add := Ieee.add
  mul := Ieee.mul
  div := Ieee.div
  le := Ieee.le
  expf := fun x =>
    match x with
    | .nan => .nan
    | .inf true => .fin false 0
    | .inf false => .inf false
    | .fin s m => Ieee.ofRat (E.expf (Ieee.val s m))

/-- A model of `expf` that underflows: 0 below -104, as the single-precision
`expf` does, and the rational stand-in elsewhere. -/
def expFlush (x : ℚ) : ℚ := if x < -104 then 0 else expQ x

/-- The environment `envQ` with the underflowing exponential. -/
def envFlush : Env := { envQ with expf := expFlush }

/-! ## The 9×9 convolution as the specification words it -/

/-- The zero-padded 9×9 convolution of the specification at pixel `(row, col)`:
the sum over the offsets `(ir, ic)` of `[-4..4]²` whose target lies inside the
image of `kern[5·|ir| + |ic|]·in[(row+ir)·w + col+ic]`. -/
def specConv (kern : Nat → ℚ) (inp : Buf) (w h row col : Nat) : ℚ :=
  ∑ ir in Finset.Icc (-4 : ℤ) 4, ∑ ic in Finset.Icc (-4 : ℤ) 4,
    if 0 ≤ (row : ℤ) + ir ∧ (row : ℤ) + ir < (h : ℤ) ∧
        0 ≤ (col : ℤ) + ic ∧ (col : ℤ) + ic < (w : ℤ) then
      kern (5 * ir.natAbs + ic.natAbs) * inp ((((row : ℤ) + ir) * (w : ℤ) + ((col : ℤ) + ic)).toNat)
    else 0

/-- The kernel property the unrolled fast path relies on: slot `5a + b`
equals slot `5b + a`, and the slots 19, 23 and 24 (the corners `(3,4)`,
`(4,3)`, `(4,4)` of the quadrant) are zero. -/
def kernSymmetric (kern : Nat → ℚ) : Prop :=
  (∀ a, a < 5 → ∀ b, b < 5 → kern (5 * a + b) = kern (5 * b + a)) ∧
    kern 19 = 0 ∧ kern 23 = 0 ∧ kern 24 = 0

instance (kern : Nat → ℚ) : Decidable (kernSymmetric kern) := by
  unfold kernSymmetric
  infer_instance

/-- A 25-slot kernel with the single weight 1 in slot `n`. -/
def kernUnit (n : Nat) : Nat → ℚ := fun j => if j = n then 1 else 0

/-- A buffer whose floats are all 1. -/
def bufOnes : Buf := fun _ => 1

/-! ## The cells `_modify_blend` reads -/

/-- Lines 510-524 of `_modify_blend`: the cells `(y, x)` of `Yold` the two
loops over the window of pixel `(irow, icol)` read, in the order of the
reads (each cell is read twice in a row, for `sum` and for `sum_sq`). -/
def modifyReads (width height irow icol : Nat) : List (ℤ × ℤ) :=
  let row : ℤ := CLAMP (irow : ℤ) 2 ((height : ℤ) - 3)
  let col : ℤ := CLAMP (icol : ℤ) 2 ((width : ℤ) - 3)
  let l1 : List (ℤ × ℤ) := forLoop 3 (fun a acc =>
    let y : ℤ := row - 1 + (a : ℤ)
    forLoop 5 (fun b acc =>
      let x : ℤ := col - 2 + (b : ℤ)
      acc ++ [(y, x)]) acc) []
  forLoop 3 (fun b acc =>
    let x : ℤ := col - 1 + (b : ℤ)
    acc ++ [(row - 2, x), (row + 2, x)]) l1

/-- The offsets of the window in the order the loops visit them. -/
def readOffsets : List (ℤ × ℤ) :=
  [(-1, -2), (-1, -1), (-1, 0), (-1, 1), (-1, 2),
   (0, -2), (0, -1), (0, 0), (0, 1), (0, 2),
   (1, -2), (1, -1), (1, 0), (1, 1), (1, 2),
   (-2, -1), (2, -1), (-2, 0), (2, 0), (-2, 1), (2, 1)]

/-! ## The Bayer estimator as the specification words it -/

/-- The sites `(row, col)` the loops of `_calcRadiusBayer` visit, in the order
of the visits: rows `4 .. height-5`, columns `5 + (fc[row & 1] & 1)` in steps
of two below `width - 4`. -/
def bayerSites (E : Env) (width height filters : Nat) : List (Nat × Nat) :=
  let fc : Nat → Nat := fun i => if i = 0 then E.FC 0 0 filters else E.FC 1 0 filters
  forLoop (height - 8) (fun i acc =>
    let row := i + 4
    let col0 := 5 + (fc (row % 2)) % 2
    forLoop ((width - 4 - col0 + 1) / 2) (fun j acc => acc ++ [(row, col0 + 2 * j)]) acc) []

/-- The sample of the mosaic at row `y`, column `x`. -/
def specBayerCell (inp : Buf) (width : Nat) (y x : ℤ) : ℚ := inp (y * (width : ℤ) + x).toNat

/-- The diagonal partner of the site `(row, col)`: the lower-right one
`(row+1, col+1)` when `right`, the lower-left one `(row+1, col-1)` otherwise. -/
def specBayerPartner (inp : Buf) (width row col : Nat) (right : Bool) : ℚ :=
  specBayerCell inp width ((row : ℤ) + 1) (if right then (col : ℤ) + 1 else (col : ℤ) - 1)

/-- The guard cells of the clipped-green table for the winning member of the
pair; on a tie the site counts as the winner. -/
def specBayerGuard (inp : Buf) (width row col : Nat) (right : Bool) : List ℚ :=
  let r : ℤ := (row : ℤ)
  let c : ℤ := (col : ℤ)
  if specBayerPartner inp width row col right ≤ specBayerCell inp width r c then
    [specBayerCell inp width (r - 1) (c - 1), specBayerCell inp width (r - 1) (c + 1),
     specBayerCell inp width (r + 1) (c + 1)]
  else if right then
    [specBayerCell inp width r c, specBayerCell inp width r (c + 2),
     specBayerCell inp width (r + 2) c, specBayerCell inp width (r + 2) (c + 2)]
  else
    [specBayerCell inp width r (c - 2), specBayerCell inp width r c,
     specBayerCell inp width (r + 2) (c - 2), specBayerCell inp width (r + 2) c]

/-- A pair is eligible when both values exceed `RAWEPS`, their maximum exceeds
`lowerLimit`, and no guard cell is `>= upperLimit`. -/
def specBayerEligible (inp : Buf) (width : Nat) (lowerLimit upperLimit : ℚ) (row col : Nat)
    (right : Bool) : Prop :=
  specBayerCell inp width row col > RAWEPS ∧ specBayerPartner inp width row col right > RAWEPS ∧
    max (specBayerCell inp width row col) (specBayerPartner inp width row col right) > lowerLimit ∧
    ∀ g ∈ specBayerGuard inp width row col right, g < upperLimit

instance (inp : Buf) (width : Nat) (lowerLimit upperLimit : ℚ) (row col : Nat) (right : Bool) :
    Decidable (specBayerEligible inp width lowerLimit upperLimit row col right) := by
  unfold specBayerEligible
  infer_instance

/-- The max/min ratio of a pair. -/
def specBayerRatio (inp : Buf) (width row col : Nat) (right : Bool) : ℚ :=
  max (specBayerCell inp width row col) (specBayerPartner inp width row col right)
    / min (specBayerCell inp width row col) (specBayerPartner inp width row col right)

/-- The running maximum after one pair: the ratio of the pair when it is
eligible and larger, the old value otherwise. -/
def specBayerStep (inp : Buf) (width : Nat) (lowerLimit upperLimit : ℚ) (row col : Nat)
    (right : Bool) (m : ℚ) : ℚ :=
  if specBayerEligible inp width lowerLimit upperLimit row col right
      ∧ m < specBayerRatio inp width row col right
  then specBayerRatio inp width row col right else m

/-! ## Bayer layouts and inputs for the anchor search -/

/-- The four Bayer layouts, named by the colours of the 2×2 tile in reading
order. -/
inductive BayerLayout where
  | RGGB
  | BGGR
  | GRBG
  | GBRG

/-- The colour (0 red, 1 green, 2 blue) of the cell `(row, col)` of a layout. -/
def BayerLayout.color (L : BayerLayout) (row col : Nat) : Nat :=
  let tile : List Nat :=
    match L with
    | BayerLayout.RGGB => [0, 1, 1, 2]
    | BayerLayout.BGGR => [2, 1, 1, 0]
    | BayerLayout.GRBG => [1, 0, 2, 1]
    | BayerLayout.GBRG => [1, 2, 0, 1]
  tile.getD (2 * (row % 2) + col % 2) 0

/-- The `filters` word darktable uses for a layout. -/
def BayerLayout.filters (L : BayerLayout) : Nat :=
  match L with
  | BayerLayout.RGGB => 0x94949494
  | BayerLayout.BGGR => 0x16161616
  | BayerLayout.GRBG => 0x61616161
  | BayerLayout.GBRG => 0x49494949

/-- The X-Trans matrix `G B G G R G / R G R B G B / G B G G R G /
G R G G B G / B G B R G R / G R G G B G` (0 red, 1 green, 2 blue). -/
def xtransStd : Nat → Nat → Nat := fun r c =>
  ([[1, 2, 1, 1, 0, 1], [0, 1, 0, 2, 1, 2], [1, 2, 1, 1, 0, 1],
    [1, 0, 1, 1, 2, 1], [2, 1, 2, 0, 1, 0], [1, 0, 1, 1, 2, 1]].getD r []).getD c 0

/-- A roi without offset. -/
def roiOrigin (width height : Nat) : Roi := { width := width, height := height, x := 0, y := 0 }

/-! ## The OpenCL entry point `_capture_sharpen_cl`
The device kernels are declared outside `capture.c`; the model records which
calls the function makes, in order, and the error code it returns. -/

/-- The OpenCL status `CL_SUCCESS`. -/
def CL_SUCCESS : ℤ := 0

/-- The OpenCL status `CL_MEM_OBJECT_ALLOCATION_FAILURE`. -/
def CL_MEM_OBJECT_ALLOCATION_FAILURE : ℤ := -4

/-- The device calls of `_capture_sharpen_cl`: the copy of `dev_in` to the
host, the seven allocations of lines 768-774 (one event), the kernels, the
two constant copies of lines 809-810 (one event) and the releases after the
label `finish` (one event). -/
inductive ClCall where
  | copy_device_to_host
  | alloc_buffers
  | prefill_clip_mask
  | prepare_blend
  | modify_blend
  | gaussian_fast_blur
  | final_blend
  | show_blend_mask
  | copy_gauss_tables
  | gaussian_9x9_div
  | gaussian_9x9_mul
  | capture_result
  | release

/-- What the OpenCL runtime answers during one call of `_capture_sharpen_cl`. -/
structure ClDevice where
  /-- Whether `dt_alloc_align_float(pixels)` returns a block. -/
  host_in : Bool
  /-- The host copy `dt_opencl_copy_device_to_host` delivers, `none` when it
  does not return `CL_SUCCESS`. -/
  copy_to_host : Option Buf
  /-- Whether none of the seven device objects of lines 768-774 is `NULL`. -/
  buffers : Bool
  /-- Whether neither `gcoeffs` nor `gauss_idx` is `NULL` once the host table
  exists. -/
  gauss_tables : Bool
  /-- The status an enqueued kernel returns; the number is the round of the
  Richardson-Lucy loop, 0 outside it. -/
  enqueue : ClCall → Nat → ℤ

/-- What a call of `_capture_sharpen_cl` leaves behind: the returned status,
the device calls made, and the two fields of `self` it may write. -/
structure ClOutcome where
  err : ℤ
  calls : List ClCall
  autoradius : Option Bool
  cs_radius : ℚ

/-- A run of `err = enqueue(..); if(err != CL_SUCCESS) goto finish;` steps:
the status and the kernels enqueued. -/
def clEnqueue (dev : ClDevice) : List ClCall → ℤ × List ClCall
  | [] => (CL_SUCCESS, [])
  | c :: cs =>
    if dev.enqueue c 0 ≠ CL_SUCCESS then (dev.enqueue c 0, [c])
    else ((clEnqueue dev cs).1, c :: (clEnqueue dev cs).2)

/-- The loop `for(iter = 0; iter < d->cs_iter && !dt_pipe_shutdown(pipe); iter++)`
of `_capture_sharpen_cl`: `n` rounds are left, `iter` is the counter, `err` the
status so far. The result is the status, the kernels enqueued, and whether
the loop left through `goto finish`. -/
def clLoop (E : Env) (dev : ClDevice) : Nat → Nat → ℤ → ℤ × List ClCall × Bool
  | 0, _, err => (err, [], false)
  | n + 1, iter, err =>
    if E.dt_pipe_shutdown iter then (err, [], false)
    else if dev.enqueue ClCall.gaussian_9x9_div iter ≠ CL_SUCCESS then
      (dev.enqueue ClCall.gaussian_9x9_div iter, [ClCall.gaussian_9x9_div], true)
    else if dev.enqueue ClCall.gaussian_9x9_mul iter ≠ CL_SUCCESS then
      (dev.enqueue ClCall.gaussian_9x9_mul iter,
        [ClCall.gaussian_9x9_div, ClCall.gaussian_9x9_mul], true)
    else
      let r := clLoop E dev n (iter + 1) (dev.enqueue ClCall.gaussian_9x9_mul iter)
      (r.1, ClCall.gaussian_9x9_div :: ClCall.gaussian_9x9_mul :: r.2.1, r.2.2)

/-- Lines 776-841 of `_capture_sharpen_cl`, from the test of the seven device
objects to the label `finish`: the status `err` and the calls made. -/
def clBody (E : Env) (dev : ClDevice) (self : Module) (d : Data) (al : Allocs) (roi : Roi)
    (radius : ℚ) (showmask show_sigmamask : Bool) : ℤ × List ClCall :=
  if !dev.buffers then (CL_MEM_OBJECT_ALLOCATION_FAILURE, [])
  else
    let m := clEnqueue dev [ClCall.prefill_clip_mask, ClCall.prepare_blend,
      ClCall.modify_blend, ClCall.gaussian_fast_blur, ClCall.final_blend]
    if m.1 ≠ CL_SUCCESS then m
    else if showmask then
      (dev.enqueue ClCall.show_blend_mask 0, m.2 ++ [ClCall.show_blend_mask])
    else
      match _cs_precalc_gauss_idx E self.image roi radius d.cs_boost d.cs_center al.table with
      | none => (CL_MEM_OBJECT_ALLOCATION_FAILURE, m.2)
      | some _ =>
        if !dev.gauss_tables then
          (CL_MEM_OBJECT_ALLOCATION_FAILURE, m.2 ++ [ClCall.copy_gauss_tables])
        else if show_sigmamask then
          (dev.enqueue ClCall.show_blend_mask 0,
            m.2 ++ [ClCall.copy_gauss_tables, ClCall.show_blend_mask])
        else
          let l := clLoop E dev d.cs_iter.toNat 0 CL_MEM_OBJECT_ALLOCATION_FAILURE
          if l.2.2 then (l.1, m.2 ++ [ClCall.copy_gauss_tables] ++ l.2.1)
          else
            (dev.enqueue ClCall.capture_result 0,
              m.2 ++ [ClCall.copy_gauss_tables] ++ l.2.1 ++ [ClCall.capture_result])

/-- The function `_capture_sharpen_cl`. -/
def _capture_sharpen_cl (E : Env) (dev : ClDevice) (self : Module) (pipe : Pipe) (d : Data)
    (al : Allocs) (roi : Roi) (showmask show_sigmamask : Bool) : ClOutcome :=
  let width := roi.width
  let height := roi.height
  if pipe.thumbnail && !(E._get_thumb_quality pipe.final_width pipe.final_height) then
    ⟨CL_SUCCESS, [], self.autoradius, self.cs_radius⟩
  else if decide (d.cs_iter < 1) && !showmask then
    ⟨CL_SUCCESS, [], self.autoradius, self.cs_radius⟩
  else
    let filters := pipe.filters
    let fullpipe := pipe.full
    let autoradius : Bool := fullpipe && (self.autoradius == some true)
    let old_radius := d.cs_radius
    let step : ℚ × (Option Bool × ℚ) × List ClCall :=
      if autoradius = true ∨ old_radius < 1 / 100 then
        if dev.host_in then
          match dev.copy_to_host with
          | some inp =>
            let radius :=
              if filters ≠ 9 then _calcRadiusBayer E inp width height (1 / 100) 1 filters
              else _calcRadiusXtrans E inp (1 / 100) 1 roi pipe.xtrans
            (radius, autoRadiusUpdate radius old_radius fullpipe self.autoradius self.cs_radius,
              [ClCall.copy_device_to_host])
          | none => (old_radius, (self.autoradius, self.cs_radius), [ClCall.copy_device_to_host])
        else (old_radius, (self.autoradius, self.cs_radius), [])
      else (old_radius, (self.autoradius, self.cs_radius), [])
    let body := clBody E dev self d al roi step.1 showmask show_sigmamask
    ⟨body.1, step.2.2 ++ [ClCall.alloc_buffers] ++ body.2 ++ [ClCall.release],
      step.2.1.1, step.2.1.2⟩

/-- A device on which every allocation, copy and kernel succeeds; the host
copy of `dev_in` is `inp`. -/
def devOk (inp : Buf) : ClDevice :=
  { host_in := true, copy_to_host := some inp, buffers := true, gauss_tables := true,
    enqueue := fun _ _ => CL_SUCCESS }

/-- Parameters of a call with no iteration and the stored radius 0.5. -/
def dataNoIter : Data :=
  { cs_iter := 0, cs_radius := 1 / 2, cs_thrs := 0, cs_boost := 0, cs_center := 0 }

/-- The buffers `(blendmask, tmp1, luminance, tmp2)` of `_capture_sharpen` after
the mask stages on the 5×5 image `out5`. -/
def blend5 : Buf × Buf × Buf × Buf :=
  csBlend envQ (pipeBayer false) dataHalf (fun _ => 1 / 2) out5 (Roi.mk 5 5 0 0)
    (fun _ => 0) (fun _ => 0) (fun _ => 0) (fun _ => 0)

/-- What `_prepare_blend` leaves, `(mask, Yold)`, on a 5×5 image whose floats
are all 0.3, with no CFA sample above its white level. -/
def prepFlat5 : Buf × Buf :=
  _prepare_blend envQ (fun _ => 0) (fun _ => 3 / 10) 0x94949494 (fun _ _ => 0)
    (Roi.mk 5 5 0 0) (fun _ => 0) (fun _ => 0) (fun _ => 1) 5 5

/-- The max/min ratios of the eligible pairs of the visited sites, in the order
of the visits. -/
def specBayerRatios (E : Env) (inp : Buf) (width height : Nat) (lowerLimit upperLimit : ℚ)
    (filters : Nat) : List ℚ :=
  (bayerSites E width height filters).flatMap (fun s =>
    ([false, true].filter (fun right =>
      decide (specBayerEligible inp width lowerLimit upperLimit s.1 s.2 right))).map
      (fun right => specBayerRatio inp width s.1 s.2 right))

/-- The value `max(1, largest ratio of an eligible pair)`. -/
def specBayerMaxRatio (E : Env) (inp : Buf) (width height : Nat) (lowerLimit upperLimit : ℚ)
    (filters : Nat) : ℚ :=
  (specBayerRatios E inp width height lowerLimit upperLimit filters).foldl max 1

/-- Lines 133-153 of `_calcRadiusBayer`, reached with `val00 > RAWEPS`: the
first pair of the site `(row, col)`. The result is the running maximum after
the pair and the divisor `minVal` of the division `maxVal0 / minVal`, if the
pair executes it. -/
def calcRadiusBayerFirstTrace (inp : Buf) (width : Nat) (lowerLimit upperLimit : ℚ)
    (row col : Nat) (maxRatio : ℚ) : ℚ × List ℚ :=
  let cfa : ℤ → ℚ := fun off => inp (((row * width + col : Nat) : ℤ) + off).toNat
  let w : ℤ := (width : ℤ)
  let val00 := cfa 0
  let val1m1 := cfa (w - 1)
  let val1p1 := cfa (w + 1)
  let maxVal0 := MAX val00 val1m1
  if val1m1 > RAWEPS ∧ maxVal0 > lowerLimit then
    let minVal := MIN val00 val1m1
    if maxVal0 > maxRatio * minVal then
      let clipped : Bool :=
        if maxVal0 = val00 then
          decide (MAX (MAX (cfa (-w - 1)) (cfa (-w + 1))) val1p1 ≥ upperLimit)
        else
          decide (MAX (MAX (MAX (cfa (-2)) val00) (cfa (2 * w - 2))) (cfa (2 * w))
            ≥ upperLimit)
      if !clipped then (maxVal0 / minVal, [minVal]) else (maxRatio, [])
    else (maxRatio, [])
  else (maxRatio, [])

/-- The body of the column loop of `_calcRadiusBayer` at the site `(row, col)`
with a record of its divisions: the new running maximum and the divisors
`minVal` of the divisions `maxVal / minVal` it executes, in order. -/
def calcRadiusBayerSiteTrace (inp : Buf) (width : Nat) (lowerLimit upperLimit : ℚ)
    (row col : Nat) (maxRatio : ℚ) : ℚ × List ℚ :=
  let cfa : ℤ → ℚ := fun off => inp (((row * width + col : Nat) : ℤ) + off).toNat
  let w : ℤ := (width : ℤ)
  let val00 := cfa 0
  if val00 > RAWEPS then
    let val1p1 := cfa (w + 1)
    let first := calcRadiusBayerFirstTrace inp width lowerLimit upperLimit row col maxRatio
    let maxVal1 := MAX val00 val1p1
    if val1p1 > RAWEPS ∧ maxVal1 > lowerLimit then
      let minVal := MIN val00 val1p1
      if maxVal1 > first.1 * minVal then
        if maxVal1 = val00 then
          if MAX (MAX (cfa (-w - 1)) (cfa (-w + 1))) val1p1 ≥ upperLimit then first
          else (maxVal1 / minVal, first.2 ++ [minVal])
        else
          if MAX (MAX (MAX val00 (cfa 2)) (cfa (2 * w))) (cfa (2 * w + 2)) ≥ upperLimit
          then first
          else (maxVal1 / minVal, first.2 ++ [minVal])
      else first
    else first
  else (maxRatio, [])

/-! ## Loops that write one cell per round -/

theorem forLoop_succ {σ : Type} (n : Nat) (body : Nat → σ → σ) (s : σ) :
    forLoop (n + 1) body s = body n (forLoop n body s) := rfl

theorem store_same {α : Type} (b : Nat → α) (i : Nat) (v : α) : store b i v i = v := by
  simp [store]

theorem store_other {α : Type} (b : Nat → α) (i j : Nat) (v : α) (h : j ≠ i) :
    store b i v j = b j := by
  simp [store, h]

/-- Row-major indices of distinct cells are distinct. -/
theorem idx2_inj {w r c r' c' : Nat} (hc : c < w) (hc' : c' < w)
    (h : r * w + c = r' * w + c') : r = r' ∧ c = c' := by
  have key : ∀ a b x y : Nat, x < w → y < w → a * w + x = b * w + y → ¬ a < b := by
    intro a b x y hx _ hab hlt
    have h1 : (a + 1) * w ≤ b * w := Nat.mul_le_mul_right w hlt
    have h2 : (a + 1) * w = a * w + w := by ring
    omega
  have h1 := key r r' c c' hc hc' h
  have h2 := key r' r c' c hc' hc h.symm
  have hr : r = r' := by omega
  subst hr
  exact ⟨rfl, by omega⟩

/-- A loop in which round `i` changes only the cells it owns, and no cell has
two owners, leaves at each cell the value its owner wrote (or the old one). -/
theorem forLoop_owned {σ β : Type} (π : σ → Nat → β) (n : Nat) (body : Nat → σ → σ)
    (own : Nat → Nat → Prop) (val : Nat → Nat → β → β)
    (hdisj : ∀ i j m, i < n → j < n → own i m → own j m → i = j)
    (hframe : ∀ i s m, i < n → ¬ own i m → π (body i s) m = π s m)
    (hwrite : ∀ i s m, i < n → own i m → π (body i s) m = val i m (π s m))
    (s : σ) (m : Nat) :
    (∀ i, i < n → own i m → π (forLoop n body s) m = val i m (π s m)) ∧
    ((∀ i, i < n → ¬ own i m) → π (forLoop n body s) m = π s m) := by
  have main : ∀ k, k ≤ n →
      (∀ i, i < k → own i m → π (forLoop k body s) m = val i m (π s m)) ∧
      ((∀ i, i < k → ¬ own i m) → π (forLoop k body s) m = π s m) := by
    intro k
    induction k with
    | zero =>
      intro _
      exact ⟨fun i hi => absurd hi (Nat.not_lt_zero i), fun _ => rfl⟩
    | succ k ih =>
      intro hk
      have hk' : k < n := hk
      obtain ⟨ih1, ih2⟩ := ih (Nat.le_of_lt hk')
      rw [forLoop_succ]
      by_cases ho : own k m
      · have hnone : ∀ i, i < k → ¬ own i m := by
          intro i hi hoi
          have := hdisj i k m (Nat.lt_trans hi hk') hk' hoi ho
          omega
        refine ⟨?_, fun h => absurd ho (h k (Nat.lt_succ_self k))⟩
        intro i hi hoi
        have hik : i = k := hdisj i k m (Nat.lt_of_lt_of_le hi hk) hk' hoi ho
        subst hik
        rw [hwrite i _ m hk' ho, ih2 hnone]
      · rw [hframe k _ m hk' ho]
        refine ⟨?_, fun h => ih2 (fun i hi => h i (Nat.lt_succ_of_lt hi))⟩
        intro i hi hoi
        have hne : i ≠ k := fun e => ho (e ▸ hoi)
        exact ih1 i (by omega) hoi
  exact main n (Nat.le_refl n)

/-- The row-major double loop whose round `(r, c)` rewrites cell `r·w + c` from
its old value and touches nothing else. -/
theorem forLoop2_pointwise {σ β : Type} (π : σ → Nat → β) (h w : Nat)
    (body : Nat → Nat → σ → σ) (val : Nat → Nat → β → β)
    (hframe : ∀ r c s m, r < h → c < w → m ≠ r * w + c → π (body r c s) m = π s m)
    (hwrite : ∀ r c s, r < h → c < w → π (body r c s) (r * w + c) = val r c (π s (r * w + c)))
    (s : σ) :
    (∀ r c, r < h → c < w →
      π (forLoop h (fun r s => forLoop w (fun c s => body r c s) s) s) (r * w + c)
        = val r c (π s (r * w + c))) ∧
    (∀ m, h * w ≤ m →
      π (forLoop h (fun r s => forLoop w (fun c s => body r c s) s) s) m = π s m) := by
  have inner : ∀ r, r < h → ∀ (t : σ) (m : Nat),
      (∀ c, c < w → m = r * w + c →
        π (forLoop w (fun c s => body r c s) t) m = val r c (π t m)) ∧
      ((∀ c, c < w → ¬ m = r * w + c) →
        π (forLoop w (fun c s => body r c s) t) m = π t m) := by
    intro r hr t m
    refine forLoop_owned π w (fun c s => body r c s) (fun c m => m = r * w + c)
      (fun c _ old => val r c old) ?_ ?_ ?_ t m
    · intro i j m _ _ hi hj
      omega
    · intro i s m hi hne
      exact hframe r i s m hr hi hne
    · intro i s m hi he
      subst he
      exact hwrite r i s hr hi
  have outer := fun m => forLoop_owned π h (fun r s => forLoop w (fun c s => body r c s) s)
    (fun r m => ∃ c, c < w ∧ m = r * w + c) (fun r m old => val r (m - r * w) old)
    (by
      intro i j m _ _ ⟨c, hc, e⟩ ⟨c', hc', e'⟩
      exact (idx2_inj hc hc' (e.symm.trans e')).1)
    (by
      intro i t m hi hno
      exact (inner i hi t m).2 (fun c hc e => hno ⟨c, hc, e⟩))
    (by
      intro i t m hi ⟨c, hc, e⟩
      have := (inner i hi t m).1 c hc e
      rw [this, e]
      simp)
    s m
  constructor
  · intro r c hr hc
    have := (outer (r * w + c)).1 r hr ⟨c, hc, rfl⟩
    rw [this]
    simp
  · intro m hm
    refine (outer m).2 ?_
    intro r hr ⟨c, hc, e⟩
    have h1 : (r + 1) * w ≤ h * w := Nat.mul_le_mul_right w hr
    have h2 : (r + 1) * w = r * w + w := by ring
    omega

/-- Every index below `h·w` is the row-major index of a cell. -/
theorem idx2_split {w : Nat} (h i : Nat) (hi : i < h * w) :
    ∃ r c, r < h ∧ c < w ∧ i = r * w + c := by
  have hw : 0 < w := by
    rcases Nat.eq_zero_or_pos w with h0 | h0
    · subst h0; simp at hi
    · exact h0
  refine ⟨i / w, i % w, ?_, Nat.mod_lt i hw, ?_⟩
  · exact Nat.div_lt_of_lt_mul (by rw [Nat.mul_comm]; exact hi)
  · rw [Nat.mul_comm]; exact (Nat.div_add_mod i w).symm

/-! ## The sigma index map -/

theorem MAX_eq_max {α : Type} [LinearOrder α] (a b : α) : MAX a b = max a b := by
  unfold MAX
  rcases le_total a b with h | h
  · rw [if_neg (not_lt.mpr h), max_eq_right h]
  · rcases eq_or_lt_of_le h with e | hlt
    · subst e; simp
    · rw [if_pos hlt, max_eq_left h]

theorem MIN_eq_min {α : Type} [LinearOrder α] (a b : α) : MIN a b = min a b := by
  unfold MIN
  rcases le_total a b with h | h
  · rcases eq_or_lt_of_le h with e | hlt
    · subst e; simp
    · rw [if_pos hlt, min_eq_left h]
  · rw [if_neg (not_lt.mpr h), min_eq_right h]

theorem CLAMP_eq {α : Type} [LinearOrder α] (x low high : α) (h : low ≤ high) :
    CLAMP x low high = max low (min high x) := by
  unfold CLAMP
  split_ifs with h1 h2
  · rw [min_eq_left (le_of_lt h1), max_eq_right h]
  · rw [min_eq_right (not_lt.mp h1), max_eq_left (le_of_lt h2)]
  · rw [min_eq_right (not_lt.mp h1), max_eq_right (not_lt.mp h2)]

/-- The index byte is the floor of `sigma / 0.01`, clamped to `[0, 255]`. -/
theorem sigma_to_index_floor (sigma : ℚ) :
    ((_sigma_to_index sigma : Nat) : ℤ) = max 0 (min 255 ⌊sigma / (1 / 100)⌋) := by
  unfold _sigma_to_index
  rw [CLAMP_eq _ _ _ (by decide : (0 : ℤ) ≤ UCHAR_MAX)]
  rw [Int.toNat_of_nonneg (le_max_left _ _)]
  unfold c_int CAPTURE_GAUSS_FRACTION UCHAR_MAX
  split_ifs with h
  · rfl
  · have hneg : sigma / (1 / 100) < 0 := not_le.mp h
    have h1 : ⌈sigma / (1 / 100)⌉ ≤ 0 := Int.ceil_le.mpr (by exact_mod_cast le_of_lt hneg)
    have h2 : ⌊sigma / (1 / 100)⌋ ≤ 0 :=
      le_trans (Int.floor_le_ceil _) h1
    rw [min_eq_right (le_trans h1 (by decide)), min_eq_right (le_trans h2 (by decide)),
      max_eq_left h1, max_eq_left h2]

theorem sigma_to_index_le (sigma : ℚ) : _sigma_to_index sigma ≤ 255 := by
  have h := sigma_to_index_floor sigma
  have h2 : max (0 : ℤ) (min 255 ⌊sigma / (1 / 100)⌋) ≤ 255 :=
    max_le (by decide) (min_le_left _ _)
  omega

theorem sigma_to_index_zero : _sigma_to_index 0 = 0 := by
  have h := sigma_to_index_floor 0
  simp at h
  exact h

/-- What `_cs_precalc_gauss_idx` leaves in the block it was given: the index
of the pixel's sigma inside the roi, the old byte beyond it. -/
theorem cs_precalc_gauss_idx_get (E : Env) (img : Image) (roi : Roi)
    (isigma boost centre : ℚ) (table0 : Nat → Nat) :
    ∃ table, _cs_precalc_gauss_idx E img roi isigma boost centre (some table0) = some table ∧
      (∀ row col, row < roi.height → col < roi.width →
        table (row * roi.width + col)
          = _sigma_to_index (gaussSigma E img roi isigma boost centre row col)) ∧
      (∀ m, roi.height * roi.width ≤ m → table m = table0 m) := by
  refine ⟨_, rfl, ?_⟩
  have h := forLoop2_pointwise (fun t : Nat → Nat => t) roi.height roi.width
    (fun row col table => store table (row * roi.width + col)
      (_sigma_to_index (gaussSigma E img roi isigma boost centre row col)))
    (fun row col _ => _sigma_to_index (gaussSigma E img roi isigma boost centre row col))
    (fun r c s m _ _ hm => store_other _ _ _ _ hm)
    (fun r c s _ _ => store_same _ _ _) table0
  exact h

/-- The sigma of the code is the sigma of the specification. -/
theorem gaussSigma_eq_spec (E : Env) (img : Image) (roi : Roi) (radius boost center : ℚ)
    (row col : Nat) :
    gaussSigma E img roi radius boost center row col
      = specSigma E img roi radius boost center row col := by
  simp only [gaussSigma, gaussCorr, specSigma, specCorr, specDist, specTaper, MAX_eq_max,
    MIN_eq_min, sqrf]
  ring_nf

theorem forLoop_congr {σ : Type} (n : Nat) (f g : Nat → σ → σ)
    (h : ∀ i, i < n → ∀ s, f i s = g i s) (s : σ) : forLoop n f s = forLoop n g s := by
  induction n with
  | zero => rfl
  | succ n ih =>
    rw [forLoop_succ, forLoop_succ, ih (fun i hi => h i (Nat.lt_succ_of_lt hi)),
      h n (Nat.lt_succ_self n)]

theorem convFast_congr (kern kern' : Nat → ℚ) (d : ℤ → ℚ) (w1 : ℤ)
    (h : ∀ j, j < 25 → kern j = kern' j) : convFast kern d w1 = convFast kern' d w1 := by
  unfold convFast
  simp only [h (10+4) (by norm_num), h (5+4) (by norm_num), h 4 (by norm_num),
    h (15+3) (by norm_num), h (10+3) (by norm_num), h (5+3) (by norm_num), h 3 (by norm_num),
    h (10+2) (by norm_num), h (5+2) (by norm_num), h 2 (by norm_num), h (5+1) (by norm_num),
    h 1 (by norm_num), h 0 (by norm_num)]

theorem convBounded_congr (kern kern' : Nat → ℚ) (inp : Buf) (w1 height row col : Nat)
    (h : ∀ j, j < 25 → kern j = kern' j) :
    convBounded kern inp w1 height row col = convBounded kern' inp w1 height row col := by
  unfold convBounded
  apply forLoop_congr
  intro a ha val
  simp only []
  split_ifs with hrow
  · apply forLoop_congr
    intro b hb val
    split_ifs with hcol
    · rw [h _ (by omega)]
    · rfl
  · rfl

/-- The value `blurVal` reads the kernel table only inside the 25 first
floats of the slot `CAPTURE_KERNEL_ALIGN * table[i]`. -/
theorem blurVal_congr (inp : Buf) (kernels kernels' : Nat → ℚ) (table : Nat → Nat)
    (w1 height row col : Nat)
    (h : ∀ j, j < 25 → kernels (CAPTURE_KERNEL_ALIGN * table (row * w1 + col) + j)
      = kernels' (CAPTURE_KERNEL_ALIGN * table (row * w1 + col) + j)) :
    blurVal inp kernels table w1 height row col = blurVal inp kernels' table w1 height row col := by
  unfold blurVal
  split_ifs with hin
  · exact convFast_congr _ _ _ _ h
  · exact convBounded_congr _ _ _ _ _ _ _ h

/-! ## Claims about the sigma index map -/

/-- C9: the table of `_cs_precalc_gauss_idx` holds index 0 at every pixel of the
outermost ring of the roi, and at every pixel at least 8 pixels away from all
four edges the taper is 1: `sigma = radius + corr` and the byte is the index of
`radius + corr`. -/
theorem cs_precalc_gauss_idx_ring_and_core (E : Env) (img : Image) (roi : Roi)
    (radius boost center : ℚ) (table0 : Nat → Nat) (row col : Nat)
    (hrow : row < roi.height) (hcol : col < roi.width) :
    ((row = 0 ∨ row = roi.height - 1 ∨ col = 0 ∨ col = roi.width - 1) →
      (_cs_precalc_gauss_idx E img roi radius boost center (some table0)).map
        (fun t => t (row * roi.width + col)) = some 0) ∧
    ((8 ≤ row ∧ 8 ≤ col ∧ row + 8 < roi.height ∧ col + 8 < roi.width) →
      gaussSigma E img roi radius boost center row col
        = radius + gaussCorr E img roi boost center row col ∧
      (_cs_precalc_gauss_idx E img roi radius boost center (some table0)).map
        (fun t => t (row * roi.width + col))
        = some (_sigma_to_index (radius + gaussCorr E img roi boost center row col))) := by
  obtain ⟨t, ht, hget, _⟩ := cs_precalc_gauss_idx_get E img roi radius boost center table0
  rw [ht, Option.map_some', hget row col hrow hcol]
  constructor
  · intro hring
    have htaper : MIN (8 : ℤ) (MIN ((roi.height : ℤ) - row - 1)
        (MIN ((roi.width : ℤ) - col - 1) (MIN (col : ℤ) (row : ℤ)))) = 0 := by
      simp only [MIN_eq_min]
      omega
    have hz : gaussSigma E img roi radius boost center row col = 0 := by
      simp only [gaussSigma, htaper]
      simp
    rw [hz, sigma_to_index_zero]
  · intro hcore
    have htaper : MIN (8 : ℤ) (MIN ((roi.height : ℤ) - row - 1)
        (MIN ((roi.width : ℤ) - col - 1) (MIN (col : ℤ) (row : ℤ)))) = 8 := by
      simp only [MIN_eq_min]
      omega
    have hz : gaussSigma E img roi radius boost center row col
        = radius + gaussCorr E img roi boost center row col := by
      simp only [gaussSigma, htaper]
      push_cast
      ring
    exact ⟨hz, by rw [hz]⟩

/-- C10: every byte of the table of `_cs_precalc_gauss_idx` inside the roi is at
most 255; hence every kernel index `32·table[i] + 5·|ir| + |ic|` with
`|ir|, |ic| ≤ 4` lies below `(255+1)·32` and inside the slot of kernel
`table[i]`, and `_blur_div` and `_blur_mul` read the kernel table nowhere
else: two kernel tables that agree below `(255+1)·32` give the same results. -/
theorem cs_precalc_gauss_idx_kernel_reads_in_bounds (E : Env) (img : Image) (roi : Roi)
    (radius boost center : ℚ) (table0 table : Nat → Nat)
    (ht : _cs_precalc_gauss_idx E img roi radius boost center (some table0) = some table) :
    (∀ i, i < roi.width * roi.height →
      table i ≤ 255 ∧
      ∀ ir ic : ℤ, |ir| ≤ 4 → |ic| ≤ 4 →
        CAPTURE_KERNEL_ALIGN * table i + 5 * ir.natAbs + ic.natAbs < (255 + 1) * CAPTURE_KERNEL_ALIGN ∧
        CAPTURE_KERNEL_ALIGN * table i + 5 * ir.natAbs + ic.natAbs
          < CAPTURE_KERNEL_ALIGN * table i + CAPTURE_KERNEL_ALIGN) ∧
    (∀ (kernels kernels' : Nat → ℚ) (inp out luminance blend : Buf),
      (∀ j, j < (255 + 1) * CAPTURE_KERNEL_ALIGN → kernels j = kernels' j) →
      _blur_div inp out luminance blend kernels table roi.width roi.height
        = _blur_div inp out luminance blend kernels' table roi.width roi.height ∧
      _blur_mul inp out blend kernels table roi.width roi.height
        = _blur_mul inp out blend kernels' table roi.width roi.height) := by
  obtain ⟨t, ht', hget, _⟩ := cs_precalc_gauss_idx_get E img roi radius boost center table0
  rw [ht] at ht'
  cases ht'
  have hle : ∀ row col, row < roi.height → col < roi.width →
      table (row * roi.width + col) ≤ 255 := by
    intro row col hr hc
    rw [hget row col hr hc]
    exact sigma_to_index_le _
  constructor
  · intro i hi
    obtain ⟨r, c, hr, hc, e⟩ := idx2_split roi.height i (by rw [Nat.mul_comm]; exact hi)
    have h255 : table i ≤ 255 := by rw [e]; exact hle r c hr hc
    refine ⟨h255, ?_⟩
    intro ir ic hir hic
    have h1 : ir.natAbs ≤ 4 := by
      have := abs_le.mp hir
      omega
    have h2 : ic.natAbs ≤ 4 := by
      have := abs_le.mp hic
      omega
    unfold CAPTURE_KERNEL_ALIGN
    omega
  · intro kernels kernels' inp out luminance blend hk
    have hval : ∀ row col, row < roi.height → col < roi.width →
        blurVal inp kernels table roi.width roi.height row col
          = blurVal inp kernels' table roi.width roi.height row col := by
      intro row col hr hc
      apply blurVal_congr
      intro j hj
      apply hk
      have := hle row col hr hc
      unfold CAPTURE_KERNEL_ALIGN
      omega
    constructor
    · unfold _blur_div
      apply forLoop_congr
      intro row hr s
      apply forLoop_congr
      intro col hc s
      simp only [hval row col hr hc]
    · unfold _blur_mul
      apply forLoop_congr
      intro row hr s
      apply forLoop_congr
      intro col hc s
      simp only [hval row col hr hc]

/-- Witness of C10: the table built on a 3×3 roi. -/
theorem cs_precalc_gauss_idx_kernel_reads_in_bounds_witness :
    ∃ table, _cs_precalc_gauss_idx envQ (Image.mk 3 3) (Roi.mk 3 3 0 0) (1 / 2) 0 0
        (some (fun _ => 0)) = some table ∧ table (1 * 3 + 1) ≤ 255 := by
  obtain ⟨t, ht, _, _⟩ :=
    cs_precalc_gauss_idx_get envQ (Image.mk 3 3) (Roi.mk 3 3 0 0) (1 / 2) 0 0 (fun _ => 0)
  exact ⟨t, ht, ((cs_precalc_gauss_idx_kernel_reads_in_bounds envQ (Image.mk 3 3)
    (Roi.mk 3 3 0 0) (1 / 2) 0 0 (fun _ => 0) t ht).1 4 (by decide)).1⟩

theorem showVarianceMask_get (out blendmask : Buf) (pixels : Nat) (m : Nat) :
    (∀ k, k < pixels → m = 4 * k + 3 → showVarianceMask out blendmask pixels m = blendmask k) ∧
    ((∀ k, k < pixels → ¬ m = 4 * k + 3) → showVarianceMask out blendmask pixels m = out m) := by
  have h := forLoop_owned (fun t : Buf => t) pixels
    (fun j out => store out (4 * j + 3) (blendmask (4 * j / 4)))
    (fun j m => m = 4 * j + 3) (fun j _ _ => blendmask j)
    (by intro i j m _ _ h1 h2; omega)
    (by intro i s m _ hne; exact store_other _ _ _ _ hne)
    (by
      intro i s m _ he
      subst he
      have : 4 * i / 4 = i := by omega
      simp only [store_same, this])
    out m
  exact h

theorem showSigmaMask_get (out : Buf) (gauss_idx : Nat → Nat) (pixels : Nat) (m : Nat) :
    (∀ k, k < pixels → m = 4 * k + 3 →
      showSigmaMask out gauss_idx pixels m = ((gauss_idx k : Nat) : ℚ) / 255) ∧
    ((∀ k, k < pixels → ¬ m = 4 * k + 3) → showSigmaMask out gauss_idx pixels m = out m) := by
  have h := forLoop_owned (fun t : Buf => t) pixels
    (fun j out => store out (4 * j + 3) (((gauss_idx (4 * j / 4) : Nat) : ℚ) / 255))
    (fun j m => m = 4 * j + 3) (fun j _ _ => ((gauss_idx j : Nat) : ℚ) / 255)
    (by intro i j m _ _ h1 h2; omega)
    (by intro i s m _ hne; exact store_other _ _ _ _ hne)
    (by
      intro i s m _ he
      subst he
      have : 4 * i / 4 = i := by omega
      simp only [store_same, this])
    out m
  exact h

theorem simd_count_le (c : SimdChannels) : 3 ≤ c.count ∧ c.count ≤ 4 := by
  cases c <;> simp [SimdChannels.count]

/-- What the recomposition loop leaves at each float of the image. -/
theorem recompose_get (E : Env) (out blendmask tmp1 luminance : Buf) (pixels : Nat) (m : Nat) :
    (∀ k c, k < pixels → c < E.simd_channels.count → m = k * 4 + c →
      recompose E out blendmask tmp1 luminance pixels m
        = if blendmask k > 0 then out m * csFactor blendmask tmp1 luminance k else out m) ∧
    ((∀ k c, k < pixels → c < E.simd_channels.count → ¬ m = k * 4 + c) →
      recompose E out blendmask tmp1 luminance pixels m = out m) := by
  have hn := simd_count_le E.simd_channels
  have inner : ∀ k (t : Buf) (m : Nat),
      (∀ c, c < E.simd_channels.count → m = k * 4 + c →
        forLoop E.simd_channels.count (fun c out =>
          store out (k * 4 + c) (out (k * 4 + c) * csFactor blendmask tmp1 luminance k)) t m
          = t m * csFactor blendmask tmp1 luminance k) ∧
      ((∀ c, c < E.simd_channels.count → ¬ m = k * 4 + c) →
        forLoop E.simd_channels.count (fun c out =>
          store out (k * 4 + c) (out (k * 4 + c) * csFactor blendmask tmp1 luminance k)) t m
          = t m) := by
    intro k t m
    refine forLoop_owned (fun t : Buf => t) E.simd_channels.count
      (fun c out => store out (k * 4 + c) (out (k * 4 + c) * csFactor blendmask tmp1 luminance k))
      (fun c m => m = k * 4 + c) (fun _ _ old => old * csFactor blendmask tmp1 luminance k)
      ?_ ?_ ?_ t m
    · intro i j m _ _ h1 h2; omega
    · intro i s m _ hne; exact store_other _ _ _ _ hne
    · intro i s m _ he
      subst he
      simp only [store_same]
  have outer := forLoop_owned (fun t : Buf => t) pixels
    (fun k out =>
      if blendmask k > 0 then
        let factor := csFactor blendmask tmp1 luminance k
        forLoop E.simd_channels.count (fun c out =>
          store out (k * 4 + c) (out (k * 4 + c) * factor)) out
      else out)
    (fun k m => ∃ c, c < E.simd_channels.count ∧ m = k * 4 + c)
    (fun k _ old => if blendmask k > 0 then old * csFactor blendmask tmp1 luminance k else old)
    (by
      intro i j m _ _ ⟨c, hc, e⟩ ⟨c', hc', e'⟩
      omega)
    (by
      intro k t m _ hno
      show (if blendmask k > 0 then _ else t) m = t m
      split_ifs with hb
      · exact (inner k t m).2 (fun c hc e => hno ⟨c, hc, e⟩)
      · rfl)
    (by
      intro k t m _ ⟨c, hc, e⟩
      dsimp only
      by_cases hb : blendmask k > 0
      · simp only [if_pos hb]
        exact (inner k t m).1 c hc e
      · simp only [if_neg hb])
    out m
  constructor
  · intro k c hk hc e
    exact outer.1 k hk ⟨c, hc, e⟩
  · intro hno
    exact outer.2 (fun k hk ⟨c, hc, e⟩ => hno k c hk hc e)

/-- What `_blur_div` leaves in `out`. -/
theorem blur_div_get (inp out luminance blend : Buf) (kernels : Nat → ℚ)
    (table : Nat → Nat) (w1 height : Nat) :
    (∀ row col, row < height → col < w1 →
      _blur_div inp out luminance blend kernels table w1 height (row * w1 + col)
        = if blend (row * w1 + col) > 0
          then luminance (row * w1 + col)
            / MAX (blurVal inp kernels table w1 height row col) CAPTURE_YMIN
          else out (row * w1 + col)) ∧
    (∀ m, height * w1 ≤ m →
      _blur_div inp out luminance blend kernels table w1 height m = out m) := by
  have h := forLoop2_pointwise (fun t : Buf => t) height w1
    (fun row col out =>
      let i := row * w1 + col
      if blend i > 0 then
        store out i (luminance i / MAX (blurVal inp kernels table w1 height row col) CAPTURE_YMIN)
      else out)
    (fun row col old => if blend (row * w1 + col) > 0
      then luminance (row * w1 + col)
        / MAX (blurVal inp kernels table w1 height row col) CAPTURE_YMIN
      else old)
    (by
      intro r c s m _ _ hm
      show (if blend (r * w1 + c) > 0 then _ else s) m = s m
      split_ifs
      · exact store_other _ _ _ _ hm
      · rfl)
    (by
      intro r c s _ _
      dsimp only
      by_cases hb : blend (r * w1 + c) > 0
      · simp only [if_pos hb, store_same]
      · simp only [if_neg hb])
    out
  exact h

/-- What `_blur_mul` leaves in `out`. -/
theorem blur_mul_get (inp out blend : Buf) (kernels : Nat → ℚ)
    (table : Nat → Nat) (w1 height : Nat) :
    (∀ row col, row < height → col < w1 →
      _blur_mul inp out blend kernels table w1 height (row * w1 + col)
        = if blend (row * w1 + col) > 0
          then out (row * w1 + col) * blurVal inp kernels table w1 height row col
          else out (row * w1 + col)) ∧
    (∀ m, height * w1 ≤ m →
      _blur_mul inp out blend kernels table w1 height m = out m) := by
  have h := forLoop2_pointwise (fun t : Buf => t) height w1
    (fun row col out =>
      let i := row * w1 + col
      if blend i > 0 then
        store out i (out i * blurVal inp kernels table w1 height row col)
      else out)
    (fun row col old => if blend (row * w1 + col) > 0
      then old * blurVal inp kernels table w1 height row col
      else old)
    (by
      intro r c s m _ _ hm
      show (if blend (r * w1 + c) > 0 then _ else s) m = s m
      split_ifs
      · exact store_other _ _ _ _ hm
      · rfl)
    (by
      intro r c s _ _
      dsimp only
      by_cases hb : blend (r * w1 + c) > 0
      · simp only [if_pos hb, store_same]
      · simp only [if_neg hb])
    out
  exact h

/-- The loop of `_prepare_blend` stores the luminance of every pixel in `Yold`. -/
theorem prepare_blend_Yold (E : Env) (cfa rgb : Buf) (filters : Nat)
    (xtrans : Nat → Nat → Nat) (roi : Roi) (mask Yold : Buf) (whites : Nat → ℚ)
    (w1 height : Nat) :
    (∀ row col, row < height → col < w1 →
      (_prepare_blend E cfa rgb filters xtrans roi mask Yold whites w1 height).2 (row * w1 + col)
        = prepareY rgb (row * w1 + col)) ∧
    (∀ m, height * w1 ≤ m →
      (_prepare_blend E cfa rgb filters xtrans roi mask Yold whites w1 height).2 m = Yold m) := by
  have h := forLoop2_pointwise (fun st : Buf × Buf => st.2) height w1
    (fun row col st =>
      let k := row * w1 + col
      let y : ℚ := prepareY rgb k
      let Yold := store st.2 k y
      if row > 1 ∧ col > 1 ∧ (row : ℤ) < (height : ℤ) - 2 ∧ (col : ℤ) < (w1 : ℤ) - 2 then
        let color : Nat :=
          if filters = 9 then E.FCxtrans row col roi xtrans else E.FC row col filters
        if cfa k > whites color ∨ y < CAPTURE_YMIN then (zeroRhombus st.1 k w1, Yold)
        else (st.1, Yold)
      else (store st.1 k 0, Yold))
    (fun row col _ => prepareY rgb (row * w1 + col))
    (by
      intro r c s m _ _ hm
      dsimp only
      split_ifs <;> exact store_other _ _ _ _ hm)
    (by
      intro r c s _ _
      dsimp only
      split_ifs <;> exact store_same _ _ _)
    (dt_iop_image_fill mask 1 w1 height 1, Yold)
  exact h

/-- What `_modify_blend` leaves in `blend` and in `luminance`. -/
theorem modify_blend_get (E : Env) (blend Yold luminance : Buf) (dthresh : ℚ)
    (width height : Nat) :
    (∀ row col, row < height → col < width →
      (_modify_blend E blend Yold luminance dthresh width height).1 (row * width + col)
        = CLIP (blend (row * width + col) * (101011 / 100000)
            * (modifyWeight E Yold dthresh width height row col - 1 / 100)) ∧
      (_modify_blend E blend Yold luminance dthresh width height).2 (row * width + col)
        = Yold (row * width + col)) ∧
    (∀ m, height * width ≤ m →
      (_modify_blend E blend Yold luminance dthresh width height).1 m = blend m ∧
      (_modify_blend E blend Yold luminance dthresh width height).2 m = luminance m) := by
  have h1 := forLoop2_pointwise (fun st : Buf × Buf => st.1) height width
    (fun irow icol st =>
      let k := irow * width + icol
      let weight := modifyWeight E Yold dthresh width height irow icol
      (store st.1 k (CLIP (st.1 k * (101011 / 100000) * (weight - 1 / 100))),
       store st.2 k (Yold k)))
    (fun row col old => CLIP (old * (101011 / 100000)
      * (modifyWeight E Yold dthresh width height row col - 1 / 100)))
    (by intro r c s m _ _ hm; exact store_other _ _ _ _ hm)
    (by intro r c s _ _; exact store_same _ _ _)
    (blend, luminance)
  have h2 := forLoop2_pointwise (fun st : Buf × Buf => st.2) height width
    (fun irow icol st =>
      let k := irow * width + icol
      let weight := modifyWeight E Yold dthresh width height irow icol
      (store st.1 k (CLIP (st.1 k * (101011 / 100000) * (weight - 1 / 100))),
       store st.2 k (Yold k)))
    (fun row col _ => Yold (row * width + col))
    (by intro r c s m _ _ hm; exact store_other _ _ _ _ hm)
    (by intro r c s _ _; exact store_same _ _ _)
    (blend, luminance)
  exact ⟨fun r c hr hc => ⟨h1.1 r c hr hc, h2.1 r c hr hc⟩,
    fun m hm => ⟨h1.2 m hm, h2.2 m hm⟩⟩

/-- What the reinforcement loop leaves in `blendmask`. -/
theorem reinforce_get (E : Env) (tmp2 blendmask : Buf) (pixels : Nat) (k : Nat) :
    (k < pixels → reinforce E tmp2 blendmask pixels k
      = CLIP ((1 / (1 + E.expf (5 - 10 * (tmp2 k - blendmask k)))) * tmp2 k
          + (1 - 1 / (1 + E.expf (5 - 10 * (tmp2 k - blendmask k)))) * blendmask k)) ∧
    (pixels ≤ k → reinforce E tmp2 blendmask pixels k = blendmask k) := by
  have h := forLoop_owned (fun t : Buf => t) pixels
    (fun k blendmask =>
      let diff := tmp2 k - blendmask k
      let w_tmp2 : ℚ := 1 / (1 + E.expf (5 - 10 * diff))
      store blendmask k (CLIP (w_tmp2 * tmp2 k + (1 - w_tmp2) * blendmask k)))
    (fun j m => m = j)
    (fun j _ old => CLIP ((1 / (1 + E.expf (5 - 10 * (tmp2 j - old)))) * tmp2 j
          + (1 - 1 / (1 + E.expf (5 - 10 * (tmp2 j - old)))) * old))
    (by intro i j m _ _ h1 h2; omega)
    (by intro i s m _ hne; exact store_other _ _ _ _ hne)
    (by intro i s m _ he; subst he; exact store_same _ _ _)
    blendmask k
  exact ⟨fun hk => h.1 k hk rfl, fun hk => h.2 (fun i hi e => by omega)⟩

/-- Both early returns of `_capture_sharpen` leave everything as it was. -/
theorem capture_sharpen_early (E : Env) (self : Module) (pipe : Pipe) (d : Data) (al : Allocs)
    (inp out : Buf) (roi : Roi) (svm ssm : Bool)
    (h : (pipe.thumbnail && !(E._get_thumb_quality pipe.final_width pipe.final_height)) = true ∨
      (decide (d.cs_iter < 1) && !svm && !ssm) = true) :
    _capture_sharpen E self pipe d al inp out roi svm ssm
      = ⟨out, self.autoradius, self.cs_radius⟩ := by
  unfold _capture_sharpen
  rcases h with h | h
  · simp only [h, if_true]
  · simp only [h, if_true, ite_self]

/-- Past the early returns, `g->autoradius` and `p->cs_radius` end as the
auto-radius step leaves them. -/
theorem capture_sharpen_params (E : Env) (self : Module) (pipe : Pipe) (d : Data) (al : Allocs)
    (inp out : Buf) (roi : Roi) (svm ssm : Bool)
    (hthumb : (pipe.thumbnail && !(E._get_thumb_quality pipe.final_width pipe.final_height)) = false)
    (hgo : (decide (d.cs_iter < 1) && !svm && !ssm) = false) :
    ((_capture_sharpen E self pipe d al inp out roi svm ssm).autoradius,
      (_capture_sharpen E self pipe d al inp out roi svm ssm).cs_radius)
      = if (pipe.full && (self.autoradius == some true)) = true ∨ d.cs_radius < 1 / 100 then
          autoRadiusUpdate (csRadius E self pipe d inp roi) d.cs_radius pipe.full
            self.autoradius self.cs_radius
        else (self.autoradius, self.cs_radius) := by
  unfold _capture_sharpen
  simp only [hthumb, hgo, Bool.false_eq_true, if_false]
  rcases al with ⟨l, t2, t1, bm, tb⟩
  cases l <;> cases t2 <;> cases t1 <;> cases bm <;> try rfl
  simp only []
  cases svm
  · simp only [Bool.false_eq_true, if_false]
    cases hg : _cs_precalc_gauss_idx E self.image roi (csRadius E self pipe d inp roi)
        d.cs_boost d.cs_center tb with
    | none => rfl
    | some g => cases ssm <;> rfl
  · rfl

/-- The output image of `_capture_sharpen` past the early returns when the
four scratch buffers are allocated. -/
theorem capture_sharpen_out (E : Env) (self : Module) (pipe : Pipe) (d : Data) (al : Allocs)
    (inp out : Buf) (roi : Roi) (svm ssm : Bool) (lum t2 t1 bm : Buf)
    (hthumb : (pipe.thumbnail && !(E._get_thumb_quality pipe.final_width pipe.final_height)) = false)
    (hgo : (decide (d.cs_iter < 1) && !svm && !ssm) = false)
    (hl : al.luminance = some lum) (h2 : al.tmp2 = some t2) (h1 : al.tmp1 = some t1)
    (hb : al.blendmask = some bm) :
    (_capture_sharpen E self pipe d al inp out roi svm ssm).out
      = if svm = true then
          showVarianceMask out (csBlend E pipe d inp out roi lum t2 t1 bm).1 (roi.width * roi.height)
        else
          match _cs_precalc_gauss_idx E self.image roi (csRadius E self pipe d inp roi)
              d.cs_boost d.cs_center al.table with
          | none => out
          | some gauss_idx =>
            if ssm = true then showSigmaMask out gauss_idx (roi.width * roi.height)
            else
              recompose E out (csBlend E pipe d inp out roi lum t2 t1 bm).1
                (rlLoop E (csBlend E pipe d inp out roi lum t2 t1 bm).2.2.1
                  (csBlend E pipe d inp out roi lum t2 t1 bm).1 self.gauss_coeffs gauss_idx
                  roi.width roi.height d.cs_iter.toNat 0
                  ((csBlend E pipe d inp out roi lum t2 t1 bm).2.1,
                   (csBlend E pipe d inp out roi lum t2 t1 bm).2.2.2)).1
                (csBlend E pipe d inp out roi lum t2 t1 bm).2.2.1 (roi.width * roi.height) := by
  unfold _capture_sharpen
  simp only [hthumb, hgo, hl, h2, h1, hb, Bool.false_eq_true, if_false]
  cases svm
  · simp only [Bool.false_eq_true, if_false]
    cases hg : _cs_precalc_gauss_idx E self.image roi (csRadius E self pipe d inp roi)
        d.cs_boost d.cs_center al.table with
    | none => rfl
    | some g => cases ssm <;> rfl
  · rfl

/-- When an allocation of a scratch buffer fails the image is not touched. -/
theorem capture_sharpen_out_nomem (E : Env) (self : Module) (pipe : Pipe) (d : Data)
    (al : Allocs) (inp out : Buf) (roi : Roi) (svm ssm : Bool)
    (hal : al.luminance = none ∨ al.tmp2 = none ∨ al.tmp1 = none ∨ al.blendmask = none) :
    (_capture_sharpen E self pipe d al inp out roi svm ssm).out = out := by
  unfold _capture_sharpen
  rcases al with ⟨l, t2, t1, bm, tb⟩
  simp only at hal
  by_cases ht : (pipe.thumbnail && !(E._get_thumb_quality pipe.final_width pipe.final_height)) = true
  · rw [if_pos ht]
  · by_cases hg : (decide (d.cs_iter < 1) && !svm && !ssm) = true
    · rw [if_neg ht, if_pos hg]
    · rw [if_neg ht, if_neg hg]
      cases l <;> cases t2 <;> cases t1 <;> cases bm <;> simp at hal <;> rfl

/-- The debug views and the early returns leave the colour channels alone. -/
theorem capture_sharpen_rgb_of_no_recompose (E : Env) (self : Module) (pipe : Pipe)
    (d : Data) (al : Allocs) (inp out : Buf) (roi : Roi) (svm ssm : Bool)
    (h : d.cs_iter < 1 ∨ svm = true ∨ ssm = true) (k c : Nat) (hc : c < 3) :
    (_capture_sharpen E self pipe d al inp out roi svm ssm).out (4 * k + c) = out (4 * k + c) := by
  by_cases hthumb :
      (pipe.thumbnail && !(E._get_thumb_quality pipe.final_width pipe.final_height)) = true
  · rw [capture_sharpen_early E self pipe d al inp out roi svm ssm (Or.inl hthumb)]
  by_cases hgo : (decide (d.cs_iter < 1) && !svm && !ssm) = true
  · rw [capture_sharpen_early E self pipe d al inp out roi svm ssm (Or.inr hgo)]
  have hthumb' := Bool.eq_false_iff.mpr hthumb
  have hgo' := Bool.eq_false_iff.mpr hgo
  have hflag : svm = true ∨ ssm = true := by
    rcases h with h | h
    · cases svm <;> cases ssm <;> simp [h] at hgo ⊢
    · exact h
  rcases hl : al.luminance with _ | lum
  · rw [capture_sharpen_out_nomem E self pipe d al inp out roi svm ssm (Or.inl hl)]
  rcases h2 : al.tmp2 with _ | t2
  · rw [capture_sharpen_out_nomem E self pipe d al inp out roi svm ssm (Or.inr (Or.inl h2))]
  rcases h1 : al.tmp1 with _ | t1
  · rw [capture_sharpen_out_nomem E self pipe d al inp out roi svm ssm
      (Or.inr (Or.inr (Or.inl h1)))]
  rcases hb : al.blendmask with _ | bm
  · rw [capture_sharpen_out_nomem E self pipe d al inp out roi svm ssm
      (Or.inr (Or.inr (Or.inr hb)))]
  rw [capture_sharpen_out E self pipe d al inp out roi svm ssm lum t2 t1 bm hthumb' hgo' hl h2 h1 hb]
  have hne : ∀ j, j < roi.width * roi.height → ¬ 4 * k + c = 4 * j + 3 := by
    intro j _; omega
  by_cases hs : svm = true
  · rw [if_pos hs]
    exact (showVarianceMask_get out _ _ (4 * k + c)).2 hne
  · rw [if_neg hs]
    have hss : ssm = true := by
      rcases hflag with h | h
      · exact absurd h hs
      · exact h
    cases hg : _cs_precalc_gauss_idx E self.image roi (csRadius E self pipe d inp roi)
        d.cs_boost d.cs_center al.table with
    | none => rfl
    | some g =>
      simp only [hss, if_true]
      exact (showSigmaMask_get out g _ (4 * k + c)).2 hne

/-- C1: with `cs_iter < 1` every R, G and B value of the output image is on
return what it was on entry; when in addition neither debug view is asked
for, the call returns before the auto-radius step: the whole output buffer,
`p->cs_radius` and `g->autoradius` are unchanged. -/
theorem capture_sharpen_zero_iterations (E : Env) (self : Module) (pipe : Pipe) (d : Data)
    (al : Allocs) (inp out : Buf) (roi : Roi) (svm ssm : Bool) (hiter : d.cs_iter < 1) :
    (∀ k c, c < 3 →
      (_capture_sharpen E self pipe d al inp out roi svm ssm).out (4 * k + c) = out (4 * k + c)) ∧
    (svm = false → ssm = false →
      _capture_sharpen E self pipe d al inp out roi svm ssm
        = ⟨out, self.autoradius, self.cs_radius⟩) := by
  constructor
  · intro k c hc
    exact capture_sharpen_rgb_of_no_recompose E self pipe d al inp out roi svm ssm
      (Or.inl hiter) k c hc
  · intro h1 h2
    apply capture_sharpen_early
    right
    simp [h1, h2, hiter]

/-- The recomposition loop leaves the four floats of a pixel whose mask is not
positive as they were. -/
theorem recompose_unmasked (E : Env) (out blendmask tmp1 luminance : Buf)
    (pixels k : Nat) (hmask : ¬ blendmask k > 0) (c : Nat) (hc : c < 4) :
    recompose E out blendmask tmp1 luminance pixels (4 * k + c) = out (4 * k + c) := by
  have hn := simd_count_le E.simd_channels
  have h := recompose_get E out blendmask tmp1 luminance pixels (4 * k + c)
  by_cases hex : ∃ k' c', k' < pixels ∧ c' < E.simd_channels.count ∧ 4 * k + c = k' * 4 + c'
  · obtain ⟨k', c', hk', hc', e⟩ := hex
    have hkk : k' = k := by omega
    subst hkk
    rw [h.1 k' c' hk' hc' e, if_neg hmask]
  · exact h.2 (fun k' c' hk' hc' e => hex ⟨k', c', hk', hc', e⟩)

/-- C2: a pixel `k` whose final blend mask value is not greater than 0 keeps
all four floats `out[4k .. 4k+3]` through the recomposition loop, whatever
`tmp1` and `luminance` hold. -/
theorem recompose_keeps_unmasked (E : Env) (out blendmask tmp1 luminance : Buf)
    (pixels k : Nat) (hmask : ¬ blendmask k > 0) (c : Nat) (hc : c < 4) :
    recompose E out blendmask tmp1 luminance pixels (4 * k + c) = out (4 * k + c) :=
  recompose_unmasked E out blendmask tmp1 luminance pixels k hmask c hc

/-- C3: recomposition preserves hue. For every pixel `k` the loop visits whose
blend mask is greater than 0 there is one factor
`f = Lnew / max(luminance[k], 0.001)`, with
`Lnew = interpolatef(CLIP(blend[k]), tmp1[k], luminance[k])`, such that
`R' = f·R`, `G' = f·G` and `B' = f·B`; hence `R'·G = G'·R`, `R'·B = B'·R` and
`G'·B = B'·G`. -/
theorem recompose_preserves_hue (E : Env) (out blendmask tmp1 luminance : Buf)
    (pixels k : Nat) (hk : k < pixels) (hmask : blendmask k > 0) :
    ∃ f : ℚ,
      f = interpolatef (CLIP (blendmask k)) (tmp1 k) (luminance k)
            / max (luminance k) (1 / 1000) ∧
      recompose E out blendmask tmp1 luminance pixels (4 * k) = f * out (4 * k) ∧
      recompose E out blendmask tmp1 luminance pixels (4 * k + 1) = f * out (4 * k + 1) ∧
      recompose E out blendmask tmp1 luminance pixels (4 * k + 2) = f * out (4 * k + 2) ∧
      recompose E out blendmask tmp1 luminance pixels (4 * k) * out (4 * k + 1)
        = recompose E out blendmask tmp1 luminance pixels (4 * k + 1) * out (4 * k) ∧
      recompose E out blendmask tmp1 luminance pixels (4 * k) * out (4 * k + 2)
        = recompose E out blendmask tmp1 luminance pixels (4 * k + 2) * out (4 * k) ∧
      recompose E out blendmask tmp1 luminance pixels (4 * k + 1) * out (4 * k + 2)
        = recompose E out blendmask tmp1 luminance pixels (4 * k + 2) * out (4 * k + 1) := by
  have hn := simd_count_le E.simd_channels
  have hch : ∀ c, c < 3 → recompose E out blendmask tmp1 luminance pixels (4 * k + c)
      = csFactor blendmask tmp1 luminance k * out (4 * k + c) := by
    intro c hc
    rw [(recompose_get E out blendmask tmp1 luminance pixels (4 * k + c)).1 k c hk
      (by omega) (by omega), if_pos hmask, mul_comm]
  have h0 := hch 0 (by norm_num)
  have h1 := hch 1 (by norm_num)
  have h2 := hch 2 (by norm_num)
  rw [Nat.add_zero] at h0
  refine ⟨csFactor blendmask tmp1 luminance k, ?_, h0, h1, h2, ?_, ?_, ?_⟩
  · simp only [csFactor, MAX_eq_max, CAPTURE_YMIN]
  · rw [h0, h1]; ring
  · rw [h0, h2]; ring
  · rw [h1, h2]; ring

/-- Witness of C3: one pixel `(1, 2, 3, 1)` with mask 1/2, `tmp1 = 2`,
luminance 1. -/
theorem recompose_preserves_hue_witness :
    (0 : Nat) < 1 ∧ (fun _ : Nat => (1 / 2 : ℚ)) 0 > 0 ∧
    ∃ f : ℚ,
      f = interpolatef (CLIP ((fun _ : Nat => (1 / 2 : ℚ)) 0)) ((fun _ : Nat => (2 : ℚ)) 0)
            ((fun _ : Nat => (1 : ℚ)) 0) / max ((fun _ : Nat => (1 : ℚ)) 0) (1 / 1000) ∧
      recompose envQ (fun i => (i : ℚ) + 1) (fun _ => 1 / 2) (fun _ => 2) (fun _ => 1) 1 (4 * 0)
        = f * (fun i : Nat => (i : ℚ) + 1) (4 * 0) ∧
      recompose envQ (fun i => (i : ℚ) + 1) (fun _ => 1 / 2) (fun _ => 2) (fun _ => 1) 1 (4 * 0 + 1)
        = f * (fun i : Nat => (i : ℚ) + 1) (4 * 0 + 1) ∧
      recompose envQ (fun i => (i : ℚ) + 1) (fun _ => 1 / 2) (fun _ => 2) (fun _ => 1) 1 (4 * 0 + 2)
        = f * (fun i : Nat => (i : ℚ) + 1) (4 * 0 + 2) ∧
      recompose envQ (fun i => (i : ℚ) + 1) (fun _ => 1 / 2) (fun _ => 2) (fun _ => 1) 1 (4 * 0)
          * (fun i : Nat => (i : ℚ) + 1) (4 * 0 + 1)
        = recompose envQ (fun i => (i : ℚ) + 1) (fun _ => 1 / 2) (fun _ => 2) (fun _ => 1) 1
            (4 * 0 + 1) * (fun i : Nat => (i : ℚ) + 1) (4 * 0) ∧
      recompose envQ (fun i => (i : ℚ) + 1) (fun _ => 1 / 2) (fun _ => 2) (fun _ => 1) 1 (4 * 0)
          * (fun i : Nat => (i : ℚ) + 1) (4 * 0 + 2)
        = recompose envQ (fun i => (i : ℚ) + 1) (fun _ => 1 / 2) (fun _ => 2) (fun _ => 1) 1
            (4 * 0 + 2) * (fun i : Nat => (i : ℚ) + 1) (4 * 0) ∧
      recompose envQ (fun i => (i : ℚ) + 1) (fun _ => 1 / 2) (fun _ => 2) (fun _ => 1) 1 (4 * 0 + 1)
          * (fun i : Nat => (i : ℚ) + 1) (4 * 0 + 2)
        = recompose envQ (fun i => (i : ℚ) + 1) (fun _ => 1 / 2) (fun _ => 2) (fun _ => 1) 1
            (4 * 0 + 2) * (fun i : Nat => (i : ℚ) + 1) (4 * 0 + 1) :=
  ⟨by decide, by norm_num,
    recompose_preserves_hue envQ (fun i => (i : ℚ) + 1) (fun _ => 1 / 2) (fun _ => 2)
      (fun _ => 1) 1 0 (by decide) (by norm_num)⟩

/-- Witness of C2: a one-pixel image whose mask is 0. -/
theorem recompose_keeps_unmasked_witness :
    ¬ (fun _ : Nat => (0 : ℚ)) 0 > 0 ∧ (3 : Nat) < 4 ∧
    recompose envQ (fun i => (i : ℚ) + 1) (fun _ => 0) (fun _ => 2) (fun _ => 1) 1 (4 * 0 + 3)
      = (fun i : Nat => (i : ℚ) + 1) (4 * 0 + 3) :=
  ⟨by norm_num, by decide,
    recompose_keeps_unmasked envQ (fun i => (i : ℚ) + 1) (fun _ => 0) (fun _ => 2)
      (fun _ => 1) 1 0 (by norm_num) 3 (by decide)⟩

theorem calcRadiusBayer_cfaPair (a b : ℚ) (ha : 1 / 100 < a) (hb : 5 / 1000 < b) (hba : b < a)
    (ha1 : a < 1) :
    _calcRadiusBayer envQ (cfaPair a b) 10 9 (1 / 100) 1 0x94949494
      = sqrtQ (1 / logQ (a / b)) := by
  have hb0 : 0 < b := lt_trans (by norm_num) hb
  have h1 : ¬ (a ≤ b) := not_le.mpr hba
  have h2 : (5 / 1000 : ℚ) < a := lt_trans (by norm_num) ha
  have h3 : b < a * 1 := by linarith
  have h4 : ¬ (1 : ℚ) ≤ 0 := by norm_num
  have h5 : ¬ (1 : ℚ) ≤ a := not_le.mpr ha1
  have h6 : (0 : ℚ) ≤ a := by linarith
  have h7 : (1 : ℚ) * b < a := by linarith
  have hfc : (2492765332 &&& 3 : ℕ) = 0 := by decide
  have ha' : (100 : ℚ)⁻¹ < a := by simpa using ha
  have h8 : ¬ ((5 : ℚ) / 1000 < 0) := by norm_num
  simp [_calcRadiusBayer, calcRadiusBayerMaxRatio, forLoop, calcRadiusBayerSite, envQ,
    cfaPair, MAX_eq_max, MIN_eq_min, RAWEPS, hfc, ha', h8, h1, h2, hb, ha, hba, le_of_lt hba, h5, h6, h7,
    max_eq_left (le_of_lt hba), min_eq_right (le_of_lt hba)]

/-- Inside the auto-radius step the local `radius` is the estimate. -/
theorem csRadius_entered (E : Env) (self : Module) (pipe : Pipe) (d : Data) (inp : Buf)
    (roi : Roi)
    (hentered : (pipe.full && (self.autoradius == some true)) = true ∨ d.cs_radius < 1 / 100) :
    csRadius E self pipe d inp roi
      = if pipe.filters ≠ 9 then _calcRadiusBayer E inp roi.width roi.height (1 / 100) 1 pipe.filters
        else _calcRadiusXtrans E inp (1 / 100) 1 roi pipe.xtrans := by
  unfold csRadius
  simp only [if_pos hentered]

/-- The three outcomes of lines 580-598. -/
theorem autoRadiusUpdate_cases (r old : ℚ) (fullpipe : Bool) (g : Option Bool) (p : ℚ) :
    ((|r - old| > 5 / 1000 ∧ 1 / 10 < r ∧ r < 1) ∧ fullpipe = true →
      autoRadiusUpdate r old fullpipe g p = (g.map (fun _ => true), r)) ∧
    ((|r - old| > 5 / 1000 ∧ 1 / 10 < r ∧ r < 1) ∧ fullpipe = false →
      autoRadiusUpdate r old fullpipe g p = (g, p)) ∧
    (¬ (|r - old| > 5 / 1000 ∧ 1 / 10 < r ∧ r < 1) →
      autoRadiusUpdate r old fullpipe g p = (g.map (fun _ => false), p)) := by
  unfold autoRadiusUpdate feqf
  refine ⟨?_, ?_, ?_⟩
  · rintro ⟨⟨h1, h2, h3⟩, hf⟩
    have : ¬ |r - old| ≤ 5 / 1000 := not_le.mpr h1
    have h2' : (10 : ℚ)⁻¹ < r := by simpa using h2
    cases g <;> simp [this, h2', h3, hf]
  · rintro ⟨⟨h1, h2, h3⟩, hf⟩
    have : ¬ |r - old| ≤ 5 / 1000 := not_le.mpr h1
    have h2' : (10 : ℚ)⁻¹ < r := by simpa using h2
    cases g <;> simp [this, h2', h3, hf]
  · intro h
    by_cases h1 : |r - old| ≤ 5 / 1000
    · cases g <;> simp [h1]
    · have h1' : |r - old| > 5 / 1000 := not_le.mp h1
      have h23 : ¬ (1 / 10 < r ∧ r < 1) := fun h' => h ⟨h1', h'⟩
      have h23' : ¬ (10⁻¹ < r ∧ r < 1) := by simpa using h23
      cases g <;> simp [h1, h23']

/-- C6 (amended): in the auto-radius step of `_capture_sharpen` the estimate
`r` is written to `p->cs_radius` (and the flag `g->autoradius`, when there is a
GUI, set) if `|r - old_radius| > 0.005`, `0.1 < r < 1.0` and the pipe is the full
pipe; if these two conditions on `r` hold on another pipe nothing is written;
in every other case `p->cs_radius` is left unchanged and the flag is cleared. -/
theorem capture_sharpen_auto_radius_write (E : Env) (self : Module) (pipe : Pipe) (d : Data)
    (al : Allocs) (inp out : Buf) (roi : Roi) (svm ssm : Bool)
    (hthumb : (pipe.thumbnail && !(E._get_thumb_quality pipe.final_width pipe.final_height)) = false)
    (hgo : (decide (d.cs_iter < 1) && !svm && !ssm) = false)
    (hentered : (pipe.full && (self.autoradius == some true)) = true ∨ d.cs_radius < 1 / 100) :
    csRadius E self pipe d inp roi
      = (if pipe.filters ≠ 9
          then _calcRadiusBayer E inp roi.width roi.height (1 / 100) 1 pipe.filters
          else _calcRadiusXtrans E inp (1 / 100) 1 roi pipe.xtrans) ∧
    ((|csRadius E self pipe d inp roi - d.cs_radius| > 5 / 1000 ∧
        1 / 10 < csRadius E self pipe d inp roi ∧ csRadius E self pipe d inp roi < 1) ∧
        pipe.full = true →
      (_capture_sharpen E self pipe d al inp out roi svm ssm).cs_radius
        = csRadius E self pipe d inp roi ∧
      (_capture_sharpen E self pipe d al inp out roi svm ssm).autoradius
        = self.autoradius.map (fun _ => true)) ∧
    ((|csRadius E self pipe d inp roi - d.cs_radius| > 5 / 1000 ∧
        1 / 10 < csRadius E self pipe d inp roi ∧ csRadius E self pipe d inp roi < 1) ∧
        pipe.full = false →
      (_capture_sharpen E self pipe d al inp out roi svm ssm).cs_radius = self.cs_radius ∧
      (_capture_sharpen E self pipe d al inp out roi svm ssm).autoradius = self.autoradius) ∧
    (¬ (|csRadius E self pipe d inp roi - d.cs_radius| > 5 / 1000 ∧
        1 / 10 < csRadius E self pipe d inp roi ∧ csRadius E self pipe d inp roi < 1) →
      (_capture_sharpen E self pipe d al inp out roi svm ssm).cs_radius = self.cs_radius ∧
      (_capture_sharpen E self pipe d al inp out roi svm ssm).autoradius
        = self.autoradius.map (fun _ => false)) := by
  have hp := capture_sharpen_params E self pipe d al inp out roi svm ssm hthumb hgo
  rw [if_pos hentered] at hp
  have hc := autoRadiusUpdate_cases (csRadius E self pipe d inp roi) d.cs_radius pipe.full
    self.autoradius self.cs_radius
  refine ⟨csRadius_entered E self pipe d inp roi hentered, ?_, ?_, ?_⟩
  · intro h
    rw [hc.1 h] at hp
    exact ⟨congrArg Prod.snd hp, congrArg Prod.fst hp⟩
  · intro h
    rw [hc.2.1 h] at hp
    exact ⟨congrArg Prod.snd hp, congrArg Prod.fst hp⟩
  · intro h
    rw [hc.2.2 h] at hp
    exact ⟨congrArg Prod.snd hp, congrArg Prod.fst hp⟩

/-- C7 (amended): when the auto-radius estimate lies outside `(0.1, 1.0)` the
stored parameter `p->cs_radius` keeps its value and the auto flag is cleared,
but the local `radius` stays the estimate: the sigma index map of that call is
built by `_cs_precalc_gauss_idx` from the estimate, not from `d->cs_radius`. -/
theorem capture_sharpen_invalid_estimate (E : Env) (self : Module) (pipe : Pipe) (d : Data)
    (al : Allocs) (inp out : Buf) (roi : Roi) (svm ssm : Bool) (lum t2 t1 bm : Buf)
    (hthumb : (pipe.thumbnail && !(E._get_thumb_quality pipe.final_width pipe.final_height)) = false)
    (hgo : (decide (d.cs_iter < 1) && !svm && !ssm) = false)
    (hentered : (pipe.full && (self.autoradius == some true)) = true ∨ d.cs_radius < 1 / 100)
    (hl : al.luminance = some lum) (h2 : al.tmp2 = some t2) (h1 : al.tmp1 = some t1)
    (hb : al.blendmask = some bm)
    (est : ℚ)
    (hest : est = if pipe.filters ≠ 9
      then _calcRadiusBayer E inp roi.width roi.height (1 / 100) 1 pipe.filters
      else _calcRadiusXtrans E inp (1 / 100) 1 roi pipe.xtrans)
    (hinvalid : ¬ (1 / 10 < est ∧ est < 1)) :
    (_capture_sharpen E self pipe d al inp out roi svm ssm).cs_radius = self.cs_radius ∧
    (_capture_sharpen E self pipe d al inp out roi svm ssm).autoradius
      = self.autoradius.map (fun _ => false) ∧
    (_capture_sharpen E self pipe d al inp out roi svm ssm).out
      = (if svm = true then
          showVarianceMask out (csBlend E pipe d inp out roi lum t2 t1 bm).1 (roi.width * roi.height)
        else
          match _cs_precalc_gauss_idx E self.image roi est d.cs_boost d.cs_center al.table with
          | none => out
          | some gauss_idx =>
            if ssm = true then showSigmaMask out gauss_idx (roi.width * roi.height)
            else
              recompose E out (csBlend E pipe d inp out roi lum t2 t1 bm).1
                (rlLoop E (csBlend E pipe d inp out roi lum t2 t1 bm).2.2.1
                  (csBlend E pipe d inp out roi lum t2 t1 bm).1 self.gauss_coeffs gauss_idx
                  roi.width roi.height d.cs_iter.toNat 0
                  ((csBlend E pipe d inp out roi lum t2 t1 bm).2.1,
                   (csBlend E pipe d inp out roi lum t2 t1 bm).2.2.2)).1
                (csBlend E pipe d inp out roi lum t2 t1 bm).2.2.1 (roi.width * roi.height)) := by
  have hr : csRadius E self pipe d inp roi = est := by
    rw [csRadius_entered E self pipe d inp roi hentered, hest]
  have hp := capture_sharpen_params E self pipe d al inp out roi svm ssm hthumb hgo
  rw [if_pos hentered, hr] at hp
  have hc := (autoRadiusUpdate_cases est d.cs_radius pipe.full self.autoradius
    self.cs_radius).2.2 (fun h => hinvalid h.2)
  rw [hc] at hp
  refine ⟨congrArg Prod.snd hp, congrArg Prod.fst hp, ?_⟩
  rw [capture_sharpen_out E self pipe d al inp out roi svm ssm lum t2 t1 bm hthumb hgo hl h2 h1 hb,
    hr]

theorem gauss_idx_at_45 (r : ℚ) (n : ℤ) (hn : ⌊r / 2 / (1 / 100)⌋ = n) (h0 : 0 ≤ n)
    (h255 : n ≤ 255) :
    (_cs_precalc_gauss_idx envQ (Image.mk 10 9) (Roi.mk 10 9 0 0) r 0 0
      (some (fun _ => 0))).map (fun t => ((t 45 : Nat) : ℤ)) = some n := by
  obtain ⟨t, ht, hget, _⟩ :=
    cs_precalc_gauss_idx_get envQ (Image.mk 10 9) (Roi.mk 10 9 0 0) r 0 0 (fun _ => 0)
  have h45 := hget 4 5 (by decide) (by decide)
  rw [ht, Option.map_some']
  have e : (45 : Nat) = 4 * (Roi.mk 10 9 0 0).width + 5 := rfl
  rw [e, h45, sigma_to_index_floor, gaussSigma_eq_spec]
  have hs : specSigma envQ (Image.mk 10 9) (Roi.mk 10 9 0 0) r 0 0 4 5 = r / 2 := by
    norm_num [specSigma, specCorr, specTaper]
    ring
  rw [hs, hn, min_eq_right h255, max_eq_right h0]

theorem CLIP_mem (x : ℚ) : 0 ≤ CLIP x ∧ CLIP x ≤ 1 := by
  unfold CLIP CLAMP
  split_ifs with h1 h2
  · exact ⟨by norm_num, le_refl _⟩
  · exact ⟨le_refl _, by norm_num⟩
  · exact ⟨not_lt.mp h2, not_lt.mp h1⟩

/-- C5 (amended): with a debug view asked for, R, G and B of every pixel are
unchanged on return, in every case. When the call neither returns on the
low-quality thumbnail path nor fails to allocate a scratch buffer:
`show_variance_mask` writes `out[4k+3] = final blend[k]` for every pixel `k`;
`show_sigma_mask` (without `show_variance_mask`) writes
`out[4k+3] = gauss_idx[k] / 255`; and in both cases no other float of the image
is written, so the Richardson-Lucy loop and the recomposition do not run. On
the thumbnail path nothing is written at all. -/
theorem capture_sharpen_debug_views (E : Env) (self : Module) (pipe : Pipe) (d : Data)
    (al : Allocs) (inp out : Buf) (roi : Roi) (svm ssm : Bool) (lum t2 t1 bm : Buf)
    (hflag : svm = true ∨ ssm = true)
    (hl : al.luminance = some lum) (h2 : al.tmp2 = some t2) (h1 : al.tmp1 = some t1)
    (hb : al.blendmask = some bm) :
    (∀ k c, c < 3 →
      (_capture_sharpen E self pipe d al inp out roi svm ssm).out (4 * k + c) = out (4 * k + c)) ∧
    ((pipe.thumbnail && !(E._get_thumb_quality pipe.final_width pipe.final_height)) = true →
      (_capture_sharpen E self pipe d al inp out roi svm ssm).out = out) ∧
    ((pipe.thumbnail && !(E._get_thumb_quality pipe.final_width pipe.final_height)) = false →
      (svm = true →
        (∀ k, k < roi.width * roi.height →
          (_capture_sharpen E self pipe d al inp out roi svm ssm).out (4 * k + 3)
            = (csBlend E pipe d inp out roi lum t2 t1 bm).1 k) ∧
        (∀ m, (∀ k, k < roi.width * roi.height → ¬ m = 4 * k + 3) →
          (_capture_sharpen E self pipe d al inp out roi svm ssm).out m = out m)) ∧
      (svm = false → ssm = true →
        (al.table = none → (_capture_sharpen E self pipe d al inp out roi svm ssm).out = out) ∧
        (∀ table0, al.table = some table0 →
          ∃ gauss_idx,
            _cs_precalc_gauss_idx E self.image roi (csRadius E self pipe d inp roi)
              d.cs_boost d.cs_center (some table0) = some gauss_idx ∧
            (∀ k, k < roi.width * roi.height →
              (_capture_sharpen E self pipe d al inp out roi svm ssm).out (4 * k + 3)
                = ((gauss_idx k : Nat) : ℚ) / 255) ∧
            (∀ m, (∀ k, k < roi.width * roi.height → ¬ m = 4 * k + 3) →
              (_capture_sharpen E self pipe d al inp out roi svm ssm).out m = out m)))) := by
  refine ⟨?_, ?_, ?_⟩
  · intro k c hc
    exact capture_sharpen_rgb_of_no_recompose E self pipe d al inp out roi svm ssm
      (Or.inr hflag) k c hc
  · intro ht
    rw [capture_sharpen_early E self pipe d al inp out roi svm ssm (Or.inl ht)]
  · intro hthumb
    have hgo : (decide (d.cs_iter < 1) && !svm && !ssm) = false := by
      rcases hflag with h | h <;> simp [h]
    have ho := capture_sharpen_out E self pipe d al inp out roi svm ssm lum t2 t1 bm hthumb hgo
      hl h2 h1 hb
    constructor
    · intro hs
      rw [ho, if_pos hs]
      exact ⟨fun k hk => (showVarianceMask_get out _ _ (4 * k + 3)).1 k hk rfl,
        fun m hm => (showVarianceMask_get out _ _ m).2 hm⟩
    · intro hs hss
      have hs' : ¬ svm = true := by simp [hs]
      rw [ho, if_neg hs']
      constructor
      · intro ht
        rw [ht]
        rfl
      · intro table0 ht
        obtain ⟨g, hg, _, _⟩ := cs_precalc_gauss_idx_get E self.image roi
          (csRadius E self pipe d inp roi) d.cs_boost d.cs_center table0
        refine ⟨g, hg, ?_⟩
        rw [ht, hg]
        simp only [hss, if_true]
        exact ⟨fun k hk => (showSigmaMask_get out g _ (4 * k + 3)).1 k hk rfl,
          fun m hm => (showSigmaMask_get out g _ m).2 hm⟩

/-- Counterexample to C5 as stated: on a thumbnail pipe of low quality with
`show_variance_mask` set the call returns at once; the alpha float of pixel 0
keeps its value 2, while the final blend mask there is at most 1. -/
theorem capture_sharpen_thumbnail_no_mask :
    (_capture_sharpen envThumb moduleNoGui pipeThumb dataAuto allocsOk (fun _ => 1 / 2)
      (fun _ => 2) (Roi.mk 5 5 0 0) true false).out (4 * 0 + 3) = 2 ∧
    (csBlend envThumb pipeThumb dataAuto (fun _ => 1 / 2) (fun _ => 2) (Roi.mk 5 5 0 0)
      (fun _ => 0) (fun _ => 0) (fun _ => 0) (fun _ => 0)).1 0 ≤ 1 := by
  constructor
  · rw [capture_sharpen_early envThumb moduleNoGui pipeThumb dataAuto allocsOk (fun _ => 1 / 2)
      (fun _ => 2) (Roi.mk 5 5 0 0) true false (Or.inl rfl)]
  · unfold csBlend
    simp only []
    rw [(reinforce_get _ _ _ _ 0).1 (by decide)]
    exact (CLIP_mem _).2

theorem forLoop_id_of {σ : Type} (n : Nat) (body : Nat → σ → σ) (s : σ)
    (h : ∀ i, i < n → ∀ t, body i t = t) : forLoop n body s = s := by
  induction n with
  | zero => rfl
  | succ n ih =>
    rw [forLoop_succ, h n (Nat.lt_succ_self n), ih (fun i hi => h i (Nat.lt_succ_of_lt hi))]

theorem forLoop_single {σ : Type} (n : Nat) (body : Nat → σ → σ) (s : σ) (i0 : Nat)
    (hi0 : i0 < n) (h : ∀ i, i < n → i ≠ i0 → ∀ t, body i t = t) :
    forLoop n body s = body i0 s := by
  induction n with
  | zero => exact absurd hi0 (Nat.not_lt_zero _)
  | succ n ih =>
    rw [forLoop_succ]
    by_cases e : n = i0
    · subst e
      rw [forLoop_id_of n body s (fun i hi => h i (Nat.lt_succ_of_lt hi) (by omega))]
    · rw [h n (Nat.lt_succ_self n) e]
      exact ih (by omega) (fun i hi => h i (Nat.lt_succ_of_lt hi))

/-- With the identity kernel the bounded convolution returns the centre sample. -/
theorem convBounded_identity (kern : Nat → ℚ) (inp : Buf) (w1 height row col : Nat)
    (hrow : row < height) (hcol : col < w1)
    (h0 : kern 0 = 1) (hk : ∀ j, 0 < j → j < 25 → kern j = 0) :
    convBounded kern inp w1 height row col = inp (row * w1 + col) := by
  have hidx : ((row : ℤ) * (w1 : ℤ) + (col : ℤ)).toNat = row * w1 + col := by
    have : ((row : ℤ) * (w1 : ℤ) + (col : ℤ)) = ((row * w1 + col : Nat) : ℤ) := by push_cast; ring
    rw [this, Int.toNat_natCast]
  unfold convBounded
  rw [forLoop_single 9 _ 0 4 (by norm_num)]
  · have hr : (0 : ℤ) ≤ (row : ℤ) + (((4 : Nat) : ℤ) - 4) ∧
        (row : ℤ) + (((4 : Nat) : ℤ) - 4) < (height : ℤ) := by
      constructor <;> omega
    simp only [if_pos hr]
    rw [forLoop_single 9 _ 0 4 (by norm_num)]
    · have hc : (0 : ℤ) ≤ (col : ℤ) + (((4 : Nat) : ℤ) - 4) ∧
          (col : ℤ) + (((4 : Nat) : ℤ) - 4) < (w1 : ℤ) := by
        constructor <;> omega
      simp only [if_pos hc]
      have e1 : (row : ℤ) + (((4 : Nat) : ℤ) - 4) = row := by simp
      have e2 : (col : ℤ) + (((4 : Nat) : ℤ) - 4) = col := by simp
      have e3 : 5 * ((((4 : Nat) : ℤ) - 4).natAbs) + ((((4 : Nat) : ℤ) - 4).natAbs) = 0 := by
        simp
      rw [e1, e2, e3, h0, hidx]
      ring
    · intro b hb hb4 t
      have : kern (5 * ((((4 : Nat) : ℤ) - 4).natAbs) + (((b : ℤ) - 4).natAbs)) = 0 :=
        hk _ (by omega) (by omega)
      simp only [this, zero_mul, add_zero, ite_self]
  · intro a ha ha4 t
    dsimp only
    split_ifs with hin
    · apply forLoop_id_of
      intro b hb t
      have : kern (5 * (((a : ℤ) - 4).natAbs) + (((b : ℤ) - 4).natAbs)) = 0 :=
        hk _ (by omega) (by omega)
      simp only [this, zero_mul, add_zero, ite_self]
    · rfl

/-- At a pixel that is not in the interior of the image (it is within 4 pixels
of an edge) and whose kernel is the identity, `blurVal` is the centre sample. -/
theorem blurVal_identity (inp : Buf) (kernels : Nat → ℚ) (table : Nat → Nat)
    (w1 height row col : Nat) (hrow : row < height) (hcol : col < w1)
    (hedge : row = 0 ∨ row + 1 = height ∨ col = 0 ∨ col + 1 = w1)
    (ht : table (row * w1 + col) = 0)
    (h0 : kernels 0 = 1) (hk : ∀ j, 0 < j → j < 25 → kernels j = 0) :
    blurVal inp kernels table w1 height row col = inp (row * w1 + col) := by
  unfold blurVal
  have hne : ¬ (col ≥ 4 ∧ row ≥ 4 ∧ (col : ℤ) < (w1 : ℤ) - 4 ∧ (row : ℤ) < (height : ℤ) - 4) := by
    intro ⟨h1, h2, h3, h4⟩
    omega
  simp only [if_neg hne, ht, CAPTURE_KERNEL_ALIGN, Nat.mul_zero, Nat.zero_add]
  exact convBounded_identity _ inp w1 height row col hrow hcol h0 hk

/-- One round of `_blur_div` then `_blur_mul` at a ring pixel whose kernel is
the identity: the new `tmp1[k]` is `tmp1[k] · luminance[k] / MAX(tmp1[k], YMIN)`
where the mask is positive, the old `tmp1[k]` elsewhere. -/
theorem rl_round_identity (luminance blend : Buf) (kernels : Nat → ℚ) (table : Nat → Nat)
    (w1 height row col : Nat) (hrow : row < height) (hcol : col < w1)
    (hedge : row = 0 ∨ row + 1 = height ∨ col = 0 ∨ col + 1 = w1)
    (ht : table (row * w1 + col) = 0)
    (h0 : kernels 0 = 1) (hk : ∀ j, 0 < j → j < 25 → kernels j = 0) (tmp1 tmp2 : Buf) :
    _blur_mul (_blur_div tmp1 tmp2 luminance blend kernels table w1 height) tmp1 blend kernels
        table w1 height (row * w1 + col)
      = if blend (row * w1 + col) > 0
        then tmp1 (row * w1 + col)
          * (luminance (row * w1 + col) / MAX (tmp1 (row * w1 + col)) CAPTURE_YMIN)
        else tmp1 (row * w1 + col) := by
  rw [(blur_mul_get _ tmp1 blend kernels table w1 height).1 row col hrow hcol]
  by_cases hb : blend (row * w1 + col) > 0
  · rw [if_pos hb, if_pos hb,
      blurVal_identity _ kernels table w1 height row col hrow hcol hedge ht h0 hk,
      (blur_div_get tmp1 tmp2 luminance blend kernels table w1 height).1 row col hrow hcol,
      if_pos hb, blurVal_identity _ kernels table w1 height row col hrow hcol hedge ht h0 hk]
  · rw [if_neg hb, if_neg hb]

/-- A property of `tmp1[k]` that every round keeps holds when the
Richardson-Lucy loop ends, however many rounds run. -/
theorem rlLoop_invariant (E : Env) (luminance blend : Buf) (kernels : Nat → ℚ)
    (table : Nat → Nat) (w1 height row col : Nat) (hrow : row < height) (hcol : col < w1)
    (hedge : row = 0 ∨ row + 1 = height ∨ col = 0 ∨ col + 1 = w1)
    (ht : table (row * w1 + col) = 0)
    (h0 : kernels 0 = 1) (hk : ∀ j, 0 < j → j < 25 → kernels j = 0)
    (P : ℚ → Prop)
    (hstep : ∀ A, P A → P (if blend (row * w1 + col) > 0
      then A * (luminance (row * w1 + col) / MAX A CAPTURE_YMIN) else A)) :
    ∀ (n iter : Nat) (st : Buf × Buf), P (st.1 (row * w1 + col)) →
      P ((rlLoop E luminance blend kernels table w1 height n iter st).1 (row * w1 + col)) := by
  intro n
  induction n with
  | zero => intro iter st h; exact h
  | succ n ih =>
    intro iter st h
    unfold rlLoop
    split_ifs with hs
    · exact h
    · apply ih
      simp only []
      rw [rl_round_identity luminance blend kernels table w1 height row col hrow hcol hedge ht
        h0 hk]
      exact hstep _ h

/-- After the two mask passes `tmp1` and `luminance` both hold the luminance
of the input image. -/
theorem csBlend_luminance (E : Env) (pipe : Pipe) (d : Data) (inp out : Buf) (roi : Roi)
    (lum t2 t1 bm : Buf) (row col : Nat) (hrow : row < roi.height) (hcol : col < roi.width) :
    (csBlend E pipe d inp out roi lum t2 t1 bm).2.1 (row * roi.width + col)
      = prepareY out (row * roi.width + col) ∧
    (csBlend E pipe d inp out roi lum t2 t1 bm).2.2.1 (row * roi.width + col)
      = prepareY out (row * roi.width + col) := by
  unfold csBlend
  simp only []
  constructor
  · exact (prepare_blend_Yold E inp out pipe.filters pipe.xtrans roi t2 t1 _ roi.width
      roi.height).1 row col hrow hcol
  · rw [((modify_blend_get E _ _ lum d.cs_thrs roi.width roi.height).1 row col hrow hcol).2]
    exact (prepare_blend_Yold E inp out pipe.filters pipe.xtrans roi t2 t1 _ roi.width
      roi.height).1 row col hrow hcol

theorem prepareY_nonneg (rgb : Buf) (k : Nat) : 0 ≤ prepareY rgb k := by
  unfold prepareY
  simp only [MAX_eq_max]
  exact le_max_left _ _

/-- The sigma index of a pixel of the outermost ring is 0. -/
theorem gauss_idx_ring (E : Env) (img : Image) (roi : Roi) (isigma boost centre : ℚ)
    (table0 table : Nat → Nat)
    (ht : _cs_precalc_gauss_idx E img roi isigma boost centre (some table0) = some table)
    (row col : Nat) (hrow : row < roi.height) (hcol : col < roi.width)
    (hring : row = 0 ∨ row + 1 = roi.height ∨ col = 0 ∨ col + 1 = roi.width) :
    table (row * roi.width + col) = 0 := by
  obtain ⟨t, ht', hget, _⟩ := cs_precalc_gauss_idx_get E img roi isigma boost centre table0
  rw [ht] at ht'
  cases ht'
  rw [hget row col hrow hcol]
  have htaper : MIN (8 : ℤ) (MIN ((roi.height : ℤ) - row - 1)
      (MIN ((roi.width : ℤ) - col - 1) (MIN (col : ℤ) (row : ℤ)))) = 0 := by
    simp only [MIN_eq_min]
    omega
  have hz : gaussSigma E img roi isigma boost centre row col = 0 := by
    simp only [gaussSigma, htaper]
    simp
  rw [hz, sigma_to_index_zero]

/-- On the sharpening path a colour float of a ring pixel is scaled by the
recomposition factor computed from some `tmp1[k] = A` that satisfies every
property the Richardson-Lucy rounds keep at that pixel. -/
theorem capture_sharpen_ring_pixel (E : Env) (self : Module) (pipe : Pipe) (d : Data)
    (al : Allocs) (inp out : Buf) (roi : Roi) (lum t2 t1 bm : Buf) (table0 : Nat → Nat)
    (hthumb : (pipe.thumbnail && !(E._get_thumb_quality pipe.final_width pipe.final_height)) = false)
    (hgo : (decide (d.cs_iter < 1) && !false && !false) = false)
    (hl : al.luminance = some lum) (h2 : al.tmp2 = some t2) (h1 : al.tmp1 = some t1)
    (hb : al.blendmask = some bm) (htab : al.table = some table0)
    (row col : Nat) (hrow : row < roi.height) (hcol : col < roi.width)
    (hring : row = 0 ∨ row + 1 = roi.height ∨ col = 0 ∨ col + 1 = roi.width)
    (h0 : self.gauss_coeffs 0 = 1) (hk : ∀ j, 0 < j → j < 25 → self.gauss_coeffs j = 0)
    (P : ℚ → Prop) (hP0 : P (prepareY out (row * roi.width + col)))
    (hstep : ∀ A, P A →
      P (if (csBlend E pipe d inp out roi lum t2 t1 bm).1 (row * roi.width + col) > 0
        then A * (prepareY out (row * roi.width + col) / MAX A CAPTURE_YMIN) else A))
    (c : Nat) (hc : c < 3) :
    ∃ A, P A ∧
      (_capture_sharpen E self pipe d al inp out roi false false).out
          (4 * (row * roi.width + col) + c)
        = if (csBlend E pipe d inp out roi lum t2 t1 bm).1 (row * roi.width + col) > 0
          then out (4 * (row * roi.width + col) + c)
            * (interpolatef (CLIP ((csBlend E pipe d inp out roi lum t2 t1 bm).1
                  (row * roi.width + col))) A (prepareY out (row * roi.width + col))
                / MAX (prepareY out (row * roi.width + col)) CAPTURE_YMIN)
          else out (4 * (row * roi.width + col) + c) := by
  have ho := capture_sharpen_out E self pipe d al inp out roi false false lum t2 t1 bm hthumb hgo
    hl h2 h1 hb
  obtain ⟨g, hg, _, _⟩ := cs_precalc_gauss_idx_get E self.image roi
    (csRadius E self pipe d inp roi) d.cs_boost d.cs_center table0
  rw [htab, hg] at ho
  simp only [Bool.false_eq_true, if_false] at ho
  have hlum := csBlend_luminance E pipe d inp out roi lum t2 t1 bm row col hrow hcol
  have hg0 := gauss_idx_ring E self.image roi _ _ _ table0 g hg row col hrow hcol hring
  have hinv := rlLoop_invariant E (csBlend E pipe d inp out roi lum t2 t1 bm).2.2.1
    (csBlend E pipe d inp out roi lum t2 t1 bm).1 self.gauss_coeffs g roi.width roi.height
    row col hrow hcol hring hg0 h0 hk P (by rw [hlum.2]; exact hstep)
    d.cs_iter.toNat 0
    ((csBlend E pipe d inp out roi lum t2 t1 bm).2.1,
     (csBlend E pipe d inp out roi lum t2 t1 bm).2.2.2) (by simp only []; rw [hlum.1]; exact hP0)
  refine ⟨_, hinv, ?_⟩
  have hn := simd_count_le E.simd_channels
  have hpix : row * roi.width + col < roi.width * roi.height := by
    have h1 : (row + 1) * roi.width ≤ roi.height * roi.width := Nat.mul_le_mul_right _ hrow
    have h2 : (row + 1) * roi.width = row * roi.width + roi.width := by ring
    have h3 : roi.height * roi.width = roi.width * roi.height := Nat.mul_comm _ _
    omega
  rw [ho, (recompose_get E out _ _ _ _ (4 * (row * roi.width + col) + c)).1
    (row * roi.width + col) c hpix (by omega) (by omega)]
  simp only [csFactor, hlum.2]

/-- C4 (amended): a pixel of the outermost ring keeps R, G and B through
`_capture_sharpen` whenever its luminance is at least `CAPTURE_YMIN` and slot 0
of the kernel table holds the identity kernel, and also whenever its final
blend mask value is not greater than 0. (A ring pixel darker than
`CAPTURE_YMIN` that the blurred mask reaches is scaled.) -/
theorem capture_sharpen_ring_preserved (E : Env) (self : Module) (pipe : Pipe) (d : Data)
    (al : Allocs) (inp out : Buf) (roi : Roi) (svm ssm : Bool)
    (row col : Nat) (hrow : row < roi.height) (hcol : col < roi.width)
    (hring : row = 0 ∨ row + 1 = roi.height ∨ col = 0 ∨ col + 1 = roi.width) :
    ((self.gauss_coeffs 0 = 1 ∧ (∀ j, 0 < j → j < 25 → self.gauss_coeffs j = 0) ∧
        CAPTURE_YMIN ≤ prepareY out (row * roi.width + col)) →
      ∀ c, c < 3 →
        (_capture_sharpen E self pipe d al inp out roi svm ssm).out
          (4 * (row * roi.width + col) + c) = out (4 * (row * roi.width + col) + c)) ∧
    (∀ lum t2 t1 bm, al.luminance = some lum → al.tmp2 = some t2 → al.tmp1 = some t1 →
        al.blendmask = some bm →
        ¬ (csBlend E pipe d inp out roi lum t2 t1 bm).1 (row * roi.width + col) > 0 →
      ∀ c, c < 3 →
        (_capture_sharpen E self pipe d al inp out roi svm ssm).out
          (4 * (row * roi.width + col) + c) = out (4 * (row * roi.width + col) + c)) := by
  -- the paths on which the recomposition does not run
  have hother : ∀ c, c < 3 →
      (pipe.thumbnail && !(E._get_thumb_quality pipe.final_width pipe.final_height)) = true ∨
      (decide (d.cs_iter < 1) && !svm && !ssm) = true ∨ svm = true ∨ ssm = true ∨
      al.luminance = none ∨ al.tmp2 = none ∨ al.tmp1 = none ∨ al.blendmask = none ∨
      al.table = none →
      (_capture_sharpen E self pipe d al inp out roi svm ssm).out
        (4 * (row * roi.width + col) + c) = out (4 * (row * roi.width + col) + c) := by
    intro c hc h
    rcases h with h | h | h | h | h | h | h | h | h
    · rw [capture_sharpen_early E self pipe d al inp out roi svm ssm (Or.inl h)]
    · rw [capture_sharpen_early E self pipe d al inp out roi svm ssm (Or.inr h)]
    · exact capture_sharpen_rgb_of_no_recompose E self pipe d al inp out roi svm ssm
        (Or.inr (Or.inl h)) _ c hc
    · exact capture_sharpen_rgb_of_no_recompose E self pipe d al inp out roi svm ssm
        (Or.inr (Or.inr h)) _ c hc
    · rw [capture_sharpen_out_nomem E self pipe d al inp out roi svm ssm (Or.inl h)]
    · rw [capture_sharpen_out_nomem E self pipe d al inp out roi svm ssm (Or.inr (Or.inl h))]
    · rw [capture_sharpen_out_nomem E self pipe d al inp out roi svm ssm
        (Or.inr (Or.inr (Or.inl h)))]
    · rw [capture_sharpen_out_nomem E self pipe d al inp out roi svm ssm
        (Or.inr (Or.inr (Or.inr h)))]
    · by_cases hthumb :
          (pipe.thumbnail && !(E._get_thumb_quality pipe.final_width pipe.final_height)) = true
      · rw [capture_sharpen_early E self pipe d al inp out roi svm ssm (Or.inl hthumb)]
      by_cases hgo : (decide (d.cs_iter < 1) && !svm && !ssm) = true
      · rw [capture_sharpen_early E self pipe d al inp out roi svm ssm (Or.inr hgo)]
      by_cases hs : svm = true
      · exact capture_sharpen_rgb_of_no_recompose E self pipe d al inp out roi svm ssm
          (Or.inr (Or.inl hs)) _ c hc
      rcases hl : al.luminance with _ | lum
      · rw [capture_sharpen_out_nomem E self pipe d al inp out roi svm ssm (Or.inl hl)]
      rcases h2 : al.tmp2 with _ | t2
      · rw [capture_sharpen_out_nomem E self pipe d al inp out roi svm ssm (Or.inr (Or.inl h2))]
      rcases h1 : al.tmp1 with _ | t1
      · rw [capture_sharpen_out_nomem E self pipe d al inp out roi svm ssm
          (Or.inr (Or.inr (Or.inl h1)))]
      rcases hb : al.blendmask with _ | bm
      · rw [capture_sharpen_out_nomem E self pipe d al inp out roi svm ssm
          (Or.inr (Or.inr (Or.inr hb)))]
      rw [capture_sharpen_out E self pipe d al inp out roi svm ssm lum t2 t1 bm
        (Bool.eq_false_iff.mpr hthumb) (Bool.eq_false_iff.mpr hgo) hl h2 h1 hb, if_neg hs, h]
      rfl
  -- the sharpening path
  have hmain : ∀ (lum t2 t1 bm : Buf) (table0 : Nat → Nat),
      (pipe.thumbnail && !(E._get_thumb_quality pipe.final_width pipe.final_height)) = false →
      (decide (d.cs_iter < 1) && !svm && !ssm) = false → svm = false → ssm = false →
      al.luminance = some lum → al.tmp2 = some t2 → al.tmp1 = some t1 →
      al.blendmask = some bm → al.table = some table0 →
      ¬ (csBlend E pipe d inp out roi lum t2 t1 bm).1 (row * roi.width + col) > 0 →
      ∀ c, c < 3 →
        (_capture_sharpen E self pipe d al inp out roi svm ssm).out
          (4 * (row * roi.width + col) + c) = out (4 * (row * roi.width + col) + c) := by
    intro lum t2 t1 bm table0 hthumb hgo hs hss hl h2 h1 hb htab hmask c hc
    subst hs hss
    have ho := capture_sharpen_out E self pipe d al inp out roi false false lum t2 t1 bm hthumb
      hgo hl h2 h1 hb
    obtain ⟨g, hg, _, _⟩ := cs_precalc_gauss_idx_get E self.image roi
      (csRadius E self pipe d inp roi) d.cs_boost d.cs_center table0
    rw [htab, hg] at ho
    simp only [Bool.false_eq_true, if_false] at ho
    rw [ho]
    exact recompose_unmasked E out _ _ _ _ _ hmask c (by omega)
  constructor
  · rintro ⟨h0, hk, hY⟩ c hc
    by_cases hthumb :
        (pipe.thumbnail && !(E._get_thumb_quality pipe.final_width pipe.final_height)) = true
    · exact hother c hc (Or.inl hthumb)
    by_cases hgo : (decide (d.cs_iter < 1) && !svm && !ssm) = true
    · exact hother c hc (Or.inr (Or.inl hgo))
    by_cases hs : svm = true
    · exact hother c hc (Or.inr (Or.inr (Or.inl hs)))
    by_cases hss : ssm = true
    · exact hother c hc (Or.inr (Or.inr (Or.inr (Or.inl hss))))
    rcases hl : al.luminance with _ | lum
    · exact hother c hc (Or.inr (Or.inr (Or.inr (Or.inr (Or.inl hl)))))
    rcases h2 : al.tmp2 with _ | t2
    · exact hother c hc (Or.inr (Or.inr (Or.inr (Or.inr (Or.inr (Or.inl h2))))))
    rcases h1 : al.tmp1 with _ | t1
    · exact hother c hc (Or.inr (Or.inr (Or.inr (Or.inr (Or.inr (Or.inr (Or.inl h1)))))))
    rcases hb : al.blendmask with _ | bm
    · exact hother c hc
        (Or.inr (Or.inr (Or.inr (Or.inr (Or.inr (Or.inr (Or.inr (Or.inl hb))))))))
    rcases htab : al.table with _ | table0
    · exact hother c hc
        (Or.inr (Or.inr (Or.inr (Or.inr (Or.inr (Or.inr (Or.inr (Or.inr htab))))))))
    have hs' : svm = false := by simpa using hs
    have hss' : ssm = false := by simpa using hss
    subst hs' hss'
    have hYpos : (0 : ℚ) < prepareY out (row * roi.width + col) :=
      lt_of_lt_of_le (by norm_num [CAPTURE_YMIN]) hY
    have hmax : MAX (prepareY out (row * roi.width + col)) CAPTURE_YMIN
        = prepareY out (row * roi.width + col) := by
      rw [MAX_eq_max, max_eq_left hY]
    obtain ⟨A, hA, hout⟩ := capture_sharpen_ring_pixel E self pipe d al inp out roi lum t2 t1 bm
      table0 (Bool.eq_false_iff.mpr hthumb) (Bool.eq_false_iff.mpr hgo) hl h2 h1 hb htab
      row col hrow hcol hring h0 hk (fun A => A = prepareY out (row * roi.width + col)) rfl
      (by
        intro A hA
        subst hA
        split_ifs
        · rw [hmax, div_self (ne_of_gt hYpos), mul_one]
        · rfl)
      c hc
    rw [hout, hA]
    split_ifs
    · have : interpolatef (CLIP ((csBlend E pipe d inp out roi lum t2 t1 bm).1
          (row * roi.width + col))) (prepareY out (row * roi.width + col))
          (prepareY out (row * roi.width + col)) = prepareY out (row * roi.width + col) := by
        unfold interpolatef
        ring
      rw [this, hmax, div_self (ne_of_gt hYpos), mul_one]
    · rfl
  · intro lum t2 t1 bm hl h2 h1 hb hmask c hc
    by_cases hthumb :
        (pipe.thumbnail && !(E._get_thumb_quality pipe.final_width pipe.final_height)) = true
    · exact hother c hc (Or.inl hthumb)
    by_cases hgo : (decide (d.cs_iter < 1) && !svm && !ssm) = true
    · exact hother c hc (Or.inr (Or.inl hgo))
    by_cases hs : svm = true
    · exact hother c hc (Or.inr (Or.inr (Or.inl hs)))
    by_cases hss : ssm = true
    · exact hother c hc (Or.inr (Or.inr (Or.inr (Or.inl hss))))
    rcases htab : al.table with _ | table0
    · exact hother c hc
        (Or.inr (Or.inr (Or.inr (Or.inr (Or.inr (Or.inr (Or.inr (Or.inr htab))))))))
    exact hmain lum t2 t1 bm table0 (Bool.eq_false_iff.mpr hthumb)
      (Bool.eq_false_iff.mpr hgo) (by simpa using hs) (by simpa using hss) hl h2 h1 hb htab
      hmask c hc

/-- A ring pixel darker than `CAPTURE_YMIN` whose final blend mask is positive
has its colour floats scaled by a factor of at most `luminance / CAPTURE_YMIN`
(below 1) on the sharpening path. -/
theorem capture_sharpen_ring_dark (E : Env) (self : Module) (pipe : Pipe) (d : Data)
    (al : Allocs) (inp out : Buf) (roi : Roi) (lum t2 t1 bm : Buf) (table0 : Nat → Nat)
    (hthumb : (pipe.thumbnail && !(E._get_thumb_quality pipe.final_width pipe.final_height)) = false)
    (hgo : (decide (d.cs_iter < 1) && !false && !false) = false)
    (hl : al.luminance = some lum) (h2 : al.tmp2 = some t2) (h1 : al.tmp1 = some t1)
    (hb : al.blendmask = some bm) (htab : al.table = some table0)
    (row col : Nat) (hrow : row < roi.height) (hcol : col < roi.width)
    (hring : row = 0 ∨ row + 1 = roi.height ∨ col = 0 ∨ col + 1 = roi.width)
    (h0 : self.gauss_coeffs 0 = 1) (hk : ∀ j, 0 < j → j < 25 → self.gauss_coeffs j = 0)
    (hmask : (csBlend E pipe d inp out roi lum t2 t1 bm).1 (row * roi.width + col) > 0)
    (hdark : prepareY out (row * roi.width + col) < CAPTURE_YMIN)
    (c : Nat) (hc : c < 3) :
    ∃ f : ℚ, 0 ≤ f ∧ f ≤ prepareY out (row * roi.width + col) / CAPTURE_YMIN ∧
      (_capture_sharpen E self pipe d al inp out roi false false).out
          (4 * (row * roi.width + col) + c)
        = out (4 * (row * roi.width + col) + c) * f := by
  have hL0 := prepareY_nonneg out (row * roi.width + col)
  have hYpos : (0 : ℚ) < CAPTURE_YMIN := by norm_num [CAPTURE_YMIN]
  have hmaxL : MAX (prepareY out (row * roi.width + col)) CAPTURE_YMIN = CAPTURE_YMIN := by
    rw [MAX_eq_max, max_eq_right (le_of_lt hdark)]
  obtain ⟨A, hA, hout⟩ := capture_sharpen_ring_pixel E self pipe d al inp out roi lum t2 t1 bm
    table0 hthumb hgo hl h2 h1 hb htab row col hrow hcol hring h0 hk
    (fun A => 0 ≤ A ∧ A ≤ prepareY out (row * roi.width + col)) ⟨hL0, le_refl _⟩
    (by
      rintro A ⟨hA0, hAL⟩
      rw [if_pos hmask]
      have hmaxA : MAX A CAPTURE_YMIN = CAPTURE_YMIN := by
        rw [MAX_eq_max, max_eq_right (le_trans hAL (le_of_lt hdark))]
      rw [hmaxA]
      have hq0 : 0 ≤ prepareY out (row * roi.width + col) / CAPTURE_YMIN :=
        div_nonneg hL0 (le_of_lt hYpos)
      have hq1 : prepareY out (row * roi.width + col) / CAPTURE_YMIN ≤ 1 := by
        rw [div_le_one hYpos]
        exact le_of_lt hdark
      constructor
      · exact mul_nonneg hA0 hq0
      · calc A * (prepareY out (row * roi.width + col) / CAPTURE_YMIN)
            ≤ A * 1 := mul_le_mul_of_nonneg_left hq1 hA0
          _ = A := mul_one A
          _ ≤ _ := hAL)
    c hc
  rw [if_pos hmask, hmaxL] at hout
  obtain ⟨ht0, ht1⟩ := CLIP_mem ((csBlend E pipe d inp out roi lum t2 t1 bm).1
    (row * roi.width + col))
  refine ⟨_, ?_, ?_, hout⟩
  · apply div_nonneg _ (le_of_lt hYpos)
    unfold interpolatef
    have := mul_nonneg ht0 hA.1
    have := mul_nonneg (sub_nonneg.mpr ht1) hL0
    linarith
  · apply div_le_div_of_nonneg_right _ (le_of_lt hYpos)
    unfold interpolatef
    have := mul_le_mul_of_nonneg_left hA.2 ht0
    nlinarith

/-- When no interior pixel is clipped or dark, the mask of `_prepare_blend` is 1
inside and 0 on the two-pixel border. -/
theorem prepare_blend_mask_no_bad (E : Env) (cfa rgb : Buf) (filters : Nat)
    (xtrans : Nat → Nat → Nat) (roi : Roi) (mask Yold : Buf) (whites : Nat → ℚ)
    (w1 height : Nat)
    (hgood : ∀ row col, row < height → col < w1 →
      (row > 1 ∧ col > 1 ∧ (row : ℤ) < (height : ℤ) - 2 ∧ (col : ℤ) < (w1 : ℤ) - 2) →
      ¬ (cfa (row * w1 + col)
          > whites (if filters = 9 then E.FCxtrans row col roi xtrans else E.FC row col filters) ∨
        prepareY rgb (row * w1 + col) < CAPTURE_YMIN))
    (row col : Nat) (hrow : row < height) (hcol : col < w1) :
    (_prepare_blend E cfa rgb filters xtrans roi mask Yold whites w1 height).1 (row * w1 + col)
      = if row > 1 ∧ col > 1 ∧ (row : ℤ) < (height : ℤ) - 2 ∧ (col : ℤ) < (w1 : ℤ) - 2
        then 1 else 0 := by
  have h := forLoop2_pointwise (fun st : Buf × Buf => st.1) height w1
    (fun row col st =>
      let k := row * w1 + col
      let y : ℚ := prepareY rgb k
      let Yold := store st.2 k y
      if row > 1 ∧ col > 1 ∧ (row : ℤ) < (height : ℤ) - 2 ∧ (col : ℤ) < (w1 : ℤ) - 2 then
        let color : Nat :=
          if filters = 9 then E.FCxtrans row col roi xtrans else E.FC row col filters
        if cfa k > whites color ∨ y < CAPTURE_YMIN then (zeroRhombus st.1 k w1, Yold)
        else (st.1, Yold)
      else (store st.1 k 0, Yold))
    (fun row col old =>
      if row > 1 ∧ col > 1 ∧ (row : ℤ) < (height : ℤ) - 2 ∧ (col : ℤ) < (w1 : ℤ) - 2
      then old else 0)
    (by
      intro r c s m hr hc hm
      dsimp only
      by_cases hin : r > 1 ∧ c > 1 ∧ (r : ℤ) < (height : ℤ) - 2 ∧ (c : ℤ) < (w1 : ℤ) - 2
      · rw [if_pos hin, if_neg (hgood r c hr hc hin)]
      · rw [if_neg hin]
        exact store_other _ _ _ _ hm)
    (by
      intro r c s hr hc
      dsimp only
      by_cases hin : r > 1 ∧ c > 1 ∧ (r : ℤ) < (height : ℤ) - 2 ∧ (c : ℤ) < (w1 : ℤ) - 2
      · rw [if_pos hin, if_neg (hgood r c hr hc hin), if_pos hin]
      · rw [if_neg hin, if_neg hin]
        exact store_same _ _ _)
    (dt_iop_image_fill mask 1 w1 height 1, Yold)
  have h1 := h.1 row col hrow hcol
  unfold _prepare_blend
  rw [h1]
  have hfill : dt_iop_image_fill mask 1 w1 height 1 (row * w1 + col) = 1 := by
    unfold dt_iop_image_fill
    have h1 : (row + 1) * w1 ≤ height * w1 := Nat.mul_le_mul_right _ hrow
    have h2 : (row + 1) * w1 = row * w1 + w1 := by ring
    have h3 : w1 * height * 1 = height * w1 := by ring
    rw [if_pos (by omega)]
  simp only [hfill]

theorem prepareY_out5_zero : prepareY out5 0 = 1 / 2000 := by
  norm_num [prepareY, out5, MAX_eq_max]

theorem prepareY_out5_pos (i : Nat) (hi : 0 < i) : prepareY out5 i = 1 / 2 := by
  have h0 : ¬ (i * 4 + 0 < 4) := by omega
  have h1 : ¬ (i * 4 + 1 < 4) := by omega
  have h2 : ¬ (i * 4 + 2 < 4) := by omega
  simp only [prepareY, out5, MAX_eq_max, if_neg h0, if_neg h1, if_neg h2]
  norm_num

theorem module5_kernel0 :
    module5.gauss_coeffs 0 = 1 ∧ ∀ j, 0 < j → j < 25 → module5.gauss_coeffs j = 0 := by
  constructor
  · simp [module5]
  · intro j h0 h25
    have : j % 32 ≠ 0 := by omega
    simp [module5, this]

/-- Witness of C9: the corner `(0, 0)` and the centre `(8, 8)` of a 17×17 roi. -/
theorem cs_precalc_gauss_idx_ring_and_core_witness :
    0 < (Roi.mk 17 17 0 0).height ∧ 0 < (Roi.mk 17 17 0 0).width ∧
    8 < (Roi.mk 17 17 0 0).height ∧ 8 < (Roi.mk 17 17 0 0).width ∧
    (_cs_precalc_gauss_idx envQ (Image.mk 17 17) (Roi.mk 17 17 0 0) (1 / 2) 0 0
      (some (fun _ => 7))).map (fun t => t (0 * (Roi.mk 17 17 0 0).width + 0)) = some 0 ∧
    gaussSigma envQ (Image.mk 17 17) (Roi.mk 17 17 0 0) (1 / 2) 0 0 8 8
      = 1 / 2 + gaussCorr envQ (Image.mk 17 17) (Roi.mk 17 17 0 0) 0 0 8 8 :=
  ⟨by decide, by decide, by decide, by decide,
    (cs_precalc_gauss_idx_ring_and_core envQ (Image.mk 17 17) (Roi.mk 17 17 0 0) (1 / 2) 0 0
      (fun _ => 7) 0 0 (by decide) (by decide)).1 (Or.inl rfl),
    ((cs_precalc_gauss_idx_ring_and_core envQ (Image.mk 17 17) (Roi.mk 17 17 0 0) (1 / 2) 0 0
      (fun _ => 7) 8 8 (by decide) (by decide)).2 ⟨by decide, by decide, by decide, by decide⟩).1⟩

theorem expTaylor4_ge_one (y : ℚ) (hy : 0 ≤ y) : 1 ≤ expTaylor4 y := by
  unfold expTaylor4
  have h2 : 0 ≤ y ^ 2 := by positivity
  have h3 : 0 ≤ y ^ 3 := by positivity
  have h4 : 0 ≤ y ^ 4 := by positivity
  linarith

/-- The stand-in for `expf` is positive, and at most 1 on negative numbers. -/
theorem expQ_pos (x : ℚ) : 0 < expQ x ∧ (x < 0 → expQ x ≤ 1) := by
  unfold expQ
  split_ifs with h
  · have h1 := expTaylor4_ge_one (x / 16) (by positivity)
    exact ⟨by positivity, fun hx => absurd h (not_le.mpr hx)⟩
  · have hx : x < 0 := not_le.mp h
    have h1 := expTaylor4_ge_one (-x / 16) (by linarith)
    have h2 : 1 ≤ expTaylor4 (-x / 16) ^ 16 := one_le_pow₀ h1
    refine ⟨by positivity, fun _ => ?_⟩
    rw [div_le_one (by linarith)]
    exact h2

theorem est_ratio4_bounds :
    84 / 100 < sqrtQ (1 / logQ (1 / 2 / (1 / 8))) ∧
    sqrtQ (1 / logQ (1 / 2 / (1 / 8))) < 86 / 100 := by
  norm_num [sqrtQ, logQ]

theorem est_ratio2_bounds :
    120 / 100 ≤ sqrtQ (1 / logQ (1 / 2 / (1 / 4))) ∧
    sqrtQ (1 / logQ (1 / 2 / (1 / 4))) < 121 / 100 := by
  norm_num [sqrtQ, logQ]

/-- The weight of `_modify_blend` at the centre of a 5×5 image that is 1/2
everywhere except at pixel 0. -/
theorem modifyWeight_centre (Y : Buf) (hY : ∀ i, 0 < i → i < 25 → Y i = 1 / 2) :
    modifyWeight envQ Y 0 5 5 2 2 = 1 / (1 + expQ (-(5 / 2))) := by
  simp [modifyWeight, forLoop, CLAMP, hY, envQ, sqrf, MAX_eq_max]
  norm_num [logQ, sqrtQ]

/-- The stand-in blur is positive at the corner pixel 0 of a 5×5 image whose
values are non-negative and positive at the centre. -/
theorem gaussBlur5_corner_pos (inp out : Buf) (sigma : ℚ) (ch : Nat)
    (h : ∀ i, i < 25 → 0 ≤ inp i) (h12 : 0 < inp 12) :
    0 < gaussBlur5 inp out 5 5 sigma 0 1 ch 0 := by
  have h0 := h 0 (by norm_num)
  have h1 := h 1 (by norm_num)
  have h2 := h 2 (by norm_num)
  have h5 := h 5 (by norm_num)
  have h6 := h 6 (by norm_num)
  have h7 := h 7 (by norm_num)
  have h10 := h 10 (by norm_num)
  have h11 := h 11 (by norm_num)
  have hpos : 0 < (inp 0 + 8825 / 10000 * inp 1 + 6065 / 10000 * inp 2 + 8825 / 10000 * inp 5
      + 8825 / 10000 * (8825 / 10000) * inp 6 + 8825 / 10000 * (6065 / 10000) * inp 7
      + 6065 / 10000 * inp 10 + 6065 / 10000 * (8825 / 10000) * inp 11
      + 6065 / 10000 * (6065 / 10000) * inp 12) / (3978 / 1000) ^ 2 := by
    apply div_pos _ (by norm_num)
    linarith
  simp [gaussBlur5, forLoop, gaussWeight5, CLAMP]
  split_ifs with a b
  · norm_num
  · exact absurd hpos (not_lt.mpr (le_of_lt b))
  · exact hpos

theorem csRadius_cfaPair_export :
    csRadius envQ moduleNoGui (pipeBayer false) dataAuto (cfaPair (1 / 2) (1 / 8))
      (Roi.mk 10 9 0 0) = sqrtQ (1 / logQ (1 / 2 / (1 / 8))) := by
  rw [csRadius_entered _ _ _ _ _ _ (Or.inr (by norm_num [dataAuto]))]
  have h := calcRadiusBayer_cfaPair (1 / 2) (1 / 8) (by norm_num) (by norm_num) (by norm_num)
    (by norm_num)
  simp only [pipeBayer]
  rw [if_pos (by decide)]
  exact h

/-- Counterexample to C6 as stated: a call on a pipe that is not the full pipe,
stored radius 0, on a mosaic whose only green pair is `(0.5, 0.125)`. The
estimate (about 0.85) differs from 0 by more than 0.005 and lies in
`(0.1, 1)`, and `p->cs_radius` is still 0 on return. -/
theorem capture_sharpen_auto_radius_not_written :
    |csRadius envQ moduleNoGui (pipeBayer false) dataAuto (cfaPair (1 / 2) (1 / 8))
      (Roi.mk 10 9 0 0) - dataAuto.cs_radius| > 5 / 1000 ∧
    1 / 10 < csRadius envQ moduleNoGui (pipeBayer false) dataAuto (cfaPair (1 / 2) (1 / 8))
      (Roi.mk 10 9 0 0) ∧
    csRadius envQ moduleNoGui (pipeBayer false) dataAuto (cfaPair (1 / 2) (1 / 8))
      (Roi.mk 10 9 0 0) < 1 ∧
    (_capture_sharpen envQ moduleNoGui (pipeBayer false) dataAuto allocsOk
      (cfaPair (1 / 2) (1 / 8)) (fun _ => 1 / 2) (Roi.mk 10 9 0 0) false false).cs_radius = 0 := by
  have hb := est_ratio4_bounds
  have habs : |sqrtQ (1 / logQ (1 / 2 / (1 / 8))) - dataAuto.cs_radius| > 5 / 1000 := by
    rw [show dataAuto.cs_radius = 0 from rfl, sub_zero, abs_of_pos (by linarith [hb.1])]
    linarith [hb.1]
  have h1 : 1 / 10 < sqrtQ (1 / logQ (1 / 2 / (1 / 8))) := by linarith [hb.1]
  have h2 : sqrtQ (1 / logQ (1 / 2 / (1 / 8))) < 1 := by linarith [hb.2]
  have hp := capture_sharpen_params envQ moduleNoGui (pipeBayer false) dataAuto allocsOk
    (cfaPair (1 / 2) (1 / 8)) (fun _ => 1 / 2) (Roi.mk 10 9 0 0) false false
    (by simp [pipeBayer]) (by simp [dataAuto])
  rw [if_pos (Or.inr (by norm_num [dataAuto])), csRadius_cfaPair_export] at hp
  have hu := (autoRadiusUpdate_cases (sqrtQ (1 / logQ (1 / 2 / (1 / 8)))) dataAuto.cs_radius
    (pipeBayer false).full moduleNoGui.autoradius moduleNoGui.cs_radius).2.1
    ⟨⟨habs, h1, h2⟩, rfl⟩
  rw [hu] at hp
  rw [csRadius_cfaPair_export]
  exact ⟨habs, h1, h2, congrArg Prod.snd hp⟩

/-- Witness of C6 (amended): the same call. -/
theorem capture_sharpen_auto_radius_write_witness :
    ((pipeBayer false).thumbnail &&
      !(envQ._get_thumb_quality (pipeBayer false).final_width (pipeBayer false).final_height))
      = false ∧
    (decide (dataAuto.cs_iter < 1) && !false && !false) = false ∧
    (((pipeBayer false).full && (moduleNoGui.autoradius == some true)) = true ∨
      dataAuto.cs_radius < 1 / 100) ∧
    (_capture_sharpen envQ moduleNoGui (pipeBayer false) dataAuto allocsOk
      (cfaPair (1 / 2) (1 / 8)) (fun _ => 1 / 2) (Roi.mk 10 9 0 0) false false).cs_radius
      = moduleNoGui.cs_radius :=
  ⟨by simp [pipeBayer], by simp [dataAuto], Or.inr (by norm_num [dataAuto]),
    ((capture_sharpen_auto_radius_write envQ moduleNoGui (pipeBayer false) dataAuto allocsOk
      (cfaPair (1 / 2) (1 / 8)) (fun _ => 1 / 2) (Roi.mk 10 9 0 0) false false
      (by simp [pipeBayer]) (by simp [dataAuto]) (Or.inr (by norm_num [dataAuto]))).2.2.1
      ⟨by
        have hb := est_ratio4_bounds
        rw [← csRadius_cfaPair_export] at hb
        refine ⟨?_, by linarith [hb.1], by linarith [hb.2]⟩
        rw [show dataAuto.cs_radius = 0 from rfl, sub_zero, abs_of_pos (by linarith [hb.1])]
        linarith [hb.1], rfl⟩).1⟩

theorem csRadius_cfaPair_auto :
    csRadius envQ moduleAuto (pipeBayer true) dataHalf (cfaPair (1 / 2) (1 / 4))
      (Roi.mk 10 9 0 0) = sqrtQ (1 / logQ (1 / 2 / (1 / 4))) := by
  rw [csRadius_entered _ _ _ _ _ _ (Or.inl (by simp [pipeBayer, moduleAuto]))]
  have h := calcRadiusBayer_cfaPair (1 / 2) (1 / 4) (by norm_num) (by norm_num) (by norm_num)
    (by norm_num)
  simp only [pipeBayer]
  rw [if_pos (by decide)]
  exact h

/-- Counterexample to C7 as stated: the full pipe with the auto flag set and a
stored radius of 0.5, on a mosaic whose only green pair is `(0.5, 0.25)`. The
estimate (about 1.20) is not below 1; `p->cs_radius` stays 0.5, yet the sigma
mask shown at pixel `(4, 5)` is 60/255, the index of the estimate, where the
stored radius 0.5 gives index 25. -/
theorem capture_sharpen_uses_invalid_estimate :
    1 ≤ csRadius envQ moduleAuto (pipeBayer true) dataHalf (cfaPair (1 / 2) (1 / 4))
      (Roi.mk 10 9 0 0) ∧
    dataHalf.cs_radius = 1 / 2 ∧
    (_capture_sharpen envQ moduleAuto (pipeBayer true) dataHalf allocsOk
      (cfaPair (1 / 2) (1 / 4)) (fun _ => 1 / 2) (Roi.mk 10 9 0 0) false true).cs_radius = 1 / 2 ∧
    (_capture_sharpen envQ moduleAuto (pipeBayer true) dataHalf allocsOk
      (cfaPair (1 / 2) (1 / 4)) (fun _ => 1 / 2) (Roi.mk 10 9 0 0) false true).out (4 * 45 + 3)
      = 60 / 255 ∧
    (_cs_precalc_gauss_idx envQ (Image.mk 10 9) (Roi.mk 10 9 0 0) dataHalf.cs_radius 0 0
      (some (fun _ => 0))).map (fun t => ((t 45 : Nat) : ℤ)) = some 25 := by
  have hthumb : ((pipeBayer true).thumbnail && !(envQ._get_thumb_quality
      (pipeBayer true).final_width (pipeBayer true).final_height)) = false := by
    simp [pipeBayer]
  have hgo : (decide (dataHalf.cs_iter < 1) && !false && !true) = false := by simp
  have hb := est_ratio2_bounds
  have hp := capture_sharpen_params envQ moduleAuto (pipeBayer true) dataHalf allocsOk
    (cfaPair (1 / 2) (1 / 4)) (fun _ => 1 / 2) (Roi.mk 10 9 0 0) false true hthumb hgo
  rw [if_pos (Or.inl (by simp [pipeBayer, moduleAuto])), csRadius_cfaPair_auto] at hp
  have hu := (autoRadiusUpdate_cases (sqrtQ (1 / logQ (1 / 2 / (1 / 4)))) dataHalf.cs_radius
    (pipeBayer true).full moduleAuto.autoradius moduleAuto.cs_radius).2.2
    (fun h => absurd h.2.2 (not_lt.mpr (by linarith [hb.1])))
  rw [hu] at hp
  have ho := capture_sharpen_out envQ moduleAuto (pipeBayer true) dataHalf allocsOk
    (cfaPair (1 / 2) (1 / 4)) (fun _ => 1 / 2) (Roi.mk 10 9 0 0) false true
    (fun _ => 0) (fun _ => 0) (fun _ => 0) (fun _ => 0) hthumb hgo rfl rfl rfl rfl
  rw [csRadius_cfaPair_auto] at ho
  have h60 := gauss_idx_at_45 (sqrtQ (1 / logQ (1 / 2 / (1 / 4)))) 60
    (by
      rw [Int.floor_eq_iff]
      constructor
      · have := hb.1
        push_cast
        linarith
      · have := hb.2
        push_cast
        linarith)
    (by decide) (by decide)
  have h25 := gauss_idx_at_45 (1 / 2) 25 (by rw [Int.floor_eq_iff]; norm_num) (by decide)
    (by decide)
  refine ⟨?_, rfl, congrArg Prod.snd hp, ?_, h25⟩
  · rw [csRadius_cfaPair_auto]
    linarith [hb.1]
  rw [ho]
  simp only [Bool.false_eq_true, if_false, if_true]
  have hal : allocsOk.table = some (fun _ => 0) := rfl
  have him : moduleAuto.image = Image.mk 10 9 := rfl
  have hbs : dataHalf.cs_boost = 0 := rfl
  have hcs : dataHalf.cs_center = 0 := rfl
  rw [hal, him, hbs, hcs]
  obtain ⟨t, ht, _, _⟩ :=
    cs_precalc_gauss_idx_get envQ (Image.mk 10 9) (Roi.mk 10 9 0 0)
      (sqrtQ (1 / logQ (1 / 2 / (1 / 4)))) 0 0 (fun _ => 0)
  rw [ht] at h60 ⊢
  simp only [Option.map_some', Option.some.injEq] at h60
  simp only []
  rw [(showSigmaMask_get (fun _ => 1 / 2) t _ (4 * 45 + 3)).1 45 (by decide) rfl]
  have : ((t 45 : Nat) : ℚ) = 60 := by exact_mod_cast h60
  rw [this]

/-- Witness of C5 (amended): the variance-mask view on the 10×9 mosaic. -/
theorem capture_sharpen_debug_views_witness :
    (true = true ∨ false = true) ∧
    allocsOk.luminance = some (fun _ => 0) ∧ allocsOk.tmp2 = some (fun _ => 0) ∧
    allocsOk.tmp1 = some (fun _ => 0) ∧ allocsOk.blendmask = some (fun _ => 0) ∧
    (∀ k c, c < 3 →
      (_capture_sharpen envQ moduleNoGui (pipeBayer false) dataAuto allocsOk
        (cfaPair (1 / 2) (1 / 8)) (fun _ => 1 / 2) (Roi.mk 10 9 0 0) true false).out (4 * k + c)
        = (fun _ : Nat => (1 / 2 : ℚ)) (4 * k + c)) :=
  ⟨Or.inl rfl, rfl, rfl, rfl, rfl,
    (capture_sharpen_debug_views envQ moduleNoGui (pipeBayer false) dataAuto allocsOk
      (cfaPair (1 / 2) (1 / 8)) (fun _ => 1 / 2) (Roi.mk 10 9 0 0) true false
      (fun _ => 0) (fun _ => 0) (fun _ => 0) (fun _ => 0) (Or.inl rfl) rfl rfl rfl rfl).1⟩

/-- Witness of C1: a call with `cs_iter = 0`. -/
theorem capture_sharpen_zero_iterations_witness :
    (Data.mk 0 (1 / 2) 0 0 0).cs_iter < 1 ∧
    (false = false → false = false →
      _capture_sharpen envQ moduleNoGui (pipeBayer false) (Data.mk 0 (1 / 2) 0 0 0) allocsOk
        (cfaPair (1 / 2) (1 / 8)) (fun _ => 1 / 2) (Roi.mk 10 9 0 0) false false
        = ⟨fun _ => 1 / 2, moduleNoGui.autoradius, moduleNoGui.cs_radius⟩) :=
  ⟨by decide,
    (capture_sharpen_zero_iterations envQ moduleNoGui (pipeBayer false)
      (Data.mk 0 (1 / 2) 0 0 0) allocsOk (cfaPair (1 / 2) (1 / 8)) (fun _ => 1 / 2)
      (Roi.mk 10 9 0 0) false false (by decide)).2⟩

/-- Witness of C7 (amended): the call of the counterexample. -/
theorem capture_sharpen_invalid_estimate_witness :
    ¬ ((1 / 10 : ℚ) < sqrtQ (1 / logQ (1 / 2 / (1 / 4))) ∧
      sqrtQ (1 / logQ (1 / 2 / (1 / 4))) < 1) ∧
    (_capture_sharpen envQ moduleAuto (pipeBayer true) dataHalf allocsOk
      (cfaPair (1 / 2) (1 / 4)) (fun _ => 1 / 2) (Roi.mk 10 9 0 0) false true).cs_radius
      = moduleAuto.cs_radius ∧
    (_capture_sharpen envQ moduleAuto (pipeBayer true) dataHalf allocsOk
      (cfaPair (1 / 2) (1 / 4)) (fun _ => 1 / 2) (Roi.mk 10 9 0 0) false true).autoradius
      = moduleAuto.autoradius.map (fun _ => false) :=
  have hinv : ¬ ((1 / 10 : ℚ) < sqrtQ (1 / logQ (1 / 2 / (1 / 4))) ∧
      sqrtQ (1 / logQ (1 / 2 / (1 / 4))) < 1) :=
    fun h => absurd h.2 (not_lt.mpr (by linarith [est_ratio2_bounds.1]))
  have h := capture_sharpen_invalid_estimate envQ moduleAuto (pipeBayer true) dataHalf allocsOk
    (cfaPair (1 / 2) (1 / 4)) (fun _ => 1 / 2) (Roi.mk 10 9 0 0) false true
    (fun _ => 0) (fun _ => 0) (fun _ => 0) (fun _ => 0)
    (by simp [pipeBayer]) (by simp) (Or.inl (by simp [pipeBayer, moduleAuto])) rfl rfl rfl rfl
    (sqrtQ (1 / logQ (1 / 2 / (1 / 4))))
    (by
      rw [← csRadius_entered envQ moduleAuto (pipeBayer true) dataHalf (cfaPair (1 / 2) (1 / 4))
        (Roi.mk 10 9 0 0) (Or.inl (by simp [pipeBayer, moduleAuto]))]
      exact csRadius_cfaPair_auto.symm)
    hinv
  ⟨hinv, h.1, h.2.1⟩

theorem CLIP_pos (x : ℚ) (hx : 0 < x) : 0 < CLIP x := by
  unfold CLIP CLAMP
  split_ifs with h1 h2
  · norm_num
  · exact absurd hx (not_lt.mpr (le_of_lt h2))
  · exact hx

/-- The final blend mask at the corner of the 5×5 image is positive. -/
theorem csBlend_out5_corner_pos :
    (csBlend envQ (pipeBayer false) dataHalf (fun _ => 1 / 2) out5 (Roi.mk 5 5 0 0)
      (fun _ => 0) (fun _ => 0) (fun _ => 0) (fun _ => 0)).1 0 > 0 := by
  unfold csBlend
  simp only []
  -- the two buffers `_prepare_blend` leaves
  have hYold : ∀ i, i < 25 →
      (_prepare_blend envQ (fun _ => 1 / 2) out5 (pipeBayer false).filters
        (pipeBayer false).xtrans (Roi.mk 5 5 0 0) (fun _ => 0) (fun _ => 0)
        (fun c => if c < 3 then
          (if (pipeBayer false).wb_enabled then CAPTURE_CFACLIP * (pipeBayer false).wb_coeffs c
            else CAPTURE_CFACLIP) else 0) 5 5).2 i = prepareY out5 i := by
    intro i hi
    obtain ⟨r, c, hr, hc, e⟩ := idx2_split (w := 5) 5 i hi
    rw [e]
    exact (prepare_blend_Yold _ _ _ _ _ _ _ _ _ 5 5).1 r c hr hc
  have hM12 :
      (_prepare_blend envQ (fun _ => 1 / 2) out5 (pipeBayer false).filters
        (pipeBayer false).xtrans (Roi.mk 5 5 0 0) (fun _ => 0) (fun _ => 0)
        (fun c => if c < 3 then
          (if (pipeBayer false).wb_enabled then CAPTURE_CFACLIP * (pipeBayer false).wb_coeffs c
            else CAPTURE_CFACLIP) else 0) 5 5).1 12 = 1 := by
    have h := prepare_blend_mask_no_bad envQ (fun _ => 1 / 2) out5 (pipeBayer false).filters
      (pipeBayer false).xtrans (Roi.mk 5 5 0 0) (fun _ => 0) (fun _ => 0)
      (fun c => if c < 3 then
        (if (pipeBayer false).wb_enabled then CAPTURE_CFACLIP * (pipeBayer false).wb_coeffs c
          else CAPTURE_CFACLIP) else 0) 5 5
      (by
        intro row col hr hc hin
        have hr2 : row = 2 := by omega
        have hc2 : col = 2 := by omega
        subst hr2 hc2
        have hfc : envQ.FC 2 2 (pipeBayer false).filters = 0 := by decide
        rw [prepareY_out5_pos _ (by norm_num)]
        simp only [pipeBayer, Nat.reduceEqDiff, if_false] at hfc ⊢
        norm_num [hfc, CAPTURE_CFACLIP, CAPTURE_YMIN])
      2 2 (by norm_num) (by norm_num)
    rw [if_pos (by norm_num)] at h
    exact h
  -- the weight at the centre
  have hW := modifyWeight_centre
    (_prepare_blend envQ (fun _ => 1 / 2) out5 (pipeBayer false).filters
        (pipeBayer false).xtrans (Roi.mk 5 5 0 0) (fun _ => 0) (fun _ => 0)
        (fun c => if c < 3 then
          (if (pipeBayer false).wb_enabled then CAPTURE_CFACLIP * (pipeBayer false).wb_coeffs c
            else CAPTURE_CFACLIP) else 0) 5 5).2
    (by
      intro i h0 h25
      rw [hYold i h25, prepareY_out5_pos i h0])
  -- generalise the two buffers
  generalize hpb : _prepare_blend envQ (fun _ => 1 / 2) out5 (pipeBayer false).filters
        (pipeBayer false).xtrans (Roi.mk 5 5 0 0) (fun _ => 0) (fun _ => 0)
        (fun c => if c < 3 then
          (if (pipeBayer false).wb_enabled then CAPTURE_CFACLIP * (pipeBayer false).wb_coeffs c
            else CAPTURE_CFACLIP) else 0) 5 5 = pb at hYold hM12 hW ⊢
  rw [show dataHalf.cs_thrs = 0 from rfl]
  have hget := modify_blend_get envQ pb.1 pb.2 (fun _ => 0) 0 5 5
  have hT : ∀ i, i < 25 →
      0 ≤ (_modify_blend envQ pb.1 pb.2 (fun _ => 0) 0 5 5).1 i := by
    intro i hi
    obtain ⟨r, c, hr, hc, e⟩ := idx2_split (w := 5) 5 i hi
    rw [e, ((hget.1 r c hr hc).1)]
    exact (CLIP_mem _).1
  have hT12 : (_modify_blend envQ pb.1 pb.2 (fun _ => 0) 0 5 5).1 12 > 0 := by
    have h := (hget.1 2 2 (by norm_num) (by norm_num)).1
    have e : (2 * 5 + 2 : Nat) = 12 := rfl
    rw [e, hM12, hW] at h
    rw [h]
    apply CLIP_pos
    have h0 := (expQ_pos (-(5 / 2))).1
    have h2 := (expQ_pos (-(5 / 2))).2 (by norm_num)
    have h1 : 1 / 2 ≤ 1 / (1 + expQ (-(5 / 2))) := by
      rw [le_div_iff₀ (by linarith)]
      linarith
    linarith
  generalize hmb : (_modify_blend envQ pb.1 pb.2 (fun _ => 0) 0 5 5).1 = T
    at hT hT12 ⊢
  show reinforce envQ T (envQ.dt_gaussian_fast_blur T (fun _ => 0) 5 5 2 0 1 1) (5 * 5) 0 > 0
  rw [(reinforce_get envQ T _ (5 * 5) 0).1 (by norm_num)]
  have hB : 0 < envQ.dt_gaussian_fast_blur T (fun _ => 0) 5 5 2 0 1 1 0 :=
    gaussBlur5_corner_pos T (fun _ => 0) 2 1 hT hT12
  generalize envQ.dt_gaussian_fast_blur T (fun _ => 0) 5 5 2 0 1 1 0 = b at hB ⊢
  have hT0 := hT 0 (by norm_num)
  have hexp : ∀ x : ℚ, 0 < envQ.expf x := fun x => (expQ_pos x).1
  have he := hexp (5 - 10 * (T 0 - b))
  have hw1 : 0 < 1 / (1 + envQ.expf (5 - 10 * (T 0 - b))) := by positivity
  have hw2 : 1 / (1 + envQ.expf (5 - 10 * (T 0 - b))) < 1 := by
    rw [div_lt_one (by linarith)]
    linarith
  have hpos : 0 < 1 / (1 + envQ.expf (5 - 10 * (T 0 - b))) * T 0
      + (1 - 1 / (1 + envQ.expf (5 - 10 * (T 0 - b)))) * b := by
    have h1 := mul_nonneg (le_of_lt hw1) hT0
    have h2 := mul_pos (sub_pos.mpr hw2) hB
    linarith
  unfold CLIP CLAMP
  split_ifs with h1 h2
  · norm_num
  · exact absurd hpos (not_lt.mpr (le_of_lt h2))
  · exact hpos


/-- Counterexample to C4 as stated: a 5×5 mid-grey image whose corner pixel 0
is the dark grey 1/2000 (luminance below `CAPTURE_YMIN`), one iteration, the
mask blur a Gaussian cut to a 5×5 window. The blurred mask reaches the corner, and its red
float, 1/2000 on entry, is at most 1/4000 on return. -/
theorem capture_sharpen_ring_pixel_changed :
    out5 (4 * 0 + 0) = 1 / 2000 ∧
    (_capture_sharpen envQ module5 (pipeBayer false) dataHalf allocsOk (fun _ => 1 / 2) out5
      (Roi.mk 5 5 0 0) false false).out (4 * 0 + 0) ≤ 1 / 4000 := by
  refine ⟨by norm_num [out5], ?_⟩
  obtain ⟨f, hf0, hf1, hout⟩ := capture_sharpen_ring_dark envQ module5 (pipeBayer false)
    dataHalf allocsOk (fun _ => 1 / 2) out5 (Roi.mk 5 5 0 0)
    (fun _ => 0) (fun _ => 0) (fun _ => 0) (fun _ => 0) (fun _ => 0)
    (by simp [pipeBayer]) (by simp [dataHalf]) rfl rfl rfl rfl rfl
    0 0 (by decide) (by decide) (Or.inl rfl) module5_kernel0.1 module5_kernel0.2
    csBlend_out5_corner_pos
    (by
      show prepareY out5 0 < CAPTURE_YMIN
      rw [prepareY_out5_zero]
      norm_num [CAPTURE_YMIN])
    0 (by decide)
  have e : (0 * (Roi.mk 5 5 0 0).width + 0 : Nat) = 0 := rfl
  rw [e] at hout hf1
  rw [hout]
  rw [prepareY_out5_zero] at hf1
  have h1 : out5 (4 * 0 + 0) = 1 / 2000 := by norm_num [out5]
  rw [h1]
  have : f ≤ 1 / 2 := by
    refine le_trans hf1 ?_
    norm_num [CAPTURE_YMIN]
  linarith

/-- Witness of C4 (amended): the ring pixel `(0, 1)` of the same image, whose
luminance is 1/2, keeps its colour. -/
theorem capture_sharpen_ring_preserved_witness :
    0 < (Roi.mk 5 5 0 0).height ∧ 1 < (Roi.mk 5 5 0 0).width ∧
    ((0 : Nat) = 0 ∨ 0 + 1 = (Roi.mk 5 5 0 0).height ∨ (1 : Nat) = 0 ∨
      1 + 1 = (Roi.mk 5 5 0 0).width) ∧
    CAPTURE_YMIN ≤ prepareY out5 (0 * (Roi.mk 5 5 0 0).width + 1) ∧
    ∀ c, c < 3 →
      (_capture_sharpen envQ module5 (pipeBayer false) dataHalf allocsOk (fun _ => 1 / 2) out5
        (Roi.mk 5 5 0 0) false false).out (4 * (0 * (Roi.mk 5 5 0 0).width + 1) + c)
        = out5 (4 * (0 * (Roi.mk 5 5 0 0).width + 1) + c) :=
  have hY : CAPTURE_YMIN ≤ prepareY out5 (0 * (Roi.mk 5 5 0 0).width + 1) := by
    rw [prepareY_out5_pos _ (by decide)]
    norm_num [CAPTURE_YMIN]
  ⟨by decide, by decide, Or.inl rfl, hY,
    (capture_sharpen_ring_preserved envQ module5 (pipeBayer false) dataHalf allocsOk
      (fun _ => 1 / 2) out5 (Roi.mk 5 5 0 0) false false 0 1 (by decide) (by decide)
      (Or.inl rfl)).1 ⟨module5_kernel0.1, module5_kernel0.2, hY⟩⟩

/-- A loop in which every round zeroes some cells and leaves the others: a cell
ends at 0 if some round zeroes it, and keeps its value otherwise. -/
theorem forLoop_zeroing {σ : Type} (π : σ → Nat → ℚ) (n : Nat) (body : Nat → σ → σ)
    (Z : Nat → Nat → Prop)
    (hzero : ∀ i s m, i < n → Z i m → π (body i s) m = 0)
    (hkeep : ∀ i s m, i < n → ¬ Z i m → π (body i s) m = π s m)
    (s : σ) (m : Nat) :
    ((∃ i, i < n ∧ Z i m) → π (forLoop n body s) m = 0) ∧
    ((∀ i, i < n → ¬ Z i m) → π (forLoop n body s) m = π s m) := by
  have main : ∀ k, k ≤ n →
      ((∃ i, i < k ∧ Z i m) → π (forLoop k body s) m = 0) ∧
      ((∀ i, i < k → ¬ Z i m) → π (forLoop k body s) m = π s m) := by
    intro k
    induction k with
    | zero =>
      intro _
      exact ⟨fun ⟨i, hi, _⟩ => absurd hi (Nat.not_lt_zero i), fun _ => rfl⟩
    | succ k ih =>
      intro hk
      have hk' : k < n := hk
      obtain ⟨ih1, ih2⟩ := ih (Nat.le_of_lt hk')
      rw [forLoop_succ]
      constructor
      · rintro ⟨i, hi, hz⟩
        by_cases hkz : Z k m
        · exact hzero k _ m hk' hkz
        · rw [hkeep k _ m hk' hkz]
          have hne : i ≠ k := fun e => hkz (e ▸ hz)
          exact ih1 ⟨i, by omega, hz⟩
      · intro hno
        rw [hkeep k _ m hk' (hno k (Nat.lt_succ_self k))]
        exact ih2 (fun i hi => hno i (Nat.lt_succ_of_lt hi))
  exact main n (Nat.le_refl n)

/-- The row-major double loop whose round `(r, c)` zeroes the cells `Z r c`. -/
theorem forLoop2_zeroing {σ : Type} (π : σ → Nat → ℚ) (h w : Nat)
    (body : Nat → Nat → σ → σ) (Z : Nat → Nat → Nat → Prop)
    (hzero : ∀ r c s m, r < h → c < w → Z r c m → π (body r c s) m = 0)
    (hkeep : ∀ r c s m, r < h → c < w → ¬ Z r c m → π (body r c s) m = π s m)
    (s : σ) (m : Nat) :
    ((∃ r c, r < h ∧ c < w ∧ Z r c m) →
      π (forLoop h (fun r s => forLoop w (fun c s => body r c s) s) s) m = 0) ∧
    ((∀ r c, r < h → c < w → ¬ Z r c m) →
      π (forLoop h (fun r s => forLoop w (fun c s => body r c s) s) s) m = π s m) := by
  have inner := fun r (hr : r < h) (t : σ) (m : Nat) =>
    forLoop_zeroing π w (fun c s => body r c s) (fun c m => Z r c m)
      (fun c s m hc hz => hzero r c s m hr hc hz)
      (fun c s m hc hz => hkeep r c s m hr hc hz) t m
  have outer := forLoop_zeroing π h (fun r s => forLoop w (fun c s => body r c s) s)
    (fun r m => ∃ c, c < w ∧ Z r c m)
    (fun r t m' hr hz => (inner r hr t m').1 hz)
    (fun r t m' hr hz => (inner r hr t m').2 (fun c hc hzc => hz ⟨c, hc, hzc⟩)) s m
  constructor
  · rintro ⟨r, c, hr, hc, hz⟩
    exact outer.1 ⟨r, hr, c, hc, hz⟩
  · intro hno
    exact outer.2 (fun r hr ⟨c, hc, hz⟩ => hno r c hr hc hz)

theorem foldl_store_zero (L : List Nat) (mask : Buf) (j : Nat) :
    L.foldl (fun (m : Buf) (i : Nat) => store m i 0) mask j = if j ∈ L then 0 else mask j := by
  induction L generalizing mask with
  | nil => simp
  | cons x L ih =>
    rw [List.foldl_cons, ih]
    by_cases hj : j ∈ L
    · simp [hj]
    · by_cases hx : j = x
      · subst hx
        simp [hj, store_same]
      · simp [hj, hx, store_other]

theorem zeroRhombus_get (mask : Buf) (k w1 m : Nat) :
    zeroRhombus mask k w1 m
      = if m ∈ [k-2*w1-1, k-2*w1, k-2*w1+1,
          k-w1-2, k-w1-1, k-w1, k-w1+1, k-w1+2,
          k-2, k-1, k, k+1, k+2,
          k+w1-2, k+w1-1, k+w1, k+w1+1, k+w1+2,
          k+2*w1-1, k+2*w1, k+2*w1+1] then 0 else mask m := by
  unfold zeroRhombus
  exact foldl_store_zero _ mask m

theorem specRhombus_iff (dr dc : ℤ) :
    specRhombus dr dc ↔
      (-2 ≤ dr ∧ dr ≤ 2 ∧ -2 ≤ dc ∧ dc ≤ 2 ∧ ¬ ((dr = 2 ∨ dr = -2) ∧ (dc = 2 ∨ dc = -2))) := by
  unfold specRhombus
  rw [max_le_iff, abs_le, abs_le, abs_eq (by norm_num), abs_eq (by norm_num)]
  tauto

/-- Around an interior pixel `(qr, qc)` the 21 indices of the rhombus are the
cells whose offset has both distances at most 2, the four corners left out. -/
theorem rhombus_mem (w1 qr qc pr pc : Nat) (hqr : 2 ≤ qr) (hqc : 2 ≤ qc) (hqc2 : qc + 2 < w1)
    (hpc : pc < w1) :
    pr * w1 + pc ∈ [qr*w1+qc-2*w1-1, qr*w1+qc-2*w1, qr*w1+qc-2*w1+1,
          qr*w1+qc-w1-2, qr*w1+qc-w1-1, qr*w1+qc-w1, qr*w1+qc-w1+1, qr*w1+qc-w1+2,
          qr*w1+qc-2, qr*w1+qc-1, qr*w1+qc, qr*w1+qc+1, qr*w1+qc+2,
          qr*w1+qc+w1-2, qr*w1+qc+w1-1, qr*w1+qc+w1, qr*w1+qc+w1+1, qr*w1+qc+w1+2,
          qr*w1+qc+2*w1-1, qr*w1+qc+2*w1, qr*w1+qc+2*w1+1]
      ↔ specRhombus ((pr : ℤ) - qr) ((pc : ℤ) - qc) := by
  obtain ⟨R, rfl⟩ : ∃ R, qr = R + 2 := ⟨qr - 2, by omega⟩
  obtain ⟨C, rfl⟩ : ∃ C, qc = C + 2 := ⟨qc - 2, by omega⟩
  rw [specRhombus_iff]
  have key : ∀ a b : Nat, b ≤ 4 →
      (pr * w1 + pc = (R + a) * w1 + (C + b) ↔ pr = R + a ∧ pc = C + b) := by
    intro a b hb
    constructor
    · intro h
      exact idx2_inj hpc (by omega) h
    · rintro ⟨rfl, rfl⟩
      rfl
  have k' : ∀ a b : Nat, b ≤ 4 → ∀ x : Nat, x = (R + a) * w1 + (C + b) →
      (pr * w1 + pc = x ↔ pr = R + a ∧ pc = C + b) := by
    intro a b hb x hx
    rw [hx]
    exact key a b hb
  simp only [List.mem_cons, List.mem_singleton, List.not_mem_nil, or_false]
  rw [k' 0 1 (by omega) _ (by simp only [Nat.add_mul]; omega),
    k' 0 2 (by omega) _ (by simp only [Nat.add_mul]; omega),
    k' 0 3 (by omega) _ (by simp only [Nat.add_mul]; omega),
    k' 1 0 (by omega) _ (by simp only [Nat.add_mul]; omega),
    k' 1 1 (by omega) _ (by simp only [Nat.add_mul]; omega),
    k' 1 2 (by omega) _ (by simp only [Nat.add_mul]; omega),
    k' 1 3 (by omega) _ (by simp only [Nat.add_mul]; omega),
    k' 1 4 (by omega) _ (by simp only [Nat.add_mul]; omega),
    k' 2 0 (by omega) _ (by simp only [Nat.add_mul]; omega),
    k' 2 1 (by omega) _ (by simp only [Nat.add_mul]; omega),
    k' 2 2 (by omega) _ rfl,
    k' 2 3 (by omega) _ (by simp only [Nat.add_mul]; omega),
    k' 2 4 (by omega) _ (by simp only [Nat.add_mul]; omega),
    k' 3 0 (by omega) _ (by simp only [Nat.add_mul]; omega),
    k' 3 1 (by omega) _ (by simp only [Nat.add_mul]; omega),
    k' 3 2 (by omega) _ (by simp only [Nat.add_mul]; omega),
    k' 3 3 (by omega) _ (by simp only [Nat.add_mul]; omega),
    k' 3 4 (by omega) _ (by simp only [Nat.add_mul]; omega),
    k' 4 1 (by omega) _ (by simp only [Nat.add_mul]; omega),
    k' 4 2 (by omega) _ (by simp only [Nat.add_mul]; omega),
    k' 4 3 (by omega) _ (by simp only [Nat.add_mul]; omega)]
  constructor
  · intro h
    push_cast
    omega
  · intro h
    obtain ⟨a, rfl, ha⟩ : ∃ a, pr = R + a ∧ a ≤ 4 := ⟨pr - R, by omega, by omega⟩
    obtain ⟨b, rfl, hb⟩ : ∃ b, pc = C + b ∧ b ≤ 4 := ⟨pc - C, by omega, by omega⟩
    push_cast at h
    interval_cases a <;> interval_cases b <;> first | (exfalso; omega) | simp

/-- The pixels at which `_prepare_blend` stores zeros: round `(r, c)` zeroes
the rhombus when the pixel is interior and bad, and the pixel itself on the
border. -/
theorem prepare_blend_mask_get (E : Env) (cfa rgb : Buf) (filters : Nat)
    (xtrans : Nat → Nat → Nat) (roi : Roi) (mask Yold : Buf) (whites : Nat → ℚ)
    (w1 height : Nat) (m : Nat) :
    ((∃ r c, r < height ∧ c < w1 ∧
        (if r > 1 ∧ c > 1 ∧ (r : ℤ) < (height : ℤ) - 2 ∧ (c : ℤ) < (w1 : ℤ) - 2 then
          ((cfa (r * w1 + c)
              > whites (if filters = 9 then E.FCxtrans r c roi xtrans else E.FC r c filters) ∨
            prepareY rgb (r * w1 + c) < CAPTURE_YMIN) ∧
           m ∈ [r*w1+c-2*w1-1, r*w1+c-2*w1, r*w1+c-2*w1+1,
              r*w1+c-w1-2, r*w1+c-w1-1, r*w1+c-w1, r*w1+c-w1+1, r*w1+c-w1+2,
              r*w1+c-2, r*w1+c-1, r*w1+c, r*w1+c+1, r*w1+c+2,
              r*w1+c+w1-2, r*w1+c+w1-1, r*w1+c+w1, r*w1+c+w1+1, r*w1+c+w1+2,
              r*w1+c+2*w1-1, r*w1+c+2*w1, r*w1+c+2*w1+1])
        else m = r * w1 + c)) →
      (_prepare_blend E cfa rgb filters xtrans roi mask Yold whites w1 height).1 m = 0) ∧
    ((∀ r c, r < height → c < w1 →
        ¬ (if r > 1 ∧ c > 1 ∧ (r : ℤ) < (height : ℤ) - 2 ∧ (c : ℤ) < (w1 : ℤ) - 2 then
          ((cfa (r * w1 + c)
              > whites (if filters = 9 then E.FCxtrans r c roi xtrans else E.FC r c filters) ∨
            prepareY rgb (r * w1 + c) < CAPTURE_YMIN) ∧
           m ∈ [r*w1+c-2*w1-1, r*w1+c-2*w1, r*w1+c-2*w1+1,
              r*w1+c-w1-2, r*w1+c-w1-1, r*w1+c-w1, r*w1+c-w1+1, r*w1+c-w1+2,
              r*w1+c-2, r*w1+c-1, r*w1+c, r*w1+c+1, r*w1+c+2,
              r*w1+c+w1-2, r*w1+c+w1-1, r*w1+c+w1, r*w1+c+w1+1, r*w1+c+w1+2,
              r*w1+c+2*w1-1, r*w1+c+2*w1, r*w1+c+2*w1+1])
        else m = r * w1 + c)) →
      (_prepare_blend E cfa rgb filters xtrans roi mask Yold whites w1 height).1 m
        = dt_iop_image_fill mask 1 w1 height 1 m) := by
  unfold _prepare_blend
  refine forLoop2_zeroing (fun s : Buf × Buf => s.1) height w1
    (fun row col st =>
      if row > 1 ∧ col > 1 ∧ (row : ℤ) < (height : ℤ) - 2 ∧ (col : ℤ) < (w1 : ℤ) - 2 then
        if cfa (row * w1 + col)
            > whites (if filters = 9 then E.FCxtrans row col roi xtrans else E.FC row col filters) ∨
          prepareY rgb (row * w1 + col) < CAPTURE_YMIN
        then (zeroRhombus st.1 (row * w1 + col) w1,
          store st.2 (row * w1 + col) (prepareY rgb (row * w1 + col)))
        else (st.1, store st.2 (row * w1 + col) (prepareY rgb (row * w1 + col)))
      else (store st.1 (row * w1 + col) 0,
        store st.2 (row * w1 + col) (prepareY rgb (row * w1 + col))))
    (fun r c m =>
      if r > 1 ∧ c > 1 ∧ (r : ℤ) < (height : ℤ) - 2 ∧ (c : ℤ) < (w1 : ℤ) - 2 then
          ((cfa (r * w1 + c)
              > whites (if filters = 9 then E.FCxtrans r c roi xtrans else E.FC r c filters) ∨
            prepareY rgb (r * w1 + c) < CAPTURE_YMIN) ∧
           m ∈ [r*w1+c-2*w1-1, r*w1+c-2*w1, r*w1+c-2*w1+1,
              r*w1+c-w1-2, r*w1+c-w1-1, r*w1+c-w1, r*w1+c-w1+1, r*w1+c-w1+2,
              r*w1+c-2, r*w1+c-1, r*w1+c, r*w1+c+1, r*w1+c+2,
              r*w1+c+w1-2, r*w1+c+w1-1, r*w1+c+w1, r*w1+c+w1+1, r*w1+c+w1+2,
              r*w1+c+2*w1-1, r*w1+c+2*w1, r*w1+c+2*w1+1])
        else m = r * w1 + c) ?_ ?_
    (dt_iop_image_fill mask 1 w1 height 1, Yold) m
  · intro r c s m' hr hc hz
    dsimp only at hz ⊢
    by_cases hin : r > 1 ∧ c > 1 ∧ (r : ℤ) < (height : ℤ) - 2 ∧ (c : ℤ) < (w1 : ℤ) - 2
    · rw [if_pos hin] at hz
      rw [if_pos hin, if_pos hz.1]
      dsimp only
      rw [zeroRhombus_get, if_pos hz.2]
    · rw [if_neg hin] at hz
      rw [if_neg hin, hz]
      exact store_same _ _ _
  · intro r c s m' hr hc hz
    dsimp only at hz ⊢
    by_cases hin : r > 1 ∧ c > 1 ∧ (r : ℤ) < (height : ℤ) - 2 ∧ (c : ℤ) < (w1 : ℤ) - 2
    · rw [if_pos hin] at hz
      rw [if_pos hin]
      by_cases hbad : cfa (r * w1 + c)
              > whites (if filters = 9 then E.FCxtrans r c roi xtrans else E.FC r c filters) ∨
            prepareY rgb (r * w1 + c) < CAPTURE_YMIN
      · rw [if_pos hbad]
        dsimp only
        rw [zeroRhombus_get, if_neg (fun hm => hz ⟨hbad, hm⟩)]
      · rw [if_neg hbad]
    · rw [if_neg hin] at hz
      rw [if_neg hin]
      exact store_other _ _ _ _ hz

/-- The mask of `_prepare_blend` at pixel `(pr, pc)`: 0 on the border and in
the rhombus of an interior bad pixel, 1 elsewhere. -/
theorem prepare_blend_mask_pixel (E : Env) (cfa rgb : Buf) (filters : Nat)
    (xtrans : Nat → Nat → Nat) (roi : Roi) (mask Yold : Buf) (whites : Nat → ℚ)
    (W H : Nat) (pr pc : Nat) (hpr : pr < H) (hpc : pc < W) :
    ((specBorder W H pr pc ∨ ∃ qr qc, specInterior W H qr qc ∧
        specBadPixel E cfa (prepareY rgb) filters xtrans roi whites W qr qc ∧
        specRhombus ((pr : ℤ) - qr) ((pc : ℤ) - qc)) →
      (_prepare_blend E cfa rgb filters xtrans roi mask Yold whites W H).1 (pr * W + pc) = 0) ∧
    (¬ (specBorder W H pr pc ∨ ∃ qr qc, specInterior W H qr qc ∧
        specBadPixel E cfa (prepareY rgb) filters xtrans roi whites W qr qc ∧
        specRhombus ((pr : ℤ) - qr) ((pc : ℤ) - qc)) →
      (_prepare_blend E cfa rgb filters xtrans roi mask Yold whites W H).1 (pr * W + pc) = 1) := by
  have hget := prepare_blend_mask_get E cfa rgb filters xtrans roi mask Yold whites W H
    (pr * W + pc)
  constructor
  · rintro (hb | ⟨qr, qc, hin, hbad, hrh⟩)
    · refine hget.1 ⟨pr, pc, hpr, hpc, ?_⟩
      have hni : ¬ (pr > 1 ∧ pc > 1 ∧ (pr : ℤ) < (H : ℤ) - 2 ∧ (pc : ℤ) < (W : ℤ) - 2) := by
        unfold specBorder at hb
        omega
      rw [if_neg hni]
    · unfold specInterior at hin
      have hqr : qr < H := by omega
      have hqc : qc < W := by omega
      refine hget.1 ⟨qr, qc, hqr, hqc, ?_⟩
      rw [if_pos (by omega)]
      refine ⟨?_, (rhombus_mem W qr qc pr pc (by omega) (by omega) (by omega) hpc).mpr hrh⟩
      unfold specBadPixel cfaColor CAPTURE_YMIN at *
      exact hbad
  · intro hno
    have hnb : ¬ specBorder W H pr pc := fun h => hno (Or.inl h)
    rw [hget.2]
    · unfold dt_iop_image_fill
      have h1 : (pr + 1) * W ≤ H * W := Nat.mul_le_mul_right _ hpr
      have h2 : (pr + 1) * W = pr * W + W := by ring
      have h3 : W * H * 1 = H * W := by ring
      rw [if_pos (by omega)]
    · intro r c hr hc hz
      by_cases hin : r > 1 ∧ c > 1 ∧ (r : ℤ) < (H : ℤ) - 2 ∧ (c : ℤ) < (W : ℤ) - 2
      · rw [if_pos hin] at hz
        refine hno (Or.inr ⟨r, c, ?_, ?_, ?_⟩)
        · unfold specInterior
          omega
        · unfold specBadPixel cfaColor
          have := hz.1
          unfold CAPTURE_YMIN at this
          exact this
        · exact (rhombus_mem W r c pr pc (by omega) (by omega) (by omega) hpc).mp hz.2
      · rw [if_neg hin] at hz
        obtain ⟨e1, e2⟩ := idx2_inj hpc hc hz
        subst e1 e2
        apply hnb
        unfold specBorder
        omega

theorem specBadPixel_Yold (E : Env) (cfa rgb : Buf) (filters : Nat)
    (xtrans : Nat → Nat → Nat) (roi : Roi) (mask Yold : Buf) (whites : Nat → ℚ)
    (W H qr qc : Nat) (hqr : qr < H) (hqc : qc < W) :
    specBadPixel E cfa (_prepare_blend E cfa rgb filters xtrans roi mask Yold whites W H).2
        filters xtrans roi whites W qr qc
      ↔ specBadPixel E cfa (prepareY rgb) filters xtrans roi whites W qr qc := by
  unfold specBadPixel
  rw [(prepare_blend_Yold E cfa rgb filters xtrans roi mask Yold whites W H).1 qr qc hqr hqc]

/-- Beyond the image `_prepare_blend` leaves the mask buffer as it was. -/
theorem prepare_blend_mask_frame (E : Env) (cfa rgb : Buf) (filters : Nat)
    (xtrans : Nat → Nat → Nat) (roi : Roi) (mask Yold : Buf) (whites : Nat → ℚ)
    (W H m : Nat) (hm : H * W ≤ m) :
    (_prepare_blend E cfa rgb filters xtrans roi mask Yold whites W H).1 m = mask m := by
  rw [(prepare_blend_mask_get E cfa rgb filters xtrans roi mask Yold whites W H m).2]
  · unfold dt_iop_image_fill
    have h3 : W * H * 1 = H * W := by ring
    rw [if_neg (by omega)]
  · intro r c hr hc hz
    have h1 : (r + 1) * W ≤ H * W := Nat.mul_le_mul_right _ hr
    have h2 : (r + 1) * W = r * W + W := by ring
    by_cases hin : r > 1 ∧ c > 1 ∧ (r : ℤ) < (H : ℤ) - 2 ∧ (c : ℤ) < (W : ℤ) - 2
    · rw [if_pos hin] at hz
      have h4 : (r + 3) * W ≤ H * W := Nat.mul_le_mul_right _ (by omega)
      have h5 : (r + 3) * W = r * W + 3 * W := by ring
      have hmem := hz.2
      simp only [List.mem_cons, List.mem_singleton, List.not_mem_nil, or_false] at hmem
      omega
    · rw [if_neg hin] at hz
      omega

/-- The stores of the rhombus around an interior pixel stay inside the image. -/
theorem rhombus_in_bounds (W H qr qc : Nat) (h : specInterior W H qr qc) :
    2 * W + 1 ≤ qr * W + qc ∧ qr * W + qc + 2 * W + 1 < W * H := by
  unfold specInterior at h
  have h1 : 2 * W ≤ qr * W := Nat.mul_le_mul_right _ h.1
  have h4 : (qr + 3) * W ≤ H * W := Nat.mul_le_mul_right _ (by omega)
  have h5 : (qr + 3) * W = qr * W + 3 * W := by ring
  have h6 : W * H = H * W := Nat.mul_comm _ _
  omega

/-- What `_modify_blend` makes of a mask value 0. -/
theorem modify_blend_zero (E : Env) (blend Yold lum : Buf) (dthresh : ℚ) (W H row col : Nat)
    (hrow : row < H) (hcol : col < W) (h0 : blend (row * W + col) = 0) :
    (_modify_blend E blend Yold lum dthresh W H).1 (row * W + col) = 0 := by
  rw [((modify_blend_get E blend Yold lum dthresh W H).1 row col hrow hcol).1, h0]
  simp [CLIP, CLAMP]

/-- C18: after `_prepare_blend` the mask at pixel `(row, col)` is 0 when the
pixel lies in the 2-pixel border or in the rhombus (the 21 offsets with both
distances at most 2, corners left out) of an interior pixel `q` with
`cfa[q] > whites[color(q)]` or `Yold[q] < 0.001`, and 1 at every other pixel;
the mask buffer is not changed at any index from `W·H` on, and the 21 indices
around an interior pixel lie between `0` and `W·H - 1`. -/
theorem prepare_blend_mask_characterised (E : Env) (cfa rgb : Buf) (filters : Nat)
    (xtrans : Nat → Nat → Nat) (roi : Roi) (mask Yold : Buf) (whites : Nat → ℚ) (W H : Nat) :
    (∀ row col, row < H → col < W →
      ((specBorder W H row col ∨ ∃ qr qc, specInterior W H qr qc ∧
          specBadPixel E cfa (_prepare_blend E cfa rgb filters xtrans roi mask Yold whites W H).2
            filters xtrans roi whites W qr qc ∧
          specRhombus ((row : ℤ) - qr) ((col : ℤ) - qc)) →
        (_prepare_blend E cfa rgb filters xtrans roi mask Yold whites W H).1 (row * W + col) = 0) ∧
      (¬ (specBorder W H row col ∨ ∃ qr qc, specInterior W H qr qc ∧
          specBadPixel E cfa (_prepare_blend E cfa rgb filters xtrans roi mask Yold whites W H).2
            filters xtrans roi whites W qr qc ∧
          specRhombus ((row : ℤ) - qr) ((col : ℤ) - qc)) →
        (_prepare_blend E cfa rgb filters xtrans roi mask Yold whites W H).1 (row * W + col) = 1)) ∧
    (∀ m, H * W ≤ m →
      (_prepare_blend E cfa rgb filters xtrans roi mask Yold whites W H).1 m = mask m) ∧
    (∀ qr qc, specInterior W H qr qc →
      2 * W + 1 ≤ qr * W + qc ∧ qr * W + qc + 2 * W + 1 < W * H) := by
  refine ⟨?_, fun m hm => prepare_blend_mask_frame E cfa rgb filters xtrans roi mask Yold whites
    W H m hm, fun qr qc h => rhombus_in_bounds W H qr qc h⟩
  intro row col hrow hcol
  have hiff : (specBorder W H row col ∨ ∃ qr qc, specInterior W H qr qc ∧
          specBadPixel E cfa (_prepare_blend E cfa rgb filters xtrans roi mask Yold whites W H).2
            filters xtrans roi whites W qr qc ∧
          specRhombus ((row : ℤ) - qr) ((col : ℤ) - qc)) ↔
      (specBorder W H row col ∨ ∃ qr qc, specInterior W H qr qc ∧
          specBadPixel E cfa (prepareY rgb) filters xtrans roi whites W qr qc ∧
          specRhombus ((row : ℤ) - qr) ((col : ℤ) - qc)) := by
    refine or_congr Iff.rfl (exists_congr (fun qr => exists_congr (fun qc => ?_)))
    constructor
    · rintro ⟨hin, hbad, hrh⟩
      have hin' := hin
      unfold specInterior at hin'
      exact ⟨hin, (specBadPixel_Yold E cfa rgb filters xtrans roi mask Yold whites W H qr qc
        (by omega) (by omega)).mp hbad, hrh⟩
    · rintro ⟨hin, hbad, hrh⟩
      have hin' := hin
      unfold specInterior at hin'
      exact ⟨hin, (specBadPixel_Yold E cfa rgb filters xtrans roi mask Yold whites W H qr qc
        (by omega) (by omega)).mpr hbad, hrh⟩
  have hp := prepare_blend_mask_pixel E cfa rgb filters xtrans roi mask Yold whites W H row col
    hrow hcol
  exact ⟨fun h => hp.1 (hiff.mp h), fun h => hp.2 (fun h2 => h (hiff.mpr h2))⟩

/-- C14: when every CFA sample exceeds the white level of its channel, the
mask of `_prepare_blend` is 0 at every pixel, for every width and height, and
it is still 0 at every pixel after `_modify_blend`. -/
theorem prepare_blend_all_clipped (E : Env) (cfa rgb : Buf) (filters : Nat)
    (xtrans : Nat → Nat → Nat) (roi : Roi) (mask Yold lum : Buf) (whites : Nat → ℚ)
    (dthresh : ℚ) (W H : Nat)
    (hclip : ∀ row col, row < H → col < W →
      cfa (row * W + col) > whites (cfaColor E filters xtrans roi row col))
    (row col : Nat) (hrow : row < H) (hcol : col < W) :
    (_prepare_blend E cfa rgb filters xtrans roi mask Yold whites W H).1 (row * W + col) = 0 ∧
    (_modify_blend E (_prepare_blend E cfa rgb filters xtrans roi mask Yold whites W H).1
      (_prepare_blend E cfa rgb filters xtrans roi mask Yold whites W H).2 lum dthresh W H).1
      (row * W + col) = 0 := by
  have h0 : (_prepare_blend E cfa rgb filters xtrans roi mask Yold whites W H).1
      (row * W + col) = 0 := by
    refine (prepare_blend_mask_pixel E cfa rgb filters xtrans roi mask Yold whites W H row col
      hrow hcol).1 ?_
    by_cases hb : specBorder W H row col
    · exact Or.inl hb
    · refine Or.inr ⟨row, col, ?_, Or.inl (hclip row col hrow hcol), ?_⟩
      · unfold specBorder at hb
        unfold specInterior
        omega
      · rw [specRhombus_iff]
        omega
  exact ⟨h0, modify_blend_zero E _ _ lum dthresh W H row col hrow hcol h0⟩

/-- C15: the blend mask is in `[0, 1]` at every pixel after each stage that
writes it: exactly 0 or 1 after `_prepare_blend`, in `[0, 1]` after
`_modify_blend`, and in `[0, 1]` after the reinforcement loop, both for the
loop alone and for the mask `_capture_sharpen` builds. -/
theorem blend_mask_in_unit_interval (E : Env) :
    (∀ (cfa rgb : Buf) (filters : Nat) (xtrans : Nat → Nat → Nat) (roi : Roi)
        (mask Yold : Buf) (whites : Nat → ℚ) (W H row col : Nat), row < H → col < W →
      (_prepare_blend E cfa rgb filters xtrans roi mask Yold whites W H).1 (row * W + col) = 0 ∨
      (_prepare_blend E cfa rgb filters xtrans roi mask Yold whites W H).1 (row * W + col) = 1) ∧
    (∀ (blend Yold lum : Buf) (dthresh : ℚ) (W H row col : Nat), row < H → col < W →
      0 ≤ (_modify_blend E blend Yold lum dthresh W H).1 (row * W + col) ∧
      (_modify_blend E blend Yold lum dthresh W H).1 (row * W + col) ≤ 1) ∧
    (∀ (tmp2 blendmask : Buf) (pixels k : Nat), k < pixels →
      0 ≤ reinforce E tmp2 blendmask pixels k ∧ reinforce E tmp2 blendmask pixels k ≤ 1) ∧
    (∀ (pipe : Pipe) (d : Data) (inp out : Buf) (roi : Roi) (lum t2 t1 bm : Buf) (k : Nat),
      k < roi.width * roi.height →
      0 ≤ (csBlend E pipe d inp out roi lum t2 t1 bm).1 k ∧
      (csBlend E pipe d inp out roi lum t2 t1 bm).1 k ≤ 1) := by
  refine ⟨?_, ?_, ?_, ?_⟩
  · intro cfa rgb filters xtrans roi mask Yold whites W H row col hrow hcol
    have hp := prepare_blend_mask_pixel E cfa rgb filters xtrans roi mask Yold whites W H row col
      hrow hcol
    by_cases h : specBorder W H row col ∨ ∃ qr qc, specInterior W H qr qc ∧
        specBadPixel E cfa (prepareY rgb) filters xtrans roi whites W qr qc ∧
        specRhombus ((row : ℤ) - qr) ((col : ℤ) - qc)
    · exact Or.inl (hp.1 h)
    · exact Or.inr (hp.2 h)
  · intro blend Yold lum dthresh W H row col hrow hcol
    rw [((modify_blend_get E blend Yold lum dthresh W H).1 row col hrow hcol).1]
    exact CLIP_mem _
  · intro tmp2 blendmask pixels k hk
    rw [(reinforce_get E tmp2 blendmask pixels k).1 hk]
    exact CLIP_mem _
  · intro pipe d inp out roi lum t2 t1 bm k hk
    unfold csBlend
    simp only []
    rw [(reinforce_get E _ _ (roi.width * roi.height) k).1 hk]
    exact CLIP_mem _

/-- C16: after `_prepare_blend` followed by `_modify_blend` on an image of at
least 5×5 pixels, a pixel with `blend > 0` has `luminance >= CAPTURE_YMIN`;
and a pixel with `Yold < 0.001`, or a pixel of the 2-pixel border, has
`blend = 0`. -/
theorem modify_blend_active_luminance (E : Env) (cfa rgb : Buf) (filters : Nat)
    (xtrans : Nat → Nat → Nat) (roi : Roi) (mask Yold lum : Buf) (whites : Nat → ℚ)
    (dthresh : ℚ) (W H : Nat) (_hW : 5 ≤ W) (_hH : 5 ≤ H)
    (row col : Nat) (hrow : row < H) (hcol : col < W) :
    ((_modify_blend E (_prepare_blend E cfa rgb filters xtrans roi mask Yold whites W H).1
        (_prepare_blend E cfa rgb filters xtrans roi mask Yold whites W H).2 lum dthresh W H).1
        (row * W + col) > 0 →
      (_modify_blend E (_prepare_blend E cfa rgb filters xtrans roi mask Yold whites W H).1
        (_prepare_blend E cfa rgb filters xtrans roi mask Yold whites W H).2 lum dthresh W H).2
        (row * W + col) ≥ CAPTURE_YMIN) ∧
    (((_prepare_blend E cfa rgb filters xtrans roi mask Yold whites W H).2 (row * W + col)
          < 1 / 1000 ∨ specBorder W H row col) →
      (_modify_blend E (_prepare_blend E cfa rgb filters xtrans roi mask Yold whites W H).1
        (_prepare_blend E cfa rgb filters xtrans roi mask Yold whites W H).2 lum dthresh W H).1
        (row * W + col) = 0) := by
  have hY := (prepare_blend_Yold E cfa rgb filters xtrans roi mask Yold whites W H).1 row col
    hrow hcol
  have hzero : ((_prepare_blend E cfa rgb filters xtrans roi mask Yold whites W H).2
        (row * W + col) < 1 / 1000 ∨ specBorder W H row col) →
      (_modify_blend E (_prepare_blend E cfa rgb filters xtrans roi mask Yold whites W H).1
        (_prepare_blend E cfa rgb filters xtrans roi mask Yold whites W H).2 lum dthresh W H).1
        (row * W + col) = 0 := by
    intro h
    refine modify_blend_zero E _ _ lum dthresh W H row col hrow hcol ?_
    refine (prepare_blend_mask_pixel E cfa rgb filters xtrans roi mask Yold whites W H row col
      hrow hcol).1 ?_
    by_cases hb : specBorder W H row col
    · exact Or.inl hb
    · rcases h with h | h
      · refine Or.inr ⟨row, col, ?_, Or.inr (hY ▸ h), ?_⟩
        · unfold specBorder at hb
          unfold specInterior
          omega
        · rw [specRhombus_iff]
          omega
      · exact absurd h hb
  refine ⟨?_, hzero⟩
  intro hpos
  rw [((modify_blend_get E _ _ lum dthresh W H).1 row col hrow hcol).2]
  by_contra hlt
  have hlt' : (_prepare_blend E cfa rgb filters xtrans roi mask Yold whites W H).2
      (row * W + col) < 1 / 1000 := by
    have := not_le.mp hlt
    unfold CAPTURE_YMIN at this
    exact this
  rw [hzero (Or.inl hlt')] at hpos
  exact lt_irrefl _ hpos

/-- Witness of C16: the corner pixel `(0, 0)` of the 5×5 image with the dark
corner, a pixel of the border. -/
theorem modify_blend_active_luminance_witness :
    5 ≤ 5 ∧ 0 < 5 ∧ specBorder 5 5 0 0 ∧
    (_modify_blend envQ (_prepare_blend envQ (fun _ => 1 / 2) out5 (pipeBayer false).filters
        (pipeBayer false).xtrans (Roi.mk 5 5 0 0) (fun _ => 0) (fun _ => 0)
        (fun _ => 9 / 10) 5 5).1
      (_prepare_blend envQ (fun _ => 1 / 2) out5 (pipeBayer false).filters
        (pipeBayer false).xtrans (Roi.mk 5 5 0 0) (fun _ => 0) (fun _ => 0)
        (fun _ => 9 / 10) 5 5).2 (fun _ => 0) 0 5 5).1 (0 * 5 + 0) = 0 :=
  ⟨by decide, by decide, by decide,
    (modify_blend_active_luminance envQ (fun _ => 1 / 2) out5 (pipeBayer false).filters
      (pipeBayer false).xtrans (Roi.mk 5 5 0 0) (fun _ => 0) (fun _ => 0) (fun _ => 0)
      (fun _ => 9 / 10) 0 5 5 (by decide) (by decide) 0 0 (by decide) (by decide)).2
      (Or.inr (by decide))⟩

/-- Witness of C14: a 5×5 mosaic at 1.0 with whites 0.9, at the centre pixel. -/
theorem prepare_blend_all_clipped_witness :
    (∀ row col, row < 5 → col < 5 →
      (fun _ : Nat => (1 : ℚ)) (row * 5 + col)
        > (fun _ : Nat => (9 / 10 : ℚ)) (cfaColor envQ (pipeBayer false).filters
            (pipeBayer false).xtrans (Roi.mk 5 5 0 0) row col)) ∧
    (_prepare_blend envQ (fun _ => 1) out5 (pipeBayer false).filters
      (pipeBayer false).xtrans (Roi.mk 5 5 0 0) (fun _ => 7) (fun _ => 0)
      (fun _ => 9 / 10) 5 5).1 (2 * 5 + 2) = 0 :=
  ⟨fun _ _ _ _ => by norm_num,
    (prepare_blend_all_clipped envQ (fun _ => 1) out5 (pipeBayer false).filters
      (pipeBayer false).xtrans (Roi.mk 5 5 0 0) (fun _ => 7) (fun _ => 0) (fun _ => 0)
      (fun _ => 9 / 10) 0 5 5 (fun _ _ _ _ => by norm_num) 2 2 (by decide) (by decide)).1⟩

/-- A pixel whose final blend mask is not positive keeps its colour through
`_capture_sharpen`, on every path. -/
theorem capture_sharpen_unmasked_pixel (E : Env) (self : Module) (pipe : Pipe) (d : Data)
    (al : Allocs) (inp out : Buf) (roi : Roi) (svm ssm : Bool) (k : Nat)
    (hmask : ∀ lum t2 t1 bm, al.luminance = some lum → al.tmp2 = some t2 →
      al.tmp1 = some t1 → al.blendmask = some bm →
      ¬ (csBlend E pipe d inp out roi lum t2 t1 bm).1 k > 0)
    (c : Nat) (hc : c < 3) :
    (_capture_sharpen E self pipe d al inp out roi svm ssm).out (4 * k + c) = out (4 * k + c) := by
  by_cases hthumb :
      (pipe.thumbnail && !(E._get_thumb_quality pipe.final_width pipe.final_height)) = true
  · rw [capture_sharpen_early E self pipe d al inp out roi svm ssm (Or.inl hthumb)]
  by_cases hgo : (decide (d.cs_iter < 1) && !svm && !ssm) = true
  · rw [capture_sharpen_early E self pipe d al inp out roi svm ssm (Or.inr hgo)]
  by_cases hs : svm = true
  · exact capture_sharpen_rgb_of_no_recompose E self pipe d al inp out roi svm ssm
      (Or.inr (Or.inl hs)) _ c hc
  by_cases hss : ssm = true
  · exact capture_sharpen_rgb_of_no_recompose E self pipe d al inp out roi svm ssm
      (Or.inr (Or.inr hss)) _ c hc
  rcases hl : al.luminance with _ | lum
  · rw [capture_sharpen_out_nomem E self pipe d al inp out roi svm ssm (Or.inl hl)]
  rcases h2 : al.tmp2 with _ | t2
  · rw [capture_sharpen_out_nomem E self pipe d al inp out roi svm ssm (Or.inr (Or.inl h2))]
  rcases h1 : al.tmp1 with _ | t1
  · rw [capture_sharpen_out_nomem E self pipe d al inp out roi svm ssm
      (Or.inr (Or.inr (Or.inl h1)))]
  rcases hb : al.blendmask with _ | bm
  · rw [capture_sharpen_out_nomem E self pipe d al inp out roi svm ssm
      (Or.inr (Or.inr (Or.inr hb)))]
  have hs' : svm = false := by simpa using hs
  have hss' : ssm = false := by simpa using hss
  subst hs' hss'
  have ho := capture_sharpen_out E self pipe d al inp out roi false false lum t2 t1 bm
    (Bool.eq_false_iff.mpr hthumb) (Bool.eq_false_iff.mpr hgo) hl h2 h1 hb
  rw [ho]
  simp only [Bool.false_eq_true, if_false]
  rcases htab : al.table with _ | table0
  · rfl
  · obtain ⟨g, hg, _, _⟩ := cs_precalc_gauss_idx_get E self.image roi
      (csRadius E self pipe d inp roi) d.cs_boost d.cs_center table0
    rw [hg]
    exact recompose_unmasked E out _ _ _ _ _ (hmask lum t2 t1 bm hl h2 h1 hb) c (by omega)

/-- C19 (amended): around a rectangle of interior pixels whose CFA samples
exceed their channel white, every pixel whose row distance and column
distance to the rectangle are both at most 2, and not both equal to 2, has
mask 0 after `_prepare_blend` and after `_modify_blend`; and a pixel whose
final blend mask is not positive is left unchanged by `_capture_sharpen`. -/
theorem prepare_blend_clipped_region (E : Env) (cfa rgb : Buf) (filters : Nat)
    (xtrans : Nat → Nat → Nat) (roi : Roi) (mask Yold lum : Buf) (whites : Nat → ℚ)
    (dthresh : ℚ) (W H r0 r1 c0 c1 : Nat) (hr : r0 ≤ r1) (hc : c0 ≤ c1)
    (hregion : ∀ qr qc, r0 ≤ qr → qr ≤ r1 → c0 ≤ qc → qc ≤ c1 →
      specInterior W H qr qc ∧
      cfa (qr * W + qc) > whites (cfaColor E filters xtrans roi qr qc))
    (row col : Nat) (hrow : row < H) (hcol : col < W)
    (hd1 : specAxisDist r0 r1 row ≤ 2) (hd2 : specAxisDist c0 c1 col ≤ 2)
    (hcorner : ¬ (specAxisDist r0 r1 row = 2 ∧ specAxisDist c0 c1 col = 2)) :
    (_prepare_blend E cfa rgb filters xtrans roi mask Yold whites W H).1 (row * W + col) = 0 ∧
    (_modify_blend E (_prepare_blend E cfa rgb filters xtrans roi mask Yold whites W H).1
      (_prepare_blend E cfa rgb filters xtrans roi mask Yold whites W H).2 lum dthresh W H).1
      (row * W + col) = 0 ∧
    (∀ (self : Module) (pipe : Pipe) (d : Data) (al : Allocs) (inp out : Buf) (sroi : Roi)
        (svm ssm : Bool) (k : Nat),
      (∀ l t2 t1 bm, al.luminance = some l → al.tmp2 = some t2 →
        al.tmp1 = some t1 → al.blendmask = some bm →
        ¬ (csBlend E pipe d inp out sroi l t2 t1 bm).1 k > 0) →
      ∀ c, c < 3 →
        (_capture_sharpen E self pipe d al inp out sroi svm ssm).out (4 * k + c)
          = out (4 * k + c)) := by
  have h0 : (_prepare_blend E cfa rgb filters xtrans roi mask Yold whites W H).1
      (row * W + col) = 0 := by
    refine (prepare_blend_mask_pixel E cfa rgb filters xtrans roi mask Yold whites W H row col
      hrow hcol).1 (Or.inr ?_)
    unfold specAxisDist at hd1 hd2 hcorner
    refine ⟨max r0 (min r1 row), max c0 (min c1 col), ?_, ?_, ?_⟩
    · exact (hregion _ _ (le_max_left _ _) (max_le hr (min_le_left _ _)) (le_max_left _ _)
        (max_le hc (min_le_left _ _))).1
    · exact Or.inl (hregion _ _ (le_max_left _ _) (max_le hr (min_le_left _ _)) (le_max_left _ _)
        (max_le hc (min_le_left _ _))).2
    · rw [specRhombus_iff]
      omega
  exact ⟨h0, modify_blend_zero E _ _ lum dthresh W H row col hrow hcol h0,
    fun self pipe d al inp out sroi svm ssm k hmask c hc =>
      capture_sharpen_unmasked_pixel E self pipe d al inp out sroi svm ssm k hmask c hc⟩

theorem cfa64_get (qr qc : Nat) (hqc : qc < 64) :
    cfa64 (qr * 64 + qc) = if 27 ≤ qr ∧ qr ≤ 36 ∧ 27 ≤ qc ∧ qc ≤ 36 then 1 else 3 / 10 := by
  unfold cfa64
  have h1 : (qr * 64 + qc) / 64 = qr := by omega
  have h2 : (qr * 64 + qc) % 64 = qc := by omega
  rw [h1, h2]

theorem prepareY_rgb64 (k : Nat) : prepareY rgb64 k = 3 / 10 := by
  norm_num [prepareY, rgb64, MAX_eq_max]

/-- Counterexample to C19 as stated: the 64×64 image at 0.3 with the 10×10
block of rows and columns 27..36 at 1.0 and whites 0.9. The pixel `(25, 25)`
is at row distance 2 and column distance 2 from the block, and its mask after
`_prepare_blend` is 1. -/
theorem prepare_blend_region_corner_kept :
    (∀ qr qc, 27 ≤ qr → qr ≤ 36 → 27 ≤ qc → qc ≤ 36 →
      specInterior 64 64 qr qc ∧
      cfa64 (qr * 64 + qc) > (fun _ : Nat => (9 / 10 : ℚ))
        (cfaColor envQ (pipeBayer false).filters (pipeBayer false).xtrans (Roi.mk 64 64 0 0)
          qr qc)) ∧
    specAxisDist 27 36 25 ≤ 2 ∧
    (_prepare_blend envQ cfa64 rgb64 (pipeBayer false).filters (pipeBayer false).xtrans
      (Roi.mk 64 64 0 0) (fun _ => 0) (fun _ => 0) (fun _ => 9 / 10) 64 64).1 (25 * 64 + 25)
      = 1 := by
  refine ⟨?_, by decide, ?_⟩
  · intro qr qc h1 h2 h3 h4
    refine ⟨by unfold specInterior; omega, ?_⟩
    rw [cfa64_get qr qc (by omega), if_pos ⟨h1, h2, h3, h4⟩]
    norm_num
  · refine (prepare_blend_mask_pixel envQ cfa64 rgb64 (pipeBayer false).filters
      (pipeBayer false).xtrans (Roi.mk 64 64 0 0) (fun _ => 0) (fun _ => 0) (fun _ => 9 / 10)
      64 64 25 25 (by decide) (by decide)).2 ?_
    rintro (hb | ⟨qr, qc, hin, hbad, hrh⟩)
    · unfold specBorder at hb
      omega
    · unfold specInterior at hin
      rw [specRhombus_iff] at hrh
      unfold specBadPixel at hbad
      rw [prepareY_rgb64, cfa64_get qr qc (by omega)] at hbad
      by_cases hreg : 27 ≤ qr ∧ qr ≤ 36 ∧ 27 ≤ qc ∧ qc ≤ 36
      · omega
      · rw [if_neg hreg] at hbad
        norm_num at hbad

/-- Witness of C19 (amended): the same image, at the pixel `(25, 26)`. -/
theorem prepare_blend_clipped_region_witness :
    (∀ qr qc, 27 ≤ qr → qr ≤ 36 → 27 ≤ qc → qc ≤ 36 →
      specInterior 64 64 qr qc ∧
      cfa64 (qr * 64 + qc) > (fun _ : Nat => (9 / 10 : ℚ))
        (cfaColor envQ (pipeBayer false).filters (pipeBayer false).xtrans (Roi.mk 64 64 0 0)
          qr qc)) ∧
    specAxisDist 27 36 25 ≤ 2 ∧ specAxisDist 27 36 26 ≤ 2 ∧
    ¬ (specAxisDist 27 36 25 = 2 ∧ specAxisDist 27 36 26 = 2) ∧
    (_prepare_blend envQ cfa64 rgb64 (pipeBayer false).filters (pipeBayer false).xtrans
      (Roi.mk 64 64 0 0) (fun _ => 0) (fun _ => 0) (fun _ => 9 / 10) 64 64).1 (25 * 64 + 26)
      = 0 :=
  have hreg : ∀ qr qc, 27 ≤ qr → qr ≤ 36 → 27 ≤ qc → qc ≤ 36 →
      specInterior 64 64 qr qc ∧
      cfa64 (qr * 64 + qc) > (fun _ : Nat => (9 / 10 : ℚ))
        (cfaColor envQ (pipeBayer false).filters (pipeBayer false).xtrans (Roi.mk 64 64 0 0)
          qr qc) := by
    intro qr qc h1 h2 h3 h4
    refine ⟨by unfold specInterior; omega, ?_⟩
    rw [cfa64_get qr qc (by omega), if_pos ⟨h1, h2, h3, h4⟩]
    norm_num
  ⟨hreg, by decide, by decide, by decide,
    (prepare_blend_clipped_region envQ cfa64 rgb64 (pipeBayer false).filters
      (pipeBayer false).xtrans (Roi.mk 64 64 0 0) (fun _ => 0) (fun _ => 0) (fun _ => 0)
      (fun _ => 9 / 10) 0 64 64 27 36 27 36 (by decide) (by decide) hreg 25 26 (by decide)
      (by decide) (by decide) (by decide) (by decide)).1⟩

/-- The two loops of lines 506-522 add up `Yold` and its square over the 21
cells of the window. -/
theorem modify_window_sums (Y : ℤ → ℤ → ℚ) (row col : ℤ) :
    forLoop 3 (fun b (acc : ℚ × ℚ) =>
        (acc.1 + Y (row - 2) (col - 1 + (b : ℤ)) + Y (row + 2) (col - 1 + (b : ℤ)),
         acc.2 + sqrf (Y (row - 2) (col - 1 + (b : ℤ))) + sqrf (Y (row + 2) (col - 1 + (b : ℤ)))))
      (forLoop 3 (fun a (acc : ℚ × ℚ) =>
        forLoop 5 (fun b (acc : ℚ × ℚ) =>
          (acc.1 + Y (row - 1 + (a : ℤ)) (col - 2 + (b : ℤ)),
           acc.2 + sqrf (Y (row - 1 + (a : ℤ)) (col - 2 + (b : ℤ))))) acc) (0, 0))
      = ((windowOffsets.map (fun o => Y (row + o.1) (col + o.2))).sum,
         ((windowOffsets.map (fun o => Y (row + o.1) (col + o.2))).map (fun y => y ^ 2)).sum) := by
  simp only [forLoop, windowOffsets, List.map, List.sum_cons, List.sum_nil, sqrf]
  refine Prod.ext ?_ ?_
  · simp only []
    ring_nf
  · simp only []
    ring_nf

/-- The sum of the squared deviations from `m`. -/
theorem sum_sq_dev (L : List ℚ) (m : ℚ) :
    (L.map (fun y => (y - m) ^ 2)).sum
      = (L.map (fun y => y ^ 2)).sum - 2 * m * L.sum + (L.length : ℚ) * m ^ 2 := by
  induction L with
  | nil => simp
  | cons x L ih =>
    simp only [List.map_cons, List.sum_cons, List.length_cons, ih]
    push_cast
    ring

theorem sum_sq_dev_nonneg (L : List ℚ) (m : ℚ) : 0 ≤ (L.map (fun y => (y - m) ^ 2)).sum := by
  apply List.sum_nonneg
  intro x hx
  rw [List.mem_map] at hx
  obtain ⟨y, _, rfl⟩ := hx
  positivity

theorem specWindow_length (Yold : Buf) (W H irow icol : Nat) :
    (specWindow Yold W H irow icol).length = 21 := by
  simp [specWindow, windowOffsets]

/-- The weight of `_modify_blend` in the words of the specification, with the
mean floored at `NORM_MIN` as line 527 does. -/
theorem modifyWeight_eq_spec (E : Env) (Yold : Buf) (dthresh : ℚ) (W H irow icol : Nat)
    (hW : 5 ≤ W) (hH : 5 ≤ H) :
    modifyWeight E Yold dthresh W H irow icol
      = specWeightOf E dthresh (specSd E Yold W H irow icol)
          (max E.NORM_MIN (specMean Yold W H irow icol)) := by
  have hL : specWindow Yold W H irow icol
      = windowOffsets.map (fun o =>
          (fun (y x : ℤ) => Yold (y * (W : ℤ) + x).toNat)
            (CLAMP (irow : ℤ) 2 ((H : ℤ) - 3) + o.1) (CLAMP (icol : ℤ) 2 ((W : ℤ) - 3) + o.2)) := by
    unfold specWindow
    rw [CLAMP_eq _ _ _ (by omega : (2 : ℤ) ≤ (H : ℤ) - 3),
      CLAMP_eq _ _ _ (by omega : (2 : ℤ) ≤ (W : ℤ) - 3)]
  have hsums := modify_window_sums (fun (y x : ℤ) => Yold (y * (W : ℤ) + x).toNat)
    (CLAMP (irow : ℤ) 2 ((H : ℤ) - 3)) (CLAMP (icol : ℤ) 2 ((W : ℤ) - 3))
  rw [← hL] at hsums
  unfold modifyWeight
  simp only []
  rw [hsums]
  simp only []
  have hvar : MAX 0 ((List.map (fun y => y ^ 2) (specWindow Yold W H irow icol)).sum
        - sqrf (specWindow Yold W H irow icol).sum / 21)
      = ((specWindow Yold W H irow icol).map
          (fun y => (y - specMean Yold W H irow icol) ^ 2)).sum := by
    have hnn := sum_sq_dev_nonneg (specWindow Yold W H irow icol) (specMean Yold W H irow icol)
    have he := sum_sq_dev (specWindow Yold W H irow icol) (specMean Yold W H irow icol)
    rw [specWindow_length] at he
    have he' : (List.map (fun y => y ^ 2) (specWindow Yold W H irow icol)).sum
        - sqrf (specWindow Yold W H irow icol).sum / 21
        = ((specWindow Yold W H irow icol).map
          (fun y => (y - specMean Yold W H irow icol) ^ 2)).sum := by
      rw [he]
      unfold specMean sqrf
      push_cast
      ring
    rw [MAX_eq_max, he', max_eq_right hnn]
  rw [hvar, MAX_eq_max]
  unfold specWeightOf specSd specMean sqrf
  simp only []
  congr 3
  ring

theorem sqrtExact_sq (q : ℚ) (hq : 0 ≤ q) : sqrtExact (q * q) = q := by
  unfold sqrtExact
  rw [Rat.sqrt_eq, abs_of_nonneg hq, if_pos rfl]

theorem specMean_yold5 : specMean yold5 5 5 2 2 = 1 / 2 ^ 18 := by
  simp [specMean, specWindow, windowOffsets, yold5]
  norm_num

theorem specSd_yold5 : specSd envRoot yold5 5 5 2 2 = 1 / 2 ^ 20 := by
  unfold specSd
  rw [specMean_yold5]
  have h : ((specWindow yold5 5 5 2 2).map (fun y => (y - 1 / 2 ^ 18) ^ 2)).sum / 21
      = (1 / 2 ^ 20) * (1 / 2 ^ 20) := by
    simp [specWindow, windowOffsets, yold5]
    norm_num
  rw [h]
  exact sqrtExact_sq _ (by norm_num)

theorem specWeight_code_yold5 :
    specWeightOf envRoot 0 (1 / 2 ^ 20) (max envRoot.NORM_MIN (1 / 2 ^ 18))
      = 1 / (1 + expQ (-(5 / 2) - 200 * logQ (1 + 1 / 2 ^ 12))) := by
  have hmax : max envRoot.NORM_MIN (1 / 2 ^ 18) = (1 / 2 ^ 8) * (1 / 2 ^ 8) := by
    show max (1 / 65536 : ℚ) (1 / 2 ^ 18) = _
    norm_num
  rw [hmax]
  unfold specWeightOf
  show 1 / (1 + expQ (-(5 / 2) + 200 * (6 / 10) * 0 ^ 2 / 2
    - 200 * logQ (1 + 1 / 2 ^ 20 / sqrtExact (1 / 2 ^ 8 * (1 / 2 ^ 8))))) = _
  rw [sqrtExact_sq _ (by norm_num)]
  norm_num

theorem specWeight_spec_yold5 :
    specWeightOf envRoot 0 (1 / 2 ^ 20) (1 / 2 ^ 18)
      = 1 / (1 + expQ (-(5 / 2) - 200 * logQ (1 + 1 / 2 ^ 11))) := by
  have h : (1 / 2 ^ 18 : ℚ) = (1 / 2 ^ 9) * (1 / 2 ^ 9) := by norm_num
  rw [h]
  unfold specWeightOf
  show 1 / (1 + expQ (-(5 / 2) + 200 * (6 / 10) * 0 ^ 2 / 2
    - 200 * logQ (1 + 1 / 2 ^ 20 / sqrtExact (1 / 2 ^ 9 * (1 / 2 ^ 9))))) = _
  rw [sqrtExact_sq _ (by norm_num)]
  norm_num

theorem weight_code_yold5_lt :
    CLAMP (1 * (101011 / 100000) *
        (1 / (1 + expQ (-(5 / 2) - 200 * logQ (1 + 1 / 2 ^ 12))) - 1 / 100)) (0 : ℚ) 1
      < 928 / 1000 := by
  norm_num [CLAMP, expQ, logQ, expTaylor4]

theorem weight_spec_yold5_gt :
    929 / 1000 < CLAMP (1 * (101011 / 100000) *
        (1 / (1 + expQ (-(5 / 2) - 200 * logQ (1 + 1 / 2 ^ 11))) - 1 / 100)) (0 : ℚ) 1 := by
  norm_num [CLAMP, expQ, logQ, expTaylor4]

/-- For an image of at least 5×5 pixels and any input mask `_modify_blend` sets
`luminance[k] = Yold[k]` and `blend[k] = clamp(blend_in[k]·1.01011·(w - 0.01), 0, 1)`
with `cv = sd/sqrt(max(NORM_MIN, mean))` in the weight `w`; when the mean is at
least `NORM_MIN` this is the formula with `cv = sd/sqrt(mean)`. -/
theorem modify_blend_formula_floored (E : Env) (blend Yold lum : Buf) (dthresh : ℚ) (W H : Nat)
    (hW : 5 ≤ W) (hH : 5 ≤ H) (irow icol : Nat) (hrow : irow < H) (hcol : icol < W) :
    (_modify_blend E blend Yold lum dthresh W H).2 (irow * W + icol) = Yold (irow * W + icol) ∧
    (_modify_blend E blend Yold lum dthresh W H).1 (irow * W + icol)
      = CLAMP (blend (irow * W + icol) * (101011 / 100000)
          * (specWeightOf E dthresh (specSd E Yold W H irow icol)
              (max E.NORM_MIN (specMean Yold W H irow icol)) - 1 / 100)) 0 1 ∧
    (E.NORM_MIN ≤ specMean Yold W H irow icol →
      (_modify_blend E blend Yold lum dthresh W H).1 (irow * W + icol)
        = CLAMP (blend (irow * W + icol) * (101011 / 100000)
            * (specWeightOf E dthresh (specSd E Yold W H irow icol)
                (specMean Yold W H irow icol) - 1 / 100)) 0 1) := by
  have hget := (modify_blend_get E blend Yold lum dthresh W H).1 irow icol hrow hcol
  have hw := modifyWeight_eq_spec E Yold dthresh W H irow icol hW hH
  refine ⟨hget.2, ?_, ?_⟩
  · rw [hget.1, hw]
    rfl
  · intro hm
    rw [hget.1, hw, max_eq_right hm]
    rfl

/-- The floor of line 527 shows only on a mask that `_prepare_blend` never
builds: a 5×5 luminance plane whose window at the centre has mean `2⁻¹⁸`, below
`NORM_MIN = 2⁻¹⁶`, and standard deviation `2⁻²⁰`, with `blend_in = 1` and
threshold 0. The code divides by `sqrt(NORM_MIN)` and stores a value below
0.928; the formula with `cv = sd/sqrt(mean)` gives a value above 0.929. -/
theorem modify_blend_mean_floor_differs :
    specMean yold5 5 5 2 2 = 1 / 2 ^ 18 ∧ envRoot.NORM_MIN = 1 / 2 ^ 16 ∧
    (_modify_blend envRoot (fun _ => 1) yold5 (fun _ => 0) 0 5 5).1 (2 * 5 + 2) < 928 / 1000 ∧
    929 / 1000 < CLAMP ((fun _ : Nat => (1 : ℚ)) (2 * 5 + 2) * (101011 / 100000)
      * (specWeightOf envRoot 0 (specSd envRoot yold5 5 5 2 2) (specMean yold5 5 5 2 2)
          - 1 / 100)) 0 1 := by
  refine ⟨specMean_yold5, by norm_num [envRoot, envQ], ?_, ?_⟩
  · rw [((modify_blend_get envRoot (fun _ => 1) yold5 (fun _ => 0) 0 5 5).1 2 2 (by decide)
      (by decide)).1, modifyWeight_eq_spec envRoot yold5 0 5 5 2 2 (by decide) (by decide),
      specSd_yold5, specMean_yold5, specWeight_code_yold5]
    exact weight_code_yold5_lt
  · rw [specSd_yold5, specMean_yold5, specWeight_spec_yold5]
    exact weight_spec_yold5_gt

theorem g_strrstr_dot (f : List Char) :
    (g_strrstr f ['.']).map (fun ext => ext.drop 1) = specAfterLastDot f := by
  induction f with
  | nil => simp [g_strrstr, specAfterLastDot]
  | cons c rest ih =>
    unfold g_strrstr specAfterLastDot
    rw [← ih]
    cases h : g_strrstr rest ['.'] with
    | some r => simp
    | none =>
      by_cases hc : c = '.'
      · subst hc
        simp
      · have : ¬ '.' = c := fun e => hc e.symm
        simp [hc, this]

/-- With `n = strlen(s2)` the comparison is a prefix test: it is 0 exactly when
`s1` begins with `s2`, ignoring ASCII case. -/
theorem g_ascii_strncasecmp_begins (s1 s2 : List Char) (hnul : ∀ c ∈ s2, c.toNat ≠ 0) :
    g_ascii_strncasecmp s1 s2 s2.length = 0
      ↔ (s2.map g_ascii_tolower) <+: (s1.map g_ascii_tolower) := by
  induction s2 generalizing s1 with
  | nil => simp [g_ascii_strncasecmp]
  | cons c2 t ih =>
    cases s1 with
    | nil =>
      have h := hnul c2 (List.mem_cons_self _ _)
      simp only [List.length_cons, g_ascii_strncasecmp, List.map_cons, List.map_nil]
      constructor
      · intro h0
        omega
      · intro hp
        simp at hp
    | cons c1 u =>
      simp only [List.length_cons, g_ascii_strncasecmp, List.map_cons]
      by_cases hc : g_ascii_tolower c1 = g_ascii_tolower c2
      · rw [if_neg (not_not.mpr hc), ih u (fun c hcm => hnul c (List.mem_cons_of_mem _ hcm)), hc]
        constructor
        · intro hp
          exact (List.prefix_cons_inj _).mpr hp
        · intro hp
          exact (List.prefix_cons_inj _).mp hp
      · rw [if_pos hc]
        constructor
        · intro h0
          exfalso
          apply hc
          have h1 : (g_ascii_tolower c1).toNat = (g_ascii_tolower c2).toNat := by omega
          exact Char.ext (UInt32.ext h1)
        · intro hp
          exfalso
          apply hc
          have := List.cons_prefix_cons.mp hp
          exact this.1.symm

theorem supportedLoop_iff (ext : List Char) (L : List (List Char))
    (hnul : ∀ w ∈ L, ∀ c ∈ w, c.toNat ≠ 0) :
    supportedLoop ext L = true
      ↔ ∃ w ∈ L, (w.map g_ascii_tolower) <+: (ext.map g_ascii_tolower) := by
  induction L with
  | nil => simp [supportedLoop]
  | cons i rest ih =>
    unfold supportedLoop
    have hi := g_ascii_strncasecmp_begins ext i (hnul i (List.mem_cons_self _ _))
    have ih' := ih (fun w hw => hnul w (List.mem_cons_of_mem _ hw))
    by_cases h0 : g_ascii_strncasecmp ext i i.length = 0
    · rw [if_pos h0]
      simp only [true_iff]
      exact ⟨i, List.mem_cons_self _ _, hi.mp h0⟩
    · rw [if_neg h0, ih']
      constructor
      · rintro ⟨w, hw, hp⟩
        exact ⟨w, List.mem_cons_of_mem _ hw, hp⟩
      · rintro ⟨w, hw, hp⟩
        rcases List.mem_cons.mp hw with e | hw'
        · subst e
          exact absurd (hi.mpr hp) h0
        · exact ⟨w, hw', hp⟩

/-- What `_supported_image` accepts: the file names with a `.` whose text after
the last `.` begins, ignoring ASCII case, with a whitelisted extension. -/
theorem supported_image_iff (filename : List Char) :
    _supported_image filename = true
      ↔ ∃ e, specAfterLastDot filename = some e ∧
          ∃ w ∈ extensions_whitelist, (w.map g_ascii_tolower) <+: (e.map g_ascii_tolower) := by
  have hd := g_strrstr_dot filename
  have hwl : ∀ w ∈ extensions_whitelist, ∀ c ∈ w, c.toNat ≠ 0 := by decide
  unfold _supported_image
  cases h : g_strrstr filename ['.'] with
  | none =>
    rw [h] at hd
    simp only [Option.map_none'] at hd
    simp [← hd]
  | some ext =>
    rw [h] at hd
    simp only [Option.map_some'] at hd
    simp only [← hd, Option.some.injEq, exists_eq_left']
    exact supportedLoop_iff _ _ hwl

/-- Every file name the specification accepts is accepted by
`_supported_image`. -/
theorem supported_image_of_spec (filename : List Char)
    (h : specSupported filename = true) : _supported_image filename = true := by
  rw [supported_image_iff]
  unfold specSupported at h
  cases he : specAfterLastDot filename with
  | none => simp [he] at h
  | some e =>
    rw [he] at h
    simp only [List.any_eq_true, beq_iff_eq] at h
    obtain ⟨w, hw, heq⟩ := h
    exact ⟨e, rfl, w, hw, heq ▸ List.prefix_refl _⟩

/-- A file name `_supported_image` rejects makes `dt_imageio_open_gm` return
`DT_IMAGEIO_LOAD_FAILED`. -/
theorem open_gm_unsupported (filename : List Char) (image mipbuf pass : Bool)
    (h : _supported_image filename = false) :
    dt_imageio_open_gm filename image mipbuf pass = .DT_IMAGEIO_LOAD_FAILED := by
  simp [dt_imageio_open_gm, h]

/-- C17: on the file name `a.tiffany` the text after the last `.` is `tiffany`,
which equals no whitelisted extension, yet `_supported_image` returns `TRUE`
(the comparison stops after the four characters of `tiff`) and
`dt_imageio_open_gm` goes on to read the file. -/
theorem supported_image_accepts_longer_extension :
    specAfterLastDot "a.tiffany".toList = some "tiffany".toList ∧
    specSupported "a.tiffany".toList = false ∧
    _supported_image "a.tiffany".toList = true ∧
    dt_imageio_open_gm "a.tiffany".toList true true true = .DT_IMAGEIO_OK := by
  decide

/-- A loop that adds `g i` to a component of its state in round `i`. -/
theorem forLoop_sum {σ : Type} (π : σ → ℚ) (n : Nat) (body : Nat → σ → σ) (g : Nat → ℚ)
    (hstep : ∀ i s, i < n → π (body i s) = π s + g i) (s : σ) :
    π (forLoop n body s) = π s + ∑ i in Finset.range n, g i := by
  have main : ∀ k, k ≤ n → π (forLoop k body s) = π s + ∑ i in Finset.range k, g i := by
    intro k
    induction k with
    | zero => intro _; simp [forLoop]
    | succ k ih =>
      intro hk
      rw [forLoop_succ, hstep k _ hk, ih (Nat.le_of_lt hk), Finset.sum_range_succ]
      ring
  exact main n (Nat.le_refl n)

theorem sum_Icc_eq_range (f : ℤ → ℚ) :
    ∑ a in Finset.Icc (-4 : ℤ) 4, f a = ∑ i in Finset.range 9, f ((i : ℤ) - 4) := by
  have h : Finset.Icc (-4 : ℤ) 4 = {-4, -3, -2, -1, 0, 1, 2, 3, 4} := by decide
  rw [h]
  simp [Finset.sum_range_succ]
  ring

/-- The row-major double loop that adds `g r c` to a component of its state
in round `(r, c)`. -/
theorem forLoop2_sum {σ : Type} (π : σ → ℚ) (h w : Nat) (body : Nat → Nat → σ → σ)
    (g : Nat → Nat → ℚ)
    (hstep : ∀ r c s, r < h → c < w → π (body r c s) = π s + g r c) (s : σ) :
    π (forLoop h (fun r s => forLoop w (fun c s => body r c s) s) s)
      = π s + ∑ r in Finset.range h, ∑ c in Finset.range w, g r c := by
  refine forLoop_sum π h _ (fun r => ∑ c in Finset.range w, g r c) ?_ s
  intro r t hr
  exact forLoop_sum π w (fun c s => body r c s) (fun c => g r c)
    (fun c s hc => hstep r c s hr hc) t

/-- One round of the first pair of loops of `_calc_9x9_gauss_coeffs`, over the
rationals. -/
theorem gaussKernel_round (E : Env) (sigma : ℚ) (a b : Nat) (st : (Nat → ℚ) × ℚ) :
    gaussKernelRound (ratOps E) sigma a b st
      = (store st.1 (a * 9 + b) (specGauss E sigma ((a : ℤ) - 4) ((b : ℤ) - 4)),
         st.2 + specGauss E sigma ((a : ℤ) - 4) ((b : ℤ) - 4)) := by
  unfold specGauss gaussKernelRound
  simp only [ratOps, decide_eq_true_eq, store_same]
  have hr : (9 / 2 : ℚ) * (9 / 2) = 81 / 4 := by norm_num
  have harg : ∀ x : ℚ, x / (-2 * sigma * sigma) = -x / (2 * sigma ^ 2) := by
    intro x
    rw [show (-2 * sigma * sigma : ℚ) = -(2 * sigma ^ 2) by ring, div_neg, neg_div]
  rw [hr, harg]
  split_ifs with h
  · rfl
  · rw [add_zero]

/-- What the first pair of loops of `_calc_9x9_gauss_coeffs` leaves, over the
rationals: the value of each lattice point in `kernel` and their sum in `sum`. -/
theorem gaussKernelLoop_get (E : Env) (kernel : Nat → ℚ) (sigma : ℚ) :
    (∀ a b, a < 9 → b < 9 →
      (gaussKernelLoop (ratOps E) kernel sigma).1 (a * 9 + b)
        = specGauss E sigma ((a : ℤ) - 4) ((b : ℤ) - 4)) ∧
    (gaussKernelLoop (ratOps E) kernel sigma).2 = specGaussSum E sigma := by
  unfold gaussKernelLoop
  constructor
  · have h := forLoop2_pointwise (fun st : (Nat → ℚ) × ℚ => st.1) 9 9
      (fun a b st => gaussKernelRound (ratOps E) sigma a b st)
      (fun a b _ => specGauss E sigma ((a : ℤ) - 4) ((b : ℤ) - 4))
      (by
        intro r c s m _ _ hm
        dsimp only
        rw [gaussKernel_round]
        exact store_other _ _ _ _ hm)
      (by
        intro r c s _ _
        dsimp only
        rw [gaussKernel_round]
        exact store_same _ _ _)
      (kernel, (ratOps E).lit 0)
    exact h.1
  · have h := forLoop2_sum (fun st : (Nat → ℚ) × ℚ => st.2) 9 9
      (fun a b st => gaussKernelRound (ratOps E) sigma a b st)
      (fun a b => specGauss E sigma ((a : ℤ) - 4) ((b : ℤ) - 4))
      (by
        intro r c s _ _
        dsimp only
        rw [gaussKernel_round])
      (kernel, (ratOps E).lit 0)
    rw [h]
    unfold specGaussSum
    rw [sum_Icc_eq_range]
    simp only [sum_Icc_eq_range]
    simp [ratOps]

/-- What `_calc_9x9_gauss_coeffs` stores, over the rationals: the value of the
lattice point `(k, j)` divided by the sum at index `5k + j`, nothing from
index 25 on. -/
theorem calc_9x9_get (E : Env) (kernel coeffs : Nat → ℚ) (sigma : ℚ) :
    (∀ k j, k < 5 → j < 5 →
      _calc_9x9_gauss_coeffs (ratOps E) kernel coeffs sigma (5 * k + j)
        = specGauss E sigma k j / specGaussSum E sigma) ∧
    (∀ m, 25 ≤ m → _calc_9x9_gauss_coeffs (ratOps E) kernel coeffs sigma m = coeffs m) := by
  have hK := gaussKernelLoop_get E kernel sigma
  have h := forLoop2_pointwise (fun c : Nat → ℚ => c) 5 5
    (fun k j c => store c (5 * k + j)
      ((ratOps E).div ((gaussKernelLoop (ratOps E) kernel sigma).1 ((k + 4) * 9 + (j + 4)))
        (gaussKernelLoop (ratOps E) kernel sigma).2))
    (fun k j _ => specGauss E sigma k j / specGaussSum E sigma)
    (by
      intro r c s m _ _ hm
      exact store_other _ _ _ _ (by omega))
    (by
      intro r c s hr hc
      dsimp only
      have e : r * 5 + c = 5 * r + c := by ring
      rw [e, store_same, hK.1 (r + 4) (c + 4) (by omega) (by omega), hK.2]
      have e1 : (((r + 4 : ℕ) : ℤ) - 4) = (r : ℤ) := by push_cast; ring
      have e2 : (((c + 4 : ℕ) : ℤ) - 4) = (c : ℤ) := by push_cast; ring
      rw [e1, e2]
      rfl)
    coeffs
  constructor
  · intro k j hk hj
    have := h.1 k j hk hj
    have e : k * 5 + j = 5 * k + j := by ring
    rw [e] at this
    exact this
  · intro m hm
    exact h.2 m (by omega)

theorem specGauss_nonneg (E : Env) (sigma : ℚ) (hnn : ∀ x, 0 ≤ E.expf x) (a b : ℤ) :
    0 ≤ specGauss E sigma a b := by
  unfold specGauss
  split_ifs
  · exact hnn _
  · exact le_refl _

theorem specGauss_natAbs (E : Env) (sigma : ℚ) (a b : ℤ) :
    specGauss E sigma (a.natAbs : ℤ) (b.natAbs : ℤ) = specGauss E sigma a b := by
  unfold specGauss
  rw [Int.natAbs_mul_self' a, Int.natAbs_mul_self' b]

theorem specGaussSum_pos (E : Env) (sigma : ℚ) (hnn : ∀ x, 0 ≤ E.expf x)
    (h0 : 0 < E.expf 0) : 0 < specGaussSum E sigma := by
  unfold specGaussSum
  have hmem : (0 : ℤ) ∈ Finset.Icc (-4 : ℤ) 4 := by decide
  have h1 : specGauss E sigma 0 0 ≤ ∑ b in Finset.Icc (-4 : ℤ) 4, specGauss E sigma 0 b :=
    Finset.single_le_sum (f := fun b => specGauss E sigma 0 b)
      (fun b _ => specGauss_nonneg E sigma hnn 0 b) hmem
  have h2 : ∑ b in Finset.Icc (-4 : ℤ) 4, specGauss E sigma 0 b
      ≤ ∑ a in Finset.Icc (-4 : ℤ) 4, ∑ b in Finset.Icc (-4 : ℤ) 4, specGauss E sigma a b :=
    Finset.single_le_sum (f := fun a => ∑ b in Finset.Icc (-4 : ℤ) 4, specGauss E sigma a b)
      (fun a _ => Finset.sum_nonneg (fun b _ => specGauss_nonneg E sigma hnn a b)) hmem
  have h3 : specGauss E sigma 0 0 = E.expf 0 := by
    unfold specGauss
    norm_num
  linarith

/-- C11: for `sigma > 0` and `0 <= k, j <= 4`, `_calc_9x9_gauss_coeffs` stores
`coeffs[5k+j] = exp(-(k²+j²)/(2·sigma²)) / S` when `k²+j² <= 20.25` and
`coeffs[5k+j] = 0` when `k²+j² > 20.25`, which is the case at the offsets
`(3,4)`, `(4,3)` and `(4,4)` only; `S` is the sum over the lattice points of
`[-4..4]²` with `a²+b² <= 20.25`. Index `5k+j` holds offset `k` along one axis
and `j` along the other, so 0..4 is the principal axis, 5..9 offset 1,
10..14 offset 2 and 15..18 offset 3. -/
theorem calc_9x9_gauss_coeffs_values (E : Env) (kernel coeffs : Nat → ℚ) (sigma : ℚ)
    (_hs : 0 < sigma) (k j : Nat) (hk : k ≤ 4) (hj : j ≤ 4) :
    (((k : ℚ) ^ 2 + (j : ℚ) ^ 2 ≤ 81 / 4 →
        _calc_9x9_gauss_coeffs (ratOps E) kernel coeffs sigma (5 * k + j)
          = E.expf (-((k : ℚ) ^ 2 + (j : ℚ) ^ 2) / (2 * sigma ^ 2)) / specGaussSum E sigma) ∧
      ((k : ℚ) ^ 2 + (j : ℚ) ^ 2 > 81 / 4 →
        _calc_9x9_gauss_coeffs (ratOps E) kernel coeffs sigma (5 * k + j) = 0)) ∧
    ((k : ℚ) ^ 2 + (j : ℚ) ^ 2 > 81 / 4 ↔
      (k = 3 ∧ j = 4) ∨ (k = 4 ∧ j = 3) ∨ (k = 4 ∧ j = 4)) := by
  have hget := (calc_9x9_get E kernel coeffs sigma).1 k j (by omega) (by omega)
  have hrad : (((k : ℤ) * (k : ℤ) + (j : ℤ) * (j : ℤ) : ℤ) : ℚ) = (k : ℚ) ^ 2 + (j : ℚ) ^ 2 := by
    push_cast
    ring
  refine ⟨⟨?_, ?_⟩, ?_⟩
  · intro hin
    rw [hget]
    unfold specGauss
    rw [hrad, if_pos hin]
  · intro hout
    rw [hget]
    unfold specGauss
    rw [hrad, if_neg (not_le.mpr hout), zero_div]
  · interval_cases k <;> interval_cases j <;> norm_num

/-- C12: for `sigma > 0` the full 9×9 kernel rebuilt from the output of
`_calc_9x9_gauss_coeffs` sums to 1: the sum over `(a, b)` in `[-4..4]²` of
`coeffs[5·|a| + |b|]` is 1, for an exponential that is nowhere negative and
positive at 0. -/
theorem calc_9x9_gauss_coeffs_sum_one (E : Env) (kernel coeffs : Nat → ℚ) (sigma : ℚ)
    (_hs : 0 < sigma) (hnn : ∀ x, 0 ≤ E.expf x) (h0 : 0 < E.expf 0) :
    ∑ a in Finset.Icc (-4 : ℤ) 4, ∑ b in Finset.Icc (-4 : ℤ) 4,
      _calc_9x9_gauss_coeffs (ratOps E) kernel coeffs sigma (5 * a.natAbs + b.natAbs) = 1 := by
  have hS := specGaussSum_pos E sigma hnn h0
  have hterm : ∀ a ∈ Finset.Icc (-4 : ℤ) 4, ∀ b ∈ Finset.Icc (-4 : ℤ) 4,
      _calc_9x9_gauss_coeffs (ratOps E) kernel coeffs sigma (5 * a.natAbs + b.natAbs)
        = specGauss E sigma a b / specGaussSum E sigma := by
    intro a ha b hb
    rw [Finset.mem_Icc] at ha hb
    rw [(calc_9x9_get E kernel coeffs sigma).1 a.natAbs b.natAbs (by omega) (by omega),
      specGauss_natAbs]
  rw [Finset.sum_congr rfl (fun a ha => Finset.sum_congr rfl (fun b hb => hterm a ha b hb))]
  simp only [← Finset.sum_div]
  exact div_self (ne_of_gt hS)

theorem ieee_add_nan_left (x : Ieee) : Ieee.add .nan x = .nan := by
  cases x <;> rfl

theorem ieee_add_nan_right (x : Ieee) : Ieee.add x .nan = .nan := by
  cases x <;> rfl

theorem ieee_div_nan_right (x : Ieee) : Ieee.div x .nan = .nan := by
  cases x <;> rfl

/-- A loop whose rounds keep a property of the state, one of which
establishes it whatever the state. -/
theorem forLoop_establish {σ : Type} (P : σ → Prop) (n : Nat) (body : Nat → σ → σ)
    (hkeep : ∀ i s, P s → P (body i s)) (i0 : Nat) (hi0 : i0 < n)
    (hset : ∀ s, P (body i0 s)) (s : σ) : P (forLoop n body s) := by
  have main : ∀ k, i0 < k → P (forLoop k body s) := by
    intro k
    induction k with
    | zero => intro h; omega
    | succ k ih =>
      intro hk
      rw [forLoop_succ]
      by_cases e : i0 = k
      · subst e
        exact hset _
      · exact hkeep k _ (ih (by omega))
  exact main n hi0

/-- At `sigma = 0` the round of the centre `(k, j) = (0, 0)` computes `0 / -0`,
a NaN, and adds it to `sum`. -/
theorem gaussKernelRound_centre_nan (E : Env) (st : (Nat → Ieee) × Ieee) :
    (gaussKernelRound (ieeeOps E) (.fin false 0) 4 4 st).2 = .nan := by
  simp [gaussKernelRound, ieeeOps, Ieee.ofRat, Ieee.mul, Ieee.le, Ieee.val, Ieee.div,
    store_same, ieee_add_nan_right]
  rw [if_pos (by norm_num)]

theorem gaussKernelRound_keeps_nan (E : Env) (sigma : Ieee) (a b : Nat)
    (st : (Nat → Ieee) × Ieee) (h : st.2 = .nan) :
    (gaussKernelRound (ieeeOps E) sigma a b st).2 = .nan := by
  unfold gaussKernelRound
  simp only []
  split_ifs
  · show Ieee.add st.2 _ = .nan
    rw [h, ieee_add_nan_left]
  · exact h

/-- At `sigma = 0` the `sum` of `_calc_9x9_gauss_coeffs` is a NaN. -/
theorem gaussKernelLoop_sum_nan (E : Env) (kernel : Nat → Ieee) :
    (gaussKernelLoop (ieeeOps E) kernel (.fin false 0)).2 = .nan := by
  unfold gaussKernelLoop
  refine forLoop_establish (fun st : (Nat → Ieee) × Ieee => st.2 = .nan) 9 _ ?_ 4 (by decide)
    ?_ _
  · intro a st h
    have hk : ∀ n, (forLoop n (fun b st => gaussKernelRound (ieeeOps E) (.fin false 0) a b st)
        st).2 = .nan := by
      intro n
      induction n with
      | zero => exact h
      | succ n ih =>
        rw [forLoop_succ]
        exact gaussKernelRound_keeps_nan E _ a n _ ih
    exact hk 9
  · intro st
    exact forLoop_establish (fun st : (Nat → Ieee) × Ieee => st.2 = .nan) 9 _
      (fun b s hs => gaussKernelRound_keeps_nan E _ 4 b s hs) 4 (by decide)
      (fun s => gaussKernelRound_centre_nan E s) st

/-- At `sigma = 0` every coefficient `_calc_9x9_gauss_coeffs` stores is a NaN. -/
theorem calc_9x9_sigma_zero_nan (E : Env) (kernel coeffs : Nat → Ieee) (k j : Nat)
    (hk : k < 5) (hj : j < 5) :
    _calc_9x9_gauss_coeffs (ieeeOps E) kernel coeffs (.fin false 0) (5 * k + j) = .nan := by
  have h := forLoop2_pointwise (fun c : Nat → Ieee => c) 5 5
    (fun k j c => store c (5 * k + j)
      ((ieeeOps E).div ((gaussKernelLoop (ieeeOps E) kernel (.fin false 0)).1
          ((k + 4) * 9 + (j + 4)))
        (gaussKernelLoop (ieeeOps E) kernel (.fin false 0)).2))
    (fun _ _ _ => Ieee.nan)
    (by
      intro r c s m _ _ hm
      exact store_other _ _ _ _ (by omega))
    (by
      intro r c s hr hc
      dsimp only
      have e : r * 5 + c = 5 * r + c := by ring
      rw [e, store_same, gaussKernelLoop_sum_nan]
      exact ieee_div_nan_right _)
    coeffs
  have := h.1 k j hk hj
  have e : k * 5 + j = 5 * k + j := by ring
  rw [e] at this
  exact this

/-- With an exponential that is 1 at 0 and has underflowed to 0 at
`-1/(2·sigma²)`, only the centre of the lattice has a non-zero value. -/
theorem specGauss_flush (E : Env) (sigma : ℚ) (hs : 0 < sigma) (h0 : E.expf 0 = 1)
    (hflush : ∀ x, x ≤ -(1 / (2 * sigma ^ 2)) → E.expf x = 0) (a b : ℤ) :
    specGauss E sigma a b = if a = 0 ∧ b = 0 then 1 else 0 := by
  unfold specGauss
  by_cases hab : a = 0 ∧ b = 0
  · rw [if_pos hab, hab.1, hab.2]
    norm_num [h0]
  · rw [if_neg hab]
    split_ifs with hin
    · apply hflush
      have hpos : (0 : ℚ) < 2 * sigma ^ 2 := by positivity
      have hrad : (1 : ℤ) ≤ a * a + b * b := by
        by_contra hlt
        have ha := mul_self_nonneg a
        have hb := mul_self_nonneg b
        have ha0 : a * a = 0 := by omega
        have hb0 : b * b = 0 := by omega
        exact hab ⟨mul_self_eq_zero.mp ha0, mul_self_eq_zero.mp hb0⟩
      have hradq : (1 : ℚ) ≤ ((a * a + b * b : ℤ) : ℚ) := by exact_mod_cast hrad
      rw [neg_div, neg_le_neg_iff]
      exact div_le_div_of_nonneg_right hradq (le_of_lt hpos)
    · rfl

theorem specGaussSum_flush (E : Env) (sigma : ℚ) (hs : 0 < sigma) (h0 : E.expf 0 = 1)
    (hflush : ∀ x, x ≤ -(1 / (2 * sigma ^ 2)) → E.expf x = 0) :
    specGaussSum E sigma = 1 := by
  unfold specGaussSum
  simp only [specGauss_flush E sigma hs h0 hflush]
  have hmem : (0 : ℤ) ∈ Finset.Icc (-4 : ℤ) 4 := by decide
  have inner : ∀ a : ℤ, ∑ b in Finset.Icc (-4 : ℤ) 4, (if a = 0 ∧ b = 0 then (1 : ℚ) else 0)
      = if a = 0 then 1 else 0 := by
    intro a
    by_cases ha : a = 0
    · simp only [ha, true_and, if_true]
      rw [Finset.sum_ite_eq', if_pos hmem]
    · simp [ha]
  simp only [inner]
  rw [Finset.sum_ite_eq', if_pos hmem]

/-- C13 (amended): for a `sigma > 0` so small that the exponential has
underflowed to 0 at `-1/(2·sigma²)` (and is 1 at 0), `_calc_9x9_gauss_coeffs`
produces the identity kernel, `coeffs[0] = 1` and `coeffs[5k+j] = 0` for every
other `0 <= k, j <= 4`, and the convolution with that kernel, in its unrolled
and in its bounded form, returns its input. -/
theorem calc_9x9_gauss_coeffs_identity (E : Env) (kernel coeffs : Nat → ℚ) (sigma : ℚ)
    (hs : 0 < sigma) (h0 : E.expf 0 = 1)
    (hflush : ∀ x, x ≤ -(1 / (2 * sigma ^ 2)) → E.expf x = 0) :
    _calc_9x9_gauss_coeffs (ratOps E) kernel coeffs sigma 0 = 1 ∧
    (∀ k j, k < 5 → j < 5 → ¬ (k = 0 ∧ j = 0) →
      _calc_9x9_gauss_coeffs (ratOps E) kernel coeffs sigma (5 * k + j) = 0) ∧
    (∀ (d : ℤ → ℚ) (w1 : ℤ),
      convFast (_calc_9x9_gauss_coeffs (ratOps E) kernel coeffs sigma) d w1 = d 0) ∧
    (∀ (inp : Buf) (w1 height row col : Nat), row < height → col < w1 →
      convBounded (_calc_9x9_gauss_coeffs (ratOps E) kernel coeffs sigma) inp w1 height row col
        = inp (row * w1 + col)) := by
  have hget : ∀ k j, k < 5 → j < 5 →
      _calc_9x9_gauss_coeffs (ratOps E) kernel coeffs sigma (5 * k + j)
        = if k = 0 ∧ j = 0 then 1 else 0 := by
    intro k j hk hj
    rw [(calc_9x9_get E kernel coeffs sigma).1 k j hk hj, specGaussSum_flush E sigma hs h0 hflush,
      specGauss_flush E sigma hs h0 hflush, div_one]
    by_cases h : k = 0 ∧ j = 0
    · rw [if_pos h, if_pos (by omega)]
    · rw [if_neg h, if_neg (by omega)]
  have hc0 : _calc_9x9_gauss_coeffs (ratOps E) kernel coeffs sigma 0 = 1 := by
    have := hget 0 0 (by decide) (by decide)
    simpa using this
  have hcj : ∀ m, 0 < m → m < 25 →
      _calc_9x9_gauss_coeffs (ratOps E) kernel coeffs sigma m = 0 := by
    intro m hm0 hm
    have e : m = 5 * (m / 5) + m % 5 := by omega
    rw [e, hget (m / 5) (m % 5) (by omega) (by omega), if_neg (by omega)]
  refine ⟨hc0, ?_, ?_, ?_⟩
  · intro k j hk hj hne
    rw [hget k j hk hj, if_neg hne]
  · intro d w1
    unfold convFast
    simp only []
    rw [hc0, hcj 1 (by decide) (by decide), hcj 2 (by decide) (by decide),
      hcj 3 (by decide) (by decide), hcj 4 (by decide) (by decide),
      hcj (5 + 1) (by decide) (by decide), hcj (5 + 2) (by decide) (by decide),
      hcj (5 + 3) (by decide) (by decide), hcj (5 + 4) (by decide) (by decide),
      hcj (10 + 2) (by decide) (by decide), hcj (10 + 3) (by decide) (by decide),
      hcj (10 + 4) (by decide) (by decide), hcj (15 + 3) (by decide) (by decide)]
    ring
  · intro inp w1 height row col hrow hcol
    exact convBounded_identity _ inp w1 height row col hrow hcol hc0 hcj

/-- Counterexample to C13 as stated: at `sigma = 0` the centre computes
`0 / -0`, a NaN, which enters `sum`; `coeffs[0]` is then a NaN, not 1, and so
is `coeffs[1]`, not 0. -/
theorem calc_9x9_gauss_coeffs_sigma_zero :
    _calc_9x9_gauss_coeffs (ieeeOps envQ) (fun _ => .fin false 0) (fun _ => .fin false 0)
      (.fin false 0) 0 = .nan ∧
    _calc_9x9_gauss_coeffs (ieeeOps envQ) (fun _ => .fin false 0) (fun _ => .fin false 0)
      (.fin false 0) 1 = .nan ∧
    Ieee.nan ≠ Ieee.ofRat 1 ∧ Ieee.nan ≠ Ieee.ofRat 0 :=
  ⟨calc_9x9_sigma_zero_nan envQ _ _ 0 0 (by decide) (by decide),
    calc_9x9_sigma_zero_nan envQ _ _ 0 1 (by decide) (by decide),
    by simp [Ieee.ofRat], by simp [Ieee.ofRat]⟩

theorem expFlush_zero : expFlush 0 = 1 := by
  norm_num [expFlush, expQ, expTaylor4]

theorem expFlush_flush (x : ℚ) (h : x ≤ -(1 / (2 * (1 / 10 ^ 7 : ℚ) ^ 2))) : expFlush x = 0 := by
  unfold expFlush
  rw [if_pos]
  have : -(1 / (2 * (1 / 10 ^ 7 : ℚ) ^ 2)) < -104 := by norm_num
  linarith

/-- Witness of C13 (amended): `sigma = 1e-7` with the underflowing exponential. -/
theorem calc_9x9_gauss_coeffs_identity_witness :
    (0 : ℚ) < 1 / 10 ^ 7 ∧ envFlush.expf 0 = 1 ∧
    _calc_9x9_gauss_coeffs (ratOps envFlush) (fun _ => 0) (fun _ => 0) (1 / 10 ^ 7) 0 = 1 :=
  ⟨by norm_num, expFlush_zero,
    (calc_9x9_gauss_coeffs_identity envFlush (fun _ => 0) (fun _ => 0) (1 / 10 ^ 7)
      (by norm_num) expFlush_zero expFlush_flush).1⟩

/-- Witness of C11: `sigma = 0.5`, the offsets `(1, 2)`. -/
theorem calc_9x9_gauss_coeffs_values_witness :
    (0 : ℚ) < 1 / 2 ∧ 1 ≤ 4 ∧ 2 ≤ 4 ∧
    ((1 : ℕ) : ℚ) ^ 2 + ((2 : ℕ) : ℚ) ^ 2 ≤ 81 / 4 ∧
    _calc_9x9_gauss_coeffs (ratOps envQ) (fun _ => 0) (fun _ => 0) (1 / 2) (5 * 1 + 2)
      = envQ.expf (-(((1 : ℕ) : ℚ) ^ 2 + ((2 : ℕ) : ℚ) ^ 2) / (2 * (1 / 2) ^ 2))
        / specGaussSum envQ (1 / 2) :=
  ⟨by norm_num, by decide, by decide, by norm_num,
    (calc_9x9_gauss_coeffs_values envQ (fun _ => 0) (fun _ => 0) (1 / 2) (by norm_num) 1 2
      (by decide) (by decide)).1.1 (by norm_num)⟩

/-- Witness of C12: `sigma = 0.5` with the rational exponential. -/
theorem calc_9x9_gauss_coeffs_sum_one_witness :
    (0 : ℚ) < 1 / 2 ∧ (∀ x, 0 ≤ envQ.expf x) ∧ 0 < envQ.expf 0 ∧
    ∑ a in Finset.Icc (-4 : ℤ) 4, ∑ b in Finset.Icc (-4 : ℤ) 4,
      _calc_9x9_gauss_coeffs (ratOps envQ) (fun _ => 0) (fun _ => 0) (1 / 2)
        (5 * a.natAbs + b.natAbs) = 1 :=
  ⟨by norm_num, fun x => le_of_lt (expQ_pos x).1, (expQ_pos 0).1,
    calc_9x9_gauss_coeffs_sum_one envQ (fun _ => 0) (fun _ => 0) (1 / 2) (by norm_num)
      (fun x => le_of_lt (expQ_pos x).1) (expQ_pos 0).1⟩

/-- The bounded double loop computes the zero-padded convolution, at every
pixel and for every kernel. -/
theorem convBounded_eq_spec (kern : Nat → ℚ) (inp : Buf) (w1 height row col : Nat) :
    convBounded kern inp w1 height row col = specConv kern inp w1 height row col := by
  unfold convBounded specConv
  have inner : ∀ (a : Nat) (val : ℚ),
      forLoop 9 (fun b val =>
        if 0 ≤ (col : ℤ) + ((b : ℤ) - 4) ∧ (col : ℤ) + ((b : ℤ) - 4) < (w1 : ℤ) then
          val + kern (5 * ((a : ℤ) - 4).natAbs + ((b : ℤ) - 4).natAbs)
            * inp ((((row : ℤ) + ((a : ℤ) - 4)) * (w1 : ℤ) + ((col : ℤ) + ((b : ℤ) - 4))).toNat)
        else val) val
      = val + ∑ b in Finset.range 9,
          if 0 ≤ (col : ℤ) + ((b : ℤ) - 4) ∧ (col : ℤ) + ((b : ℤ) - 4) < (w1 : ℤ) then
            kern (5 * ((a : ℤ) - 4).natAbs + ((b : ℤ) - 4).natAbs)
              * inp ((((row : ℤ) + ((a : ℤ) - 4)) * (w1 : ℤ) + ((col : ℤ) + ((b : ℤ) - 4))).toNat)
          else 0 := by
    intro a val
    refine forLoop_sum (fun v : ℚ => v) 9 _ _ ?_ val
    intro b s _
    dsimp only
    split_ifs
    · rfl
    · rw [add_zero]
  have outer := forLoop_sum (fun v : ℚ => v) 9
    (fun a val =>
      if 0 ≤ (row : ℤ) + ((a : ℤ) - 4) ∧ (row : ℤ) + ((a : ℤ) - 4) < (height : ℤ) then
        forLoop 9 (fun b val =>
          if 0 ≤ (col : ℤ) + ((b : ℤ) - 4) ∧ (col : ℤ) + ((b : ℤ) - 4) < (w1 : ℤ) then
            val + kern (5 * ((a : ℤ) - 4).natAbs + ((b : ℤ) - 4).natAbs)
              * inp ((((row : ℤ) + ((a : ℤ) - 4)) * (w1 : ℤ) + ((col : ℤ) + ((b : ℤ) - 4))).toNat)
          else val) val
      else val)
    (fun a => ∑ b in Finset.range 9,
      if 0 ≤ (row : ℤ) + ((a : ℤ) - 4) ∧ (row : ℤ) + ((a : ℤ) - 4) < (height : ℤ) ∧
          0 ≤ (col : ℤ) + ((b : ℤ) - 4) ∧ (col : ℤ) + ((b : ℤ) - 4) < (w1 : ℤ) then
        kern (5 * ((a : ℤ) - 4).natAbs + ((b : ℤ) - 4).natAbs)
          * inp ((((row : ℤ) + ((a : ℤ) - 4)) * (w1 : ℤ) + ((col : ℤ) + ((b : ℤ) - 4))).toNat)
      else 0)
    (by
      intro a s _
      dsimp only
      by_cases hr : 0 ≤ (row : ℤ) + ((a : ℤ) - 4) ∧ (row : ℤ) + ((a : ℤ) - 4) < (height : ℤ)
      · rw [if_pos hr, inner]
        congr 1
        refine Finset.sum_congr rfl (fun b _ => ?_)
        by_cases hc : 0 ≤ (col : ℤ) + ((b : ℤ) - 4) ∧ (col : ℤ) + ((b : ℤ) - 4) < (w1 : ℤ)
        · rw [if_pos hc, if_pos ⟨hr.1, hr.2, hc.1, hc.2⟩]
        · rw [if_neg hc, if_neg (fun h => hc ⟨h.2.2.1, h.2.2.2⟩)]
      · rw [if_neg hr]
        symm
        rw [add_right_eq_self]
        refine Finset.sum_eq_zero (fun b _ => ?_)
        rw [if_neg (fun h => hr ⟨h.1, h.2.1⟩)])
    0
  simp only [] at outer
  rw [outer, zero_add, sum_Icc_eq_range]
  refine Finset.sum_congr rfl (fun a _ => ?_)
  rw [sum_Icc_eq_range]

/-- The zero-padded convolution at an interior pixel, written over the
pointer `in + i` as the fast path reads it. -/
theorem specConv_interior (kern : Nat → ℚ) (inp : Buf) (w1 height row col : Nat)
    (hc : 4 ≤ col) (hr : 4 ≤ row) (hc2 : (col : ℤ) < (w1 : ℤ) - 4)
    (hr2 : (row : ℤ) < (height : ℤ) - 4) :
    specConv kern inp w1 height row col
      = ∑ ir in Finset.Icc (-4 : ℤ) 4, ∑ ic in Finset.Icc (-4 : ℤ) 4,
          kern (5 * ir.natAbs + ic.natAbs)
            * inp ((((row * w1 + col : Nat) : ℤ) + (ir * (w1 : ℤ) + ic)).toNat) := by
  unfold specConv
  refine Finset.sum_congr rfl (fun ir hir => ?_)
  refine Finset.sum_congr rfl (fun ic hic => ?_)
  rw [Finset.mem_Icc] at hir hic
  rw [if_pos (by omega)]
  congr 2
  push_cast
  ring_nf

/-- At an interior pixel the unrolled 13-term expression equals the
zero-padded convolution when the kernel is symmetric and vanishes in the
slots the expression never reads. -/
theorem convFast_eq_spec (kern : Nat → ℚ) (inp : Buf) (w1 height row col : Nat)
    (hc : 4 ≤ col) (hr : 4 ≤ row) (hc2 : (col : ℤ) < (w1 : ℤ) - 4)
    (hr2 : (row : ℤ) < (height : ℤ) - 4) (hk : kernSymmetric kern) :
    convFast kern (fun off => inp (((row * w1 + col : Nat) : ℤ) + off).toNat) (w1 : ℤ)
      = specConv kern inp w1 height row col := by
  rw [specConv_interior kern inp w1 height row col hc hr hc2 hr2]
  obtain ⟨hs, h19, h23, h24⟩ := hk
  have e22 : kern 22 = kern 14 := hs 4 (by norm_num) 2 (by norm_num)
  have e21 : kern 21 = kern 9 := hs 4 (by norm_num) 1 (by norm_num)
  have e20 : kern 20 = kern 4 := hs 4 (by norm_num) 0 (by norm_num)
  have e17 : kern 17 = kern 13 := hs 3 (by norm_num) 2 (by norm_num)
  have e16 : kern 16 = kern 8 := hs 3 (by norm_num) 1 (by norm_num)
  have e15 : kern 15 = kern 3 := hs 3 (by norm_num) 0 (by norm_num)
  have e11 : kern 11 = kern 7 := hs 2 (by norm_num) 1 (by norm_num)
  have e10 : kern 10 = kern 2 := hs 2 (by norm_num) 0 (by norm_num)
  have e5 : kern 5 = kern 1 := hs 1 (by norm_num) 0 (by norm_num)
  generalize hg : (fun off : ℤ => inp (((row * w1 + col : Nat) : ℤ) + off).toNat) = g
  have hg2 : ∀ off : ℤ, inp ((((row * w1 + col : Nat) : ℤ) + off).toNat) = g off := by
    intro off
    rw [← hg]
  simp only [hg2]
  rw [sum_Icc_eq_range]
  simp only [sum_Icc_eq_range]
  unfold convFast
  simp only [Finset.sum_range_succ, Finset.sum_range_zero]
  norm_num [e22, e21, e20, e17, e16, e15, e11, e10, e5, h19, h23, h24]
  ring_nf

theorem specGauss_symm (E : Env) (sigma : ℚ) (a b : ℤ) :
    specGauss E sigma a b = specGauss E sigma b a := by
  unfold specGauss
  rw [add_comm (a * a) (b * b)]

/-- Every kernel `_calc_9x9_gauss_coeffs` builds is symmetric and vanishes in
the slots 19, 23 and 24. -/
theorem calc_9x9_symmetric (E : Env) (kernel coeffs : Nat → ℚ) (sigma : ℚ) :
    kernSymmetric (_calc_9x9_gauss_coeffs (ratOps E) kernel coeffs sigma) := by
  have h := (calc_9x9_get E kernel coeffs sigma).1
  refine ⟨?_, ?_, ?_, ?_⟩
  · intro a ha b hb
    rw [h a b ha hb, h b a hb ha, specGauss_symm]
  · have := h 3 4 (by norm_num) (by norm_num)
    rw [show 5 * 3 + 4 = 19 from rfl] at this
    rw [this]
    unfold specGauss
    norm_num
  · have := h 4 3 (by norm_num) (by norm_num)
    rw [show 5 * 4 + 3 = 23 from rfl] at this
    rw [this]
    unfold specGauss
    norm_num
  · have := h 4 4 (by norm_num) (by norm_num)
    rw [show 5 * 4 + 4 = 24 from rfl] at this
    rw [this]
    unfold specGauss
    norm_num

/-- The value `blurVal` is the zero-padded convolution at every pixel within 4
pixels of an edge, and at every interior pixel whose selected kernel is
symmetric. -/
theorem blurVal_eq_spec (inp : Buf) (kernels : Nat → ℚ) (table : Nat → Nat)
    (w1 height row col : Nat)
    (hk : (4 ≤ col ∧ 4 ≤ row ∧ (col : ℤ) < (w1 : ℤ) - 4 ∧ (row : ℤ) < (height : ℤ) - 4) →
      kernSymmetric (fun j => kernels (CAPTURE_KERNEL_ALIGN * table (row * w1 + col) + j))) :
    blurVal inp kernels table w1 height row col
      = specConv (fun j => kernels (CAPTURE_KERNEL_ALIGN * table (row * w1 + col) + j))
          inp w1 height row col := by
  unfold blurVal
  by_cases hin : col ≥ 4 ∧ row ≥ 4 ∧ (col : ℤ) < (w1 : ℤ) - 4 ∧ (row : ℤ) < (height : ℤ) - 4
  · simp only [if_pos hin]
    exact convFast_eq_spec _ inp w1 height row col hin.1 hin.2.1 hin.2.2.1 hin.2.2.2 (hk hin)
  · simp only [if_neg hin]
    exact convBounded_eq_spec _ inp w1 height row col

theorem kernUnit_zero_symmetric : kernSymmetric (kernUnit 0) := by
  unfold kernSymmetric kernUnit
  refine ⟨?_, by norm_num, by norm_num, by norm_num⟩
  intro a ha b hb
  have e1 : (5 * a + b = 0) ↔ (5 * b + a = 0) := by omega
  simp only [e1]

/-- C28: for a kernel `K` built by `_calc_9x9_gauss_coeffs` and an
interior pixel (`4 ≤ row < height-4`, `4 ≤ col < width-4`), the unrolled
13-term expression of the fast path equals the sum over all `(ir, ic)` of
`[-4..4]²` of `K[5·|ir| + |ic|]·in[(row+ir)·w + col+ic]`, which is also what
the bounded double loop returns; `K[5a+b] = K[5b+a]` and
`K[19] = K[23] = K[24] = 0` hold for `K`. -/
theorem blur_fast_path_equals_bounded (E : Env) (kernel coeffs : Nat → ℚ) (sigma : ℚ)
    (inp : Buf) (w1 height row col : Nat)
    (hc : 4 ≤ col) (hr : 4 ≤ row) (hc2 : (col : ℤ) < (w1 : ℤ) - 4)
    (hr2 : (row : ℤ) < (height : ℤ) - 4) :
    convFast (_calc_9x9_gauss_coeffs (ratOps E) kernel coeffs sigma)
        (fun off => inp (((row * w1 + col : Nat) : ℤ) + off).toNat) (w1 : ℤ)
      = ∑ ir in Finset.Icc (-4 : ℤ) 4, ∑ ic in Finset.Icc (-4 : ℤ) 4,
          _calc_9x9_gauss_coeffs (ratOps E) kernel coeffs sigma (5 * ir.natAbs + ic.natAbs)
            * inp ((((row : ℤ) + ir) * (w1 : ℤ) + ((col : ℤ) + ic)).toNat) ∧
    convFast (_calc_9x9_gauss_coeffs (ratOps E) kernel coeffs sigma)
        (fun off => inp (((row * w1 + col : Nat) : ℤ) + off).toNat) (w1 : ℤ)
      = convBounded (_calc_9x9_gauss_coeffs (ratOps E) kernel coeffs sigma) inp w1 height
          row col ∧
    kernSymmetric (_calc_9x9_gauss_coeffs (ratOps E) kernel coeffs sigma) := by
  have hs := calc_9x9_symmetric E kernel coeffs sigma
  have h1 := convFast_eq_spec _ inp w1 height row col hc hr hc2 hr2 hs
  refine ⟨?_, ?_, hs⟩
  · rw [h1]
    unfold specConv
    refine Finset.sum_congr rfl (fun ir hir => ?_)
    refine Finset.sum_congr rfl (fun ic hic => ?_)
    rw [Finset.mem_Icc] at hir hic
    rw [if_pos (by omega)]
  · rw [h1, convBounded_eq_spec]

/-- Witness of C28: the kernel of sigma 1 at the centre of the all-ones 9×9 image. -/
theorem blur_fast_path_equals_bounded_witness :
    convFast (_calc_9x9_gauss_coeffs (ratOps envQ) (fun _ => 0) (fun _ => 0) 1)
        (fun off => bufOnes (((4 * 9 + 4 : Nat) : ℤ) + off).toNat) ((9 : Nat) : ℤ)
      = ∑ ir in Finset.Icc (-4 : ℤ) 4, ∑ ic in Finset.Icc (-4 : ℤ) 4,
          _calc_9x9_gauss_coeffs (ratOps envQ) (fun _ => 0) (fun _ => 0) 1
              (5 * ir.natAbs + ic.natAbs)
            * bufOnes (((((4 : Nat) : ℤ)) + ir) * ((9 : Nat) : ℤ) + (((4 : Nat) : ℤ) + ic)).toNat ∧
    convFast (_calc_9x9_gauss_coeffs (ratOps envQ) (fun _ => 0) (fun _ => 0) 1)
        (fun off => bufOnes (((4 * 9 + 4 : Nat) : ℤ) + off).toNat) ((9 : Nat) : ℤ)
      = convBounded (_calc_9x9_gauss_coeffs (ratOps envQ) (fun _ => 0) (fun _ => 0) 1)
          bufOnes 9 9 4 4 ∧
    kernSymmetric (_calc_9x9_gauss_coeffs (ratOps envQ) (fun _ => 0) (fun _ => 0) 1) :=
  blur_fast_path_equals_bounded envQ (fun _ => 0) (fun _ => 0) 1 bufOnes 9 9 4 4
    (by norm_num) (by norm_num) (by norm_num) (by norm_num)

/-- At every pixel within 4 pixels of an edge, and at every interior pixel
whose selected kernel has `kern[5a+b] = kern[5b+a]` and
`kern[19] = kern[23] = kern[24] = 0`, `_blur_div` stores
`luminance[i] / max(conv(in)[i], 0.001)` when `blend[i] > 0` and leaves `out[i]`
otherwise, `conv` being the zero-padded convolution `specConv`. -/
theorem blur_div_spec_conv (inp out luminance blend : Buf) (kernels : Nat → ℚ)
    (table : Nat → Nat) (w1 height row col : Nat) (hrow : row < height) (hcol : col < w1)
    (hk : (4 ≤ col ∧ 4 ≤ row ∧ (col : ℤ) < (w1 : ℤ) - 4 ∧ (row : ℤ) < (height : ℤ) - 4) →
      kernSymmetric (fun j => kernels (CAPTURE_KERNEL_ALIGN * table (row * w1 + col) + j))) :
    _blur_div inp out luminance blend kernels table w1 height (row * w1 + col)
      = if blend (row * w1 + col) > 0
        then luminance (row * w1 + col)
          / MAX (specConv (fun j => kernels (CAPTURE_KERNEL_ALIGN * table (row * w1 + col) + j))
              inp w1 height row col) CAPTURE_YMIN
        else out (row * w1 + col) := by
  rw [(blur_div_get inp out luminance blend kernels table w1 height).1 row col hrow hcol,
    blurVal_eq_spec inp kernels table w1 height row col hk]

/-- At every pixel within 4 pixels of an edge, and at every interior pixel
whose selected kernel has `kern[5a+b] = kern[5b+a]` and
`kern[19] = kern[23] = kern[24] = 0`, `_blur_mul` stores
`out_before[i]·conv(in)[i]` when `blend[i] > 0` and leaves `out[i]` otherwise;
cells past the image are not written. -/
theorem blur_mul_spec_conv (inp out blend : Buf) (kernels : Nat → ℚ)
    (table : Nat → Nat) (w1 height row col : Nat) (hrow : row < height) (hcol : col < w1)
    (hk : (4 ≤ col ∧ 4 ≤ row ∧ (col : ℤ) < (w1 : ℤ) - 4 ∧ (row : ℤ) < (height : ℤ) - 4) →
      kernSymmetric (fun j => kernels (CAPTURE_KERNEL_ALIGN * table (row * w1 + col) + j))) :
    _blur_mul inp out blend kernels table w1 height (row * w1 + col)
      = (if blend (row * w1 + col) > 0
        then out (row * w1 + col)
          * specConv (fun j => kernels (CAPTURE_KERNEL_ALIGN * table (row * w1 + col) + j))
              inp w1 height row col
        else out (row * w1 + col)) ∧
    ∀ m, height * w1 ≤ m → _blur_mul inp out blend kernels table w1 height m = out m := by
  rw [(blur_mul_get inp out blend kernels table w1 height).1 row col hrow hcol,
    blurVal_eq_spec inp kernels table w1 height row col hk]
  exact ⟨rfl, (blur_mul_get inp out blend kernels table w1 height).2⟩

/-- The zero-padded convolution of the all-ones 9×9 image at its centre is
the sum of the 81 weights. -/
theorem specConv_ones_centre (kern : Nat → ℚ) :
    specConv kern bufOnes 9 9 4 4
      = kern 0 + 2 * (kern 1 + kern 2 + kern 3 + kern 4)
        + 2 * (kern 5 + kern 10 + kern 15 + kern 20)
        + 4 * (kern 6 + kern 7 + kern 8 + kern 9 + kern 11 + kern 12 + kern 13 + kern 14
          + kern 16 + kern 17 + kern 18 + kern 19 + kern 21 + kern 22 + kern 23 + kern 24) := by
  unfold specConv bufOnes
  rw [sum_Icc_eq_range]
  simp only [sum_Icc_eq_range]
  simp only [Finset.sum_range_succ, Finset.sum_range_zero]
  norm_num
  ring

/-- The fast path on the all-ones image: the weighted count of the 69 taps the
unrolled expression reads. -/
theorem convFast_ones (kern : Nat → ℚ) (i : Nat) (w : ℤ) :
    convFast kern (fun off => bufOnes (((i : Nat) : ℤ) + off).toNat) w
      = 8 * kern 14 + 8 * kern 9 + 4 * kern 4 + 4 * kern 18 + 8 * kern 13 + 8 * kern 8
        + 4 * kern 3 + 4 * kern 12 + 8 * kern 7 + 4 * kern 2 + 4 * kern 6 + 4 * kern 1
        + kern 0 := by
  unfold convFast bufOnes
  norm_num
  ring

/-- The unrolled sum relies on the two kernel properties: on the all-ones 9×9
image with a kernel whose only weight is `kern[21] = 1` (no kernel of
`_calc_9x9_gauss_coeffs` is of this kind), `_blur_div` stores `1/0.001 = 1000`
at the centre pixel, where the zero-padded convolution is 4. -/
theorem blur_div_fast_path_skips_slot :
    _blur_div bufOnes (fun _ => 0) bufOnes bufOnes (kernUnit 21) (fun _ => 0) 9 9 (4 * 9 + 4)
      = 1000 ∧
    bufOnes (4 * 9 + 4) > 0 ∧
    specConv (fun j => kernUnit 21 (CAPTURE_KERNEL_ALIGN * 0 + j)) bufOnes 9 9 4 4 = 4 ∧
    bufOnes (4 * 9 + 4)
      / MAX (specConv (fun j => kernUnit 21 (CAPTURE_KERNEL_ALIGN * 0 + j)) bufOnes 9 9 4 4)
          CAPTURE_YMIN = 1 / 4 := by
  have hc : specConv (fun j => kernUnit 21 (CAPTURE_KERNEL_ALIGN * 0 + j)) bufOnes 9 9 4 4
      = 4 := by
    rw [specConv_ones_centre]
    simp [kernUnit, CAPTURE_KERNEL_ALIGN]
  refine ⟨?_, by show (0 : ℚ) < 1; norm_num, hc, ?_⟩
  · rw [(blur_div_get _ _ _ _ _ _ 9 9).1 4 4 (by norm_num) (by norm_num)]
    rw [if_pos (show bufOnes (4 * 9 + 4) > 0 by show (0 : ℚ) < 1; norm_num)]
    unfold blurVal
    rw [if_pos (by norm_num)]
    simp only [convFast_ones]
    norm_num [kernUnit, CAPTURE_KERNEL_ALIGN, bufOnes, MAX, CAPTURE_YMIN]
  · rw [hc]
    norm_num [bufOnes, MAX, CAPTURE_YMIN]

/-- The unrolled sum never reads `kern[19]`: on the all-ones 9×9 image with a
kernel whose only weight is `kern[19] = 1` (no kernel of
`_calc_9x9_gauss_coeffs` is of this kind), `_blur_mul` stores `1·0 = 0` at the
centre pixel, where the zero-padded convolution is 4. -/
theorem blur_mul_fast_path_skips_slot :
    _blur_mul bufOnes bufOnes bufOnes (kernUnit 19) (fun _ => 0) 9 9 (4 * 9 + 4) = 0 ∧
    bufOnes (4 * 9 + 4) > 0 ∧
    bufOnes (4 * 9 + 4)
      * specConv (fun j => kernUnit 19 (CAPTURE_KERNEL_ALIGN * 0 + j)) bufOnes 9 9 4 4 = 4 := by
  have hc : specConv (fun j => kernUnit 19 (CAPTURE_KERNEL_ALIGN * 0 + j)) bufOnes 9 9 4 4
      = 4 := by
    rw [specConv_ones_centre]
    simp [kernUnit, CAPTURE_KERNEL_ALIGN]
  refine ⟨?_, by show (0 : ℚ) < 1; norm_num, ?_⟩
  · rw [(blur_mul_get _ _ _ _ _ 9 9).1 4 4 (by norm_num) (by norm_num)]
    rw [if_pos (show bufOnes (4 * 9 + 4) > 0 by show (0 : ℚ) < 1; norm_num)]
    unfold blurVal
    rw [if_pos (by norm_num)]
    simp only [convFast_ones]
    norm_num [kernUnit, CAPTURE_KERNEL_ALIGN, bufOnes]
  · rw [hc]
    norm_num [bufOnes]

theorem modifyReads_eq (width height irow icol : Nat) :
    modifyReads width height irow icol
      = readOffsets.map (fun o =>
          (CLAMP (irow : ℤ) 2 ((height : ℤ) - 3) + o.1,
           CLAMP (icol : ℤ) 2 ((width : ℤ) - 3) + o.2)) := by
  unfold modifyReads readOffsets
  simp only [forLoop, List.map, List.nil_append, List.cons_append, List.append_nil]
  norm_num
  repeat' constructor
  all_goals ring_nf

/-- The sums of `modifyWeight` read `Yold` only at the cells of
`modifyReads`: two planes that agree there give the same weight. -/
theorem modifyWeight_reads (E : Env) (Yold Yold2 : Buf) (dthresh : ℚ)
    (width height irow icol : Nat)
    (h : ∀ p ∈ modifyReads width height irow icol,
      Yold (p.1 * (width : ℤ) + p.2).toNat = Yold2 (p.1 * (width : ℤ) + p.2).toNat) :
    modifyWeight E Yold dthresh width height irow icol
      = modifyWeight E Yold2 dthresh width height irow icol := by
  have h1 := modify_window_sums (fun (y x : ℤ) => Yold (y * (width : ℤ) + x).toNat)
    (CLAMP (irow : ℤ) 2 ((height : ℤ) - 3)) (CLAMP (icol : ℤ) 2 ((width : ℤ) - 3))
  have h2 := modify_window_sums (fun (y x : ℤ) => Yold2 (y * (width : ℤ) + x).toNat)
    (CLAMP (irow : ℤ) 2 ((height : ℤ) - 3)) (CLAMP (icol : ℤ) 2 ((width : ℤ) - 3))
  unfold modifyWeight
  simp only []
  rw [h1, h2]
  have e : windowOffsets.map (fun o => Yold
        ((CLAMP (irow : ℤ) 2 ((height : ℤ) - 3) + o.1) * (width : ℤ)
          + (CLAMP (icol : ℤ) 2 ((width : ℤ) - 3) + o.2)).toNat)
      = windowOffsets.map (fun o => Yold2
        ((CLAMP (irow : ℤ) 2 ((height : ℤ) - 3) + o.1) * (width : ℤ)
          + (CLAMP (icol : ℤ) 2 ((width : ℤ) - 3) + o.2)).toNat) := by
    apply List.map_congr_left
    intro o ho
    apply h (CLAMP (irow : ℤ) 2 ((height : ℤ) - 3) + o.1, CLAMP (icol : ℤ) 2 ((width : ℤ) - 3) + o.2)
    rw [modifyReads_eq]
    refine List.mem_map.mpr ⟨o, ?_, rfl⟩
    revert ho o
    decide
  rw [e]

/-- A loop that handles one item per round is the fold over the list of the
items it handles. -/
theorem forLoop_foldl_inner {α σ : Type} (f : α → σ → σ) (g : Nat → α) (k : Nat)
    (L : List α) (s : σ) :
    forLoop k (fun j m => f (g j) m) (L.foldl (fun m x => f x m) s)
      = (forLoop k (fun j acc => acc ++ [g j]) L).foldl (fun m x => f x m) s := by
  induction k with
  | zero => rfl
  | succ k ih =>
    rw [forLoop_succ, forLoop_succ, ih, List.foldl_append]
    rfl

theorem forLoop_foldl_nested {α σ : Type} (f : α → σ → σ) (w : Nat → Nat) (g : Nat → Nat → α)
    (n : Nat) (s : σ) :
    forLoop n (fun i m => forLoop (w i) (fun j m => f (g i j) m) m) s
      = (forLoop n (fun i acc => forLoop (w i) (fun j acc => acc ++ [g i j]) acc) []).foldl
          (fun m x => f x m) s := by
  induction n with
  | zero => rfl
  | succ n ih =>
    rw [forLoop_succ, forLoop_succ, ih]
    exact forLoop_foldl_inner f (g n) (w n) _ s

theorem mem_forLoop_append {α : Type} (g : Nat → α) (k : Nat) (L : List α) (x : α) :
    x ∈ forLoop k (fun j acc => acc ++ [g j]) L ↔ x ∈ L ∨ ∃ j, j < k ∧ x = g j := by
  induction k with
  | zero => simp [forLoop]
  | succ k ih =>
    rw [forLoop_succ, List.mem_append, ih, List.mem_singleton]
    constructor
    · rintro ((h | ⟨j, hj, e⟩) | e)
      · exact Or.inl h
      · exact Or.inr ⟨j, Nat.lt_succ_of_lt hj, e⟩
      · exact Or.inr ⟨k, Nat.lt_succ_self k, e⟩
    · rintro (h | ⟨j, hj, e⟩)
      · exact Or.inl (Or.inl h)
      · rcases Nat.lt_succ_iff_lt_or_eq.mp hj with h | h
        · exact Or.inl (Or.inr ⟨j, h, e⟩)
        · subst h
          exact Or.inr e

theorem mem_forLoop_nested {α : Type} (w : Nat → Nat) (g : Nat → Nat → α) (n : Nat) (x : α) :
    x ∈ forLoop n (fun i acc => forLoop (w i) (fun j acc => acc ++ [g i j]) acc) []
      ↔ ∃ i j, i < n ∧ j < w i ∧ x = g i j := by
  induction n with
  | zero => simp [forLoop]
  | succ n ih =>
    rw [forLoop_succ, mem_forLoop_append, ih]
    constructor
    · rintro (⟨i, j, hi, hj, e⟩ | ⟨j, hj, e⟩)
      · exact ⟨i, j, Nat.lt_succ_of_lt hi, hj, e⟩
      · exact ⟨n, j, Nat.lt_succ_self n, hj, e⟩
    · rintro ⟨i, j, hi, hj, e⟩
      rcases Nat.lt_succ_iff_lt_or_eq.mp hi with h | h
      · exact Or.inl ⟨i, j, h, hj, e⟩
      · subst h
        exact Or.inr ⟨j, hj, e⟩

/-- The loops of `_calcRadiusBayer` fold the site update over `bayerSites`. -/
theorem calcRadiusBayerMaxRatio_foldl (E : Env) (inp : Buf) (width height : Nat)
    (lowerLimit upperLimit : ℚ) (filters : Nat) :
    calcRadiusBayerMaxRatio E inp width height lowerLimit upperLimit filters
      = (bayerSites E width height filters).foldl
          (fun m s => calcRadiusBayerSite inp width lowerLimit upperLimit s.1 s.2 m) 1 := by
  unfold calcRadiusBayerMaxRatio bayerSites
  exact forLoop_foldl_nested
    (fun (s : Nat × Nat) m => calcRadiusBayerSite inp width lowerLimit upperLimit s.1 s.2 m)
    _ (fun i j => (i + 4, _)) (height - 8) 1

/-- The sites of `bayerSites` are the pairs the loop header describes. -/
theorem mem_bayerSites (E : Env) (width height filters : Nat) (s : Nat × Nat) :
    s ∈ bayerSites E width height filters ↔
      ∃ i j, i < height - 8 ∧
        j < (width - 4 - (5 + (if (i + 4) % 2 = 0 then E.FC 0 0 filters
              else E.FC 1 0 filters) % 2) + 1) / 2 ∧
        s = (i + 4, 5 + (if (i + 4) % 2 = 0 then E.FC 0 0 filters
              else E.FC 1 0 filters) % 2 + 2 * j) := by
  unfold bayerSites
  exact mem_forLoop_nested _ (fun i j => (i + 4, _)) (height - 8) s

/-- One pair of `_calcRadiusBayer` with the `clipped` flag of the first pair. -/
theorem bayer_pair_flag (v p m ll : ℚ) (c1 c2 : Prop) [Decidable c1] [Decidable c2]
    (hv : v > RAWEPS) :
    (if p > RAWEPS ∧ MAX v p > ll then
      if MAX v p > m * MIN v p then
        if (!(if MAX v p = v then decide c1 else decide c2)) = true then MAX v p / MIN v p
        else m
      else m
    else m)
    = if (v > RAWEPS ∧ p > RAWEPS ∧ max v p > ll ∧ (if p ≤ v then ¬ c1 else ¬ c2))
          ∧ m < max v p / min v p
      then max v p / min v p else m := by
  have hwin : MAX v p = v ↔ p ≤ v := by
    unfold MAX
    split_ifs with h
    · exact ⟨fun _ => le_of_lt h, fun _ => rfl⟩
    · exact ⟨fun e => le_of_eq e, fun h2 => le_antisymm h2 (not_lt.mp h)⟩
  rw [MAX_eq_max, MIN_eq_min] at *
  by_cases hp : p > RAWEPS
  · have hpos : 0 < min v p := by
      have : (0 : ℚ) < RAWEPS := by unfold RAWEPS; norm_num
      exact lt_min (lt_trans this hv) (lt_trans this hp)
    have hr : max v p > m * min v p ↔ m < max v p / min v p := by
      rw [gt_iff_lt, lt_div_iff₀ hpos]
    by_cases hl : max v p > ll
    · rw [if_pos ⟨hp, hl⟩]
      by_cases hm : m < max v p / min v p
      · rw [if_pos (hr.mpr hm)]
        by_cases hw : p ≤ v
        · rw [if_pos (hwin.mpr hw)]
          by_cases h1 : c1
          · rw [if_neg (by simp [h1]),
              if_neg (fun h => by have := h.1.2.2.2; rw [if_pos hw] at this; exact this h1)]
          · rw [if_pos (by simp [h1]),
              if_pos ⟨⟨hv, hp, hl, by rw [if_pos hw]; exact h1⟩, hm⟩]
        · rw [if_neg (fun e => hw (hwin.mp e))]
          by_cases h2 : c2
          · rw [if_neg (by simp [h2]),
              if_neg (fun h => by have := h.1.2.2.2; rw [if_neg hw] at this; exact this h2)]
          · rw [if_pos (by simp [h2]),
              if_pos ⟨⟨hv, hp, hl, by rw [if_neg hw]; exact h2⟩, hm⟩]
      · rw [if_neg (fun h => hm (hr.mp h)), if_neg (fun h => hm h.2)]
    · rw [if_neg (fun h => hl h.2), if_neg (fun h => hl h.1.2.2.1)]
  · rw [if_neg (fun h => hp h.1), if_neg (fun h => hp h.1.2.1)]

/-- One pair of `_calcRadiusBayer` with the `continue` of the second pair. -/
theorem bayer_pair_continue (v p m ll : ℚ) (c1 c2 : Prop) [Decidable c1] [Decidable c2]
    (hv : v > RAWEPS) :
    (if p > RAWEPS ∧ MAX v p > ll then
      if MAX v p > m * MIN v p then
        if MAX v p = v then
          if c1 then m else MAX v p / MIN v p
        else
          if c2 then m else MAX v p / MIN v p
      else m
    else m)
    = if (v > RAWEPS ∧ p > RAWEPS ∧ max v p > ll ∧ (if p ≤ v then ¬ c1 else ¬ c2))
          ∧ m < max v p / min v p
      then max v p / min v p else m := by
  rw [← bayer_pair_flag v p m ll c1 c2 hv]
  by_cases hp : p > RAWEPS ∧ MAX v p > ll
  · rw [if_pos hp, if_pos hp]
    by_cases hm : MAX v p > m * MIN v p
    · rw [if_pos hm, if_pos hm]
      by_cases hw : MAX v p = v
      · rw [if_pos hw]
        simp only [hw, if_true]
        by_cases h1 : c1 <;> simp [h1]
      · rw [if_neg hw]
        simp only [hw, if_false]
        by_cases h2 : c2 <;> simp [h2]
    · rw [if_neg hm, if_neg hm]
  · rw [if_neg hp, if_neg hp]

theorem max3_ge_iff (a b c u : ℚ) :
    MAX (MAX a b) c ≥ u ↔ ¬ (∀ g ∈ [a, b, c], g < u) := by
  rw [MAX_eq_max, MAX_eq_max]
  simp only [List.mem_cons, List.mem_singleton, List.not_mem_nil, or_false, forall_eq_or_imp,
    forall_eq, ge_iff_le, le_max_iff, not_and_or, not_lt]
  tauto

theorem max4_ge_iff (a b c d u : ℚ) :
    MAX (MAX (MAX a b) c) d ≥ u ↔ ¬ (∀ g ∈ [a, b, c, d], g < u) := by
  rw [MAX_eq_max, MAX_eq_max, MAX_eq_max]
  simp only [List.mem_cons, List.mem_singleton, List.not_mem_nil, or_false, forall_eq_or_imp,
    forall_eq, ge_iff_le, le_max_iff, not_and_or, not_lt]
  tauto

/-- The body of the column loop is the first pair's step followed by the
second pair's step. -/
theorem calcRadiusBayerSite_eq (inp : Buf) (width : Nat) (lowerLimit upperLimit : ℚ)
    (row col : Nat) (m : ℚ) :
    calcRadiusBayerSite inp width lowerLimit upperLimit row col m
      = specBayerStep inp width lowerLimit upperLimit row col true
          (specBayerStep inp width lowerLimit upperLimit row col false m) := by
  have hcell : ∀ (dy dx : ℤ), inp ((((row * width + col : Nat) : ℤ) + (dy * (width : ℤ) + dx)).toNat)
      = specBayerCell inp width ((row : ℤ) + dy) ((col : ℤ) + dx) := by
    intro dy dx
    unfold specBayerCell
    congr 2
    push_cast
    ring
  have c00 : inp ((((row * width + col : Nat) : ℤ) + 0).toNat) = specBayerCell inp width row col := by
    have := hcell 0 0
    simpa using this
  have c1m1 : inp ((((row * width + col : Nat) : ℤ) + ((width : ℤ) - 1)).toNat)
      = specBayerCell inp width ((row : ℤ) + 1) ((col : ℤ) - 1) := by
    have := hcell 1 (-1)
    rw [show (1 : ℤ) * (width : ℤ) + -1 = (width : ℤ) - 1 by ring] at this
    rw [this]; rfl
  have c1p1 : inp ((((row * width + col : Nat) : ℤ) + ((width : ℤ) + 1)).toNat)
      = specBayerCell inp width ((row : ℤ) + 1) ((col : ℤ) + 1) := by
    have := hcell 1 1
    rw [show (1 : ℤ) * (width : ℤ) + 1 = (width : ℤ) + 1 by ring] at this
    exact this
  have cm1m1 : inp ((((row * width + col : Nat) : ℤ) + (-(width : ℤ) - 1)).toNat)
      = specBayerCell inp width ((row : ℤ) - 1) ((col : ℤ) - 1) := by
    have := hcell (-1) (-1)
    rw [show (-1 : ℤ) * (width : ℤ) + -1 = -(width : ℤ) - 1 by ring] at this
    rw [this]; rfl
  have cm1p1 : inp ((((row * width + col : Nat) : ℤ) + (-(width : ℤ) + 1)).toNat)
      = specBayerCell inp width ((row : ℤ) - 1) ((col : ℤ) + 1) := by
    have := hcell (-1) 1
    rw [show (-1 : ℤ) * (width : ℤ) + 1 = -(width : ℤ) + 1 by ring] at this
    rw [this]; rfl
  have c0m2 : inp ((((row * width + col : Nat) : ℤ) + (-2)).toNat)
      = specBayerCell inp width (row : ℤ) ((col : ℤ) - 2) := by
    have := hcell 0 (-2)
    rw [show (0 : ℤ) * (width : ℤ) + -2 = -2 by ring] at this
    rw [this, add_zero]; rfl
  have c0p2 : inp ((((row * width + col : Nat) : ℤ) + 2).toNat)
      = specBayerCell inp width (row : ℤ) ((col : ℤ) + 2) := by
    have := hcell 0 2
    rw [show (0 : ℤ) * (width : ℤ) + 2 = 2 by ring] at this
    rw [this, add_zero]
  have c2m2 : inp ((((row * width + col : Nat) : ℤ) + (2 * (width : ℤ) - 2)).toNat)
      = specBayerCell inp width ((row : ℤ) + 2) ((col : ℤ) - 2) := by
    have := hcell 2 (-2)
    rw [show (2 : ℤ) * (width : ℤ) + -2 = 2 * (width : ℤ) - 2 by ring] at this
    rw [this]; rfl
  have c2p0 : inp ((((row * width + col : Nat) : ℤ) + (2 * (width : ℤ))).toNat)
      = specBayerCell inp width ((row : ℤ) + 2) (col : ℤ) := by
    have := hcell 2 0
    rw [show (2 : ℤ) * (width : ℤ) + 0 = 2 * (width : ℤ) by ring] at this
    rw [this, add_zero]
  have c2p2 : inp ((((row * width + col : Nat) : ℤ) + (2 * (width : ℤ) + 2)).toNat)
      = specBayerCell inp width ((row : ℤ) + 2) ((col : ℤ) + 2) := hcell 2 2
  unfold calcRadiusBayerSite
  simp only [c00, c1m1, c1p1, cm1m1, cm1p1, c0m2, c0p2, c2m2, c2p0, c2p2]
  by_cases hv : specBayerCell inp width row col > RAWEPS
  · rw [if_pos hv, bayer_pair_flag _ _ _ _ _ _ hv, bayer_pair_continue _ _ _ _ _ _ hv]
    unfold specBayerStep specBayerEligible specBayerRatio specBayerGuard specBayerPartner
    simp only [max4_ge_iff]
    simp only [max3_ge_iff, not_not, if_true, Bool.false_eq_true, if_false]
    by_cases hR : specBayerCell inp width ((row : ℤ) + 1) ((col : ℤ) + 1) ≤ specBayerCell inp width row col
    · by_cases hL : specBayerCell inp width ((row : ℤ) + 1) ((col : ℤ) - 1)
          ≤ specBayerCell inp width row col
      · simp only [hR, hL, if_true]
      · simp only [hR, hL, if_true, if_false]
    · by_cases hL : specBayerCell inp width ((row : ℤ) + 1) ((col : ℤ) - 1)
          ≤ specBayerCell inp width row col
      · simp only [hR, hL, if_true, if_false]
      · simp only [hR, hL, if_false]
  · rw [if_neg hv]
    unfold specBayerStep specBayerEligible
    rw [if_neg (fun h => hv h.1.1), if_neg (fun h => hv h.1.1)]

theorem specBayerStep_ge (inp : Buf) (width : Nat) (ll ul : ℚ) (row col : Nat) (right : Bool)
    (m : ℚ) : m ≤ specBayerStep inp width ll ul row col right m := by
  unfold specBayerStep
  split_ifs with h
  · exact le_of_lt h.2
  · exact le_refl m

theorem specBayerStep_bound (inp : Buf) (width : Nat) (ll ul : ℚ) (row col : Nat) (right : Bool)
    (m : ℚ) (he : specBayerEligible inp width ll ul row col right) :
    specBayerRatio inp width row col right ≤ specBayerStep inp width ll ul row col right m := by
  unfold specBayerStep
  split_ifs with h
  · exact le_refl _
  · exact not_lt.mp (fun hlt => h ⟨he, hlt⟩)

theorem specBayerStep_cases (inp : Buf) (width : Nat) (ll ul : ℚ) (row col : Nat) (right : Bool)
    (m : ℚ) :
    specBayerStep inp width ll ul row col right m = m ∨
      (specBayerEligible inp width ll ul row col right ∧
        specBayerStep inp width ll ul row col right m = specBayerRatio inp width row col right) := by
  unfold specBayerStep
  split_ifs with h
  · exact Or.inr ⟨h.1, rfl⟩
  · exact Or.inl rfl

/-- The fold of the site update over any list of sites, from any start `m0`:
the result is at least `m0`, bounds the ratio of every eligible pair of the
list, and is `m0` or the ratio of an eligible pair of the list. -/
theorem bayer_fold_max (inp : Buf) (width : Nat) (ll ul : ℚ) (L : List (Nat × Nat)) :
    ∀ m0 : ℚ,
      m0 ≤ L.foldl (fun m s => calcRadiusBayerSite inp width ll ul s.1 s.2 m) m0 ∧
      (∀ s ∈ L, ∀ right, specBayerEligible inp width ll ul s.1 s.2 right →
        specBayerRatio inp width s.1 s.2 right
          ≤ L.foldl (fun m s => calcRadiusBayerSite inp width ll ul s.1 s.2 m) m0) ∧
      (L.foldl (fun m s => calcRadiusBayerSite inp width ll ul s.1 s.2 m) m0 = m0 ∨
        ∃ s ∈ L, ∃ right, specBayerEligible inp width ll ul s.1 s.2 right ∧
          specBayerRatio inp width s.1 s.2 right
            = L.foldl (fun m s => calcRadiusBayerSite inp width ll ul s.1 s.2 m) m0) := by
  induction L with
  | nil =>
    intro m0
    refine ⟨le_refl _, ?_, Or.inl rfl⟩
    intro s hs
    exact absurd hs (List.not_mem_nil s)
  | cons a L ih =>
    intro m0
    rw [List.foldl_cons, calcRadiusBayerSite_eq]
    obtain ⟨h1, h2, h3⟩ := ih (specBayerStep inp width ll ul a.1 a.2 true
      (specBayerStep inp width ll ul a.1 a.2 false m0))
    have g1 := specBayerStep_ge inp width ll ul a.1 a.2 false m0
    have g2 := specBayerStep_ge inp width ll ul a.1 a.2 true
      (specBayerStep inp width ll ul a.1 a.2 false m0)
    refine ⟨le_trans (le_trans g1 g2) h1, ?_, ?_⟩
    · intro s hs right he
      rcases List.mem_cons.mp hs with e | hs2
      · subst e
        cases right with
        | false =>
          exact le_trans (le_trans (specBayerStep_bound inp width ll ul s.1 s.2 false m0 he) g2) h1
        | true =>
          exact le_trans (specBayerStep_bound inp width ll ul s.1 s.2 true _ he) h1
      · exact h2 s hs2 right he
    · rcases h3 with e | ⟨s, hs, right, he, e⟩
      · rw [e]
        rcases specBayerStep_cases inp width ll ul a.1 a.2 true
          (specBayerStep inp width ll ul a.1 a.2 false m0) with c | ⟨ce, c⟩
        · rw [c]
          rcases specBayerStep_cases inp width ll ul a.1 a.2 false m0 with d | ⟨de, d⟩
          · exact Or.inl d
          · exact Or.inr ⟨a, List.mem_cons_self a L, false, de, d.symm⟩
        · exact Or.inr ⟨a, List.mem_cons_self a L, true, ce, c.symm⟩
      · exact Or.inr ⟨s, List.mem_cons_of_mem a hs, right, he, e⟩

/-- Two lists with the same sites give the same fold. -/
theorem bayer_fold_order (inp : Buf) (width : Nat) (ll ul : ℚ) (L1 L2 : List (Nat × Nat))
    (h : ∀ s, s ∈ L1 ↔ s ∈ L2) (m0 : ℚ) :
    L1.foldl (fun m s => calcRadiusBayerSite inp width ll ul s.1 s.2 m) m0
      = L2.foldl (fun m s => calcRadiusBayerSite inp width ll ul s.1 s.2 m) m0 := by
  obtain ⟨a1, a2, a3⟩ := bayer_fold_max inp width ll ul L1 m0
  obtain ⟨b1, b2, b3⟩ := bayer_fold_max inp width ll ul L2 m0
  apply le_antisymm
  · rcases a3 with e | ⟨s, hs, right, he, e⟩
    · rw [e]; exact b1
    · rw [← e]; exact b2 s ((h s).mp hs) right he
  · rcases b3 with e | ⟨s, hs, right, he, e⟩
    · rw [e]; exact a1
    · rw [← e]; exact a2 s ((h s).mpr hs) right he

theorem specBayerEligible_divisor (inp : Buf) (width : Nat) (ll ul : ℚ) (row col : Nat)
    (right : Bool) (he : specBayerEligible inp width ll ul row col right) :
    RAWEPS < min (specBayerCell inp width row col) (specBayerPartner inp width row col right) :=
  lt_min he.1 he.2.1

theorem bayerSites_pair_mem : ((4, 5) : Nat × Nat) ∈ bayerSites envQ 10 9 0x94949494 := by
  decide

theorem specBayerCell_cfaPair (a b : ℚ) :
    specBayerCell (cfaPair a b) 10 ((4 : Nat) : ℤ) ((5 : Nat) : ℤ) = a ∧
    specBayerPartner (cfaPair a b) 10 4 5 false = b ∧
    specBayerGuard (cfaPair a b) 10 4 5 false = (if b ≤ a then [0, 0, 0] else [0, a, 0, 0]) := by
  have e1 : specBayerCell (cfaPair a b) 10 ((4 : Nat) : ℤ) ((5 : Nat) : ℤ) = a := by
    unfold specBayerCell cfaPair
    simp
  have e2 : specBayerPartner (cfaPair a b) 10 4 5 false = b := by
    unfold specBayerPartner specBayerCell cfaPair
    simp
  refine ⟨e1, e2, ?_⟩
  unfold specBayerGuard
  simp only [e1, e2]
  unfold specBayerCell cfaPair
  simp

theorem specBayerEligible_cfaPair :
    specBayerEligible (cfaPair (1 / 2) (1 / 4)) 10 (1 / 100) 1 4 5 false := by
  obtain ⟨e1, e2, e3⟩ := specBayerCell_cfaPair (1 / 2) (1 / 4)
  unfold specBayerEligible
  rw [e1, e2, e3]
  unfold RAWEPS
  norm_num

theorem and_14_mod (x : Nat) : x &&& 14 = (x % 16) &&& 14 := by
  have h : (14 : Nat) = 15 &&& 14 := by decide
  have h15 : x &&& 15 = x % 16 := Nat.and_pow_two_sub_one_eq_mod x 4
  calc x &&& 14 = x &&& (15 &&& 14) := by rw [← h]
    _ = (x &&& 15) &&& 14 := by rw [Nat.land_assoc]
    _ = (x % 16) &&& 14 := by rw [h15]

/-- The macro `FC` of `envQ` returns the colour of the layout for each of the
four `filters` words. -/
theorem envQ_FC_layout (L : BayerLayout) (row col : Nat) :
    envQ.FC row col L.filters = L.color row col := by
  have h1 : (row <<< 1) &&& 14 = (2 * (row % 8)) &&& 14 := by
    rw [and_14_mod, Nat.shiftLeft_eq]
    congr 1
    omega
  have h2 : col &&& 1 = col % 2 := Nat.and_one_is_mod col
  have hr : row % 2 = (row % 8) % 2 := by omega
  show (L.filters >>> ((((row <<< 1) &&& 14) ||| (col &&& 1)) <<< 1)) &&& 3 = L.color row col
  unfold BayerLayout.color
  rw [h1, h2, hr]
  have ha : row % 8 < 8 := Nat.mod_lt _ (by norm_num)
  have hb : col % 2 < 2 := Nat.mod_lt _ (by norm_num)
  generalize row % 8 = a at ha
  generalize col % 2 = b at hb
  interval_cases a <;> interval_cases b <;> cases L <;> rfl

/-- C26: for each of the four Bayer layouts, every site `(row, col)` the
loops of `_calcRadiusBayer` visit is a green site (`FC(row, col, filters) = 1`)
and so are its diagonal partners `(row+1, col-1)` and `(row+1, col+1)`; the
site has `4 <= row < height-4` and `5 <= col < width-4`, and every cell of
rows `row-1..row+2`, columns `col-2..col+2` lies inside the image, at a flat
index below `width·height`. -/
theorem calcRadiusBayer_sites_green (E : Env) (L : BayerLayout) (filters width height : Nat)
    (hFC : ∀ row col, row < height → col < width → E.FC row col filters = L.color row col)
    (s : Nat × Nat) (hs : s ∈ bayerSites E width height filters) :
    E.FC s.1 s.2 filters = 1 ∧ E.FC (s.1 + 1) (s.2 - 1) filters = 1 ∧
    E.FC (s.1 + 1) (s.2 + 1) filters = 1 ∧
    4 ≤ s.1 ∧ s.1 + 4 < height ∧ 5 ≤ s.2 ∧ s.2 + 4 < width ∧
    ∀ dy dx : ℤ, -1 ≤ dy → dy ≤ 2 → -2 ≤ dx → dx ≤ 2 →
      0 ≤ (s.1 : ℤ) + dy ∧ (s.1 : ℤ) + dy < (height : ℤ) ∧
      0 ≤ (s.2 : ℤ) + dx ∧ (s.2 : ℤ) + dx < (width : ℤ) ∧
      0 ≤ ((s.1 * width + s.2 : Nat) : ℤ) + (dy * (width : ℤ) + dx) ∧
      ((s.1 * width + s.2 : Nat) : ℤ) + (dy * (width : ℤ) + dx) < ((width * height : Nat) : ℤ) := by
  obtain ⟨i, j, hi, hj, rfl⟩ := (mem_bayerSites E width height filters s).mp hs
  have hw : 9 < width := by
    by_contra hcon
    have : (width - 4 - (5 + (if (i + 4) % 2 = 0 then E.FC 0 0 filters
              else E.FC 1 0 filters) % 2) + 1) / 2 = 0 := by omega
    omega
  have hfc : (if (i + 4) % 2 = 0 then E.FC 0 0 filters else E.FC 1 0 filters)
      = L.color ((i + 4) % 2) 0 := by
    split_ifs with h
    · rw [hFC 0 0 (by omega) (by omega), h]
    · have h1 : (i + 4) % 2 = 1 := by omega
      rw [hFC 1 0 (by omega) (by omega), h1]
  rw [hfc] at hj ⊢
  dsimp only at hj ⊢
  have hcol : 5 + L.color ((i + 4) % 2) 0 % 2 + 2 * j + 4 < width := by omega
  have hrow : i + 4 + 4 < height := by omega
  have hc2 : L.color ((i + 4) % 2) 0 % 2 < 2 := Nat.mod_lt _ (by norm_num)
  have green : ∀ r c, r % 2 = (i + 4) % 2 → c % 2 = (1 + L.color ((i + 4) % 2) 0) % 2 →
      L.color r c = 1 := by
    intro r c hr hc
    have hi2 : (i + 4) % 2 < 2 := Nat.mod_lt _ (by norm_num)
    unfold BayerLayout.color at hc ⊢
    rw [hr]
    generalize (i + 4) % 2 = a at hi2 hc
    interval_cases a <;> cases L <;> simp at hc ⊢ <;> simp [hc]
  have green2 : ∀ r c, r % 2 = (i + 5) % 2 → c % 2 = (L.color ((i + 4) % 2) 0) % 2 →
      L.color r c = 1 := by
    intro r c hr hc
    have hi2 : (i + 4) % 2 < 2 := Nat.mod_lt _ (by norm_num)
    have hr2 : r % 2 = 1 - (i + 4) % 2 := by omega
    unfold BayerLayout.color at hc ⊢
    rw [hr2]
    generalize (i + 4) % 2 = a at hi2 hc
    interval_cases a <;> cases L <;> simp at hc ⊢ <;> simp [hc]
  refine ⟨?_, ?_, ?_, by omega, by omega, by omega, by omega, ?_⟩
  · rw [hFC _ _ (by omega) (by omega)]
    exact green _ _ rfl (by omega)
  · rw [hFC _ _ (by omega) (by omega)]
    exact green2 _ _ (by omega) (by omega)
  · rw [hFC _ _ (by omega) (by omega)]
    exact green2 _ _ (by omega) (by omega)
  · intro dy dx h1 h2 h3 h4
    have e : (((i + 4) * width + (5 + L.color ((i + 4) % 2) 0 % 2 + 2 * j) : Nat) : ℤ)
        + (dy * (width : ℤ) + dx)
        = (((i + 4 : Nat) : ℤ) + dy) * (width : ℤ)
          + (((5 + L.color ((i + 4) % 2) 0 % 2 + 2 * j : Nat) : ℤ) + dx) := by
      push_cast
      ring
    rw [e]
    have b1 : 0 ≤ ((i + 4 : Nat) : ℤ) + dy := by omega
    have b2 : ((i + 4 : Nat) : ℤ) + dy < (height : ℤ) := by omega
    have b3 : 0 ≤ ((5 + L.color ((i + 4) % 2) 0 % 2 + 2 * j : Nat) : ℤ) + dx := by omega
    have b4 : ((5 + L.color ((i + 4) % 2) 0 % 2 + 2 * j : Nat) : ℤ) + dx < (width : ℤ) := by omega
    refine ⟨b1, b2, b3, b4, by positivity, ?_⟩
    push_cast
    nlinarith

/-- Witness of C26: the site `(4, 5)` of a 10×9 RGGB mosaic and its cell `(6, 3)`. -/
theorem calcRadiusBayer_sites_green_witness :
    (((4, 5) : Nat × Nat) ∈ bayerSites envQ 10 9 0x94949494) ∧
    envQ.FC 4 5 0x94949494 = 1 ∧ envQ.FC (4 + 1) (5 - 1) 0x94949494 = 1 ∧
    envQ.FC (4 + 1) (5 + 1) 0x94949494 = 1 ∧
    4 ≤ 4 ∧ 4 + 4 < 9 ∧ 5 ≤ 5 ∧ 5 + 4 < 10 ∧
    0 ≤ ((4 : Nat) : ℤ) + 2 ∧ ((4 : Nat) : ℤ) + 2 < ((9 : Nat) : ℤ) ∧
    0 ≤ ((5 : Nat) : ℤ) + (-2) ∧ ((5 : Nat) : ℤ) + (-2) < ((10 : Nat) : ℤ) ∧
    0 ≤ ((4 * 10 + 5 : Nat) : ℤ) + (2 * ((10 : Nat) : ℤ) + (-2)) ∧
    ((4 * 10 + 5 : Nat) : ℤ) + (2 * ((10 : Nat) : ℤ) + (-2)) < ((10 * 9 : Nat) : ℤ) :=
  have h := calcRadiusBayer_sites_green envQ BayerLayout.RGGB 0x94949494 10 9
    (fun row col _ _ => envQ_FC_layout BayerLayout.RGGB row col) (4, 5) (by decide)
  ⟨by decide, h.1, h.2.1, h.2.2.1, h.2.2.2.1, h.2.2.2.2.1, h.2.2.2.2.2.1, h.2.2.2.2.2.2.1,
    h.2.2.2.2.2.2.2 2 (-2) (by norm_num) (by norm_num) (by norm_num) (by norm_num)⟩

/-- The state of the inner search loop after `k` rounds from
`(6, false, false)`: still running at `startx = 6 + k` with no anchor so far,
or stopped by `break` at the first anchor of the row. -/
theorem xtransSearchRow_rounds (E : Env) (roi : Roi) (xtrans : Nat → Nat → Nat) (starty : ℤ)
    (k : Nat) (hk : k ≤ 6) :
    (forLoop k (fun _ (st : ℤ × Bool × Bool) =>
        if st.2.2 then st
        else if st.1 < 12 ∧ st.2.1 = false then
          if xtransAnchorTest E roi xtrans starty st.1 then (st.1, true, true)
          else (st.1 + 1, st.2.1, false)
        else (st.1, st.2.1, true)) ((6 : ℤ), false, false)
      = ((6 : ℤ) + k, false, false)) ∨
    ∃ sx : ℤ, 6 ≤ sx ∧ sx < 12 ∧ xtransAnchorTest E roi xtrans starty sx = true ∧
      forLoop k (fun _ (st : ℤ × Bool × Bool) =>
        if st.2.2 then st
        else if st.1 < 12 ∧ st.2.1 = false then
          if xtransAnchorTest E roi xtrans starty st.1 then (st.1, true, true)
          else (st.1 + 1, st.2.1, false)
        else (st.1, st.2.1, true)) ((6 : ℤ), false, false)
      = (sx, true, true) := by
  induction k with
  | zero =>
    left
    simp [forLoop]
  | succ k ih =>
    rw [forLoop_succ]
    rcases ih (Nat.le_of_succ_le hk) with h | ⟨sx, h1, h2, h3, h⟩
    · rw [h]
      have hlt : (6 : ℤ) + (k : ℤ) < 12 := by omega
      by_cases ht : xtransAnchorTest E roi xtrans starty ((6 : ℤ) + (k : ℤ)) = true
      · right
        refine ⟨(6 : ℤ) + (k : ℤ), by omega, hlt, ht, ?_⟩
        simp [hlt, ht]
      · left
        simp only [Bool.not_eq_true] at ht
        simp [hlt, ht]
        ring
    · right
      refine ⟨sx, h1, h2, h3, ?_⟩
      rw [h]
      simp

/-- The inner search loop, entered with `found = FALSE`: it ends with
`startx = 12` and nothing found, or with `startx` at an anchor of the row. -/
theorem xtransSearchRow_result (E : Env) (roi : Roi) (xtrans : Nat → Nat → Nat) (starty : ℤ) :
    xtransSearchRow E roi xtrans starty false = (12, false) ∨
    ∃ sx : ℤ, 6 ≤ sx ∧ sx < 12 ∧ xtransAnchorTest E roi xtrans starty sx = true ∧
      xtransSearchRow E roi xtrans starty false = (sx, true) := by
  unfold xtransSearchRow
  rcases xtransSearchRow_rounds E roi xtrans starty 6 (le_refl 6) with h | ⟨sx, h1, h2, h3, h⟩
  · left
    simp only []
    rw [h]
    norm_num
  · right
    refine ⟨sx, h1, h2, h3, ?_⟩
    simp only []
    rw [h]

/-- The outer search loop after `k` rounds: still running at `starty = 6 + k`,
or an anchor `(sy, sx)` was found and the loop variables are
`(sy + 1, sx)`: the increment `starty++` of the outer loop runs once more
after the `break` of the inner one. -/
theorem xtransSearch_rounds (E : Env) (roi : Roi) (xtrans : Nat → Nat → Nat)
    (k : Nat) (hk : k ≤ 6) :
    (∃ sx : ℤ, forLoop k (fun _ (st : ℤ × ℤ × Bool) =>
        if st.1 < 12 ∧ st.2.2 = false then
          (st.1 + 1, (xtransSearchRow E roi xtrans st.1 st.2.2).1,
            (xtransSearchRow E roi xtrans st.1 st.2.2).2)
        else st) ((6 : ℤ), (6 : ℤ), false)
      = ((6 : ℤ) + k, sx, false)) ∨
    ∃ sy sx : ℤ, 6 ≤ sy ∧ sy < 12 ∧ 6 ≤ sx ∧ sx < 12 ∧
      xtransAnchorTest E roi xtrans sy sx = true ∧
      forLoop k (fun _ (st : ℤ × ℤ × Bool) =>
        if st.1 < 12 ∧ st.2.2 = false then
          (st.1 + 1, (xtransSearchRow E roi xtrans st.1 st.2.2).1,
            (xtransSearchRow E roi xtrans st.1 st.2.2).2)
        else st) ((6 : ℤ), (6 : ℤ), false)
      = (sy + 1, sx, true) := by
  induction k with
  | zero =>
    left
    exact ⟨6, by simp [forLoop]⟩
  | succ k ih =>
    rw [forLoop_succ]
    rcases ih (Nat.le_of_succ_le hk) with ⟨sx0, h⟩ | ⟨sy, sx, h1, h2, h3, h4, h5, h⟩
    · rw [h]
      have hlt : (6 : ℤ) + (k : ℤ) < 12 := by omega
      simp only [hlt, true_and, if_true]
      rcases xtransSearchRow_result E roi xtrans ((6 : ℤ) + (k : ℤ)) with hr | ⟨sx, s1, s2, s3, hr⟩
      · left
        refine ⟨12, ?_⟩
        rw [hr]
        push_cast
        simp only [Prod.mk.injEq, and_true]
        ring
      · right
        refine ⟨(6 : ℤ) + (k : ℤ), sx, by omega, hlt, s1, s2, s3, ?_⟩
        rw [hr]
    · right
      refine ⟨sy, sx, h1, h2, h3, h4, h5, ?_⟩
      rw [h]
      simp

/-- Whenever the anchor search of `_calcRadiusXtrans` finds a cell `(sy, sx)`,
it leaves `starty = sy + 1` and `startx = sx`. -/
theorem xtransSearch_found (E : Env) (roi : Roi) (xtrans : Nat → Nat → Nat)
    (hf : (xtransSearch E roi xtrans).2.2 = true) :
    ∃ sy sx : ℤ, 6 ≤ sy ∧ sy < 12 ∧ 6 ≤ sx ∧ sx < 12 ∧
      xtransAnchorTest E roi xtrans sy sx = true ∧
      xtransSearch E roi xtrans = (sy + 1, sx, true) := by
  have h := xtransSearch_rounds E roi xtrans 6 (le_refl 6)
  unfold xtransSearch at hf ⊢
  simp only [] at hf ⊢
  rcases h with ⟨sx0, h⟩ | h
  · rw [h] at hf
    simp at hf
  · exact h

/-- C27: with the matrix `xtransStd` and a roi without offset the anchor search
finds the cell `(8, 8)` (it passes the anchor test and no earlier cell of the
scan does), and leaves `starty = 9`, `startx = 8`: the stride loop starts at
`(11, 10)`, a blue cell, not at `(10, 10)`, the solitary green two steps
from the anchor. -/
theorem xtrans_search_starts_one_row_late :
    xtransSearch envQ (roiOrigin 24 24) xtransStd = (9, 8, true) ∧
    xtransAnchorTest envQ (roiOrigin 24 24) xtransStd 8 8 = true ∧
    (∀ sy sx : ℤ, 6 ≤ sy → sy < 12 → 6 ≤ sx → sx < 12 → sy < 8 ∨ (sy = 8 ∧ sx < 8) →
      xtransAnchorTest envQ (roiOrigin 24 24) xtransStd sy sx = false) ∧
    envQ.FCxtrans (9 + 2) (8 + 2) (roiOrigin 24 24) xtransStd = 2 ∧
    envQ.FCxtrans (8 + 2) (8 + 2) (roiOrigin 24 24) xtransStd = 1 := by
  refine ⟨by decide, by decide, ?_, by decide, by decide⟩
  intro sy sx h1 h2 h3 h4 h5
  interval_cases sy <;> interval_cases sx <;> first | decide | (exfalso; omega)

/-- The early returns of `_capture_sharpen_cl`: on a thumbnail of low quality,
and when `d->cs_iter < 1 && !showmask`, nothing is called and nothing is
written. -/
theorem capture_sharpen_cl_early (E : Env) (dev : ClDevice) (self : Module) (pipe : Pipe)
    (d : Data) (al : Allocs) (roi : Roi) (showmask ssm : Bool)
    (h : (pipe.thumbnail && !(E._get_thumb_quality pipe.final_width pipe.final_height)) = true ∨
      (decide (d.cs_iter < 1) && !showmask) = true) :
    _capture_sharpen_cl E dev self pipe d al roi showmask ssm
      = ⟨CL_SUCCESS, [], self.autoradius, self.cs_radius⟩ := by
  unfold _capture_sharpen_cl
  rcases h with h | h
  · simp only [h, if_true]
  · simp only [h, if_true, ite_self]

/-- Past the early returns `_capture_sharpen_cl` asks for its device buffers
and releases them at `finish`: the list of calls is not empty. -/
theorem capture_sharpen_cl_works (E : Env) (dev : ClDevice) (self : Module) (pipe : Pipe)
    (d : Data) (al : Allocs) (roi : Roi) (showmask ssm : Bool)
    (hthumb : (pipe.thumbnail && !(E._get_thumb_quality pipe.final_width pipe.final_height))
      = false)
    (hgo : (decide (d.cs_iter < 1) && !showmask) = false) :
    ClCall.release ∈ (_capture_sharpen_cl E dev self pipe d al roi showmask ssm).calls := by
  unfold _capture_sharpen_cl
  simp only [hthumb, hgo, Bool.false_eq_true, if_false]
  exact List.mem_append_right _ (List.mem_singleton_self _)

/-- The early return of the OpenCL entry point agrees with the one of
`_capture_sharpen` for every combination of the iteration test and the two
flags but one: no iteration, no variance mask, sigma mask requested. -/
theorem cl_early_return_vs_cpu (iterLow showmask ssm : Bool) :
    ((iterLow && !showmask) = (iterLow && !showmask && !ssm)) ↔
      ¬ (iterLow = true ∧ showmask = false ∧ ssm = true) := by
  cases iterLow <;> cases showmask <;> cases ssm <;> decide

/-- C30: with no iteration (`cs_iter = 0`), no variance mask and the sigma
mask requested, on a pipe that is no thumbnail, `_capture_sharpen_cl` returns
`CL_SUCCESS` at once, with no device call and nothing written, while
`_capture_sharpen` goes on and writes the sigma mask: it stores `25/255` in
the alpha float of pixel 45, which held `1/2`. -/
theorem capture_sharpen_cl_skips_sigma_mask :
    _capture_sharpen_cl envQ (devOk (cfaPair (1 / 2) (1 / 4))) moduleNoGui (pipeBayer false)
        dataNoIter allocsOk (Roi.mk 10 9 0 0) false true
      = ⟨CL_SUCCESS, [], moduleNoGui.autoradius, moduleNoGui.cs_radius⟩ ∧
    (_capture_sharpen envQ moduleNoGui (pipeBayer false) dataNoIter allocsOk
        (cfaPair (1 / 2) (1 / 4)) (fun _ => 1 / 2) (Roi.mk 10 9 0 0) false true).out (4 * 45 + 3)
      = 25 / 255 ∧
    (decide (dataNoIter.cs_iter < 1) && !false && !true) = false ∧
    (decide (dataNoIter.cs_iter < 1) && !false) = true := by
  have hthumb : ((pipeBayer false).thumbnail
      && !(envQ._get_thumb_quality (pipeBayer false).final_width (pipeBayer false).final_height))
      = false := rfl
  have hgo : (decide (dataNoIter.cs_iter < 1) && !false && !true) = false := by
    simp
  have hcl : (decide (dataNoIter.cs_iter < 1) && !false) = true := by
    simp [dataNoIter]
  refine ⟨?_, ?_, hgo, hcl⟩
  · exact capture_sharpen_cl_early envQ _ moduleNoGui (pipeBayer false) dataNoIter allocsOk
      (Roi.mk 10 9 0 0) false true (Or.inr hcl)
  · have ho := capture_sharpen_out envQ moduleNoGui (pipeBayer false) dataNoIter allocsOk
      (cfaPair (1 / 2) (1 / 4)) (fun _ => 1 / 2) (Roi.mk 10 9 0 0) false true
      (fun _ => 0) (fun _ => 0) (fun _ => 0) (fun _ => 0) hthumb hgo rfl rfl rfl rfl
    have hr : csRadius envQ moduleNoGui (pipeBayer false) dataNoIter (cfaPair (1 / 2) (1 / 4))
        (Roi.mk 10 9 0 0) = 1 / 2 := by
      unfold csRadius
      simp [moduleNoGui, pipeBayer, dataNoIter]
      norm_num
    rw [hr] at ho
    have h25 := gauss_idx_at_45 (1 / 2) 25 (by rw [Int.floor_eq_iff]; norm_num) (by decide)
      (by decide)
    rw [ho]
    simp only [Bool.false_eq_true, if_false, if_true]
    have hal : allocsOk.table = some (fun _ => 0) := rfl
    have him : moduleNoGui.image = Image.mk 10 9 := rfl
    have hbs : dataNoIter.cs_boost = 0 := rfl
    have hcs : dataNoIter.cs_center = 0 := rfl
    rw [hal, him, hbs, hcs]
    obtain ⟨t, ht, _, _⟩ :=
      cs_precalc_gauss_idx_get envQ (Image.mk 10 9) (Roi.mk 10 9 0 0) (1 / 2) 0 0 (fun _ => 0)
    rw [ht] at h25 ⊢
    simp only [Option.map_some', Option.some.injEq] at h25
    simp only []
    rw [(showSigmaMask_get (fun _ => 1 / 2) t _ (4 * 45 + 3)).1 45 (by decide) rfl]
    have : ((t 45 : Nat) : ℚ) = 25 := by exact_mod_cast h25
    rw [this]

/-- With the identity kernel the unrolled sum returns the centre sample. -/
theorem convFast_identity (kern : Nat → ℚ) (d : ℤ → ℚ) (w1 : ℤ)
    (h0 : kern 0 = 1) (hk : ∀ j, 0 < j → j < 25 → kern j = 0) :
    convFast kern d w1 = d 0 := by
  unfold convFast
  simp only [hk 14 (by norm_num) (by norm_num), hk 9 (by norm_num) (by norm_num),
    hk 4 (by norm_num) (by norm_num), hk 18 (by norm_num) (by norm_num),
    hk 13 (by norm_num) (by norm_num), hk 8 (by norm_num) (by norm_num),
    hk 3 (by norm_num) (by norm_num), hk 12 (by norm_num) (by norm_num),
    hk 7 (by norm_num) (by norm_num), hk 2 (by norm_num) (by norm_num),
    hk 6 (by norm_num) (by norm_num), hk 1 (by norm_num) (by norm_num), h0,
    Nat.reduceAdd, zero_mul, zero_add, one_mul]

/-- At every pixel whose kernel is the identity, `blurVal` is the centre
sample. -/
theorem blurVal_identity_any (inp : Buf) (kernels : Nat → ℚ) (table : Nat → Nat)
    (w1 height row col : Nat) (hrow : row < height) (hcol : col < w1)
    (ht : table (row * w1 + col) = 0)
    (h0 : kernels 0 = 1) (hk : ∀ j, 0 < j → j < 25 → kernels j = 0) :
    blurVal inp kernels table w1 height row col = inp (row * w1 + col) := by
  unfold blurVal
  simp only [ht, CAPTURE_KERNEL_ALIGN, Nat.mul_zero, Nat.zero_add]
  split_ifs with hin
  · rw [convFast_identity _ _ _ h0 hk]
    simp only [add_zero, Int.toNat_natCast]
  · exact convBounded_identity _ inp w1 height row col hrow hcol h0 hk

/-- One round of `_blur_div` then `_blur_mul` at a pixel whose kernel is the
identity: the new `tmp1[k]` is `tmp1[k] · luminance[k] / MAX(tmp1[k], YMIN)`
where the mask is positive, the old `tmp1[k]` elsewhere. -/
theorem rl_round_identity_any (luminance blend : Buf) (kernels : Nat → ℚ) (table : Nat → Nat)
    (w1 height row col : Nat) (hrow : row < height) (hcol : col < w1)
    (ht : table (row * w1 + col) = 0)
    (h0 : kernels 0 = 1) (hk : ∀ j, 0 < j → j < 25 → kernels j = 0) (tmp1 tmp2 : Buf) :
    _blur_mul (_blur_div tmp1 tmp2 luminance blend kernels table w1 height) tmp1 blend kernels
        table w1 height (row * w1 + col)
      = if blend (row * w1 + col) > 0
        then tmp1 (row * w1 + col)
          * (luminance (row * w1 + col) / MAX (tmp1 (row * w1 + col)) CAPTURE_YMIN)
        else tmp1 (row * w1 + col) := by
  rw [(blur_mul_get _ tmp1 blend kernels table w1 height).1 row col hrow hcol]
  by_cases hb : blend (row * w1 + col) > 0
  · rw [if_pos hb, if_pos hb,
      blurVal_identity_any _ kernels table w1 height row col hrow hcol ht h0 hk,
      (blur_div_get tmp1 tmp2 luminance blend kernels table w1 height).1 row col hrow hcol,
      if_pos hb, blurVal_identity_any _ kernels table w1 height row col hrow hcol ht h0 hk]
  · rw [if_neg hb, if_neg hb]

/-- A property of `tmp1[k]` that every round keeps holds when the
Richardson-Lucy loop ends, at any pixel whose kernel is the identity. -/
theorem rlLoop_invariant_any (E : Env) (luminance blend : Buf) (kernels : Nat → ℚ)
    (table : Nat → Nat) (w1 height row col : Nat) (hrow : row < height) (hcol : col < w1)
    (ht : table (row * w1 + col) = 0)
    (h0 : kernels 0 = 1) (hk : ∀ j, 0 < j → j < 25 → kernels j = 0)
    (P : ℚ → Prop)
    (hstep : ∀ A, P A → P (if blend (row * w1 + col) > 0
      then A * (luminance (row * w1 + col) / MAX A CAPTURE_YMIN) else A)) :
    ∀ (n iter : Nat) (st : Buf × Buf), P (st.1 (row * w1 + col)) →
      P ((rlLoop E luminance blend kernels table w1 height n iter st).1 (row * w1 + col)) := by
  intro n
  induction n with
  | zero => intro iter st h; exact h
  | succ n ih =>
    intro iter st h
    unfold rlLoop
    split_ifs with hs
    · exact h
    · apply ih
      simp only []
      rw [rl_round_identity_any luminance blend kernels table w1 height row col hrow hcol ht
        h0 hk]
      exact hstep _ h

/-- C23 (amended): at a pixel whose sigma index is 0, with the identity kernel
in slot 0 of the kernel table and a luminance of at least `CAPTURE_YMIN`
where the mask is positive, the Richardson-Lucy iterator is the identity:
starting from `A[i] = luminance[i]`, after any number of rounds
`A[i] = luminance[i]`; the recomposition factor is then 1 when
`luminance[i] >= CAPTURE_YMIN`, and R, G, B of the pixel are unchanged. -/
theorem rl_identity_at_index_zero (E : Env) (luminance blend : Buf) (kernels : Nat → ℚ)
    (table : Nat → Nat) (w1 height row col : Nat) (hrow : row < height) (hcol : col < w1)
    (ht : table (row * w1 + col) = 0)
    (h0 : kernels 0 = 1) (hk : ∀ j, 0 < j → j < 25 → kernels j = 0)
    (hY : blend (row * w1 + col) > 0 → CAPTURE_YMIN ≤ luminance (row * w1 + col))
    (n iter : Nat) (tmp1 tmp2 out : Buf)
    (hA : tmp1 (row * w1 + col) = luminance (row * w1 + col)) :
    (rlLoop E luminance blend kernels table w1 height n iter (tmp1, tmp2)).1 (row * w1 + col)
      = luminance (row * w1 + col) ∧
    (CAPTURE_YMIN ≤ luminance (row * w1 + col) →
      csFactor blend (rlLoop E luminance blend kernels table w1 height n iter (tmp1, tmp2)).1
        luminance (row * w1 + col) = 1) ∧
    ∀ c, c < 3 →
      recompose E out blend (rlLoop E luminance blend kernels table w1 height n iter
          (tmp1, tmp2)).1 luminance (w1 * height) ((row * w1 + col) * 4 + c)
        = out ((row * w1 + col) * 4 + c) := by
  have hYpos : (0 : ℚ) < CAPTURE_YMIN := by norm_num [CAPTURE_YMIN]
  have hinv := rlLoop_invariant_any E luminance blend kernels table w1 height row col hrow hcol
    ht h0 hk (fun A => A = luminance (row * w1 + col))
    (by
      intro A hA2
      split_ifs with hb
      · have hge := hY hb
        rw [hA2, MAX_eq_max, max_eq_left hge, mul_div_cancel₀]
        exact ne_of_gt (lt_of_lt_of_le hYpos hge)
      · exact hA2)
    n iter (tmp1, tmp2) hA
  dsimp only at hinv
  have hfac : CAPTURE_YMIN ≤ luminance (row * w1 + col) →
      csFactor blend (rlLoop E luminance blend kernels table w1 height n iter (tmp1, tmp2)).1
        luminance (row * w1 + col) = 1 := by
    intro hge
    unfold csFactor interpolatef
    simp only []
    rw [hinv, MAX_eq_max, max_eq_left hge]
    have hne : luminance (row * w1 + col) ≠ 0 := ne_of_gt (lt_of_lt_of_le hYpos hge)
    field_simp
    ring
  refine ⟨hinv, hfac, ?_⟩
  intro c hc
  have hn := simd_count_le E.simd_channels
  have hpix : row * w1 + col < w1 * height := by
    have h1 : (row + 1) * w1 ≤ height * w1 := Nat.mul_le_mul_right _ hrow
    have h2 : (row + 1) * w1 = row * w1 + w1 := by ring
    have h3 : height * w1 = w1 * height := Nat.mul_comm _ _
    omega
  rw [(recompose_get E out _ _ _ _ ((row * w1 + col) * 4 + c)).1
    (row * w1 + col) c hpix (by omega) rfl]
  split_ifs with hb
  · rw [hfac (hY hb), mul_one]
  · rfl

/-- Witness of C23 (amended): three rounds at the centre of a 5×5 plane of luminance 1/2. -/
theorem rl_identity_at_index_zero_witness :
    (rlLoop envQ (fun _ => 1 / 2) (fun _ => 1) module5.gauss_coeffs (fun _ => 0) 5 5 3 0
        ((fun _ => 1 / 2), (fun _ => 0))).1 (2 * 5 + 2)
      = (fun _ : Nat => (1 / 2 : ℚ)) (2 * 5 + 2) ∧
    csFactor (fun _ => 1)
        (rlLoop envQ (fun _ => 1 / 2) (fun _ => 1) module5.gauss_coeffs (fun _ => 0) 5 5 3 0
          ((fun _ => 1 / 2), (fun _ => 0))).1 (fun _ => 1 / 2) (2 * 5 + 2) = 1 ∧
    recompose envQ out5 (fun _ => 1)
        (rlLoop envQ (fun _ => 1 / 2) (fun _ => 1) module5.gauss_coeffs (fun _ => 0) 5 5 3 0
          ((fun _ => 1 / 2), (fun _ => 0))).1 (fun _ => 1 / 2) (5 * 5) ((2 * 5 + 2) * 4 + 1)
      = out5 ((2 * 5 + 2) * 4 + 1) :=
  have h := rl_identity_at_index_zero envQ (fun _ => 1 / 2) (fun _ => 1) module5.gauss_coeffs
    (fun _ => 0) 5 5 2 2 (by norm_num) (by norm_num) rfl module5_kernel0.1 module5_kernel0.2
    (fun _ => by norm_num [CAPTURE_YMIN]) 3 0 (fun _ => 1 / 2) (fun _ => 0) out5 rfl
  ⟨h.1, h.2.1 (by norm_num [CAPTURE_YMIN]), h.2.2 1 (by norm_num)⟩

/-- Counterexample to C23 as stated: in the call of `_capture_sharpen` on the
5×5 image `out5` (one iteration, radius 0.5, identity kernel in slot 0) the
corner pixel 0 has sigma index 0, a positive final mask and the luminance
`1/2000 < CAPTURE_YMIN`; the iterator starts at `A[0] = 1/2000` and one
round leaves `A[0] = 1/4000`, the recomposition factor is below `1/2` and
the green float of the pixel is scaled by it. -/
theorem rl_dark_pixel_not_identity :
    (_cs_precalc_gauss_idx envQ module5.image (Roi.mk 5 5 0 0) (1 / 2) 0 0
      (some (fun _ => 0))).map (fun t => t 0) = some 0 ∧
    module5.gauss_coeffs 0 = 1 ∧ (∀ j, 0 < j → j < 25 → module5.gauss_coeffs j = 0) ∧
    blend5.1 0 > 0 ∧ blend5.2.2.1 0 = 1 / 2000 ∧ blend5.2.1 0 = 1 / 2000 ∧
    (∀ table, table 0 = 0 →
      (rlLoop envQ blend5.2.2.1 blend5.1 module5.gauss_coeffs table 5 5 1 0
          (blend5.2.1, blend5.2.2.2)).1 0 = 1 / 4000 ∧
      csFactor blend5.1 (rlLoop envQ blend5.2.2.1 blend5.1 module5.gauss_coeffs table 5 5 1 0
          (blend5.2.1, blend5.2.2.2)).1 blend5.2.2.1 0 < 1 / 2 ∧
      recompose envQ out5 blend5.1 (rlLoop envQ blend5.2.2.1 blend5.1 module5.gauss_coeffs
          table 5 5 1 0 (blend5.2.1, blend5.2.2.2)).1 blend5.2.2.1 (5 * 5) (0 * 4 + 1)
        < out5 (0 * 4 + 1)) := by
  have hpos : blend5.1 0 > 0 := csBlend_out5_corner_pos
  have hlum := csBlend_luminance envQ (pipeBayer false) dataHalf (fun _ => 1 / 2) out5
    (Roi.mk 5 5 0 0) (fun _ => 0) (fun _ => 0) (fun _ => 0) (fun _ => 0) 0 0 (by decide)
    (by decide)
  have e0 : (0 * (Roi.mk 5 5 0 0).width + 0 : Nat) = 0 := rfl
  rw [e0, prepareY_out5_zero] at hlum
  have hL : blend5.2.2.1 0 = 1 / 2000 := hlum.2
  have hA : blend5.2.1 0 = 1 / 2000 := hlum.1
  obtain ⟨t, ht, _, _⟩ := cs_precalc_gauss_idx_get envQ module5.image (Roi.mk 5 5 0 0)
    (1 / 2) 0 0 (fun _ => 0)
  have ht0 := gauss_idx_ring envQ module5.image (Roi.mk 5 5 0 0) (1 / 2) 0 0 (fun _ => 0) t ht
    0 0 (by decide) (by decide) (Or.inl rfl)
  rw [e0] at ht0
  refine ⟨by rw [ht, Option.map_some', ht0], module5_kernel0.1, module5_kernel0.2, hpos, hL,
    hA, ?_⟩
  intro table htab
  have hround : (rlLoop envQ blend5.2.2.1 blend5.1 module5.gauss_coeffs table 5 5 1 0
      (blend5.2.1, blend5.2.2.2)).1 0 = 1 / 4000 := by
    have hsd : envQ.dt_pipe_shutdown 0 = false := rfl
    unfold rlLoop
    simp only [hsd, Bool.false_eq_true, if_false]
    unfold rlLoop
    have h := rl_round_identity_any blend5.2.2.1 blend5.1 module5.gauss_coeffs table 5 5 0 0
      (by norm_num) (by norm_num) htab module5_kernel0.1 module5_kernel0.2
      blend5.2.1 blend5.2.2.2
    have e5 : (0 * 5 + 0 : Nat) = 0 := rfl
    rw [e5] at h
    simp only []
    rw [h, if_pos hpos, hA, hL]
    norm_num [MAX, CAPTURE_YMIN]
  have ht0 : 0 < CLIP (blend5.1 0) ∧ CLIP (blend5.1 0) ≤ 1 := by
    unfold CLIP CLAMP
    split_ifs with h1 h2
    · exact ⟨by norm_num, le_refl _⟩
    · exact absurd hpos (not_lt.mpr (le_of_lt h2))
    · exact ⟨hpos, not_lt.mp h1⟩
  have hfac : csFactor blend5.1 (rlLoop envQ blend5.2.2.1 blend5.1 module5.gauss_coeffs table
      5 5 1 0 (blend5.2.1, blend5.2.2.2)).1 blend5.2.2.1 0
      = 1 / 2 - CLIP (blend5.1 0) / 4 := by
    unfold csFactor interpolatef
    simp only []
    rw [hround, hL]
    norm_num [MAX, CAPTURE_YMIN]
    ring
  refine ⟨hround, ?_, ?_⟩
  · rw [hfac]
    linarith [ht0.1]
  · rw [(recompose_get envQ out5 _ _ _ _ (0 * 4 + 1)).1 0 1 (by norm_num) (by decide) rfl,
      if_pos hpos, hfac]
    have ho : out5 (0 * 4 + 1) = 1 / 2000 := by norm_num [out5]
    rw [ho]
    nlinarith [ht0.1]

/-- The index byte grows with sigma. -/
theorem sigma_to_index_mono (a b : ℚ) (h : a ≤ b) : _sigma_to_index a ≤ _sigma_to_index b := by
  have ha := sigma_to_index_floor a
  have hb := sigma_to_index_floor b
  have hf : ⌊a / (1 / 100)⌋ ≤ ⌊b / (1 / 100)⌋ :=
    Int.floor_mono (div_le_div_of_nonneg_right h (by norm_num))
  have : ((_sigma_to_index a : Nat) : ℤ) ≤ ((_sigma_to_index b : Nat) : ℤ) := by
    rw [ha, hb]
    exact max_le_max (le_refl _) (min_le_min (le_refl _) hf)
  exact_mod_cast this

theorem specTaper_nonneg (roi : Roi) (row col : Nat) (hrow : row < roi.height)
    (hcol : col < roi.width) : 0 ≤ specTaper roi row col := by
  unfold specTaper
  simp only [le_min_iff]
  refine ⟨by norm_num, by omega, by omega, by omega, by omega⟩

/-- C24 (amended): the sigma index of a pixel `q` is at most that of a pixel
`p` whenever `(radius + corr(q))·taper(q) <= (radius + corr(p))·taper(p)`, and
in particular, for `boost = 0` and `radius >= 0`, whenever the border taper
of `q` is at most that of `p`, as it is for the neighbour of `p` one step
closer to the nearest edge. -/
theorem gauss_idx_monotone_to_edge (E : Env) (img : Image) (roi : Roi)
    (radius boost centre : ℚ) (table0 : Nat → Nat) (prow pcol qrow qcol : Nat)
    (hpr : prow < roi.height) (hpc : pcol < roi.width)
    (hqr : qrow < roi.height) (hqc : qcol < roi.width)
    (hs : (boost = 0 ∧ 0 ≤ radius ∧ specTaper roi qrow qcol ≤ specTaper roi prow pcol) ∨
      specSigma E img roi radius boost centre qrow qcol
        ≤ specSigma E img roi radius boost centre prow pcol) :
    ∃ table, _cs_precalc_gauss_idx E img roi radius boost centre (some table0) = some table ∧
      table (qrow * roi.width + qcol) ≤ table (prow * roi.width + pcol) := by
  obtain ⟨t, ht, hget, _⟩ := cs_precalc_gauss_idx_get E img roi radius boost centre table0
  refine ⟨t, ht, ?_⟩
  rw [hget qrow qcol hqr hqc, hget prow pcol hpr hpc, gaussSigma_eq_spec, gaussSigma_eq_spec]
  apply sigma_to_index_mono
  rcases hs with ⟨hb, hr, htap⟩ | h
  · unfold specSigma specCorr
    rw [hb]
    simp only [mul_zero, zero_mul, add_zero]
    have hc : ((specTaper roi qrow qcol : ℤ) : ℚ) ≤ ((specTaper roi prow pcol : ℤ) : ℚ) := by
      exact_mod_cast htap
    exact mul_le_mul_of_nonneg_left hc (by positivity)
  · exact h

/-- Witness of C24 (amended): the pixels `(10, 4)` and `(10, 3)` of a 20×20 image without boost. -/
theorem gauss_idx_monotone_to_edge_witness :
    ∃ table, _cs_precalc_gauss_idx envRoot (Image.mk 20 20) (Roi.mk 20 20 0 0) (1 / 20) 0 0
        (some (fun _ => 0)) = some table ∧
      table (10 * (Roi.mk 20 20 0 0).width + 3) ≤ table (10 * (Roi.mk 20 20 0 0).width + 4) :=
  gauss_idx_monotone_to_edge envRoot (Image.mk 20 20) (Roi.mk 20 20 0 0) (1 / 20) 0 0
    (fun _ => 0) 10 4 10 3 (by decide) (by decide) (by decide) (by decide)
    (Or.inl ⟨rfl, by norm_num, by decide⟩)

theorem specSigma_edge_example :
    specSigma envRoot (Image.mk 20 20) (Roi.mk 20 20 0 0) (1 / 20) (3 / 2) 0 10 4 = 13 / 400 ∧
    specSigma envRoot (Image.mk 20 20) (Roi.mk 20 20 0 0) (1 / 20) (3 / 2) 0 10 3 = 33 / 800 := by
  have h36 : envRoot.sqrtf 36 = 6 := by
    have := sqrtExact_sq 6 (by norm_num)
    norm_num at this
    exact this
  have h49 : envRoot.sqrtf 49 = 7 := by
    have := sqrtExact_sq 7 (by norm_num)
    norm_num at this
    exact this
  have ht4 : specTaper (Roi.mk 20 20 0 0) 10 4 = 4 := by decide
  have ht3 : specTaper (Roi.mk 20 20 0 0) 10 3 = 3 := by decide
  have hd : Int.tdiv 20 2 = 10 := by decide
  constructor
  · unfold specSigma specCorr specDist
    rw [ht4]
    rw [hd]
    norm_num [h36]
  · unfold specSigma specCorr specDist
    rw [ht3]
    rw [hd]
    norm_num [h49]

/-- Counterexample to C24 as stated: a 20×20 image, `radius = 0.05`,
`boost = 1.5`, `center = 0`. Pixel `p = (10, 4)` is 4 pixels from the left
edge, `q = (10, 3)` is its neighbour one step closer; `sigma(p) = 0.0325`
and `sigma(q) = 0.04125`, so `table[p] = 3` and `table[q] = 4`. -/
theorem gauss_idx_rises_toward_edge :
    specTaper (Roi.mk 20 20 0 0) 10 4 = 4 ∧ specTaper (Roi.mk 20 20 0 0) 10 3 = 3 ∧
    (_cs_precalc_gauss_idx envRoot (Image.mk 20 20) (Roi.mk 20 20 0 0) (1 / 20) (3 / 2) 0
      (some (fun _ => 0))).map (fun t => (t (10 * 20 + 4), t (10 * 20 + 3))) = some (3, 4) := by
  refine ⟨by decide, by decide, ?_⟩
  obtain ⟨t, ht, hget, _⟩ := cs_precalc_gauss_idx_get envRoot (Image.mk 20 20)
    (Roi.mk 20 20 0 0) (1 / 20) (3 / 2) 0 (fun _ => 0)
  rw [ht, Option.map_some']
  have hp := hget 10 4 (by decide) (by decide)
  have hq := hget 10 3 (by decide) (by decide)
  rw [gaussSigma_eq_spec, specSigma_edge_example.1] at hp
  rw [gaussSigma_eq_spec, specSigma_edge_example.2] at hq
  have e4 : (10 * (Roi.mk 20 20 0 0).width + 4 : Nat) = 10 * 20 + 4 := rfl
  have e3 : (10 * (Roi.mk 20 20 0 0).width + 3 : Nat) = 10 * 20 + 3 := rfl
  rw [e4] at hp
  rw [e3] at hq
  have i3 : _sigma_to_index (13 / 400) = 3 := by
    have h := sigma_to_index_floor (13 / 400)
    have hf : ⌊(13 / 400 : ℚ) / (1 / 100)⌋ = 3 := by
      rw [Int.floor_eq_iff]
      norm_num
    rw [hf] at h
    have : ((_sigma_to_index (13 / 400) : Nat) : ℤ) = 3 := by rw [h]; decide
    exact_mod_cast this
  have i4 : _sigma_to_index (33 / 800) = 4 := by
    have h := sigma_to_index_floor (33 / 800)
    have hf : ⌊(33 / 800 : ℚ) / (1 / 100)⌋ = 4 := by
      rw [Int.floor_eq_iff]
      norm_num
    rw [hf] at h
    have : ((_sigma_to_index (33 / 800) : Nat) : ℤ) = 4 := by rw [h]; decide
    exact_mod_cast this
  rw [hp, hq, i3, i4]

/-- With the matrix `xtransStd`, for each of the 36 offsets of the roi the
anchor search finds a cell, and the cell `(starty + 2, startx + 2)` where the
stride loop starts is not green, while the cell one row higher is. -/
theorem xtransSearch_every_phase :
    ∀ dy : Nat, dy < 6 → ∀ dx : Nat, dx < 6 →
      (xtransSearch envQ (Roi.mk 24 24 (dx : ℤ) (dy : ℤ)) xtransStd).2.2 = true ∧
      envQ.FCxtrans ((xtransSearch envQ (Roi.mk 24 24 (dx : ℤ) (dy : ℤ)) xtransStd).1 + 2)
        ((xtransSearch envQ (Roi.mk 24 24 (dx : ℤ) (dy : ℤ)) xtransStd).2.1 + 2)
        (Roi.mk 24 24 (dx : ℤ) (dy : ℤ)) xtransStd ≠ 1 ∧
      envQ.FCxtrans ((xtransSearch envQ (Roi.mk 24 24 (dx : ℤ) (dy : ℤ)) xtransStd).1 - 1 + 2)
        ((xtransSearch envQ (Roi.mk 24 24 (dx : ℤ) (dy : ℤ)) xtransStd).2.1 + 2)
        (Roi.mk 24 24 (dx : ℤ) (dy : ℤ)) xtransStd = 1 := by
  decide

/-- A kernel slot that `_calc_9x9_gauss_coeffs` filled is symmetric and
vanishes in the slots 19, 23 and 24. -/
theorem kernSymmetric_of_built (E : Env) (kernels : Nat → ℚ) (base : Nat) (sigma : ℚ)
    (kernel coeffs : Nat → ℚ)
    (hbuilt : ∀ j, j < 25 →
      kernels (base + j) = _calc_9x9_gauss_coeffs (ratOps E) kernel coeffs sigma j) :
    kernSymmetric (fun j => kernels (base + j)) := by
  obtain ⟨hs, h19, h23, h24⟩ := calc_9x9_symmetric E kernel coeffs sigma
  refine ⟨?_, ?_, ?_, ?_⟩
  · intro a ha b hb
    show kernels (base + (5 * a + b)) = kernels (base + (5 * b + a))
    rw [hbuilt _ (by omega), hbuilt _ (by omega)]
    exact hs a ha b hb
  · show kernels (base + 19) = 0
    rw [hbuilt 19 (by norm_num)]
    exact h19
  · show kernels (base + 23) = 0
    rw [hbuilt 23 (by norm_num)]
    exact h23
  · show kernels (base + 24) = 0
    rw [hbuilt 24 (by norm_num)]
    exact h24

/-- C21: with a kernel table whose slot selected by `table[i]` was filled by
`_calc_9x9_gauss_coeffs`, `_blur_div` sets, for every pixel `i` of the image,
`out[i] = luminance[i] / max(conv(in)[i], 0.001)` when `blend[i] > 0` and
leaves `out[i]` unchanged otherwise, where `conv(in)[i]` is the sum over the
offsets `(ir, ic)` of `[-4..4]²` whose target lies inside the image of
`kern[5·|ir| + |ic|]·in[(row+ir)·w + col+ic]`, `kern` being the selected
kernel: out-of-image neighbours contribute 0 and nothing is re-normalised. -/
theorem blur_div_convolution (E : Env) (inp out luminance blend : Buf) (kernels : Nat → ℚ)
    (table : Nat → Nat) (w1 height row col : Nat) (hrow : row < height) (hcol : col < w1)
    (sigma : ℚ) (kernel coeffs : Nat → ℚ)
    (hbuilt : ∀ j, j < 25 →
      kernels (CAPTURE_KERNEL_ALIGN * table (row * w1 + col) + j)
        = _calc_9x9_gauss_coeffs (ratOps E) kernel coeffs sigma j) :
    _blur_div inp out luminance blend kernels table w1 height (row * w1 + col)
      = if blend (row * w1 + col) > 0
        then luminance (row * w1 + col)
          / MAX (specConv (fun j => kernels (CAPTURE_KERNEL_ALIGN * table (row * w1 + col) + j))
              inp w1 height row col) CAPTURE_YMIN
        else out (row * w1 + col) := by
  rw [(blur_div_get inp out luminance blend kernels table w1 height).1 row col hrow hcol,
    blurVal_eq_spec inp kernels table w1 height row col
      (fun _ => kernSymmetric_of_built E kernels _ sigma kernel coeffs hbuilt)]

/-- Witness of C21: the kernel of sigma 1 at the centre of the all-ones 9×9
image. -/
theorem blur_div_convolution_witness :
    _blur_div bufOnes (fun _ => 0) bufOnes bufOnes
        (_calc_9x9_gauss_coeffs (ratOps envQ) (fun _ => 0) (fun _ => 0) 1) (fun _ => 0) 9 9
        (4 * 9 + 4)
      = if bufOnes (4 * 9 + 4) > 0
        then bufOnes (4 * 9 + 4)
          / MAX (specConv (fun j => _calc_9x9_gauss_coeffs (ratOps envQ) (fun _ => 0)
              (fun _ => 0) 1 (CAPTURE_KERNEL_ALIGN * 0 + j)) bufOnes 9 9 4 4) CAPTURE_YMIN
        else 0 :=
  blur_div_convolution envQ bufOnes (fun _ => 0) bufOnes bufOnes
    (_calc_9x9_gauss_coeffs (ratOps envQ) (fun _ => 0) (fun _ => 0) 1) (fun _ => 0) 9 9 4 4
    (by norm_num) (by norm_num) 1 (fun _ => 0) (fun _ => 0)
    (fun j _ => by simp only [CAPTURE_KERNEL_ALIGN, Nat.mul_zero, Nat.zero_add])

/-- C22: with a kernel table whose slot selected by `table[i]` was filled by
`_calc_9x9_gauss_coeffs`, `_blur_mul` sets, for every pixel `i` of the image,
`out[i] = out_before[i]·conv(in)[i]` when `blend[i] > 0` and leaves `out[i]`
unchanged when `blend[i] <= 0`, with the zero-padded, non-renormalised 9×9
convolution `_blur_div` uses; cells past the image are not written, and the
input, the mask and the table are only read. -/
theorem blur_mul_convolution (E : Env) (inp out blend : Buf) (kernels : Nat → ℚ)
    (table : Nat → Nat) (w1 height row col : Nat) (hrow : row < height) (hcol : col < w1)
    (sigma : ℚ) (kernel coeffs : Nat → ℚ)
    (hbuilt : ∀ j, j < 25 →
      kernels (CAPTURE_KERNEL_ALIGN * table (row * w1 + col) + j)
        = _calc_9x9_gauss_coeffs (ratOps E) kernel coeffs sigma j) :
    _blur_mul inp out blend kernels table w1 height (row * w1 + col)
      = (if blend (row * w1 + col) > 0
        then out (row * w1 + col)
          * specConv (fun j => kernels (CAPTURE_KERNEL_ALIGN * table (row * w1 + col) + j))
              inp w1 height row col
        else out (row * w1 + col)) ∧
    ∀ m, height * w1 ≤ m → _blur_mul inp out blend kernels table w1 height m = out m := by
  rw [(blur_mul_get inp out blend kernels table w1 height).1 row col hrow hcol,
    blurVal_eq_spec inp kernels table w1 height row col
      (fun _ => kernSymmetric_of_built E kernels _ sigma kernel coeffs hbuilt)]
  exact ⟨rfl, (blur_mul_get inp out blend kernels table w1 height).2⟩

/-- Witness of C22: the kernel of sigma 1 at the centre of the all-ones 9×9
image, and the cell 81 past it. -/
theorem blur_mul_convolution_witness :
    _blur_mul bufOnes bufOnes bufOnes
        (_calc_9x9_gauss_coeffs (ratOps envQ) (fun _ => 0) (fun _ => 0) 1) (fun _ => 0) 9 9
        (4 * 9 + 4)
      = (if bufOnes (4 * 9 + 4) > 0
        then bufOnes (4 * 9 + 4)
          * specConv (fun j => _calc_9x9_gauss_coeffs (ratOps envQ) (fun _ => 0)
              (fun _ => 0) 1 (CAPTURE_KERNEL_ALIGN * 0 + j)) bufOnes 9 9 4 4
        else bufOnes (4 * 9 + 4)) ∧
    _blur_mul bufOnes bufOnes bufOnes
        (_calc_9x9_gauss_coeffs (ratOps envQ) (fun _ => 0) (fun _ => 0) 1) (fun _ => 0) 9 9 81
      = bufOnes 81 :=
  have h := blur_mul_convolution envQ bufOnes bufOnes bufOnes
    (_calc_9x9_gauss_coeffs (ratOps envQ) (fun _ => 0) (fun _ => 0) 1) (fun _ => 0) 9 9 4 4
    (by norm_num) (by norm_num) 1 (fun _ => 0) (fun _ => 0)
    (fun j _ => by simp only [CAPTURE_KERNEL_ALIGN, Nat.mul_zero, Nat.zero_add])
  ⟨h.1, h.2 81 (by norm_num)⟩

theorem windowOffsets_small : ∀ o ∈ windowOffsets, -2 ≤ o.1 ∧ o.1 ≤ 2 ∧ -2 ≤ o.2 ∧ o.2 ≤ 2 := by
  decide

theorem windowOffsets_centre : ((0, 0) : ℤ × ℤ) ∈ windowOffsets := by
  decide

/-- Every cell of the window of a pixel of the image lies in the image: after
`_prepare_blend` it holds the luminance of its pixel, which is not negative. -/
theorem specWindow_prepare_nonneg (E : Env) (cfa rgb : Buf) (filters : Nat)
    (xtrans : Nat → Nat → Nat) (roi : Roi) (mask Yold : Buf) (whites : Nat → ℚ)
    (W H : Nat) (hW : 5 ≤ W) (hH : 5 ≤ H) (irow icol : Nat) :
    ∀ y ∈ specWindow (_prepare_blend E cfa rgb filters xtrans roi mask Yold whites W H).2
      W H irow icol, 0 ≤ y := by
  intro y hy
  unfold specWindow at hy
  simp only [List.mem_map] at hy
  obtain ⟨o, ho, rfl⟩ := hy
  obtain ⟨o1, o2, o3, o4⟩ := windowOffsets_small o ho
  have hr1 : (2 : ℤ) ≤ max 2 (min ((H : ℤ) - 3) irow) := le_max_left _ _
  have hr2 : max 2 (min ((H : ℤ) - 3) (irow : ℤ)) ≤ (H : ℤ) - 3 :=
    max_le (by omega) (min_le_left _ _)
  have hc1 : (2 : ℤ) ≤ max 2 (min ((W : ℤ) - 3) icol) := le_max_left _ _
  have hc2 : max 2 (min ((W : ℤ) - 3) (icol : ℤ)) ≤ (W : ℤ) - 3 :=
    max_le (by omega) (min_le_left _ _)
  generalize max 2 (min ((H : ℤ) - 3) (irow : ℤ)) = r at hr1 hr2
  generalize max 2 (min ((W : ℤ) - 3) (icol : ℤ)) = c at hc1 hc2
  have e : ((r + o.1) * (W : ℤ) + (c + o.2)).toNat = (r + o.1).toNat * W + (c + o.2).toNat := by
    zify
    rw [Int.toNat_of_nonneg (by omega : 0 ≤ r + o.1), Int.toNat_of_nonneg (by omega : 0 ≤ c + o.2),
      Int.toNat_of_nonneg (by
        have : 0 ≤ (r + o.1) * (W : ℤ) := mul_nonneg (by omega) (by omega)
        omega)]
  rw [e, (prepare_blend_Yold E cfa rgb filters xtrans roi mask Yold whites W H).1
    (r + o.1).toNat (c + o.2).toNat (by omega) (by omega)]
  exact prepareY_nonneg _ _

/-- After `_prepare_blend` a pixel whose window has a mean below `NORM_MIN`
has mask 0, provided `21·NORM_MIN <= CAPTURE_YMIN`: it lies in the border, or
its own luminance is below `CAPTURE_YMIN` and line 475 zeroed its rhombus. -/
theorem prepare_blend_mask_zero_of_low_mean (E : Env) (cfa rgb : Buf) (filters : Nat)
    (xtrans : Nat → Nat → Nat) (roi : Roi) (mask Yold : Buf) (whites : Nat → ℚ)
    (W H : Nat) (hW : 5 ≤ W) (hH : 5 ≤ H) (hN : 21 * E.NORM_MIN ≤ CAPTURE_YMIN)
    (irow icol : Nat) (hrow : irow < H) (hcol : icol < W)
    (hm : specMean (_prepare_blend E cfa rgb filters xtrans roi mask Yold whites W H).2
      W H irow icol < E.NORM_MIN) :
    (_prepare_blend E cfa rgb filters xtrans roi mask Yold whites W H).1 (irow * W + icol)
      = 0 := by
  apply (prepare_blend_mask_pixel E cfa rgb filters xtrans roi mask Yold whites W H irow icol
    hrow hcol).1
  by_cases hb : specBorder W H irow icol
  · exact Or.inl hb
  · right
    have hin : specInterior W H irow icol := by
      unfold specBorder at hb
      unfold specInterior
      push_neg at hb
      omega
    refine ⟨irow, icol, hin, ?_, ?_⟩
    · right
      have hnn := specWindow_prepare_nonneg E cfa rgb filters xtrans roi mask Yold whites W H
        hW hH irow icol
      have hr : max 2 (min ((H : ℤ) - 3) (irow : ℤ)) = irow := by
        unfold specInterior at hin
        rw [min_eq_right (by omega), max_eq_right (by omega)]
      have hc : max 2 (min ((W : ℤ) - 3) (icol : ℤ)) = icol := by
        unfold specInterior at hin
        rw [min_eq_right (by omega), max_eq_right (by omega)]
      have hmem : (_prepare_blend E cfa rgb filters xtrans roi mask Yold whites W H).2
          (irow * W + icol)
          ∈ specWindow (_prepare_blend E cfa rgb filters xtrans roi mask Yold whites W H).2
            W H irow icol := by
        unfold specWindow
        simp only [List.mem_map]
        refine ⟨(0, 0), windowOffsets_centre, ?_⟩
        rw [hr, hc]
        have e : ((irow : ℤ) + 0) * (W : ℤ) + ((icol : ℤ) + 0) = ((irow * W + icol : Nat) : ℤ) := by
          push_cast
          ring
        show _ = (_prepare_blend E cfa rgb filters xtrans roi mask Yold whites W H).2
          (((irow : ℤ) + (0, 0).1) * (W : ℤ) + ((icol : ℤ) + (0, 0).2)).toNat
        rw [e, Int.toNat_natCast]
      have hle := List.single_le_sum hnn _ hmem
      rw [(prepare_blend_Yold E cfa rgb filters xtrans roi mask Yold whites W H).1 irow icol
        hrow hcol] at hle
      unfold specMean at hm
      have hY : (CAPTURE_YMIN : ℚ) = 1 / 1000 := rfl
      rw [hY] at hN
      have hs : (specWindow (_prepare_blend E cfa rgb filters xtrans roi mask Yold whites W H).2
          W H irow icol).sum < 21 * E.NORM_MIN := by
        rw [div_lt_iff₀ (by norm_num)] at hm
        linarith
      linarith
    · rw [sub_self, sub_self]
      decide

/-- C20: for `width, height >= 5` and every pixel `(irow, icol)`,
`_modify_blend`, run as `_capture_sharpen` runs it on the mask and the
luminance plane `_prepare_blend` leaves, sets `luminance[k] = Yold[k]` and
`blend[k] = clamp(blend_in[k]·1.01011·(w - 0.01), 0, 1)` with
`w = 1/(1 + exp(offset - 200·t))`, `offset = -2.5 + 200·0.6·threshold²/2`,
`t = log(1 + cv)`, `cv = sd/sqrt(mean)`, where `mean` and `sd` are the mean and
the standard deviation of `Yold` over the 21 cells of the window centred at
`(clamp(irow, 2, H-3), clamp(icol, 2, W-3))`. The floor `MAX(NORM_MIN, mean)` of
line 527 changes nothing there: a mean below `NORM_MIN` (with
`21·NORM_MIN <= CAPTURE_YMIN`) comes with `blend_in[k] = 0`. -/
theorem modify_blend_formula (E : Env) (cfa rgb : Buf) (filters : Nat)
    (xtrans : Nat → Nat → Nat) (roi : Roi) (mask Yold lum : Buf) (whites : Nat → ℚ)
    (dthresh : ℚ) (W H : Nat) (hW : 5 ≤ W) (hH : 5 ≤ H)
    (hN : 21 * E.NORM_MIN ≤ CAPTURE_YMIN)
    (irow icol : Nat) (hrow : irow < H) (hcol : icol < W) :
    (_modify_blend E (_prepare_blend E cfa rgb filters xtrans roi mask Yold whites W H).1
        (_prepare_blend E cfa rgb filters xtrans roi mask Yold whites W H).2 lum dthresh W H).2
        (irow * W + icol)
      = (_prepare_blend E cfa rgb filters xtrans roi mask Yold whites W H).2 (irow * W + icol) ∧
    (_modify_blend E (_prepare_blend E cfa rgb filters xtrans roi mask Yold whites W H).1
        (_prepare_blend E cfa rgb filters xtrans roi mask Yold whites W H).2 lum dthresh W H).1
        (irow * W + icol)
      = CLAMP ((_prepare_blend E cfa rgb filters xtrans roi mask Yold whites W H).1
            (irow * W + icol) * (101011 / 100000)
          * (specWeightOf E dthresh
              (specSd E (_prepare_blend E cfa rgb filters xtrans roi mask Yold whites W H).2
                W H irow icol)
              (specMean (_prepare_blend E cfa rgb filters xtrans roi mask Yold whites W H).2
                W H irow icol) - 1 / 100)) 0 1 := by
  have hget := (modify_blend_get E
    (_prepare_blend E cfa rgb filters xtrans roi mask Yold whites W H).1
    (_prepare_blend E cfa rgb filters xtrans roi mask Yold whites W H).2 lum dthresh W H).1
    irow icol hrow hcol
  have hw := modifyWeight_eq_spec E
    (_prepare_blend E cfa rgb filters xtrans roi mask Yold whites W H).2 dthresh W H irow icol
    hW hH
  refine ⟨hget.2, ?_⟩
  rw [hget.1, hw]
  by_cases hm : E.NORM_MIN
      ≤ specMean (_prepare_blend E cfa rgb filters xtrans roi mask Yold whites W H).2 W H irow icol
  · rw [max_eq_right hm]
    rfl
  · have h0 := prepare_blend_mask_zero_of_low_mean E cfa rgb filters xtrans roi mask Yold whites
      W H hW hH hN irow icol hrow hcol (not_le.mp hm)
    rw [h0]
    simp only [zero_mul]
    rfl

/-- Witness of C20: the centre pixel of a 5×5 image at 0.3 with nothing
clipped. -/
theorem modify_blend_formula_witness :
    (_modify_blend envQ prepFlat5.1 prepFlat5.2 (fun _ => 0) 0 5 5).2 (2 * 5 + 2)
      = prepFlat5.2 (2 * 5 + 2) ∧
    (_modify_blend envQ prepFlat5.1 prepFlat5.2 (fun _ => 0) 0 5 5).1 (2 * 5 + 2)
      = CLAMP (prepFlat5.1 (2 * 5 + 2) * (101011 / 100000)
          * (specWeightOf envQ 0 (specSd envQ prepFlat5.2 5 5 2 2)
              (specMean prepFlat5.2 5 5 2 2) - 1 / 100)) 0 1 :=
  modify_blend_formula envQ (fun _ => 0) (fun _ => 3 / 10) 0x94949494 (fun _ _ => 0)
    (Roi.mk 5 5 0 0) (fun _ => 0) (fun _ => 0) (fun _ => 0) (fun _ => 1) 0 5 5
    (by norm_num) (by norm_num) (by norm_num [envQ, CAPTURE_YMIN]) 2 2 (by norm_num)
    (by norm_num)

/-- The running maximum of the first pair with its record is the `maxRatio`
the loop body holds after the first pair. -/
theorem calcRadiusBayerFirstTrace_fst (inp : Buf) (width : Nat) (lowerLimit upperLimit : ℚ)
    (row col : Nat) (maxRatio : ℚ) :
    (calcRadiusBayerFirstTrace inp width lowerLimit upperLimit row col maxRatio).1
      = (let cfa : ℤ → ℚ := fun off => inp (((row * width + col : Nat) : ℤ) + off).toNat
         let w : ℤ := (width : ℤ)
         let val00 := cfa 0
         let val1m1 := cfa (w - 1)
         let val1p1 := cfa (w + 1)
         let maxVal0 := MAX val00 val1m1
         if val1m1 > RAWEPS ∧ maxVal0 > lowerLimit then
           let minVal := MIN val00 val1m1
           if maxVal0 > maxRatio * minVal then
             let clipped : Bool :=
               if maxVal0 = val00 then
                 decide (MAX (MAX (cfa (-w - 1)) (cfa (-w + 1))) val1p1 ≥ upperLimit)
               else
                 decide (MAX (MAX (MAX (cfa (-2)) val00) (cfa (2 * w - 2))) (cfa (2 * w))
                   ≥ upperLimit)
             if !clipped then maxVal0 / minVal else maxRatio
           else maxRatio
         else maxRatio) := by
  unfold calcRadiusBayerFirstTrace
  simp only [apply_ite Prod.fst]

/-- The record does not change the computation: the first component of
`calcRadiusBayerSiteTrace` is `calcRadiusBayerSite`. -/
theorem calcRadiusBayerSiteTrace_fst (inp : Buf) (width : Nat) (lowerLimit upperLimit : ℚ)
    (row col : Nat) (maxRatio : ℚ) :
    (calcRadiusBayerSiteTrace inp width lowerLimit upperLimit row col maxRatio).1
      = calcRadiusBayerSite inp width lowerLimit upperLimit row col maxRatio := by
  unfold calcRadiusBayerSiteTrace calcRadiusBayerSite
  simp only [apply_ite Prod.fst, calcRadiusBayerFirstTrace_fst]

/-- The first pair divides only by a `minVal` above `RAWEPS`. -/
theorem calcRadiusBayerFirstTrace_gt (inp : Buf) (width : Nat) (lowerLimit upperLimit : ℚ)
    (row col : Nat) (maxRatio : ℚ)
    (h0 : inp ((((row * width + col : Nat) : ℤ) + 0).toNat) > RAWEPS) :
    ∀ x ∈ (calcRadiusBayerFirstTrace inp width lowerLimit upperLimit row col maxRatio).2,
      RAWEPS < x := by
  intro x hx
  unfold calcRadiusBayerFirstTrace at hx
  simp only [MIN_eq_min] at hx
  split_ifs at hx with h1 h2 h3
  all_goals first
    | exact absurd hx (List.not_mem_nil x)
    | (have hx2 := List.mem_singleton.mp hx
       rw [hx2]
       exact lt_min h0 h1.1)

/-- Every division `maxVal / minVal` of the loop body has a divisor above
`RAWEPS`, whatever the running maximum on entry. -/
theorem calcRadiusBayerSiteTrace_gt (inp : Buf) (width : Nat) (lowerLimit upperLimit : ℚ)
    (row col : Nat) (maxRatio : ℚ) :
    ∀ x ∈ (calcRadiusBayerSiteTrace inp width lowerLimit upperLimit row col maxRatio).2,
      RAWEPS < x := by
  intro x hx
  unfold calcRadiusBayerSiteTrace at hx
  simp only [MIN_eq_min] at hx
  by_cases h0 : inp ((((row * width + col : Nat) : ℤ) + 0).toNat) > RAWEPS
  · have hF := calcRadiusBayerFirstTrace_gt inp width lowerLimit upperLimit row col maxRatio h0
    rw [if_pos h0] at hx
    generalize calcRadiusBayerFirstTrace inp width lowerLimit upperLimit row col maxRatio = F
      at hx hF
    split_ifs at hx with h1 h2 h3 h4 h5
    · exact hF x hx
    · rcases List.mem_append.mp hx with h | h
      · exact hF x h
      · rw [List.mem_singleton] at h
        rw [h]
        exact lt_min h0 h1.1
    · exact hF x hx
    · rcases List.mem_append.mp hx with h | h
      · exact hF x h
      · rw [List.mem_singleton] at h
        rw [h]
        exact lt_min h0 h1.1
    · exact hF x hx
    · exact hF x hx
  · rw [if_neg h0] at hx
    exact absurd hx (List.not_mem_nil x)

theorem mem_specBayerRatios (E : Env) (inp : Buf) (width height : Nat) (ll ul : ℚ)
    (filters : Nat) (x : ℚ) :
    x ∈ specBayerRatios E inp width height ll ul filters ↔
      ∃ s ∈ bayerSites E width height filters, ∃ right,
        specBayerEligible inp width ll ul s.1 s.2 right ∧
        specBayerRatio inp width s.1 s.2 right = x := by
  unfold specBayerRatios
  simp only [List.mem_flatMap, List.mem_map, List.mem_filter, decide_eq_true_eq]
  constructor
  · rintro ⟨s, hs, right, ⟨_, he⟩, e⟩
    exact ⟨s, hs, right, he, e⟩
  · rintro ⟨s, hs, right, he, e⟩
    refine ⟨s, hs, right, ⟨?_, he⟩, e⟩
    cases right <;> simp

/-- The fold `foldl max m0` is at least `m0`, bounds every element, and is
`m0` or an element. -/
theorem foldl_max_spec (L : List ℚ) :
    ∀ m0 : ℚ, m0 ≤ L.foldl max m0 ∧ (∀ x ∈ L, x ≤ L.foldl max m0) ∧
      (L.foldl max m0 = m0 ∨ L.foldl max m0 ∈ L) := by
  induction L with
  | nil =>
    intro m0
    exact ⟨le_refl _, fun x hx => absurd hx (List.not_mem_nil x), Or.inl rfl⟩
  | cons a L ih =>
    intro m0
    rw [List.foldl_cons]
    obtain ⟨h1, h2, h3⟩ := ih (max m0 a)
    refine ⟨le_trans (le_max_left _ _) h1, ?_, ?_⟩
    · intro x hx
      rcases List.mem_cons.mp hx with e | hx2
      · rw [e]
        exact le_trans (le_max_right _ _) h1
      · exact h2 x hx2
    · rcases h3 with e | hmem
      · rw [e]
        rcases le_total m0 a with h | h
        · right
          rw [max_eq_right h]
          exact List.mem_cons_self a L
        · left
          exact max_eq_left h
      · exact Or.inr (List.mem_cons_of_mem a hmem)

/-- The loops of `_calcRadiusBayer` compute `max(1, largest ratio of an
eligible pair)`. -/
theorem calcRadiusBayerMaxRatio_eq_spec (E : Env) (inp : Buf) (width height : Nat)
    (ll ul : ℚ) (filters : Nat) :
    calcRadiusBayerMaxRatio E inp width height ll ul filters
      = specBayerMaxRatio E inp width height ll ul filters := by
  rw [calcRadiusBayerMaxRatio_foldl]
  obtain ⟨a1, a2, a3⟩ := bayer_fold_max inp width ll ul (bayerSites E width height filters) 1
  unfold specBayerMaxRatio
  obtain ⟨b1, b2, b3⟩ := foldl_max_spec (specBayerRatios E inp width height ll ul filters) 1
  apply le_antisymm
  · rcases a3 with e | ⟨s, hs, right, he, e⟩
    · rw [e]
      exact b1
    · rw [← e]
      exact b2 _ ((mem_specBayerRatios E inp width height ll ul filters _).mpr
        ⟨s, hs, right, he, rfl⟩)
  · rcases b3 with e | hmem
    · rw [e]
      exact a1
    · obtain ⟨s, hs, right, he, e⟩ :=
        (mem_specBayerRatios E inp width height ll ul filters _).mp hmem
      rw [← e]
      exact a2 s hs right he

theorem specBayerMaxRatio_ge_one (E : Env) (inp : Buf) (width height : Nat)
    (ll ul : ℚ) (filters : Nat) : 1 ≤ specBayerMaxRatio E inp width height ll ul filters :=
  (foldl_max_spec (specBayerRatios E inp width height ll ul filters) 1).1

/-- On a mosaic whose samples are all `c` no pair has a ratio above 1, and
`maxRatio` ends at 1. -/
theorem calcRadiusBayerMaxRatio_flat (E : Env) (c : ℚ) (width height : Nat) (ll ul : ℚ)
    (filters : Nat) :
    calcRadiusBayerMaxRatio E (fun _ => c) width height ll ul filters = 1 := by
  rw [calcRadiusBayerMaxRatio_foldl]
  obtain ⟨_, _, a3⟩ := bayer_fold_max (fun _ => c) width ll ul (bayerSites E width height filters) 1
  rcases a3 with e | ⟨s, hs, right, he, e⟩
  · exact e
  · rw [← e]
    have hc : RAWEPS < c := he.1
    have hpos : (0 : ℚ) < c := lt_trans (by norm_num [RAWEPS]) hc
    unfold specBayerRatio specBayerPartner specBayerCell
    simp only [max_self, min_self]
    exact div_self (ne_of_gt hpos)

theorem calcRadiusBayerMaxRatio_cfaPair :
    calcRadiusBayerMaxRatio envQ (cfaPair (1 / 2) (1 / 4)) 10 9 (1 / 100) 1 0x94949494 = 2 := by
  have hfc : (2492765332 &&& 3 : ℕ) = 0 := by decide
  simp [calcRadiusBayerMaxRatio, forLoop, calcRadiusBayerSite, envQ, cfaPair, MAX_eq_max,
    MIN_eq_min, RAWEPS, hfc]
  norm_num

/-- C25 (amended): the final `maxRatio` of `_calcRadiusBayer` equals
`max(1, largest max/min ratio over the eligible pairs)` of the visited sites,
so it is at least 1; folding the site update over the sites in any other order
gives the same value; every division `maxVal / minVal` has a divisor above
`RAWEPS = 0.005`; and where `logf(maxRatio)` is not 0 the function returns
`sqrtf(1/logf(maxRatio))`. The final division by `logf(maxRatio)` has no such
bound on its divisor. -/
theorem calcRadiusBayer_max_ratio (E : Env) (inp : Buf) (width height : Nat)
    (lowerLimit upperLimit : ℚ) (filters : Nat) :
    calcRadiusBayerMaxRatio E inp width height lowerLimit upperLimit filters
      = specBayerMaxRatio E inp width height lowerLimit upperLimit filters ∧
    1 ≤ calcRadiusBayerMaxRatio E inp width height lowerLimit upperLimit filters ∧
    (∀ L : List (Nat × Nat), (∀ s, s ∈ L ↔ s ∈ bayerSites E width height filters) →
      L.foldl (fun m s => calcRadiusBayerSite inp width lowerLimit upperLimit s.1 s.2 m) 1
        = calcRadiusBayerMaxRatio E inp width height lowerLimit upperLimit filters) ∧
    (∀ (row col : Nat) (m : ℚ),
      (calcRadiusBayerSiteTrace inp width lowerLimit upperLimit row col m).1
        = calcRadiusBayerSite inp width lowerLimit upperLimit row col m ∧
      ∀ x ∈ (calcRadiusBayerSiteTrace inp width lowerLimit upperLimit row col m).2,
        RAWEPS < x) ∧
    (E.logf (specBayerMaxRatio E inp width height lowerLimit upperLimit filters) ≠ 0 →
      _calcRadiusBayer E inp width height lowerLimit upperLimit filters
        = E.sqrtf (1 / E.logf
            (specBayerMaxRatio E inp width height lowerLimit upperLimit filters))) := by
  have heq := calcRadiusBayerMaxRatio_eq_spec E inp width height lowerLimit upperLimit filters
  refine ⟨heq, ?_, ?_, ?_, ?_⟩
  · rw [heq]
    exact specBayerMaxRatio_ge_one E inp width height lowerLimit upperLimit filters
  · intro L hL
    rw [calcRadiusBayerMaxRatio_foldl]
    exact bayer_fold_order inp width lowerLimit upperLimit L _ hL 1
  · intro row col m
    exact ⟨calcRadiusBayerSiteTrace_fst inp width lowerLimit upperLimit row col m,
      calcRadiusBayerSiteTrace_gt inp width lowerLimit upperLimit row col m⟩
  · intro _
    unfold _calcRadiusBayer
    rw [heq]

/-- Witness of C25 (amended): the 10×9 mosaic `cfaPair (1/2) (1/4)`, whose one
eligible pair has the ratio 2. -/
theorem calcRadiusBayer_max_ratio_witness :
    envQ.logf (specBayerMaxRatio envQ (cfaPair (1 / 2) (1 / 4)) 10 9 (1 / 100) 1 0x94949494)
      ≠ 0 ∧
    calcRadiusBayerMaxRatio envQ (cfaPair (1 / 2) (1 / 4)) 10 9 (1 / 100) 1 0x94949494 = 2 ∧
    specBayerMaxRatio envQ (cfaPair (1 / 2) (1 / 4)) 10 9 (1 / 100) 1 0x94949494 = 2 ∧
    _calcRadiusBayer envQ (cfaPair (1 / 2) (1 / 4)) 10 9 (1 / 100) 1 0x94949494
      = envQ.sqrtf (1 / envQ.logf
          (specBayerMaxRatio envQ (cfaPair (1 / 2) (1 / 4)) 10 9 (1 / 100) 1 0x94949494)) :=
  have h := calcRadiusBayer_max_ratio envQ (cfaPair (1 / 2) (1 / 4)) 10 9 (1 / 100) 1 0x94949494
  have h2 : specBayerMaxRatio envQ (cfaPair (1 / 2) (1 / 4)) 10 9 (1 / 100) 1 0x94949494 = 2 :=
    h.1.symm.trans calcRadiusBayerMaxRatio_cfaPair
  have hlog : envQ.logf
      (specBayerMaxRatio envQ (cfaPair (1 / 2) (1 / 4)) 10 9 (1 / 100) 1 0x94949494) ≠ 0 := by
    rw [h2]
    norm_num [envQ, logQ]
  ⟨hlog, calcRadiusBayerMaxRatio_cfaPair, h2, h.2.2.2.2 hlog⟩

/-- Counterexample to C25 as stated: on the flat 10×9 mosaic at 0.5 every pair
has the ratio 1, `maxRatio` stays 1, and the division `1.0f / logf(maxRatio)` of
line 180 has the divisor `logf(1) = 0`, which is not above 0.005. -/
theorem calcRadiusBayer_flat_divides_by_zero :
    calcRadiusBayerMaxRatio envQ (fun _ => 1 / 2) 10 9 (1 / 100) 1 0x94949494 = 1 ∧
    envQ.logf (calcRadiusBayerMaxRatio envQ (fun _ => 1 / 2) 10 9 (1 / 100) 1 0x94949494) = 0 ∧
    ¬ (RAWEPS
      < envQ.logf (calcRadiusBayerMaxRatio envQ (fun _ => 1 / 2) 10 9 (1 / 100) 1 0x94949494)) := by
  have h1 := calcRadiusBayerMaxRatio_flat envQ (1 / 2) 10 9 (1 / 100) 1 0x94949494
  have hl : envQ.logf 1 = 0 := by
    norm_num [envQ, logQ]
  refine ⟨h1, ?_, ?_⟩
  · rw [h1]
    exact hl
  · rw [h1, hl]
    norm_num [RAWEPS]

end Capture
